import Mathlib

/-!
# fauxgl: a shallow embedding of the software rasterizer

The development follows the Go sources `vector.go`, `matrix.go`, `color.go`,
`util.go`, `vertex.go`, `shader.go`, `context.go`, `triangle.go`, `line.go`,
`box.go`, `texture.go`, `mesh.go` and `voxel.go`.

Modelling conventions.

* `float64` is modelled by the rationals `ℚ` with exact arithmetic.
  Infinities and NaN are not modelled.  Division is the total division of `ℚ`
  (`x / 0 = 0`), whereas Go yields an infinity or NaN there; every theorem
  whose meaning depends on a divisor says so.
* Rounding is modelled separately: `roundF64` is the rounding of a rational
  to the nearest binary64 value (ties to even, subnormal numbers included,
  no overflow to infinity), and `fadd`, `fsub`, `fmul`, `fdiv` are the four
  operations of Go on `float64`, each rounded once (no fused multiply-add).
  The definitions whose name ends in `F64` and `grayLevel` follow the code
  with these operations; they are used where a statement depends on
  rounding.  A theorem over the exact definitions is a statement about exact
  arithmetic and says so.
* `int` is modelled by the unbounded `Int` in the rasterizer, where it holds
  pixel coordinates and buffer indices.  In `voxel.go`, whose input
  coordinates are arbitrary values of `int`, every operation wraps around as
  on a 64-bit platform (`wrap64`, `add64`, `sub64`, `mul64`).  `uint8` and
  `uint32` values are natural numbers and every operation on them reduces
  modulo `2^8` resp. `2^32` explicitly.  The `uint64` pixel counters are
  natural numbers (a call increments them at most once per visited pixel).
* A run-time panic (index out of range, `make` with a negative length) is the
  result `none`.  Memory is not bounded: `make` succeeds for every length
  that is not negative.
* A loop whose number of iterations is not fixed on entry (`for count > 0` in
  `combineVoxelFaces`) takes a bound `fuel` on its iterations and yields
  `none` when the bound is reached; the theorems give a bound that suffices.
  A loop `for x := lo; x <= hi; x++` whose bound `hi` is the largest `int`
  cannot end by its condition; it has the result `none` as well.
* `math.Sqrt` is a parameter `Sqrt : ℚ → ℚ` of every definition that reaches
  it (`Vector.Normalize`), and `math.Pow` a parameter `Pow : ℚ → ℚ → ℚ`.
  The vector operations that `line` uses are also given over an arbitrary
  ordered field (`VectorOver`), which is read over the real numbers with
  `Real.sqrt` where square roots have to be exact.
* The pointers `*Triangle` and `*Line` held by a mesh are addresses into a
  heap, so that two pointers to one triangle share its changes.
* The stripe locks of `Context` protect concurrent draws; one call of
  `rasterize` is sequential, so only the length of the lock array and the
  index `(x+y)&255` into it are modelled, not the state of the mutexes.
-/

namespace Fauxgl

/-! ## Go `float64`: rounding to the nearest value of IEEE 754 binary64 -/

/-- The power `2^k` of two for an integer `k`. -/
def pow2 (k : Int) : ℚ :=
  if 0 ≤ k then ((2 ^ k.toNat : Nat) : ℚ) else 1 / ((2 ^ (-k).toNat : Nat) : ℚ)

/-- The binary logarithm of `n`, rounded down, by the shifts `ss` (powers of
two in descending order); `acc` is the logarithm found so far. -/
def log2Aux : List Nat → Nat → Nat → Nat
  | [], _, acc => acc
  | s :: ss, n, acc => if 2 ^ s ≤ n then log2Aux ss (n / 2 ^ s) (acc + s) else log2Aux ss n acc

/-- The exponent of the binade of a rational `q ≥ 0` in binary64: the `e`
with `2^e ≤ q < 2^(e+1)`, and `-1022` for the subnormal range
`q < 2^(-1022)`. -/
def binadeExp (q : ℚ) : Int :=
  (log2Aux [1024, 512, 256, 128, 64, 32, 16, 8, 4, 2, 1] ⌊q * pow2 1022⌋.toNat 0 : Int) - 1022

/-- Rounding to the nearest integer, a tie to the even one. -/
def roundHalfEven (x : ℚ) : Int :=
  if x - ⌊x⌋ < 1 / 2 then ⌊x⌋
  else if 1 / 2 < x - ⌊x⌋ then ⌊x⌋ + 1
  else if ⌊x⌋ % 2 = 0 then ⌊x⌋ else ⌊x⌋ + 1

/-- The binary64 value nearest to a rational `q ≥ 0` (a tie to the even
significand): a multiple of `2^(e-52)` for the exponent `e` of `q`.  IEEE
yields `+Inf` from `2^1024 - 2^970` on; the function is meant below that. -/
def roundMag (q : ℚ) : ℚ :=
  (roundHalfEven (q / pow2 (binadeExp q - 52)) : ℚ) * pow2 (binadeExp q - 52)

/-- IEEE 754 round-to-nearest-even into binary64, the rounding of every Go
`float64` operation, for a result of magnitude below `2^1024 - 2^970`. -/
def roundF64 (q : ℚ) : ℚ :=
  if q < 0 then -roundMag (-q) else roundMag q

/-- Go `x * y` on `float64`. -/
def fmul (x y : ℚ) : ℚ := roundF64 (x * y)

/-- Go `x / y` on `float64` (for `y ≠ 0`). -/
def fdiv (x y : ℚ) : ℚ := roundF64 (x / y)

/-- Go `x + y` on `float64`. -/
def fadd (x y : ℚ) : ℚ := roundF64 (x + y)

/-- Go `x - y` on `float64`. -/
def fsub (x y : ℚ) : ℚ := roundF64 (x - y)

/-! ## vector.go -/

/-- Go `type Vector struct { X, Y, Z float64 }`. -/
structure Vector where
  X : ℚ
  Y : ℚ
  Z : ℚ
  deriving DecidableEq

/-- Go `type VectorW struct { X, Y, Z, W float64 }`. -/
structure VectorW where
  X : ℚ
  Y : ℚ
  Z : ℚ
  W : ℚ
  deriving DecidableEq

/-- Go `int(f)` for a float `f`: truncation toward zero. -/
def truncInt (q : ℚ) : Int :=
  if 0 ≤ q then ⌊q⌋ else ⌈q⌉

def Vector.Add (a b : Vector) : Vector :=
  ⟨a.X + b.X, a.Y + b.Y, a.Z + b.Z⟩

def Vector.Sub (a b : Vector) : Vector :=
  ⟨a.X - b.X, a.Y - b.Y, a.Z - b.Z⟩

def Vector.MulScalar (a : Vector) (b : ℚ) : Vector :=
  ⟨a.X * b, a.Y * b, a.Z * b⟩

def Vector.DivScalar (a : Vector) (b : ℚ) : Vector :=
  ⟨a.X / b, a.Y / b, a.Z / b⟩

def Vector.Min (a b : Vector) : Vector :=
  ⟨min a.X b.X, min a.Y b.Y, min a.Z b.Z⟩

def Vector.Max (a b : Vector) : Vector :=
  ⟨max a.X b.X, max a.Y b.Y, max a.Z b.Z⟩

def Vector.Floor (a : Vector) : Vector :=
  ⟨(⌊a.X⌋ : Int), (⌊a.Y⌋ : Int), (⌊a.Z⌋ : Int)⟩

def Vector.Ceil (a : Vector) : Vector :=
  ⟨(⌈a.X⌉ : Int), (⌈a.Y⌉ : Int), (⌈a.Z⌉ : Int)⟩

/-- Go `Vector.Normalize`; `Sqrt` stands for `math.Sqrt`. -/
def Vector.Normalize (Sqrt : ℚ → ℚ) (a : Vector) : Vector :=
  let r := 1 / Sqrt (a.X * a.X + a.Y * a.Y + a.Z * a.Z)
  ⟨a.X * r, a.Y * r, a.Z * r⟩

def Vector.Perpendicular (Sqrt : ℚ → ℚ) (a : Vector) : Vector :=
  if a.X = 0 ∧ a.Y = 0 then
    if a.Z = 0 then ⟨0, 0, 0⟩ else ⟨0, 1, 0⟩
  else Vector.Normalize Sqrt ⟨-a.Y, a.X, 0⟩

def VectorW.Vector (a : VectorW) : Vector :=
  ⟨a.X, a.Y, a.Z⟩

def VectorW.Outside (a : VectorW) : Bool :=
  decide (a.X < -a.W ∨ a.X > a.W ∨ a.Y < -a.W ∨ a.Y > a.W ∨ a.Z < -a.W ∨ a.Z > a.W)

def VectorW.Add (a b : VectorW) : VectorW :=
  ⟨a.X + b.X, a.Y + b.Y, a.Z + b.Z, a.W + b.W⟩

def VectorW.MulScalar (a : VectorW) (b : ℚ) : VectorW :=
  ⟨a.X * b, a.Y * b, a.Z * b, a.W * b⟩

def VectorW.DivScalar (a : VectorW) (b : ℚ) : VectorW :=
  ⟨a.X / b, a.Y / b, a.Z / b, a.W / b⟩

/-! ## matrix.go -/

/-- Go `type Matrix struct`, row-major. -/
structure Matrix where
  X00 : ℚ
  X01 : ℚ
  X02 : ℚ
  X03 : ℚ
  X10 : ℚ
  X11 : ℚ
  X12 : ℚ
  X13 : ℚ
  X20 : ℚ
  X21 : ℚ
  X22 : ℚ
  X23 : ℚ
  X30 : ℚ
  X31 : ℚ
  X32 : ℚ
  X33 : ℚ
  deriving DecidableEq

def Identity : Matrix :=
  ⟨1, 0, 0, 0,
   0, 1, 0, 0,
   0, 0, 1, 0,
   0, 0, 0, 1⟩

def Screen (w h : Int) : Matrix :=
  let w2 : ℚ := (w : ℚ) / 2
  let h2 : ℚ := (h : ℚ) / 2
  ⟨w2, 0, 0, w2,
   0, -h2, 0, h2,
   0, 0, 1 / 2, 1 / 2,
   0, 0, 0, 1⟩

def Matrix.MulPosition (a : Matrix) (b : Vector) : Vector :=
  let x := a.X00 * b.X + a.X01 * b.Y + a.X02 * b.Z + a.X03
  let y := a.X10 * b.X + a.X11 * b.Y + a.X12 * b.Z + a.X13
  let z := a.X20 * b.X + a.X21 * b.Y + a.X22 * b.Z + a.X23
  ⟨x, y, z⟩

def Matrix.MulPositionW (a : Matrix) (b : Vector) : VectorW :=
  let x := a.X00 * b.X + a.X01 * b.Y + a.X02 * b.Z + a.X03
  let y := a.X10 * b.X + a.X11 * b.Y + a.X12 * b.Z + a.X13
  let z := a.X20 * b.X + a.X21 * b.Y + a.X22 * b.Z + a.X23
  let w := a.X30 * b.X + a.X31 * b.Y + a.X32 * b.Z + a.X33
  ⟨x, y, z, w⟩

/-! ## Go standard library: image/color and image -/

namespace color

/-- Go `color.NRGBA`: four `uint8` channels, not premultiplied. -/
structure NRGBA where
  R : Nat
  G : Nat
  B : Nat
  A : Nat
  deriving DecidableEq

/-- One colour channel of Go `color.NRGBA.RGBA`, in `uint32` arithmetic:
`r := uint32(c); r |= r << 8; r *= uint32(alpha); r /= 0xff`. -/
def premul (c alpha : Nat) : Nat :=
  (((c % 2 ^ 32) ||| ((c % 2 ^ 32) <<< 8) % 2 ^ 32) * (alpha % 2 ^ 32) % 2 ^ 32) / 0xff

/-- Go `color.NRGBA.RGBA`: the alpha-premultiplied 16-bit channels. -/
def NRGBA.RGBA (c : NRGBA) : Nat × Nat × Nat × Nat :=
  (premul c.R c.A, premul c.G c.A, premul c.B c.A,
    (c.A % 2 ^ 32) ||| ((c.A % 2 ^ 32) <<< 8) % 2 ^ 32)

end color

namespace image

/-- Go `image.Point`. -/
structure Point where
  X : Int
  Y : Int
  deriving DecidableEq

/-- Go `image.Rectangle`. -/
structure Rectangle where
  Min : Point
  Max : Point
  deriving DecidableEq

/-- Go `image.Rect`: the rectangle with the corners put in order. -/
def Rect (x0 y0 x1 y1 : Int) : Rectangle :=
  let (x0, x1) := if x0 > x1 then (x1, x0) else (x0, x1)
  let (y0, y1) := if y0 > y1 then (y1, y0) else (y0, y1)
  ⟨⟨x0, y0⟩, ⟨x1, y1⟩⟩

/-- Go `Point.In`. -/
def Point.In (p : Point) (r : Rectangle) : Bool :=
  decide (r.Min.X ≤ p.X ∧ p.X < r.Max.X ∧ r.Min.Y ≤ p.Y ∧ p.Y < r.Max.Y)

/-- Go `image.NRGBA`: the pixel bytes, the stride and the bounds. -/
structure NRGBA where
  Pix : List Nat
  Stride : Int
  Rect : Rectangle
  deriving DecidableEq

/-- Go `image.NewNRGBA`. -/
def NewNRGBA (r : Rectangle) : NRGBA :=
  let w := r.Max.X - r.Min.X
  let h := r.Max.Y - r.Min.Y
  ⟨List.replicate (4 * w * h).toNat 0, 4 * w, r⟩

/-- Go `(*NRGBA).PixOffset`. -/
def NRGBA.PixOffset (p : NRGBA) (x y : Int) : Int :=
  (y - p.Rect.Min.Y) * p.Stride + (x - p.Rect.Min.X) * 4

/-- Slice read `s[i]` with an `int` index: `none` is the index panic. -/
def index {α : Type} (s : List α) (i : Int) : Option α :=
  if 0 ≤ i then s[i.toNat]? else none

/-- Go `(*NRGBA).SetNRGBA`: nothing outside `Rect`, else the four bytes at
`PixOffset(x, y)` (the slice expression `Pix[i : i+4 : i+4]` panics when out
of range). -/
def NRGBA.SetNRGBA (p : NRGBA) (x y : Int) (c : color.NRGBA) : Option NRGBA :=
  if ¬ (Point.In ⟨x, y⟩ p.Rect) then some p
  else
    let i := p.PixOffset x y
    if 0 ≤ i ∧ i + 4 ≤ p.Pix.length then
      some { p with Pix := (((p.Pix.set i.toNat (c.R % 256)).set (i.toNat + 1) (c.G % 256)).set
        (i.toNat + 2) (c.B % 256)).set (i.toNat + 3) (c.A % 256) }
    else none

/-- Go `(*NRGBA).NRGBAAt`: the pixel at `(x, y)`, the zero colour outside
`Rect`. -/
def NRGBA.NRGBAAt (p : NRGBA) (x y : Int) : Option color.NRGBA :=
  if ¬ (Point.In ⟨x, y⟩ p.Rect) then some ⟨0, 0, 0, 0⟩
  else
    let i := p.PixOffset x y
    match index p.Pix i, index p.Pix (i + 1), index p.Pix (i + 2),
      index p.Pix (i + 3) with
    | some r, some g, some b, some a => some ⟨r, g, b, a⟩
    | _, _, _, _ => none

end image

/-! ## util.go and color.go -/

def Clamp (x lo hi : ℚ) : ℚ :=
  if x < lo then lo else if x > hi then hi else x

/-- Go `type Color struct { R, G, B, A float64 }`. -/
structure Color where
  R : ℚ
  G : ℚ
  B : ℚ
  A : ℚ
  deriving DecidableEq

def Discard : Color := ⟨0, 0, 0, 0⟩

def Transparent : Color := ⟨0, 0, 0, 0⟩

/-- Go `uint8(f)` for a float `f`: truncation, then the low eight bits. -/
def toUint8 (q : ℚ) : Nat :=
  (truncInt q % 256).toNat

/-- Go `Color.NRGBA` (color.go 60-67) in exact arithmetic: the products `r * d`
are not rounded.  `Color.NRGBAF64` is the conversion with rounded products. -/
def Color.NRGBA (c : Color) : color.NRGBA :=
  let d : ℚ := 0xff
  let r := Clamp c.R 0 1
  let g := Clamp c.G 0 1
  let b := Clamp c.B 0 1
  let a := Clamp c.A 0 1
  ⟨toUint8 (r * d), toUint8 (g * d), toUint8 (b * d), toUint8 (a * d)⟩

def Color.Add (a b : Color) : Color :=
  ⟨a.R + b.R, a.G + b.G, a.B + b.B, a.A + b.A⟩

def Color.MulScalar (a : Color) (b : ℚ) : Color :=
  ⟨a.R * b, a.G * b, a.B * b, a.A * b⟩

/-! ## vertex.go -/

/-- Go `type Vertex struct`. -/
structure Vertex where
  Position : Vector
  Normal : Vector
  Texture : Vector
  Color : Color
  Output : VectorW
  deriving DecidableEq

def Vertex.Outside (a : Vertex) : Bool :=
  a.Output.Outside

def InterpolateColors (v1 v2 v3 : Color) (b : VectorW) : Color :=
  let n : Color := ⟨0, 0, 0, 0⟩
  let n := n.Add (v1.MulScalar b.X)
  let n := n.Add (v2.MulScalar b.Y)
  let n := n.Add (v3.MulScalar b.Z)
  n.MulScalar b.W

def InterpolateVectors (v1 v2 v3 : Vector) (b : VectorW) : Vector :=
  let n : Vector := ⟨0, 0, 0⟩
  let n := n.Add (v1.MulScalar b.X)
  let n := n.Add (v2.MulScalar b.Y)
  let n := n.Add (v3.MulScalar b.Z)
  n.MulScalar b.W

def InterpolateVectorWs (v1 v2 v3 b : VectorW) : VectorW :=
  let n : VectorW := ⟨0, 0, 0, 0⟩
  let n := n.Add (v1.MulScalar b.X)
  let n := n.Add (v2.MulScalar b.Y)
  let n := n.Add (v3.MulScalar b.Z)
  n.MulScalar b.W

def InterpolateVertexes (Sqrt : ℚ → ℚ) (v1 v2 v3 : Vertex) (b : VectorW) : Vertex :=
  { Position := InterpolateVectors v1.Position v2.Position v3.Position b
    Normal := (InterpolateVectors v1.Normal v2.Normal v3.Normal b).Normalize Sqrt
    Texture := InterpolateVectors v1.Texture v2.Texture v3.Texture b
    Color := InterpolateColors v1.Color v2.Color v3.Color b
    Output := InterpolateVectorWs v1.Output v2.Output v3.Output b }

/-! ## shader.go -/

/-- Go `type Shader interface`: the two stages of a shader. -/
structure Shader where
  Vertex : Fauxgl.Vertex → Fauxgl.Vertex
  Fragment : Fauxgl.Vertex → Color

/-- Go `NewSolidColorShader` with the two methods of `SolidColorShader`. -/
def NewSolidColorShader (matrix : Matrix) (color : Color) : Shader :=
  { Vertex := fun v => { v with Output := matrix.MulPositionW v.Position }
    Fragment := fun _ => color }

/-! ## context.go -/

/-- Go `type Face int`. -/
abbrev Face := Int

def FaceCW : Face := 1

def FaceCCW : Face := 2

/-- Go `type Cull int`. -/
abbrev Cull := Int

def CullNone : Cull := 1

def CullFront : Cull := 2

def CullBack : Cull := 3

/-- Go `type RasterizeInfo struct`. -/
structure RasterizeInfo where
  TotalPixels : Nat
  UpdatedPixels : Nat
  deriving DecidableEq

def RasterizeInfo.Add (info other : RasterizeInfo) : RasterizeInfo :=
  ⟨info.TotalPixels + other.TotalPixels, info.UpdatedPixels + other.UpdatedPixels⟩

/-- Go `type Context struct`; `locks` is the length of the lock array. -/
structure Context where
  Width : Int
  Height : Int
  ColorBuffer : image.NRGBA
  DepthBuffer : List ℚ
  ClearColor : Color
  Shader : Fauxgl.Shader
  ReadDepth : Bool
  WriteDepth : Bool
  WriteColor : Bool
  AlphaBlend : Bool
  Wireframe : Bool
  FrontFace : Face
  Cull : Fauxgl.Cull
  LineWidth : ℚ
  DepthBias : ℚ
  screenMatrix : Matrix
  locks : Nat

/-- Go `math.MaxFloat64`. -/
def MaxFloat64 : ℚ := 2 ^ 1024 - 2 ^ 971

def Context.ClearDepthBufferWith (dc : Context) (value : ℚ) : Context :=
  { dc with DepthBuffer := dc.DepthBuffer.map (fun _ => value) }

def Context.ClearDepthBuffer (dc : Context) : Context :=
  dc.ClearDepthBufferWith MaxFloat64

/-- Go `NewContext`; `make` panics on a negative length. -/
def NewContext (width height : Int) : Option Context :=
  if width * height < 0 then none
  else
    let dc : Context :=
      { Width := width
        Height := height
        ColorBuffer := image.NewNRGBA (image.Rect 0 0 width height)
        DepthBuffer := List.replicate (width * height).toNat 0
        ClearColor := Transparent
        Shader := NewSolidColorShader Identity ⟨1, 0, 1, 1⟩
        ReadDepth := true
        WriteDepth := true
        WriteColor := true
        AlphaBlend := true
        Wireframe := false
        FrontFace := FaceCCW
        Cull := CullBack
        LineWidth := 2
        DepthBias := 0
        screenMatrix := Screen width height
        locks := 256 }
    some dc.ClearDepthBuffer

def edge (a b c : Vector) : ℚ :=
  (b.X - c.X) * (a.Y - c.Y) - (b.Y - c.Y) * (a.X - c.X)

/-- Go `uint32` subtraction. -/
def sub32 (a b : Nat) : Nat :=
  (a % 2 ^ 32 + 2 ^ 32 - b % 2 ^ 32) % 2 ^ 32

/-- One channel of the blend of `rasterize` (context.go 285-288):
`uint8((uint32(d)*a/0xffff + s) >> 8)`. -/
def blendChannel (d a s : Nat) : Nat :=
  ((((((d % 2 ^ 32) * a) % 2 ^ 32) / 0xffff + s) % 2 ^ 32) >>> 8) % 256

/-- The colour-buffer update of `rasterize` (context.go 277-291). -/
def writeColor (dc : Context) (x y : Int) (color : Color) : Option Context :=
  if dc.AlphaBlend ∧ color.A < 1 then
    let (sr, sg, sb, sa) := color.NRGBA.RGBA
    let a := (sub32 0xffff sa) * 0x101 % 2 ^ 32
    let j := dc.ColorBuffer.PixOffset x y
    match image.index dc.ColorBuffer.Pix (j + 0), image.index dc.ColorBuffer.Pix (j + 1),
      image.index dc.ColorBuffer.Pix (j + 2), image.index dc.ColorBuffer.Pix (j + 3) with
    | some dr, some dg, some db, some da =>
      some { dc with ColorBuffer := { dc.ColorBuffer with
        Pix := (((dc.ColorBuffer.Pix.set (j + 0).toNat (blendChannel dr a sr)).set
          (j + 1).toNat (blendChannel dg a sg)).set
          (j + 2).toNat (blendChannel db a sb)).set
          (j + 3).toNat (blendChannel da a sa) } }
    | _, _, _, _ => none
  else
    (dc.ColorBuffer.SetNRGBA x y color.NRGBA).map (fun im => { dc with ColorBuffer := im })

/-- The buffer writes of a fragment that passed the depth test
(context.go 271-292); `i` is the checked depth-buffer index. -/
def writePixel (dc : Context) (x y : Int) (i : Nat) (z : ℚ) (color : Color) : Option Context :=
  let dc1 := if dc.WriteDepth then { dc with DepthBuffer := dc.DepthBuffer.set i z } else dc
  if dc1.WriteColor then writeColor dc1 x y color else some dc1

/-- The depth test and the update of one fragment (context.go 252-294), given
the depth `z` of the fragment and the colour `color` the fragment shader
returns for it. -/
def depthTestAndWrite (dc : Context) (x y : Int) (i : Nat) (z : ℚ) (color : Color)
    (info : RasterizeInfo) : Option (Context × RasterizeInfo) :=
  match dc.DepthBuffer[i]? with
  | none => none
  | some depth =>
    let bz := z + dc.DepthBias
    if dc.ReadDepth ∧ bz > depth then some (dc, info)
    else if color = Discard then some (dc, info)
    else if ¬ ((x + y) % 256).toNat < dc.locks then none
    else if bz ≤ depth ∨ ¬ dc.ReadDepth then
      (writePixel dc x y i z color).map
        (fun dc2 => (dc2, { info with UpdatedPixels := info.UpdatedPixels + 1 }))
    else some (dc, info)

/-- The vertex that `rasterize` hands to the fragment shader (context.go
197-199 and 257-259) for the screen barycentrics `b0 b1 b2`. -/
def fragmentVertex (Sqrt : ℚ → ℚ) (v0 v1 v2 : Vertex) (b0 b1 b2 : ℚ) : Vertex :=
  let r0 := 1 / v0.Output.W
  let r1 := 1 / v1.Output.W
  let r2 := 1 / v2.Output.W
  let b : VectorW := ⟨b0 * r0, b1 * r1, b2 * r2, 0⟩
  let b : VectorW := { b with W := 1 / (b.X + b.Y + b.Z) }
  InterpolateVertexes Sqrt v0 v1 v2 b

/-- The body of the pixel loop of `rasterize` for a pixel that passed the
inside test (context.go 244-294). -/
def fragment (Sqrt : ℚ → ℚ) (dc : Context) (v0 v1 v2 : Vertex) (s0 s1 s2 : Vector)
    (x y : Int) (b0 b1 b2 : ℚ) (info : RasterizeInfo) : Option (Context × RasterizeInfo) :=
  let i := y * dc.Width + x
  if i < 0 ∨ i ≥ dc.DepthBuffer.length then some (dc, info)
  else
    let info1 : RasterizeInfo := { info with TotalPixels := info.TotalPixels + 1 }
    let z := b0 * s0.Z + b1 * s1.Z + b2 * s2.Z
    depthTestAndWrite dc x y i.toNat z
      (dc.Shader.Fragment (fragmentVertex Sqrt v0 v1 v2 b0 b1 b2)) info1

/-- The pixel loop of `rasterize` (context.go 228-295) on row `y`: `n` is the
number of columns left up to `x1`, `x` the current column, `w0 w1 w2` the
running edge values. -/
def rasterizeRow (Sqrt : ℚ → ℚ) (v0 v1 v2 : Vertex) (s0 s1 s2 : Vector) (y : Int) :
    Nat → Int → ℚ → ℚ → ℚ → Bool → Context → RasterizeInfo → Option (Context × RasterizeInfo)
  | 0, _, _, _, _, _, dc, info => some (dc, info)
  | n + 1, x, w0, w1, w2, wasInside, dc, info =>
    let a01 := s1.Y - s0.Y
    let a12 := s2.Y - s1.Y
    let a20 := s0.Y - s2.Y
    let ra := 1 / edge s0 s1 s2
    let b0 := w0 * ra
    let b1 := w1 * ra
    let b2 := w2 * ra
    if b0 < 0 ∨ b1 < 0 ∨ b2 < 0 then
      if wasInside then some (dc, info)
      else rasterizeRow Sqrt v0 v1 v2 s0 s1 s2 y n (x + 1) (w0 + a12) (w1 + a20) (w2 + a01)
        false dc info
    else
      match fragment Sqrt dc v0 v1 v2 s0 s1 s2 x y b0 b1 b2 info with
      | none => none
      | some (dc2, info2) =>
        rasterizeRow Sqrt v0 v1 v2 s0 s1 s2 y n (x + 1) (w0 + a12) (w1 + a20) (w2 + a01)
          true dc2 info2

/-- The skip-ahead offset of a row (context.go 206-223) from the edge values
`w00 w01 w02` at the first column. -/
def skipAhead (s0 s1 s2 : Vector) (w00 w01 w02 : ℚ) : ℚ :=
  let ra12 := 1 / (s2.Y - s1.Y)
  let ra20 := 1 / (s0.Y - s2.Y)
  let ra01 := 1 / (s1.Y - s0.Y)
  let d : ℚ := 0
  let d0 := -w00 * ra12
  let d1 := -w01 * ra20
  let d2 := -w02 * ra01
  let d := if w00 < 0 ∧ d0 > d then d0 else d
  let d := if w01 < 0 ∧ d1 > d then d1 else d
  let d := if w02 < 0 ∧ d2 > d then d2 else d
  let d : ℚ := (truncInt d : ℚ)
  if d < 0 then 0 else d

/-- The row loop of `rasterize` (context.go 205-299): `n` is the number of
rows left up to `y1`, `y` the current row, `w00 w01 w02` the edge values at
the first column of the row. -/
def rasterizeRows (Sqrt : ℚ → ℚ) (v0 v1 v2 : Vertex) (s0 s1 s2 : Vector) (x0 x1 : Int) :
    Nat → Int → ℚ → ℚ → ℚ → Context → RasterizeInfo → Option (Context × RasterizeInfo)
  | 0, _, _, _, _, dc, info => some (dc, info)
  | n + 1, y, w00, w01, w02, dc, info =>
    let a01 := s1.Y - s0.Y
    let b01 := s0.X - s1.X
    let a12 := s2.Y - s1.Y
    let b12 := s1.X - s2.X
    let a20 := s0.Y - s2.Y
    let b20 := s2.X - s0.X
    let d := skipAhead s0 s1 s2 w00 w01 w02
    let w0 := w00 + a12 * d
    let w1 := w01 + a20 * d
    let w2 := w02 + a01 * d
    let x := x0 + truncInt d
    match rasterizeRow Sqrt v0 v1 v2 s0 s1 s2 y (x1 - x + 1).toNat x w0 w1 w2 false dc info with
    | none => none
    | some (dc2, info2) =>
      rasterizeRows Sqrt v0 v1 v2 s0 s1 s2 x0 x1 n (y + 1) (w00 + b12) (w01 + b20) (w02 + b01)
        dc2 info2

/-- Go `(*Context).rasterize`: the context after the call and the counters, in
exact arithmetic.  For a triangle of zero area the code divides by zero
(`ra` is infinite and the weights are NaN); the definition, whose division
yields 0 there, does not follow the code at such a triangle. -/
def rasterize (Sqrt : ℚ → ℚ) (dc : Context) (v0 v1 v2 : Vertex) (s0 s1 s2 : Vector) :
    Option (Context × RasterizeInfo) :=
  let min := (s0.Min (s1.Min s2)).Floor
  let max := (s0.Max (s1.Max s2)).Ceil
  let x0 := truncInt min.X
  let x1 := truncInt max.X
  let y0 := truncInt min.Y
  let y1 := truncInt max.Y
  let p : Vector := ⟨(x0 : ℚ) + 1 / 2, (y0 : ℚ) + 1 / 2, 0⟩
  let w00 := edge s1 s2 p
  let w01 := edge s2 s0 p
  let w02 := edge s0 s1 p
  rasterizeRows Sqrt v0 v1 v2 s0 s1 s2 x0 x1 (y1 - y0 + 1).toNat y0 w00 w01 w02 dc ⟨0, 0⟩

/-- Go `(*Context).line`. -/
def line (Sqrt : ℚ → ℚ) (dc : Context) (v0 v1 : Vertex) (s0 s1 : Vector) :
    Option (Context × RasterizeInfo) :=
  let n := ((s1.Sub s0).Perpendicular Sqrt).MulScalar (dc.LineWidth / 2)
  let s0 := s0.Add (((s0.Sub s1).Normalize Sqrt).MulScalar (dc.LineWidth / 2))
  let s1 := s1.Add (((s1.Sub s0).Normalize Sqrt).MulScalar (dc.LineWidth / 2))
  let s00 := s0.Add n
  let s01 := s0.Sub n
  let s10 := s1.Add n
  let s11 := s1.Sub n
  match rasterize Sqrt dc v1 v0 v0 s11 s01 s00 with
  | none => none
  | some (dc1, info1) =>
    match rasterize Sqrt dc1 v1 v1 v0 s10 s11 s00 with
    | none => none
    | some (dc2, info2) => some (dc2, info1.Add info2)

/-- Go `(*Context).wireframe`. -/
def wireframe (Sqrt : ℚ → ℚ) (dc : Context) (v0 v1 v2 : Vertex) (s0 s1 s2 : Vector) :
    Option (Context × RasterizeInfo) :=
  match line Sqrt dc v0 v1 s0 s1 with
  | none => none
  | some (dc1, info1) =>
    match line Sqrt dc1 v1 v2 s1 s2 with
    | none => none
    | some (dc2, info2) =>
      match line Sqrt dc2 v2 v0 s2 s0 with
      | none => none
      | some (dc3, info3) => some (dc3, (info1.Add info2).Add info3)

/-- Go `(*Context).drawClippedLine`. -/
def drawClippedLine (Sqrt : ℚ → ℚ) (dc : Context) (v0 v1 : Vertex) :
    Option (Context × RasterizeInfo) :=
  let ndc0 := (v0.Output.DivScalar v0.Output.W).Vector
  let ndc1 := (v1.Output.DivScalar v1.Output.W).Vector
  let s0 := dc.screenMatrix.MulPosition ndc0
  let s1 := dc.screenMatrix.MulPosition ndc1
  line Sqrt dc v0 v1 s0 s1

/-- The signed area that `drawClippedTriangle` computes from the three
vertices (context.go 343-348), in exact arithmetic; `ndcAreaF64` is the
computation with every operation rounded. -/
def ndcArea (v0 v1 v2 : Vertex) : ℚ :=
  let ndc0 := (v0.Output.DivScalar v0.Output.W).Vector
  let ndc1 := (v1.Output.DivScalar v1.Output.W).Vector
  let ndc2 := (v2.Output.DivScalar v2.Output.W).Vector
  (ndc1.X - ndc0.X) * (ndc2.Y - ndc0.Y) - (ndc2.X - ndc0.X) * (ndc1.Y - ndc0.Y)

/-- Go `(*Context).drawClippedTriangle`. -/
def drawClippedTriangle (Sqrt : ℚ → ℚ) (dc : Context) (v0 v1 v2 : Vertex) :
    Option (Context × RasterizeInfo) :=
  let ndc0 := (v0.Output.DivScalar v0.Output.W).Vector
  let ndc1 := (v1.Output.DivScalar v1.Output.W).Vector
  let ndc2 := (v2.Output.DivScalar v2.Output.W).Vector
  let a := (ndc1.X - ndc0.X) * (ndc2.Y - ndc0.Y) - (ndc2.X - ndc0.X) * (ndc1.Y - ndc0.Y)
  let (v0, v1, v2, ndc0, ndc1, ndc2) :=
    if a < 0 then (v2, v1, v0, ndc2, ndc1, ndc0) else (v0, v1, v2, ndc0, ndc1, ndc2)
  let a := if dc.Cull = CullFront then -a else a
  let a := if dc.FrontFace = FaceCW then -a else a
  if dc.Cull ≠ CullNone ∧ a ≤ 0 then some (dc, ⟨0, 0⟩)
  else
    let s0 := dc.screenMatrix.MulPosition ndc0
    let s1 := dc.screenMatrix.MulPosition ndc1
    let s2 := dc.screenMatrix.MulPosition ndc2
    if dc.Wireframe then wireframe Sqrt dc v0 v1 v2 s0 s1 s2
    else rasterize Sqrt dc v0 v1 v2 s0 s1 s2

/-! ## vector.go and triangle.go: triangles -/

def Vector.Cross (a b : Vector) : Vector :=
  let x := a.Y * b.Z - a.Z * b.Y
  let y := a.Z * b.X - a.X * b.Z
  let z := a.X * b.Y - a.Y * b.X
  ⟨x, y, z⟩

def Vector.Negate (a : Vector) : Vector :=
  ⟨-a.X, -a.Y, -a.Z⟩

/-- Go `type Triangle struct { V1, V2, V3 Vertex }`. -/
structure Triangle where
  V1 : Vertex
  V2 : Vertex
  V3 : Vertex
  deriving DecidableEq

def Triangle.Normal (Sqrt : ℚ → ℚ) (t : Triangle) : Vector :=
  let e1 := t.V2.Position.Sub t.V1.Position
  let e2 := t.V3.Position.Sub t.V1.Position
  (e1.Cross e2).Normalize Sqrt

def Triangle.FixNormals (Sqrt : ℚ → ℚ) (t : Triangle) : Triangle :=
  let n := t.Normal Sqrt
  let zero : Vector := ⟨0, 0, 0⟩
  let t := if t.V1.Normal = zero then { t with V1 := { t.V1 with Normal := n } } else t
  let t := if t.V2.Normal = zero then { t with V2 := { t.V2 with Normal := n } } else t
  let t := if t.V3.Normal = zero then { t with V3 := { t.V3 with Normal := n } } else t
  t

def NewTriangle (Sqrt : ℚ → ℚ) (v1 v2 v3 : Vertex) : Triangle :=
  Triangle.FixNormals Sqrt ⟨v1, v2, v3⟩

def NewTriangleForPoints (Sqrt : ℚ → ℚ) (p1 p2 p3 : Vector) : Triangle :=
  let zero : Vector := ⟨0, 0, 0⟩
  let v1 : Vertex := ⟨p1, zero, zero, ⟨0, 0, 0, 0⟩, ⟨0, 0, 0, 0⟩⟩
  let v2 : Vertex := ⟨p2, zero, zero, ⟨0, 0, 0, 0⟩, ⟨0, 0, 0, 0⟩⟩
  let v3 : Vertex := ⟨p3, zero, zero, ⟨0, 0, 0, 0⟩, ⟨0, 0, 0, 0⟩⟩
  NewTriangle Sqrt v1 v2 v3

/-! ## context.go: DrawTriangle and DepthImage -/

/-- The loop of `DrawTriangle` over the clipped triangles (context.go
406-411). -/
def drawClippedTriangles (Sqrt : ℚ → ℚ) :
    List Triangle → Context → RasterizeInfo → Option (Context × RasterizeInfo)
  | [], dc, result => some (dc, result)
  | t :: ts, dc, result =>
    match drawClippedTriangle Sqrt dc t.V1 t.V2 t.V3 with
    | none => none
    | some (dc2, info) => drawClippedTriangles Sqrt ts dc2 (result.Add info)

/-- Go `(*Context).DrawTriangle`.  `ClipTriangle` is not among the sources
and is a parameter. -/
def DrawTriangle (Sqrt : ℚ → ℚ) (ClipTriangle : Triangle → List Triangle) (dc : Context)
    (t : Triangle) : Option (Context × RasterizeInfo) :=
  let v1 := dc.Shader.Vertex t.V1
  let v2 := dc.Shader.Vertex t.V2
  let v3 := dc.Shader.Vertex t.V3
  if v1.Outside ∨ v2.Outside ∨ v3.Outside then
    let triangles := ClipTriangle (NewTriangle Sqrt v1 v2 v3)
    drawClippedTriangles Sqrt triangles dc ⟨0, 0⟩
  else drawClippedTriangle Sqrt dc v1 v2 v3

namespace image

/-- Go `image.Gray16`, modelled by the 16-bit grey level of each pixel in
row-major order (the library stores each level as two bytes). -/
structure Gray16 where
  Y : List Nat
  Rect : Rectangle
  deriving DecidableEq

/-- Go `image.NewGray16`: all levels zero. -/
def NewGray16 (r : Rectangle) : Gray16 :=
  let w := r.Max.X - r.Min.X
  let h := r.Max.Y - r.Min.Y
  ⟨List.replicate (w * h).toNat 0, r⟩

/-- The position of the pixel `(x, y)` in the row-major list of levels. -/
def Gray16.offset (p : Gray16) (x y : Int) : Int :=
  (y - p.Rect.Min.Y) * (p.Rect.Max.X - p.Rect.Min.X) + (x - p.Rect.Min.X)

/-- Go `(*Gray16).SetGray16`: nothing outside `Rect`. -/
def Gray16.SetGray16 (p : Gray16) (x y : Int) (c : Nat) : Gray16 :=
  if ¬ (Point.In ⟨x, y⟩ p.Rect) then p
  else { p with Y := p.Y.set (p.offset x y).toNat (c % 65536) }

/-- Go `(*Gray16).Gray16At`: the level at `(x, y)`, zero outside `Rect`. -/
def Gray16.Gray16At (p : Gray16) (x y : Int) : Option Nat :=
  if ¬ (Point.In ⟨x, y⟩ p.Rect) then some 0
  else index p.Y (p.offset x y)

end image

/-- Go `uint16(f)` for a float `f`: truncation, then the low sixteen bits. -/
def toUint16 (q : ℚ) : Nat :=
  (truncInt q % 65536).toNat

/-- The body of the first loop of `DepthImage` (context.go 106-114) on the
pair `(lo, hi)`. -/
def depthRangeStep (p : ℚ × ℚ) (d : ℚ) : ℚ × ℚ :=
  if d = MaxFloat64 then p
  else (if d < p.1 then d else p.1, if d > p.2 then d else p.2)

/-- The first loop of `DepthImage` (context.go 103-115): the least and the
greatest entry of the depth buffer other than `MaxFloat64`. -/
def depthRange (buf : List ℚ) : ℚ × ℚ :=
  buf.foldl depthRangeStep (MaxFloat64, -MaxFloat64)

/-- The grey level that `DepthImage` gives to the depth `d` (context.go
122-126), every `float64` operation rounded to binary64 (`fsub`, `fdiv`,
`fmul`; the difference `hi - lo` is assumed not to overflow). -/
def grayLevel (lo hi d : ℚ) : Nat :=
  let t := fdiv (fsub d lo) (fsub hi lo)
  let t := if d = MaxFloat64 then 1 else t
  toUint16 (fmul t 0xffff)

/-- The inner loop of `DepthImage` (context.go 120-129) on row `y`: `n`
columns are left, `x` is the column and `i` the running index. -/
def depthImageRow (dc : Context) (lo hi : ℚ) (y : Int) :
    Nat → Int → Int → image.Gray16 → Option (image.Gray16 × Int)
  | 0, _, i, im => some (im, i)
  | n + 1, x, i, im =>
    match image.index dc.DepthBuffer i with
    | none => none
    | some d => depthImageRow dc lo hi y n (x + 1) (i + 1) (im.SetGray16 x y (grayLevel lo hi d))

/-- The outer loop of `DepthImage` (context.go 119-130): `n` rows are left. -/
def depthImageRows (dc : Context) (lo hi : ℚ) :
    Nat → Int → Int → image.Gray16 → Option (image.Gray16 × Int)
  | 0, _, i, im => some (im, i)
  | n + 1, y, i, im =>
    match depthImageRow dc lo hi y dc.Width.toNat 0 i im with
    | none => none
    | some (im2, i2) => depthImageRows dc lo hi n (y + 1) i2 im2

/-- Go `(*Context).DepthImage`. -/
def Context.DepthImage (dc : Context) : Option image.Gray16 :=
  let lo := (depthRange dc.DepthBuffer).1
  let hi := (depthRange dc.DepthBuffer).2
  let im := image.NewGray16 (image.Rect 0 0 dc.Width dc.Height)
  (depthImageRows dc lo hi dc.Height.toNat 0 0 im).map (fun r => r.1)

/-! ## color.go and texture.go: textures -/

namespace color

/-- Go `color.Color`, modelled by the result of its method `RGBA`. -/
structure Color where
  RGBA : Nat × Nat × Nat × Nat

end color

namespace image

/-- Go `image.Image`: the bounds and the colour at each point. -/
structure Image where
  Bounds : Rectangle
  At : Int → Int → color.Color

end image

def MakeColor (c : color.Color) : Color :=
  let d : ℚ := 0xffff
  ⟨(c.RGBA.1 : ℚ) / d, (c.RGBA.2.1 : ℚ) / d, (c.RGBA.2.2.1 : ℚ) / d, (c.RGBA.2.2.2 : ℚ) / d⟩

/-- Go `type ImageTexture struct`. -/
structure ImageTexture where
  Width : Int
  Height : Int
  Image : image.Image

def NewImageTexture (im : image.Image) : ImageTexture :=
  let size := im.Bounds.Max
  ⟨size.X, size.Y, im⟩

/-- The texel coordinates that `ImageTexture.Sample` computes from `(u, v)`
(texture.go 51-55), in exact arithmetic; `ImageTexture.texelF64` is the
computation with every operation rounded. -/
def ImageTexture.texel (t : ImageTexture) (u v : ℚ) : Int × Int :=
  let v := 1 - v
  let u := u - (⌊u⌋ : Int)
  let v := v - (⌊v⌋ : Int)
  let x := truncInt (u * (t.Width : ℚ))
  let y := truncInt (v * (t.Height : ℚ))
  (x, y)

/-- Go `(*ImageTexture).Sample`. -/
def ImageTexture.Sample (t : ImageTexture) (u v : ℚ) : Color :=
  MakeColor (t.Image.At (t.texel u v).1 (t.texel u v).2)

/-! ## vector.go, color.go, matrix.go and box.go: boxes and colours -/

def Vector.Dot (a b : Vector) : ℚ :=
  a.X * b.X + a.Y * b.Y + a.Z * b.Z

def Vector.Reflect (i n : Vector) : Vector :=
  i.Sub (n.MulScalar (2 * n.Dot i))

def Matrix.MulDirection (Sqrt : ℚ → ℚ) (a : Matrix) (b : Vector) : Vector :=
  let x := a.X00 * b.X + a.X01 * b.Y + a.X02 * b.Z
  let y := a.X10 * b.X + a.X11 * b.Y + a.X12 * b.Z
  let z := a.X20 * b.X + a.X21 * b.Y + a.X22 * b.Z
  (⟨x, y, z⟩ : Vector).Normalize Sqrt

def White : Color := ⟨1, 1, 1, 1⟩

def Color.Alpha (a : Color) (alpha : ℚ) : Color :=
  ⟨a.R, a.G, a.B, alpha⟩

def Color.Mul (a b : Color) : Color :=
  ⟨a.R * b.R, a.G * b.G, a.B * b.B, a.A * b.A⟩

def Color.Min (a b : Color) : Color :=
  ⟨min a.R b.R, min a.G b.G, min a.B b.B, min a.A b.A⟩

/-- Go `type Box struct { Min, Max Vector }`. -/
structure Box where
  Min : Vector
  Max : Vector
  deriving DecidableEq

def EmptyBox : Box := ⟨⟨0, 0, 0⟩, ⟨0, 0, 0⟩⟩

def Box.Extend (a b : Box) : Box :=
  if a = EmptyBox then b else ⟨a.Min.Min b.Min, a.Max.Max b.Max⟩

def Box.Contains (a : Box) (b : Vector) : Bool :=
  decide (a.Min.X ≤ b.X ∧ a.Max.X ≥ b.X ∧
    a.Min.Y ≤ b.Y ∧ a.Max.Y ≥ b.Y ∧
    a.Min.Z ≤ b.Z ∧ a.Max.Z ≥ b.Z)

def Box.Intersects (a b : Box) : Bool :=
  !(decide (a.Min.X > b.Max.X ∨ a.Max.X < b.Min.X ∨ a.Min.Y > b.Max.Y ∨
    a.Max.Y < b.Min.Y ∨ a.Min.Z > b.Max.Z ∨ a.Max.Z < b.Min.Z))

def Box.Intersection (a b : Box) : Box :=
  if ¬ (a.Intersects b = true) then EmptyBox
  else
    let min := a.Min.Max b.Min
    let max := a.Max.Min b.Max
    ⟨min.Min max, min.Max max⟩

def Matrix.MulBox (a : Matrix) (box : Box) : Box :=
  let r : Vector := ⟨a.X00, a.X10, a.X20⟩
  let u : Vector := ⟨a.X01, a.X11, a.X21⟩
  let b : Vector := ⟨a.X02, a.X12, a.X22⟩
  let t : Vector := ⟨a.X03, a.X13, a.X23⟩
  let xa := r.MulScalar box.Min.X
  let xb := r.MulScalar box.Max.X
  let ya := u.MulScalar box.Min.Y
  let yb := u.MulScalar box.Max.Y
  let za := b.MulScalar box.Min.Z
  let zb := b.MulScalar box.Max.Z
  let (xa, xb) := (xa.Min xb, xa.Max xb)
  let (ya, yb) := (ya.Min yb, ya.Max yb)
  let (za, zb) := (za.Min zb, za.Max zb)
  let min := ((xa.Add ya).Add za).Add t
  let max := ((xb.Add yb).Add zb).Add t
  ⟨min, max⟩

def Box.Transform (a : Box) (m : Matrix) : Box :=
  m.MulBox a

/-! ## texture.go and shader.go: bilinear sampling and the Phong shader -/

/-- The texel `(x0, y0)` and the fractions `(x, y)` that
`ImageTexture.BilinearSample` computes from `(u, v)` (texture.go 63-73), in
exact arithmetic; `ImageTexture.bilinearF64` is the computation with every
operation rounded. -/
def ImageTexture.bilinear (t : ImageTexture) (u v : ℚ) : Int × Int × ℚ × ℚ :=
  let v := 1 - v
  let u := u - (⌊u⌋ : Int)
  let v := v - (⌊v⌋ : Int)
  let x := u * ((t.Width - 1 : Int) : ℚ)
  let y := v * ((t.Height - 1 : Int) : ℚ)
  let x0 := truncInt x
  let y0 := truncInt y
  (x0, y0, x - (x0 : ℚ), y - (y0 : ℚ))

/-- Go `(*ImageTexture).BilinearSample`. -/
def ImageTexture.BilinearSample (t : ImageTexture) (u v : ℚ) : Color :=
  let x0 := (t.bilinear u v).1
  let y0 := (t.bilinear u v).2.1
  let x := (t.bilinear u v).2.2.1
  let y := (t.bilinear u v).2.2.2
  let x1 := x0 + 1
  let y1 := y0 + 1
  let c00 := MakeColor (t.Image.At x0 y0)
  let c01 := MakeColor (t.Image.At x0 y1)
  let c10 := MakeColor (t.Image.At x1 y0)
  let c11 := MakeColor (t.Image.At x1 y1)
  let c : Color := ⟨0, 0, 0, 0⟩
  let c := c.Add (c00.MulScalar ((1 - x) * (1 - y)))
  let c := c.Add (c10.MulScalar (x * (1 - y)))
  let c := c.Add (c01.MulScalar ((1 - x) * y))
  let c := c.Add (c11.MulScalar (x * y))
  c

/-- Go `type Texture interface`: the two sampling methods. -/
structure Texture where
  Sample : ℚ → ℚ → Color
  BilinearSample : ℚ → ℚ → Color

/-- An `ImageTexture` as a value of the interface `Texture`. -/
def ImageTexture.Texture (t : ImageTexture) : Texture :=
  ⟨t.Sample, t.BilinearSample⟩

/-- Go `type PhongShader struct`; `Texture` is `none` for the nil interface. -/
structure PhongShader where
  Matrix : Fauxgl.Matrix
  LightDirection : Vector
  CameraPosition : Vector
  ObjectColor : Color
  AmbientColor : Color
  DiffuseColor : Color
  SpecularColor : Color
  Texture : Option Fauxgl.Texture
  SpecularPower : ℚ

/-- Go `NewPhongShader`; the decimal literals are taken exactly. -/
def NewPhongShader (matrix : Matrix) (lightDirection cameraPosition : Vector) : PhongShader :=
  let ambient : Color := ⟨2 / 10, 2 / 10, 2 / 10, 1⟩
  let diffuse : Color := ⟨8 / 10, 8 / 10, 8 / 10, 1⟩
  let specular : Color := ⟨1, 1, 1, 1⟩
  ⟨matrix, lightDirection, cameraPosition, Discard, ambient, diffuse, specular, none, 32⟩

def PhongShader.Vertex (shader : PhongShader) (v : Fauxgl.Vertex) : Fauxgl.Vertex :=
  { v with Output := shader.Matrix.MulPositionW v.Position }

/-- The local `color` of `PhongShader.Fragment` before the lighting
(shader.go 86-92). -/
def PhongShader.baseColor (shader : PhongShader) (v : Fauxgl.Vertex) : Color :=
  let color := v.Color
  let color := if shader.ObjectColor ≠ Discard then shader.ObjectColor else color
  match shader.Texture with
  | some t => t.BilinearSample v.Texture.X v.Texture.Y
  | none => color

/-- The local `light` of `PhongShader.Fragment` (shader.go 85 and 93-103);
`Pow` stands for `math.Pow`. -/
def PhongShader.light (Sqrt : ℚ → ℚ) (Pow : ℚ → ℚ → ℚ) (shader : PhongShader)
    (v : Fauxgl.Vertex) : Color :=
  let light := shader.AmbientColor
  let diffuse := max (v.Normal.Dot shader.LightDirection) 0
  let light := light.Add (shader.DiffuseColor.MulScalar diffuse)
  if diffuse > 0 ∧ shader.SpecularPower > 0 then
    let camera := (shader.CameraPosition.Sub v.Position).Normalize Sqrt
    let reflected := shader.LightDirection.Negate.Reflect v.Normal
    let specular := max (camera.Dot reflected) 0
    if specular > 0 then
      let specular := Pow specular shader.SpecularPower
      light.Add (shader.SpecularColor.MulScalar specular)
    else light
  else light

/-- Go `(*PhongShader).Fragment`. -/
def PhongShader.Fragment (Sqrt : ℚ → ℚ) (Pow : ℚ → ℚ → ℚ) (shader : PhongShader)
    (v : Fauxgl.Vertex) : Color :=
  let color := shader.baseColor v
  let light := shader.light Sqrt Pow v
  ((color.Mul light).Min White).Alpha color.A

/-! ## triangle.go, line.go and mesh.go: meshes -/

def Triangle.BoundingBox (t : Triangle) : Box :=
  let min := (t.V1.Position.Min t.V2.Position).Min t.V3.Position
  let max := (t.V1.Position.Max t.V2.Position).Max t.V3.Position
  ⟨min, max⟩

def Triangle.Transform (Sqrt : ℚ → ℚ) (t : Triangle) (matrix : Matrix) : Triangle :=
  { V1 := { t.V1 with Position := matrix.MulPosition t.V1.Position
                      Normal := matrix.MulDirection Sqrt t.V1.Normal }
    V2 := { t.V2 with Position := matrix.MulPosition t.V2.Position
                      Normal := matrix.MulDirection Sqrt t.V2.Normal }
    V3 := { t.V3 with Position := matrix.MulPosition t.V3.Position
                      Normal := matrix.MulDirection Sqrt t.V3.Normal } }

def Triangle.ReverseWinding (t : Triangle) : Triangle :=
  { V1 := { t.V3 with Normal := t.V3.Normal.Negate }
    V2 := { t.V2 with Normal := t.V2.Normal.Negate }
    V3 := { t.V1 with Normal := t.V1.Normal.Negate } }

def Triangle.SetColor (t : Triangle) (c : Color) : Triangle :=
  { V1 := { t.V1 with Color := c }
    V2 := { t.V2 with Color := c }
    V3 := { t.V3 with Color := c } }

/-- Go `type Line struct { V1, V2 Vertex }`. -/
structure Line where
  V1 : Vertex
  V2 : Vertex
  deriving DecidableEq

def Line.BoundingBox (l : Line) : Box :=
  let min := l.V1.Position.Min l.V2.Position
  let max := l.V1.Position.Max l.V2.Position
  ⟨min, max⟩

def Line.Transform (Sqrt : ℚ → ℚ) (l : Line) (matrix : Matrix) : Line :=
  { V1 := { l.V1 with Position := matrix.MulPosition l.V1.Position
                      Normal := matrix.MulDirection Sqrt l.V1.Normal }
    V2 := { l.V2 with Position := matrix.MulPosition l.V2.Position
                      Normal := matrix.MulDirection Sqrt l.V2.Normal } }

/-- The objects behind the pointers `*Triangle` and `*Line`: a pointer is an
address and the heap gives the object at every address.  A method that
changes a triangle through its pointer changes the heap.  The nil pointer is
not modelled. -/
structure Heap where
  triangles : Nat → Triangle
  lines : Nat → Line

/-- Go `type Mesh struct`: the two slices hold pointers (addresses in the
heap); `box` is the cached box, `none` for `nil`. -/
structure Mesh where
  Triangles : List Nat
  Lines : List Nat
  box : Option Box
  deriving DecidableEq

def NewMesh (triangles lines : List Nat) : Mesh :=
  ⟨triangles, lines, none⟩

def Mesh.dirty (m : Mesh) : Mesh :=
  { m with box := none }

/-- Go `(*Mesh).Add`. -/
def Mesh.Add (a b : Mesh) : Mesh :=
  Mesh.dirty { a with Triangles := a.Triangles ++ b.Triangles, Lines := a.Lines ++ b.Lines }

/-- Go `(*Mesh).SetColor`: every triangle of the slice, in order, through its
pointer. -/
def Mesh.SetColor (h : Heap) (m : Mesh) (c : Color) : Heap :=
  ⟨m.Triangles.foldl (fun tr p => Function.update tr p ((tr p).SetColor c)) h.triangles,
    h.lines⟩

/-- The box that `(*Mesh).BoundingBox` computes when the cache is empty
(mesh.go 175-181). -/
def Mesh.computeBox (h : Heap) (m : Mesh) : Box :=
  let box := m.Triangles.foldl (fun box p => box.Extend (h.triangles p).BoundingBox) EmptyBox
  m.Lines.foldl (fun box p => box.Extend (h.lines p).BoundingBox) box

/-- Go `(*Mesh).BoundingBox`: the mesh after the call and the returned box. -/
def Mesh.BoundingBox (h : Heap) (m : Mesh) : Mesh × Box :=
  match m.box with
  | none => ({ m with box := some (m.computeBox h) }, m.computeBox h)
  | some box => (m, box)

/-- Go `(*Mesh).Transform`. -/
def Mesh.Transform (Sqrt : ℚ → ℚ) (h : Heap) (m : Mesh) (matrix : Matrix) : Heap × Mesh :=
  let tr := m.Triangles.foldl
    (fun tr p => Function.update tr p ((tr p).Transform Sqrt matrix)) h.triangles
  let ln := m.Lines.foldl
    (fun ln p => Function.update ln p ((ln p).Transform Sqrt matrix)) h.lines
  (⟨tr, ln⟩, m.dirty)

/-- Go `(*Mesh).ReverseWinding`. -/
def Mesh.ReverseWinding (h : Heap) (m : Mesh) : Heap :=
  ⟨m.Triangles.foldl (fun tr p => Function.update tr p ((tr p).ReverseWinding)) h.triangles,
    h.lines⟩

/-! ## matrix.go, vertex.go and vector.go: inverse, barycentric coordinates, squared length -/

/-- Go `Matrix.Mul` (matrix.go 222): the matrix product. -/
def Matrix.Mul (a b : Matrix) : Matrix :=
  { X00 := a.X00 * b.X00 + a.X01 * b.X10 + a.X02 * b.X20 + a.X03 * b.X30
    X01 := a.X00 * b.X01 + a.X01 * b.X11 + a.X02 * b.X21 + a.X03 * b.X31
    X02 := a.X00 * b.X02 + a.X01 * b.X12 + a.X02 * b.X22 + a.X03 * b.X32
    X03 := a.X00 * b.X03 + a.X01 * b.X13 + a.X02 * b.X23 + a.X03 * b.X33
    X10 := a.X10 * b.X00 + a.X11 * b.X10 + a.X12 * b.X20 + a.X13 * b.X30
    X11 := a.X10 * b.X01 + a.X11 * b.X11 + a.X12 * b.X21 + a.X13 * b.X31
    X12 := a.X10 * b.X02 + a.X11 * b.X12 + a.X12 * b.X22 + a.X13 * b.X32
    X13 := a.X10 * b.X03 + a.X11 * b.X13 + a.X12 * b.X23 + a.X13 * b.X33
    X20 := a.X20 * b.X00 + a.X21 * b.X10 + a.X22 * b.X20 + a.X23 * b.X30
    X21 := a.X20 * b.X01 + a.X21 * b.X11 + a.X22 * b.X21 + a.X23 * b.X31
    X22 := a.X20 * b.X02 + a.X21 * b.X12 + a.X22 * b.X22 + a.X23 * b.X32
    X23 := a.X20 * b.X03 + a.X21 * b.X13 + a.X22 * b.X23 + a.X23 * b.X33
    X30 := a.X30 * b.X00 + a.X31 * b.X10 + a.X32 * b.X20 + a.X33 * b.X30
    X31 := a.X30 * b.X01 + a.X31 * b.X11 + a.X32 * b.X21 + a.X33 * b.X31
    X32 := a.X30 * b.X02 + a.X31 * b.X12 + a.X32 * b.X22 + a.X33 * b.X32
    X33 := a.X30 * b.X03 + a.X31 * b.X13 + a.X32 * b.X23 + a.X33 * b.X33 }

/-- Go `Matrix.Determinant` (matrix.go 299). -/
def Matrix.Determinant (a : Matrix) : ℚ :=
  a.X00 * a.X11 * a.X22 * a.X33 - a.X00 * a.X11 * a.X23 * a.X32 +
    a.X00 * a.X12 * a.X23 * a.X31 - a.X00 * a.X12 * a.X21 * a.X33 +
    a.X00 * a.X13 * a.X21 * a.X32 - a.X00 * a.X13 * a.X22 * a.X31 -
    a.X01 * a.X12 * a.X23 * a.X30 + a.X01 * a.X12 * a.X20 * a.X33 -
    a.X01 * a.X13 * a.X20 * a.X32 + a.X01 * a.X13 * a.X22 * a.X30 -
    a.X01 * a.X10 * a.X22 * a.X33 + a.X01 * a.X10 * a.X23 * a.X32 +
    a.X02 * a.X13 * a.X20 * a.X31 - a.X02 * a.X13 * a.X21 * a.X30 +
    a.X02 * a.X10 * a.X21 * a.X33 - a.X02 * a.X10 * a.X23 * a.X31 +
    a.X02 * a.X11 * a.X23 * a.X30 - a.X02 * a.X11 * a.X20 * a.X33 -
    a.X03 * a.X10 * a.X21 * a.X32 + a.X03 * a.X10 * a.X22 * a.X31 -
    a.X03 * a.X11 * a.X22 * a.X30 + a.X03 * a.X11 * a.X20 * a.X32 -
    a.X03 * a.X12 * a.X20 * a.X31 + a.X03 * a.X12 * a.X21 * a.X30

/-- Go `Matrix.Inverse` (matrix.go 315): the cofactors divided by the
determinant `d`. -/
def Matrix.Inverse (a : Matrix) : Matrix :=
  let d := a.Determinant
  { X00 := (a.X12 * a.X23 * a.X31 - a.X13 * a.X22 * a.X31 + a.X13 * a.X21 * a.X32 - a.X11 *
      a.X23 * a.X32 - a.X12 * a.X21 * a.X33 + a.X11 * a.X22 * a.X33) / d
    X01 := (a.X03 * a.X22 * a.X31 - a.X02 * a.X23 * a.X31 - a.X03 * a.X21 * a.X32 + a.X01 *
      a.X23 * a.X32 + a.X02 * a.X21 * a.X33 - a.X01 * a.X22 * a.X33) / d
    X02 := (a.X02 * a.X13 * a.X31 - a.X03 * a.X12 * a.X31 + a.X03 * a.X11 * a.X32 - a.X01 *
      a.X13 * a.X32 - a.X02 * a.X11 * a.X33 + a.X01 * a.X12 * a.X33) / d
    X03 := (a.X03 * a.X12 * a.X21 - a.X02 * a.X13 * a.X21 - a.X03 * a.X11 * a.X22 + a.X01 *
      a.X13 * a.X22 + a.X02 * a.X11 * a.X23 - a.X01 * a.X12 * a.X23) / d
    X10 := (a.X13 * a.X22 * a.X30 - a.X12 * a.X23 * a.X30 - a.X13 * a.X20 * a.X32 + a.X10 *
      a.X23 * a.X32 + a.X12 * a.X20 * a.X33 - a.X10 * a.X22 * a.X33) / d
    X11 := (a.X02 * a.X23 * a.X30 - a.X03 * a.X22 * a.X30 + a.X03 * a.X20 * a.X32 - a.X00 *
      a.X23 * a.X32 - a.X02 * a.X20 * a.X33 + a.X00 * a.X22 * a.X33) / d
    X12 := (a.X03 * a.X12 * a.X30 - a.X02 * a.X13 * a.X30 - a.X03 * a.X10 * a.X32 + a.X00 *
      a.X13 * a.X32 + a.X02 * a.X10 * a.X33 - a.X00 * a.X12 * a.X33) / d
    X13 := (a.X02 * a.X13 * a.X20 - a.X03 * a.X12 * a.X20 + a.X03 * a.X10 * a.X22 - a.X00 *
      a.X13 * a.X22 - a.X02 * a.X10 * a.X23 + a.X00 * a.X12 * a.X23) / d
    X20 := (a.X11 * a.X23 * a.X30 - a.X13 * a.X21 * a.X30 + a.X13 * a.X20 * a.X31 - a.X10 *
      a.X23 * a.X31 - a.X11 * a.X20 * a.X33 + a.X10 * a.X21 * a.X33) / d
    X21 := (a.X03 * a.X21 * a.X30 - a.X01 * a.X23 * a.X30 - a.X03 * a.X20 * a.X31 + a.X00 *
      a.X23 * a.X31 + a.X01 * a.X20 * a.X33 - a.X00 * a.X21 * a.X33) / d
    X22 := (a.X01 * a.X13 * a.X30 - a.X03 * a.X11 * a.X30 + a.X03 * a.X10 * a.X31 - a.X00 *
      a.X13 * a.X31 - a.X01 * a.X10 * a.X33 + a.X00 * a.X11 * a.X33) / d
    X23 := (a.X03 * a.X11 * a.X20 - a.X01 * a.X13 * a.X20 - a.X03 * a.X10 * a.X21 + a.X00 *
      a.X13 * a.X21 + a.X01 * a.X10 * a.X23 - a.X00 * a.X11 * a.X23) / d
    X30 := (a.X12 * a.X21 * a.X30 - a.X11 * a.X22 * a.X30 - a.X12 * a.X20 * a.X31 + a.X10 *
      a.X22 * a.X31 + a.X11 * a.X20 * a.X32 - a.X10 * a.X21 * a.X32) / d
    X31 := (a.X01 * a.X22 * a.X30 - a.X02 * a.X21 * a.X30 + a.X02 * a.X20 * a.X31 - a.X00 *
      a.X22 * a.X31 - a.X01 * a.X20 * a.X32 + a.X00 * a.X21 * a.X32) / d
    X32 := (a.X02 * a.X11 * a.X30 - a.X01 * a.X12 * a.X30 - a.X02 * a.X10 * a.X31 + a.X00 *
      a.X12 * a.X31 + a.X01 * a.X10 * a.X32 - a.X00 * a.X11 * a.X32) / d
    X33 := (a.X01 * a.X12 * a.X20 - a.X02 * a.X11 * a.X20 + a.X02 * a.X10 * a.X21 - a.X00 *
      a.X12 * a.X21 - a.X01 * a.X10 * a.X22 + a.X00 * a.X11 * a.X22) / d }

/-- Go `Barycentric` (vertex.go 86). -/
def Barycentric (p1 p2 p3 p : Vector) : VectorW :=
  let v0 := p2.Sub p1
  let v1 := p3.Sub p1
  let v2 := p.Sub p1
  let d00 := v0.Dot v0
  let d01 := v0.Dot v1
  let d11 := v1.Dot v1
  let d20 := v2.Dot v0
  let d21 := v2.Dot v1
  let d := d00 * d11 - d01 * d01
  let v := (d11 * d20 - d01 * d21) / d
  let w := (d00 * d21 - d01 * d20) / d
  let u := 1 - v - w
  ⟨u, v, w, 1⟩

/-- Go `Vector.LengthSquared` (vector.go 65). -/
def Vector.LengthSquared (a : Vector) : ℚ :=
  a.X * a.X + a.Y * a.Y + a.Z * a.Z

/-! ## voxel.go -/

/-- Go `type voxelFace struct { I0, J0 int; I1, J1 int }`. -/
structure voxelFace where
  I0 : Int
  J0 : Int
  I1 : Int
  J1 : Int
  deriving DecidableEq

/-- Go `int` on a 64-bit platform: the value that an integer result has
after wrapping around into the range `-2^63 ... 2^63 - 1`. -/
def wrap64 (x : Int) : Int :=
  (x + 2 ^ 63) % 2 ^ 64 - 2 ^ 63

/-- Go `x + y` on `int`. -/
def add64 (x y : Int) : Int := wrap64 (x + y)

/-- Go `x - y` on `int`. -/
def sub64 (x y : Int) : Int := wrap64 (x - y)

/-- Go `x * y` on `int`. -/
def mul64 (x y : Int) : Int := wrap64 (x * y)

/-- The `n` iterations of a counting loop at `lo`, `lo + 1`, ..., over a
state; the body may panic (`none`).  It is the loop
`for x := lo; x < hi; x++ { body }` with `n = hi - lo` iterations, whose
counter stays below `hi` and so does not wrap. -/
def forRange {σ : Type} (lo : Int) : Nat → (Int → σ → Option σ) → σ → Option σ
  | 0, _, s => some s
  | n + 1, body, s => (body lo s).bind (forRange (lo + 1) n body)

/-- The loop `for x := lo; x <= hi; x++ { body }` on `int`.  For `hi` below
the largest `int` the counter takes the values `lo`, ..., `hi` and does not
wrap.  For `hi = 2^63 - 1` the condition `x <= hi` holds for every `int`
(after `2^63 - 1` the counter wraps to `-2^63`), so the loop ends only by a
panic of its body: it has no result (`none`). -/
def forLe {σ : Type} (lo hi : Int) (body : Int → σ → Option σ) (s : σ) : Option σ :=
  if hi < 2 ^ 63 - 1 then forRange lo (hi - lo + 1).toNat body s else none

/-- The loop `for _, x := range xs { body }` over a state. -/
def forEach {α σ : Type} : List α → (α → σ → Option σ) → σ → Option σ
  | [], _, s => some s
  | x :: xs, body, s => (body x s).bind (forEach xs body)

/-- The read `g[j][i]` of a `[][]int`; an index out of range panics. -/
def gridGet (g : List (List Int)) (j i : Int) : Option Int :=
  if 0 ≤ j ∧ 0 ≤ i then (g[j.toNat]?).bind (fun row => row[i.toNat]?) else none

/-- The write `g[j][i] = v` to a `[][]int`; an index out of range panics. -/
def gridSet (g : List (List Int)) (j i : Int) (v : Int) : Option (List (List Int)) :=
  if 0 ≤ j ∧ 0 ≤ i then
    (g[j.toNat]?).bind (fun row =>
      if i.toNat < row.length then some (g.set j.toNat (row.set i.toNat v)) else none)
  else none

/-- The allocation `g := make([][]int, nj)` followed by
`for j := range g { g[j] = make([]int, ni) }` (voxel.go 126-134): `make`
panics on a negative length, and the rows are made only when `nj > 0`. -/
def makeGrid (nj ni : Int) : Option (List (List Int)) :=
  if nj < 0 then none
  else if nj = 0 then some []
  else if ni < 0 then none
  else some (List.replicate nj.toNat (List.replicate ni.toNat 0))

/-- The bounding box `(i0, j0, i1, j1)` of `combineVoxelFaces`. -/
structure voxelBounds where
  i0 : Int
  j0 : Int
  i1 : Int
  j1 : Int
  deriving DecidableEq

/-- One iteration of the bounding-box loop (voxel.go 112-125). -/
def boundsStep (b : voxelBounds) (f : voxelFace) : voxelBounds :=
  ⟨if f.I0 < b.i0 then f.I0 else b.i0,
   if f.J0 < b.j0 then f.J0 else b.j0,
   if f.I1 > b.i1 then f.I1 else b.i1,
   if f.J1 > b.j1 then f.J1 else b.j1⟩

/-- The bounding box of the faces (voxel.go 107-125); `faces[0]` panics on an
empty list. -/
def faceBounds : List voxelFace → Option voxelBounds
  | [] => none
  | f :: fs => some ((f :: fs).foldl boundsStep ⟨f.I0, f.J0, f.I1, f.J1⟩)

/-- The array `a` and the counter `count` while the faces are filled in and
while a rectangle is cleared. -/
structure fillState where
  a : List (List Int)
  count : Int

/-- The statement `a[j-j0][i-i0] = v; count += d` (voxel.go 140-141 with
`v = 1`, `d = 1`, and 178-179 with `v = 0`, `d = -1`). -/
def markCell (i0 j0 v d j i : Int) (s : fillState) : Option fillState :=
  (gridSet s.a (sub64 j j0) (sub64 i i0) v).map (fun a1 => ⟨a1, add64 s.count d⟩)

/-- The two nested loops `for j := f.J0; j <= f.J1; j++ { for i := f.I0;
i <= f.I1; i++ { a[j-j0][i-i0] = v; count += d } }` over the cells of a face
(voxel.go 138-143 and 176-181). -/
def markFace (i0 j0 v d : Int) (f : voxelFace) (s : fillState) : Option fillState :=
  forLe f.J0 f.J1 (fun j => forLe f.I0 f.I1 (markCell i0 j0 v d j)) s

/-- The variables `minw`, `maxArea` and `maxFace` in the loop over `dh`. -/
structure dhState where
  minw : Int
  maxArea : Int
  maxFace : voxelFace

/-- The body of the loop over `dh` (voxel.go 164-173). -/
def dhBody (w : List (List Int)) (i0 j0 j i dh : Int) (s : dhState) : Option dhState :=
  (gridGet w (sub64 j dh) i).map (fun x =>
    let minw := if x < s.minw then x else s.minw
    let area := mul64 (add64 dh 1) minw
    if area > s.maxArea then
      ⟨minw, area, ⟨add64 (sub64 (add64 i0 i) minw) 1, sub64 (add64 j0 j) dh, add64 i0 i,
        add64 j0 j⟩⟩
    else ⟨minw, s.maxArea, s.maxFace⟩)

/-- The arrays `w`, `h` and the variables `maxArea`, `maxFace` during one
scan of the grid. -/
structure scanState where
  w : List (List Int)
  h : List (List Int)
  maxArea : Int
  maxFace : voxelFace

/-- The body of the scan at the cell `(j, i)` (voxel.go 149-174).  The loop
over `dh` does not write `h`, so its bound `h[j][i]` is read once. -/
def scanCell (a : List (List Int)) (i0 j0 j i : Int) (s : scanState) : Option scanState :=
  (gridGet a j i).bind (fun v =>
    if v = 0 then some s
    else
      (if j = 0 then some 1
        else (gridGet s.h (sub64 j 1) i).map (fun x => add64 x 1)).bind (fun hv =>
      (gridSet s.h j i hv).bind (fun h1 =>
      (if i = 0 then some 1
        else (gridGet s.w j (sub64 i 1)).map (fun x => add64 x 1)).bind (fun wv =>
      (gridSet s.w j i wv).bind (fun w1 =>
      (gridGet w1 j i).bind (fun minw =>
      (gridGet h1 j i).bind (fun hb =>
      (forRange 0 hb.toNat (dhBody w1 i0 j0 j i) ⟨minw, s.maxArea, s.maxFace⟩).map
        (fun d => ⟨w1, h1, d.maxArea, d.maxFace⟩))))))))

/-- The scan `for j := 0; j < nj; j++ { for i := 0; i < ni; i++ { ... } }`
(voxel.go 147-175). -/
def scanGrid (a : List (List Int)) (i0 j0 nj ni : Int) (s : scanState) : Option scanState :=
  forRange 0 nj.toNat (fun j => forRange 0 ni.toNat (scanCell a i0 j0 j)) s

/-- The statement `w[j][i] = 0; h[j][i] = 0` (voxel.go 185-186). -/
def resetCell (j i : Int) (s : List (List Int) × List (List Int)) :
    Option (List (List Int) × List (List Int)) :=
  (gridSet s.1 j i 0).bind (fun w1 => (gridSet s.2 j i 0).map (fun h1 => (w1, h1)))

/-- The loops that reset `w` and `h` (voxel.go 183-188). -/
def resetGrids (nj ni : Int) (s : List (List Int) × List (List Int)) :
    Option (List (List Int) × List (List Int)) :=
  forRange 0 nj.toNat (fun j => forRange 0 ni.toNat (resetCell j)) s

/-- The variables of the loop `for count > 0` (voxel.go 145-189). -/
structure combineState where
  a : List (List Int)
  w : List (List Int)
  h : List (List Int)
  count : Int
  result : List voxelFace

/-- One iteration of the loop `for count > 0` (voxel.go 146-188): scan for
the largest rectangle, append it to the result, clear its cells, reset `w`
and `h`.  `maxArea` and `maxFace` start as zero values. -/
def combineStep (i0 j0 nj ni : Int) (s : combineState) : Option combineState :=
  (scanGrid s.a i0 j0 nj ni ⟨s.w, s.h, 0, ⟨0, 0, 0, 0⟩⟩).bind (fun sc =>
    (markFace i0 j0 0 (-1) sc.maxFace ⟨s.a, s.count⟩).bind (fun cl =>
      (resetGrids nj ni (sc.w, sc.h)).map (fun wh =>
        ⟨cl.a, wh.1, wh.2, cl.count, s.result ++ [sc.maxFace]⟩)))

/-- The loop `for count > 0 { ... }` (voxel.go 145-189), with a bound `fuel`
on the number of iterations: `none` when an iteration panics or when the
fuel runs out. -/
def combineLoop (i0 j0 nj ni : Int) : Nat → combineState → Option (List voxelFace)
  | 0, s => if s.count > 0 then none else some s.result
  | fuel + 1, s =>
    if s.count > 0 then (combineStep i0 j0 nj ni s).bind (combineLoop i0 j0 nj ni fuel)
    else some s.result

/-- Go `combineVoxelFaces` (voxel.go 105-191), with the bound `fuel` on the
iterations of its loop `for count > 0`. -/
def combineVoxelFaces (fuel : Nat) (faces : List voxelFace) : Option (List voxelFace) :=
  (faceBounds faces).bind (fun b =>
    let nj := add64 (sub64 b.j1 b.j0) 1
    let ni := add64 (sub64 b.i1 b.i0) 1
    (makeGrid nj ni).bind (fun a =>
    (makeGrid nj ni).bind (fun w =>
    (makeGrid nj ni).bind (fun h =>
    (forEach faces (markFace b.i0 b.j0 1 1) ⟨a, 0⟩).bind (fun fl =>
      combineLoop b.i0 b.j0 nj ni fuel ⟨fl.a, w, h, fl.count, []⟩)))))

/-! ## color.go and context.go with float64 rounding -/

/-- Go `Color.NRGBA` (color.go 60-67) on `float64` components: every product
`r * d` is rounded to binary64 before `uint8` truncates it. -/
def Color.NRGBAF64 (c : Color) : color.NRGBA :=
  let d : ℚ := 0xff
  let r := Clamp c.R 0 1
  let g := Clamp c.G 0 1
  let b := Clamp c.B 0 1
  let a := Clamp c.A 0 1
  ⟨toUint8 (fmul r d), toUint8 (fmul g d), toUint8 (fmul b d), toUint8 (fmul a d)⟩

/-- Go `VectorW.DivScalar` (vector.go 274) on `float64`. -/
def VectorW.DivScalarF64 (a : VectorW) (b : ℚ) : VectorW :=
  ⟨fdiv a.X b, fdiv a.Y b, fdiv a.Z b, fdiv a.W b⟩

/-- Go `Matrix.MulPosition` (matrix.go 244-249) on `float64`: the products
and the sums, from left to right, each rounded to binary64 (no fused
multiply-add). -/
def Matrix.MulPositionF64 (a : Matrix) (b : Vector) : Vector :=
  ⟨fadd (fadd (fadd (fmul a.X00 b.X) (fmul a.X01 b.Y)) (fmul a.X02 b.Z)) a.X03,
   fadd (fadd (fadd (fmul a.X10 b.X) (fmul a.X11 b.Y)) (fmul a.X12 b.Z)) a.X13,
   fadd (fadd (fadd (fmul a.X20 b.X) (fmul a.X21 b.Y)) (fmul a.X22 b.Z)) a.X23⟩

/-- Go `edge` (context.go 167-169) on `float64`. -/
def edgeF64 (a b c : Vector) : ℚ :=
  fsub (fmul (fsub b.X c.X) (fsub a.Y c.Y)) (fmul (fsub b.Y c.Y) (fsub a.X c.X))

/-- The signed area that `drawClippedTriangle` computes from the three
vertices (context.go 343-348) on `float64`. -/
def ndcAreaF64 (v0 v1 v2 : Vertex) : ℚ :=
  let ndc0 := (v0.Output.DivScalarF64 v0.Output.W).Vector
  let ndc1 := (v1.Output.DivScalarF64 v1.Output.W).Vector
  let ndc2 := (v2.Output.DivScalarF64 v2.Output.W).Vector
  fsub (fmul (fsub ndc1.X ndc0.X) (fsub ndc2.Y ndc0.Y))
    (fmul (fsub ndc2.X ndc0.X) (fsub ndc1.Y ndc0.Y))

/-- The screen position that `drawClippedTriangle` computes for a vertex
(context.go 343-345 and 361-363) on `float64`. -/
def Context.screenPositionF64 (dc : Context) (v : Vertex) : Vector :=
  dc.screenMatrix.MulPositionF64 (v.Output.DivScalarF64 v.Output.W).Vector

/-- The order in which `drawClippedTriangle` passes the vertices on
(context.go 349-352): reversed when the area computed on `float64` is
negative. -/
def drawOrderF64 (v0 v1 v2 : Vertex) : Vertex × Vertex × Vertex :=
  if ndcAreaF64 v0 v1 v2 < 0 then (v2, v1, v0) else (v0, v1, v2)

/-! ## texture.go with float64 rounding -/

/-- The texel coordinates that `ImageTexture.Sample` computes from `(u, v)` on
`float64`, each operation rounded to binary64 (texture.go 51-55). -/
def ImageTexture.texelF64 (t : ImageTexture) (u v : ℚ) : Int × Int :=
  let v := fsub 1 v
  let u := fsub u (⌊u⌋ : Int)
  let v := fsub v (⌊v⌋ : Int)
  let x := truncInt (fmul u (roundF64 (t.Width : ℚ)))
  let y := truncInt (fmul v (roundF64 (t.Height : ℚ)))
  (x, y)

/-- The texel `(x0, y0)` and the fractions `(x, y)` that
`ImageTexture.BilinearSample` computes from `(u, v)` on `float64`, each
operation rounded to binary64 (texture.go 63-73). -/
def ImageTexture.bilinearF64 (t : ImageTexture) (u v : ℚ) : Int × Int × ℚ × ℚ :=
  let v := fsub 1 v
  let u := fsub u (⌊u⌋ : Int)
  let v := fsub v (⌊v⌋ : Int)
  let x := fmul u (roundF64 ((t.Width - 1 : Int) : ℚ))
  let y := fmul v (roundF64 ((t.Height - 1 : Int) : ℚ))
  let x0 := truncInt x
  let y0 := truncInt y
  (x0, y0, fsub x (roundF64 (x0 : ℚ)), fsub y (roundF64 (y0 : ℚ)))

/-! ## vector.go and context.go 305-312 over an ordered field of scalars

`line` takes square roots, which the rationals do not have.  The definitions
of this section are those of `Vector` and of the corner computation of `line`
with the scalars in an ordered field `K`, so that they can be read over the
real numbers with `Real.sqrt` for `math.Sqrt`. -/

/-- Go `type Vector struct { X, Y, Z float64 }` with scalars in `K`. -/
structure VectorOver (K : Type) where
  X : K
  Y : K
  Z : K

def VectorOver.Add {K : Type} [LinearOrderedField K] (a b : VectorOver K) : VectorOver K :=
  ⟨a.X + b.X, a.Y + b.Y, a.Z + b.Z⟩

def VectorOver.Sub {K : Type} [LinearOrderedField K] (a b : VectorOver K) : VectorOver K :=
  ⟨a.X - b.X, a.Y - b.Y, a.Z - b.Z⟩

def VectorOver.MulScalar {K : Type} [LinearOrderedField K] (a : VectorOver K) (b : K) :
    VectorOver K :=
  ⟨a.X * b, a.Y * b, a.Z * b⟩

def VectorOver.Negate {K : Type} [LinearOrderedField K] (a : VectorOver K) : VectorOver K :=
  ⟨-a.X, -a.Y, -a.Z⟩

/-- Go `Vector.Length`; `Sqrt` stands for `math.Sqrt`. -/
def VectorOver.Length {K : Type} [LinearOrderedField K] (Sqrt : K → K) (a : VectorOver K) : K :=
  Sqrt (a.X * a.X + a.Y * a.Y + a.Z * a.Z)

/-- Go `Vector.Normalize`; `Sqrt` stands for `math.Sqrt`. -/
def VectorOver.Normalize {K : Type} [LinearOrderedField K] (Sqrt : K → K) (a : VectorOver K) :
    VectorOver K :=
  let r := 1 / Sqrt (a.X * a.X + a.Y * a.Y + a.Z * a.Z)
  ⟨a.X * r, a.Y * r, a.Z * r⟩

def VectorOver.Perpendicular {K : Type} [LinearOrderedField K] (Sqrt : K → K)
    (a : VectorOver K) : VectorOver K :=
  if a.X = 0 ∧ a.Y = 0 then
    if a.Z = 0 then ⟨0, 0, 0⟩ else ⟨0, 1, 0⟩
  else VectorOver.Normalize Sqrt ⟨-a.Y, a.X, 0⟩

/-- The corners `(s00, s01, s10, s11)` of the quad that `line` rasterizes
(context.go 306-312) for the line width `lw`; as in the code, the second
endpoint is extended from the first endpoint after its extension. -/
def lineCornersOver {K : Type} [LinearOrderedField K] (Sqrt : K → K) (lw : K)
    (s0 s1 : VectorOver K) : VectorOver K × VectorOver K × VectorOver K × VectorOver K :=
  let n := ((s1.Sub s0).Perpendicular Sqrt).MulScalar (lw / 2)
  let s0 := s0.Add (((s0.Sub s1).Normalize Sqrt).MulScalar (lw / 2))
  let s1 := s1.Add (((s1.Sub s0).Normalize Sqrt).MulScalar (lw / 2))
  let s00 := s0.Add n
  let s01 := s0.Sub n
  let s10 := s1.Add n
  let s11 := s1.Sub n
  (s00, s01, s10, s11)

/-! ## Specification-side definitions -/

/-- The perspective-correct value of an attribute with per-vertex values
`a0 a1 a2`, screen barycentrics `b0 b1 b2` and clip-space `w0 w1 w2`:
`(Σ bᵢ·aᵢ/wᵢ) / (Σ bᵢ/wᵢ)`. -/
def perspective (b0 b1 b2 w0 w1 w2 a0 a1 a2 : ℚ) : ℚ :=
  (b0 * a0 / w0 + b1 * a1 / w1 + b2 * a2 / w2) / (b0 / w0 + b1 / w1 + b2 / w2)

/-- The buffers of the context have the shape that `NewContext` allocates for
a non-negative `Width` and `Height`, every colour byte is a `uint8`, and
there are 256 locks. -/
def Context.WellFormed (dc : Context) : Prop :=
  0 ≤ dc.Width ∧ 0 ≤ dc.Height ∧
  (dc.DepthBuffer.length : Int) = dc.Width * dc.Height ∧
  (dc.ColorBuffer.Pix.length : Int) = 4 * dc.Width * dc.Height ∧
  dc.ColorBuffer.Stride = 4 * dc.Width ∧
  dc.ColorBuffer.Rect = ⟨⟨0, 0⟩, ⟨dc.Width, dc.Height⟩⟩ ∧
  (∀ b ∈ dc.ColorBuffer.Pix, b < 256) ∧
  dc.locks = 256

instance (dc : Context) : Decidable dc.WellFormed := by
  unfold Context.WellFormed
  infer_instance

/-- The context `dc` with other contents of its two buffers. -/
def Context.withBuffers (dc : Context) (depth : List ℚ) (pix : List Nat) : Context :=
  { dc with DepthBuffer := depth, ColorBuffer := { dc.ColorBuffer with Pix := pix } }

/-- The centre of pixel `(x, y)`. -/
def pixelCentre (x y : Int) : Vector :=
  ⟨(x : ℚ) + 1 / 2, (y : ℚ) + 1 / 2, 0⟩

/-- The naive inside test: the three edge values at the centre of the pixel
are non-negative. -/
def insidePixel (s0 s1 s2 : Vector) (x y : Int) : Prop :=
  0 ≤ edge s1 s2 (pixelCentre x y) ∧ 0 ≤ edge s2 s0 (pixelCentre x y) ∧
    0 ≤ edge s0 s1 (pixelCentre x y)

instance (s0 s1 s2 : Vector) (x y : Int) : Decidable (insidePixel s0 s1 s2 x y) := by
  unfold insidePixel
  infer_instance

/-- The index `y*Width + x` of the pixel lies in the depth buffer. -/
def indexInRange (dc : Context) (x y : Int) : Prop :=
  0 ≤ y * dc.Width + x ∧ y * dc.Width + x < dc.DepthBuffer.length

instance (dc : Context) (x y : Int) : Decidable (indexInRange dc x y) := by
  unfold indexInRange
  infer_instance

/-- The bounding rectangle `x0 y0 x1 y1` that `rasterize` computes
(context.go 176-181). -/
def boundingRect (s0 s1 s2 : Vector) : Int × Int × Int × Int :=
  let min := (s0.Min (s1.Min s2)).Floor
  let max := (s0.Max (s1.Max s2)).Ceil
  (truncInt min.X, truncInt min.Y, truncInt max.X, truncInt max.Y)

/-- The naive pixel count: the pixels of the bounding rectangle whose index
lies in the depth buffer and whose centre passes the naive inside test. -/
def naiveTotalPixels (dc : Context) (s0 s1 s2 : Vector) : Nat :=
  let r := boundingRect s0 s1 s2
  (Finset.filter (fun p : Int × Int => insidePixel s0 s1 s2 p.1 p.2 ∧ indexInRange dc p.1 p.2)
    (Finset.Icc r.1 r.2.2.1 ×ˢ Finset.Icc r.2.1 r.2.2.2)).card

/-- A sample vertex with clip-space output `(x, y, z, w)` and colour `c`. -/
def sampleVertex (x y z w : ℚ) (c : Color) : Vertex :=
  ⟨⟨x, y, z⟩, ⟨0, 0, 1⟩, ⟨x, y, 0⟩, c, ⟨x, y, z, w⟩⟩

/-- The context that `NewContext 2 2` returns. -/
def context2x2 : Context :=
  (NewContext 2 2).get (by decide)

/-- The context of `NewContext 2 2` with `DepthBias` set to 1. -/
def biasedContext : Context :=
  { context2x2 with DepthBias := 1 }

/-- The drawing call at the end of `drawClippedTriangle` (context.go 363-373)
for vertices in the order `v0 v1 v2`: the screen positions of their NDC
coordinates, then `wireframe` or `rasterize`. -/
def screenDraw (Sqrt : ℚ → ℚ) (dc : Context) (v0 v1 v2 : Vertex) :
    Option (Context × RasterizeInfo) :=
  let s0 := dc.screenMatrix.MulPosition (v0.Output.DivScalar v0.Output.W).Vector
  let s1 := dc.screenMatrix.MulPosition (v1.Output.DivScalar v1.Output.W).Vector
  let s2 := dc.screenMatrix.MulPosition (v2.Output.DivScalar v2.Output.W).Vector
  if dc.Wireframe then wireframe Sqrt dc v0 v1 v2 s0 s1 s2
  else rasterize Sqrt dc v0 v1 v2 s0 s1 s2

/-- The drawing call of a triangle that `drawClippedTriangle` does not cull:
the vertices are reversed first when the NDC signed area is negative
(context.go 349-352). -/
def orientedDraw (Sqrt : ℚ → ℚ) (dc : Context) (v0 v1 v2 : Vertex) :
    Option (Context × RasterizeInfo) :=
  if ndcArea v0 v1 v2 < 0 then screenDraw Sqrt dc v2 v1 v0 else screenDraw Sqrt dc v0 v1 v2

/-- The context of `NewContext 1 1` with `Cull` set to `CullNone`. -/
def cullNoneContext : Context :=
  { (NewContext 1 1).get (by decide) with Cull := CullNone }

/-- A stand-in for `math.Sqrt` that is exact on the squares 4 and 9 (and 1). -/
def sqrtTable (q : ℚ) : ℚ :=
  if q = 4 then 2 else if q = 9 then 3 else 1

/-- The sum `f a + f (a+1) + ... + f (a+n-1)`, in the order a counting loop
visits the indices. -/
def sumFrom (f : Int → Nat) (a : Int) : Nat → Nat
  | 0 => 0
  | n + 1 => f a + sumFrom f (a + 1) n

/-- The number of `x` among `a, a+1, ..., a+n-1` that satisfy `P`. -/
def countFrom (P : Int → Prop) [DecidablePred P] (a : Int) (n : Nat) : Nat :=
  sumFrom (fun x => if P x then 1 else 0) a n

/-- The context of `NewContext 2 2` with the colour buffer cleared to opaque
red `(255, 0, 0, 255)`. -/
def redContext : Context :=
  context2x2.withBuffers context2x2.DepthBuffer
    [255, 0, 0, 255, 255, 0, 0, 255, 255, 0, 0, 255, 255, 0, 0, 255]

/-- The context of `NewContext 10 10` with the solid-colour shader of the
identity matrix and the colour `(1, 0, 0, 1)`. -/
def redShaderContext : Context :=
  { (NewContext 10 10).get (by decide) with Shader := NewSolidColorShader Identity ⟨1, 0, 0, 1⟩ }

/-- Every pixel of the 10x10 image is opaque red when its centre passes the
naive inside test of the screen triangle `(2.5, 7.5), (7.5, 7.5), (5, 2.5)`
and is `(0, 0, 0, 0)` otherwise. -/
def redTriangleImage (im : image.NRGBA) : Bool :=
  decide (∀ x ∈ List.range 10, ∀ y ∈ List.range 10,
    im.NRGBAAt (x : Int) (y : Int) = some
      (if insidePixel ⟨5 / 2, 15 / 2, 1 / 2⟩ ⟨15 / 2, 15 / 2, 1 / 2⟩ ⟨5, 5 / 2, 1 / 2⟩
          (x : Int) (y : Int) then ⟨255, 0, 0, 255⟩ else ⟨0, 0, 0, 0⟩))

/-- The texel that the claim about `Sample` names: both coordinates wrapped
first, `u' = u - floor u` and `v' = v - floor v`, then `v'` flipped, giving
`(floor (u' * W), floor ((1 - v') * H))`. -/
def wrapThenFlipTexel (W H : Int) (u v : ℚ) : Int × Int :=
  (⌊(u - (⌊u⌋ : Int)) * (W : ℚ)⌋, ⌊(1 - (v - (⌊v⌋ : Int))) * (H : ℚ)⌋)

/-- A 2x2 texture whose colour at `(x, y)` encodes the coordinates. -/
def coordTexture : ImageTexture :=
  ⟨2, 2, ⟨image.Rect 0 0 2 2, fun x y => ⟨(x.toNat, y.toNat, 0, 0xffff)⟩⟩⟩

/-- A pixel that the pixel loop of `rasterize` tests: its column and the
three values `b0 b1 b2` computed for it (context.go 229-231). -/
structure Tested where
  x : Int
  b0 : ℚ
  b1 : ℚ
  b2 : ℚ
  deriving DecidableEq

/-- The pixels that the pixel loop of `rasterize` tests on one row, in order
(the loop control of context.go 228-241, as in `rasterizeRow`): `n` columns
are left, `x` is the column, `w0 w1 w2` are the running values. -/
def rowTrace (s0 s1 s2 : Vector) : Nat → Int → ℚ → ℚ → ℚ → Bool → List Tested
  | 0, _, _, _, _, _ => []
  | n + 1, x, w0, w1, w2, wasInside =>
    let a01 := s1.Y - s0.Y
    let a12 := s2.Y - s1.Y
    let a20 := s0.Y - s2.Y
    let ra := 1 / edge s0 s1 s2
    let b0 := w0 * ra
    let b1 := w1 * ra
    let b2 := w2 * ra
    ⟨x, b0, b1, b2⟩ ::
      (if b0 < 0 ∨ b1 < 0 ∨ b2 < 0 then
        if wasInside then []
        else rowTrace s0 s1 s2 n (x + 1) (w0 + a12) (w1 + a20) (w2 + a01) false
      else rowTrace s0 s1 s2 n (x + 1) (w0 + a12) (w1 + a20) (w2 + a01) true)

/-- The fragment steps of one row for the tested pixels `ps`: a pixel with a
negative `b` is skipped, every other pixel runs `fragment`. -/
def runRow (Sqrt : ℚ → ℚ) (v0 v1 v2 : Vertex) (s0 s1 s2 : Vector) (y : Int) :
    List Tested → Context → RasterizeInfo → Option (Context × RasterizeInfo)
  | [], dc, info => some (dc, info)
  | p :: ps, dc, info =>
    if p.b0 < 0 ∨ p.b1 < 0 ∨ p.b2 < 0 then runRow Sqrt v0 v1 v2 s0 s1 s2 y ps dc info
    else
      match fragment Sqrt dc v0 v1 v2 s0 s1 s2 p.x y p.b0 p.b1 p.b2 info with
      | none => none
      | some (dc2, info2) => runRow Sqrt v0 v1 v2 s0 s1 s2 y ps dc2 info2

/-- The rows that `rasterize` visits, each with the pixels tested on it (the
loop control of context.go 205-226 and 296-298, as in `rasterizeRows`). -/
def rowsTrace (s0 s1 s2 : Vector) (x0 x1 : Int) :
    Nat → Int → ℚ → ℚ → ℚ → List (Int × List Tested)
  | 0, _, _, _, _ => []
  | n + 1, y, w00, w01, w02 =>
    let a01 := s1.Y - s0.Y
    let b01 := s0.X - s1.X
    let a12 := s2.Y - s1.Y
    let b12 := s1.X - s2.X
    let a20 := s0.Y - s2.Y
    let b20 := s2.X - s0.X
    let d := skipAhead s0 s1 s2 w00 w01 w02
    let w0 := w00 + a12 * d
    let w1 := w01 + a20 * d
    let w2 := w02 + a01 * d
    let x := x0 + truncInt d
    (y, rowTrace s0 s1 s2 (x1 - x + 1).toNat x w0 w1 w2 false) ::
      rowsTrace s0 s1 s2 x0 x1 n (y + 1) (w00 + b12) (w01 + b20) (w02 + b01)

/-- The fragment steps of the traced rows, row after row. -/
def runRows (Sqrt : ℚ → ℚ) (v0 v1 v2 : Vertex) (s0 s1 s2 : Vector) :
    List (Int × List Tested) → Context → RasterizeInfo → Option (Context × RasterizeInfo)
  | [], dc, info => some (dc, info)
  | r :: rs, dc, info =>
    match runRow Sqrt v0 v1 v2 s0 s1 s2 r.1 r.2 dc info with
    | none => none
    | some (dc2, info2) => runRows Sqrt v0 v1 v2 s0 s1 s2 rs dc2 info2

/-- All pixels that `rasterize` tests for the screen triangle `s0 s1 s2`,
row by row. -/
def rasterTrace (s0 s1 s2 : Vector) : List (Int × List Tested) :=
  let r := boundingRect s0 s1 s2
  rowsTrace s0 s1 s2 r.1 r.2.2.1 (r.2.2.2 - r.2.1 + 1).toNat r.2.1
    (edge s1 s2 (pixelCentre r.1 r.2.1)) (edge s2 s0 (pixelCentre r.1 r.2.1))
    (edge s0 s1 (pixelCentre r.1 r.2.1))

/-- A 2x2 context whose depth buffer holds the depths 0, 1/2, 1 and one
cleared entry. -/
def depthContext : Context :=
  { context2x2 with DepthBuffer := [0, 1 / 2, 1, MaxFloat64] }

/-- The edge function as the specification writes it:
`E(a, b, p) = (b.x - a.x) * (p.y - a.y) - (b.y - a.y) * (p.x - a.x)`. -/
def specEdge (a b p : Vector) : ℚ :=
  (b.X - a.X) * (p.Y - a.Y) - (b.Y - a.Y) * (p.X - a.X)

/-- The eight corners of a box. -/
def Box.corners (box : Box) : List Vector :=
  [⟨box.Min.X, box.Min.Y, box.Min.Z⟩, ⟨box.Min.X, box.Min.Y, box.Max.Z⟩,
   ⟨box.Min.X, box.Max.Y, box.Min.Z⟩, ⟨box.Min.X, box.Max.Y, box.Max.Z⟩,
   ⟨box.Max.X, box.Min.Y, box.Min.Z⟩, ⟨box.Max.X, box.Min.Y, box.Max.Z⟩,
   ⟨box.Max.X, box.Max.Y, box.Min.Z⟩, ⟨box.Max.X, box.Max.Y, box.Max.Z⟩]

/-- A 1x1 texture. -/
def unitTexture : ImageTexture :=
  ⟨1, 1, ⟨image.Rect 0 0 1 1, fun _ _ => ⟨(0, 0, 0, 0xffff)⟩⟩⟩

/-- The screen position that `drawClippedTriangle` computes for a vertex
(context.go 343-345 and 361-363). -/
def Context.screenPosition (dc : Context) (v : Vertex) : Vector :=
  dc.screenMatrix.MulPosition (v.Output.DivScalar v.Output.W).Vector

/-- A pixel that the pixel loop of `rasterize` visits: its column and the
running values `w0 w1 w2` from which `b0 b1 b2` are computed for it
(context.go 224-234). -/
structure Visited where
  x : Int
  w0 : ℚ
  w1 : ℚ
  w2 : ℚ
  deriving DecidableEq

/-- The pixels that the pixel loop of `rasterize` visits on one row with
their running values, in order (the loop control of context.go 228-241, as in
`rasterizeRow`). -/
def rowWeights (s0 s1 s2 : Vector) : Nat → Int → ℚ → ℚ → ℚ → Bool → List Visited
  | 0, _, _, _, _, _ => []
  | n + 1, x, w0, w1, w2, wasInside =>
    let a01 := s1.Y - s0.Y
    let a12 := s2.Y - s1.Y
    let a20 := s0.Y - s2.Y
    let ra := 1 / edge s0 s1 s2
    let b0 := w0 * ra
    let b1 := w1 * ra
    let b2 := w2 * ra
    ⟨x, w0, w1, w2⟩ ::
      (if b0 < 0 ∨ b1 < 0 ∨ b2 < 0 then
        if wasInside then []
        else rowWeights s0 s1 s2 n (x + 1) (w0 + a12) (w1 + a20) (w2 + a01) false
      else rowWeights s0 s1 s2 n (x + 1) (w0 + a12) (w1 + a20) (w2 + a01) true)

/-- The rows that `rasterize` visits, each with the pixels visited on it and
their running values (the loop control of context.go 205-226 and 296-298, as
in `rasterizeRows`). -/
def rowsWeights (s0 s1 s2 : Vector) (x0 x1 : Int) :
    Nat → Int → ℚ → ℚ → ℚ → List (Int × List Visited)
  | 0, _, _, _, _ => []
  | n + 1, y, w00, w01, w02 =>
    let a01 := s1.Y - s0.Y
    let b01 := s0.X - s1.X
    let a12 := s2.Y - s1.Y
    let b12 := s1.X - s2.X
    let a20 := s0.Y - s2.Y
    let b20 := s2.X - s0.X
    let d := skipAhead s0 s1 s2 w00 w01 w02
    let w0 := w00 + a12 * d
    let w1 := w01 + a20 * d
    let w2 := w02 + a01 * d
    let x := x0 + truncInt d
    (y, rowWeights s0 s1 s2 (x1 - x + 1).toNat x w0 w1 w2 false) ::
      rowsWeights s0 s1 s2 x0 x1 n (y + 1) (w00 + b12) (w01 + b20) (w02 + b01)

/-- All pixels that `rasterize` visits for the screen triangle `s0 s1 s2`
with their running values, row by row. -/
def rasterWeights (s0 s1 s2 : Vector) : List (Int × List Visited) :=
  let r := boundingRect s0 s1 s2
  rowsWeights s0 s1 s2 r.1 r.2.2.1 (r.2.2.2 - r.2.1 + 1).toNat r.2.1
    (edge s1 s2 (pixelCentre r.1 r.2.1)) (edge s2 s0 (pixelCentre r.1 r.2.1))
    (edge s0 s1 (pixelCentre r.1 r.2.1))

/-- The values `b0 b1 b2` of a visited pixel (context.go 229-231). -/
def Visited.tested (s0 s1 s2 : Vector) (e : Visited) : Tested :=
  ⟨e.x, e.w0 * (1 / edge s0 s1 s2), e.w1 * (1 / edge s0 s1 s2), e.w2 * (1 / edge s0 s1 s2)⟩

/-- One of the operations `BoundingBox`, `Add`, `Transform`, `SetColor` and
`ReverseWinding` on a mesh; `add b` adds the mesh `b`, whose pointers refer to
the same heap. -/
inductive MeshOp where
  | boundingBox : MeshOp
  | add (b : Mesh) : MeshOp
  | transform (matrix : Matrix) : MeshOp
  | setColor (c : Color) : MeshOp
  | reverseWinding : MeshOp

/-- The heap and the mesh after one operation on the mesh. -/
def MeshOp.apply (Sqrt : ℚ → ℚ) (op : MeshOp) (s : Heap × Mesh) : Heap × Mesh :=
  match op with
  | .boundingBox => (s.1, (s.2.BoundingBox s.1).1)
  | .add b => (s.1, s.2.Add b)
  | .transform matrix => s.2.Transform Sqrt s.1 matrix
  | .setColor c => (s.2.SetColor s.1 c, s.2)
  | .reverseWinding => (s.2.ReverseWinding s.1, s.2)

/-- The heap and the mesh after a sequence of operations on the mesh. -/
def runMeshOps (Sqrt : ℚ → ℚ) (ops : List MeshOp) (s : Heap × Mesh) : Heap × Mesh :=
  ops.foldl (fun s op => op.apply Sqrt s) s

/-- The cache of a mesh is empty or holds the box of the current triangles
and lines. -/
def Mesh.cacheValid (h : Heap) (m : Mesh) : Prop :=
  m.box = none ∨ m.box = some (m.computeBox h)

/-- Componentwise order of two points. -/
def Vector.le (a b : Vector) : Prop :=
  a.X ≤ b.X ∧ a.Y ≤ b.Y ∧ a.Z ≤ b.Z

/-- The corner `Min` of a box is componentwise below the corner `Max`. -/
def Box.Ordered (b : Box) : Prop :=
  b.Min.le b.Max

/-- The box `b` lies within the box `r`. -/
def Box.within (b r : Box) : Prop :=
  r.Min.le b.Min ∧ b.Max.le r.Max

/-- A heap whose triangle at address 0 has its three vertices at the origin
and whose other triangles have the positions `(1,1,1)`, `(2,1,1)`, `(1,2,1)`. -/
def originHeap : Heap :=
  ⟨fun p => if p = 0 then NewTriangleForPoints (fun _ => 1) ⟨0, 0, 0⟩ ⟨0, 0, 0⟩ ⟨0, 0, 0⟩
      else NewTriangleForPoints (fun _ => 1) ⟨1, 1, 1⟩ ⟨2, 1, 1⟩ ⟨1, 2, 1⟩,
    fun _ => ⟨sampleVertex 0 0 0 1 Discard, sampleVertex 1 0 0 1 Discard⟩⟩

/-- The new depth buffer has the length of the old one and no entry above
the old entry. -/
def depthNotAbove (new old : List ℚ) : Prop :=
  new.length = old.length ∧
    ∀ (j : Nat) (d : ℚ), old[j]? = some d → ∃ d2, new[j]? = some d2 ∧ d2 ≤ d

/-- One `rasterize` call of a sequence of draws: the context after the call,
`none` once a call has panicked. -/
def rasterizeNext (Sqrt : ℚ → ℚ) (acc : Option Context)
    (t : Vertex × Vertex × Vertex × Vector × Vector × Vector) : Option Context :=
  acc.bind (fun dc =>
    (rasterize Sqrt dc t.1 t.2.1 t.2.2.1 t.2.2.2.1 t.2.2.2.2.1 t.2.2.2.2.2).map (fun r => r.1))

/-- A sequence of `rasterize` calls on one context. -/
def rasterizeAll (Sqrt : ℚ → ℚ)
    (draws : List (Vertex × Vertex × Vertex × Vector × Vector × Vector)) (dc : Context) :
    Option Context :=
  draws.foldl (rasterizeNext Sqrt) (some dc)

/-- The vector `n` of `line` (context.go 306) for the line width `lw`. -/
def lineNormal (Sqrt : ℚ → ℚ) (lw : ℚ) (s0 s1 : Vector) : Vector :=
  ((s1.Sub s0).Perpendicular Sqrt).MulScalar (lw / 2)

/-- The first endpoint after its extension in `line` (context.go 307). -/
def lineStart (Sqrt : ℚ → ℚ) (lw : ℚ) (s0 s1 : Vector) : Vector :=
  s0.Add (((s0.Sub s1).Normalize Sqrt).MulScalar (lw / 2))

/-- The second endpoint after its extension in `line` (context.go 308), which
is computed from the first endpoint after its extension. -/
def lineEnd (Sqrt : ℚ → ℚ) (lw : ℚ) (s0 s1 : Vector) : Vector :=
  s1.Add (((s1.Sub (lineStart Sqrt lw s0 s1)).Normalize Sqrt).MulScalar (lw / 2))

/-- A stand-in for `math.Sqrt` that is exact on the squares 25 and 36. -/
def sqrtFive (q : ℚ) : ℚ :=
  if q = 25 then 5 else if q = 36 then 6 else 1

/-- The entry `g[j][i]` of a grid, and zero outside the grid. -/
def gridVal (g : List (List Int)) (j i : Int) : Int :=
  (gridGet g j i).getD 0

/-- The grid has `nj` rows of `ni` entries. -/
def gridShape (g : List (List Int)) (nj ni : Int) : Prop :=
  (g.length : Int) = nj ∧ ∀ row ∈ g, (row.length : Int) = ni

/-- The sum of all entries of a grid: the number of ones of a 0/1 grid. -/
def gridOnes (g : List (List Int)) : Int :=
  (g.map List.sum).sum

/-- Every entry of the grid is 0 or 1. -/
def gridBits (g : List (List Int)) : Prop :=
  ∀ j i, gridVal g j i = 0 ∨ gridVal g j i = 1

/-- The cell `(i, j)` lies in the rectangle `f`. -/
def voxelFace.covers (f : voxelFace) (i j : Int) : Prop :=
  f.I0 ≤ i ∧ i ≤ f.I1 ∧ f.J0 ≤ j ∧ j ≤ f.J1

/-- The number of cells of the rectangle `f`. -/
def voxelFace.area (f : voxelFace) : Int :=
  (f.I1 - f.I0 + 1) * (f.J1 - f.J0 + 1)

instance (f : voxelFace) (i j : Int) : Decidable (f.covers i j) := by
  unfold voxelFace.covers
  infer_instance

/-- Every entry `w[j][i]` is the length of a run of ones of `a` that ends at
the cell `(j, i)` and extends to the left. -/
def wSound (a w : List (List Int)) : Prop :=
  ∀ j i, 0 ≤ gridVal w j i ∧
    ∀ i1, i - gridVal w j i < i1 → i1 ≤ i → gridVal a j i1 = 1

/-- Every entry `h[j][i]` is the length of a run of ones of `a` that ends at
the cell `(j, i)` and extends upwards, over cells whose `w` is positive. -/
def hSound (a w h : List (List Int)) : Prop :=
  ∀ j i, 0 ≤ gridVal h j i ∧
    ∀ j1, j - gridVal h j i < j1 → j1 ≤ j → gridVal a j1 i = 1 ∧ 1 ≤ gridVal w j1 i

/-- The rectangle `f` (in the coordinates of the faces) is not empty and all
its cells are ones of the grid `a`, whose origin is `(i0, j0)`. -/
def rectOnes (a : List (List Int)) (i0 j0 : Int) (f : voxelFace) : Prop :=
  f.I0 ≤ f.I1 ∧ f.J0 ≤ f.J1 ∧ ∀ i j, f.covers i j → gridVal a (j - j0) (i - i0) = 1

/-- The invariant of the scan: `w` and `h` are sound, and a positive
`maxArea` comes with a rectangle of ones. -/
def scanInv (a : List (List Int)) (nj ni i0 j0 : Int) (s : scanState) : Prop :=
  gridShape s.w nj ni ∧ gridShape s.h nj ni ∧ wSound a s.w ∧ hSound a s.w s.h ∧
    0 ≤ s.maxArea ∧ (0 < s.maxArea → rectOnes a i0 j0 s.maxFace)

/-- The invariant of the loop `for count > 0` of `combineVoxelFaces`: `a` is a
0/1 grid whose ones are counted by `count`, `w` and `h` are zero, the
rectangles found so far are not empty, pairwise disjoint and disjoint from
the ones of `a`, together with the ones of `a` they make up the cells
`cells`, and their areas and `count` add up to `N`. -/
def combineInv (cells : Int → Int → Prop) (N i0 j0 nj ni : Int) (s : combineState) : Prop :=
  gridShape s.a nj ni ∧ gridShape s.w nj ni ∧ gridShape s.h nj ni ∧ gridBits s.a ∧
  (∀ j i, gridVal s.w j i = 0 ∧ gridVal s.h j i = 0) ∧
  s.count = gridOnes s.a ∧
  (∀ r ∈ s.result, r.I0 ≤ r.I1 ∧ r.J0 ≤ r.J1) ∧
  s.result.Pairwise (fun r t => ∀ i j, ¬ (r.covers i j ∧ t.covers i j)) ∧
  (∀ r ∈ s.result, ∀ i j, r.covers i j → gridVal s.a (j - j0) (i - i0) = 0) ∧
  (∀ i j, cells i j ↔ (gridVal s.a (j - j0) (i - i0) = 1 ∨ ∃ r ∈ s.result, r.covers i j)) ∧
  (s.result.map voxelFace.area).sum + s.count = N

/-- Five unit faces in the shape of an L with a separate cell. -/
def sampleFaces : List voxelFace :=
  [⟨0, 0, 0, 0⟩, ⟨1, 0, 1, 0⟩, ⟨0, 1, 0, 1⟩, ⟨1, 1, 1, 1⟩, ⟨3, -1, 3, -1⟩]

/-- The shifts of `log2Aux` are usable: each is at most one more than the
sum of the shifts after it. -/
def shiftsOk : List Nat → Prop
  | [] => True
  | s :: ss => s ≤ ss.sum + 1 ∧ shiftsOk ss

/-- A 2x2 context whose depth buffer holds the depths 0, the binary64 value
nearest to 1/65535, 1 and one cleared entry. -/
def depthRoundingContext : Context :=
  { context2x2 with DepthBuffer := [0, 281479271743489 / 18446744073709551616, 1, MaxFloat64] }

/-- The vertex with the NDC position `(x, y, 0)`, `x` and `y` rounded to
binary64 as the Go literals are. -/
def sliverVertex (x y : ℚ) : Vertex :=
  sampleVertex (roundF64 x) (roundF64 y) 0 1 White

/-- A vector of the rational embedding as a vector over the field `ℚ`. -/
def Vector.over (a : Vector) : VectorOver ℚ :=
  ⟨a.X, a.Y, a.Z⟩

/-- A vector over the field `ℚ` as a vector of the rational embedding. -/
def VectorOver.toVector (a : VectorOver ℚ) : Vector :=
  ⟨a.X, a.Y, a.Z⟩

/-- The vector `n` of `line` (context.go 306) over the field `K`. -/
def lineNormalOver {K : Type} [LinearOrderedField K] (Sqrt : K → K) (lw : K)
    (s0 s1 : VectorOver K) : VectorOver K :=
  ((s1.Sub s0).Perpendicular Sqrt).MulScalar (lw / 2)

/-- The first endpoint after its extension in `line` (context.go 307) over
the field `K`. -/
def lineStartOver {K : Type} [LinearOrderedField K] (Sqrt : K → K) (lw : K)
    (s0 s1 : VectorOver K) : VectorOver K :=
  s0.Add (((s0.Sub s1).Normalize Sqrt).MulScalar (lw / 2))

/-- The second endpoint after its extension in `line` (context.go 308) over
the field `K`, computed from the first endpoint after its extension. -/
def lineEndOver {K : Type} [LinearOrderedField K] (Sqrt : K → K) (lw : K)
    (s0 s1 : VectorOver K) : VectorOver K :=
  s1.Add (((s1.Sub (lineStartOver Sqrt lw s0 s1)).Normalize Sqrt).MulScalar (lw / 2))

/-- The squared length of a vector over the field `K`. -/
def VectorOver.LengthSquared {K : Type} [LinearOrderedField K] (a : VectorOver K) : K :=
  a.X * a.X + a.Y * a.Y + a.Z * a.Z

/-- The function `Sqrt` returns the non-negative square root of `q`. -/
def SqrtExactOver {K : Type} [LinearOrderedField K] (Sqrt : K → K) (q : K) : Prop :=
  0 ≤ Sqrt q ∧ Sqrt q * Sqrt q = q

/-- The grid with origin `(i0, j0)`, `nj` rows and `ni` columns lies in the
range of `int`, below the largest `int`, and has fewer than `2^63` cells. -/
def gridFits (i0 j0 nj ni : Int) : Prop :=
  -2 ^ 63 ≤ i0 ∧ i0 + ni < 2 ^ 63 ∧ -2 ^ 63 ≤ j0 ∧ j0 + nj < 2 ^ 63 ∧
    ni < 2 ^ 63 ∧ nj < 2 ^ 63 ∧ nj * ni < 2 ^ 63

/-! ## Theorems -/

theorem interp_scalar (b0 b1 b2 w0 w1 w2 a0 a1 a2 : ℚ) :
    (0 + a0 * (b0 * (1 / w0)) + a1 * (b1 * (1 / w1)) + a2 * (b2 * (1 / w2))) *
        (1 / (b0 * (1 / w0) + b1 * (1 / w1) + b2 * (1 / w2))) =
      perspective b0 b1 b2 w0 w1 w2 a0 a1 a2 := by
  unfold perspective
  simp only [div_eq_mul_inv, one_mul, zero_add]
  ring

theorem set4_length (l : List Nat) (i a b c d : Nat) :
    ((((l.set i a).set (i + 1) b).set (i + 2) c).set (i + 3) d).length = l.length := by
  simp

theorem set4_bytes (l : List Nat) (i a b c d : Nat) (hl : ∀ v ∈ l, v < 256)
    (ha : a < 256) (hb : b < 256) (hc : c < 256) (hd : d < 256) :
    ∀ v ∈ (((l.set i a).set (i + 1) b).set (i + 2) c).set (i + 3) d, v < 256 := by
  intro v hv
  rcases List.mem_or_eq_of_mem_set hv with hv | rfl
  · rcases List.mem_or_eq_of_mem_set hv with hv | rfl
    · rcases List.mem_or_eq_of_mem_set hv with hv | rfl
      · rcases List.mem_or_eq_of_mem_set hv with hv | rfl
        · exact hl v hv
        · exact ha
      · exact hb
    · exact hc
  · exact hd

theorem blendChannel_lt (d a s : Nat) : blendChannel d a s < 256 := by
  unfold blendChannel
  exact Nat.mod_lt _ (by norm_num)

theorem pixOffset_wf (dc : Context) (hwf : dc.WellFormed) (x y : Int) :
    dc.ColorBuffer.PixOffset x y = 4 * (y * dc.Width + x) := by
  obtain ⟨_, _, _, _, hs, hr, _, _⟩ := hwf
  simp only [image.NRGBA.PixOffset, hs, hr]
  ring

theorem index_some {α : Type} (s : List α) (i : Int) (h0 : 0 ≤ i) (h1 : i < s.length) :
    ∃ v, image.index s i = some v ∧ v ∈ s := by
  have h : i.toNat < s.length := by omega
  refine ⟨s[i.toNat], ?_, List.getElem_mem h⟩
  simp [image.index, h0, h]

theorem setNRGBA_frame (p : image.NRGBA) (x y : Int) (c : color.NRGBA) (W H : Int)
    (hW : 0 ≤ W) (hp : (p.Pix.length : Int) = 4 * W * H) (hs : p.Stride = 4 * W)
    (hr : p.Rect = ⟨⟨0, 0⟩, ⟨W, H⟩⟩) (hb : ∀ b ∈ p.Pix, b < 256) :
    ∃ pix, pix.length = p.Pix.length ∧ (∀ b ∈ pix, b < 256) ∧
      p.SetNRGBA x y c = some { p with Pix := pix } := by
  by_cases hin : image.Point.In ⟨x, y⟩ p.Rect = true
  · have hin2 := hin
    simp only [image.Point.In, hr, decide_eq_true_eq] at hin2
    obtain ⟨hx0, hx1, hy0, hy1⟩ := hin2
    have hoff : p.PixOffset x y = 4 * (y * W + x) := by
      simp only [image.NRGBA.PixOffset, hs, hr]
      ring
    have hyw0 : 0 ≤ y * W := mul_nonneg hy0 hW
    have hcond : 0 ≤ p.PixOffset x y ∧ p.PixOffset x y + 4 ≤ (p.Pix.length : Int) := by
      rw [hoff, hp, mul_assoc]
      constructor
      · omega
      · nlinarith
    simp only [image.NRGBA.SetNRGBA, hin, not_true_eq_false, if_false, hcond, and_self, if_true]
    refine ⟨_, ?_, ?_, rfl⟩
    · simp
    · exact set4_bytes _ _ _ _ _ _ hb (Nat.mod_lt _ (by norm_num)) (Nat.mod_lt _ (by norm_num))
        (Nat.mod_lt _ (by norm_num)) (Nat.mod_lt _ (by norm_num))
  · simp only [image.NRGBA.SetNRGBA, hin, not_false_eq_true, if_true]
    exact ⟨_, rfl, hb, rfl⟩

/-- Under a well-formed context the colour write of an in-range pixel succeeds
and changes only the contents of the colour bytes. -/
theorem writeColor_frame (dc : Context) (hwf : dc.WellFormed) (x y : Int)
    (hi : indexInRange dc x y) (color : Color) :
    ∃ pix, pix.length = dc.ColorBuffer.Pix.length ∧ (∀ b ∈ pix, b < 256) ∧
      writeColor dc x y color = some (dc.withBuffers dc.DepthBuffer pix) := by
  have hoff := pixOffset_wf dc hwf x y
  obtain ⟨hW, hH, hd, hp, hs, hr, hb, _⟩ := hwf
  obtain ⟨hi0, hi1⟩ := hi
  unfold writeColor
  split_ifs with hblend
  · have hj0 : 0 ≤ dc.ColorBuffer.PixOffset x y := by rw [hoff]; omega
    have hj1 : dc.ColorBuffer.PixOffset x y + 3 < dc.ColorBuffer.Pix.length := by
      rw [hoff, hp, mul_assoc]; omega
    obtain ⟨dr, hdr, _⟩ := index_some dc.ColorBuffer.Pix (dc.ColorBuffer.PixOffset x y + 0)
      (by omega) (by omega)
    obtain ⟨dg, hdg, _⟩ := index_some dc.ColorBuffer.Pix (dc.ColorBuffer.PixOffset x y + 1)
      (by omega) (by omega)
    obtain ⟨db, hdb, _⟩ := index_some dc.ColorBuffer.Pix (dc.ColorBuffer.PixOffset x y + 2)
      (by omega) (by omega)
    obtain ⟨da, hda, _⟩ := index_some dc.ColorBuffer.Pix (dc.ColorBuffer.PixOffset x y + 3)
      (by omega) (by omega)
    simp only [hdr, hdg, hdb, hda]
    refine ⟨_, ?_, ?_, rfl⟩
    · simp
    · have e1 : (dc.ColorBuffer.PixOffset x y + 1).toNat
          = (dc.ColorBuffer.PixOffset x y + 0).toNat + 1 := by omega
      have e2 : (dc.ColorBuffer.PixOffset x y + 2).toNat
          = (dc.ColorBuffer.PixOffset x y + 0).toNat + 2 := by omega
      have e3 : (dc.ColorBuffer.PixOffset x y + 3).toNat
          = (dc.ColorBuffer.PixOffset x y + 0).toNat + 3 := by omega
      rw [e1, e2, e3]
      exact set4_bytes _ _ _ _ _ _ hb (blendChannel_lt _ _ _) (blendChannel_lt _ _ _)
        (blendChannel_lt _ _ _) (blendChannel_lt _ _ _)
  · obtain ⟨pix, h1, h2, h3⟩ := setNRGBA_frame dc.ColorBuffer x y color.NRGBA dc.Width dc.Height
      hW hp hs hr hb
    exact ⟨pix, h1, h2, by rw [h3]; rfl⟩

theorem wellFormed_withBuffers (dc : Context) (hwf : dc.WellFormed) (depth : List ℚ)
    (pix : List Nat) (hd : depth.length = dc.DepthBuffer.length)
    (hp : pix.length = dc.ColorBuffer.Pix.length) (hb : ∀ b ∈ pix, b < 256) :
    (dc.withBuffers depth pix).WellFormed := by
  obtain ⟨hW, hH, hd0, hp0, hs, hr, _, hl⟩ := hwf
  refine ⟨hW, hH, ?_, ?_, hs, hr, hb, hl⟩
  · simp only [Context.withBuffers, hd]
    exact hd0
  · simp only [Context.withBuffers, hp]
    exact hp0

/-- Under a well-formed context the buffer writes of a fragment succeed; the
depth buffer receives `z` at `i` exactly when `WriteDepth` is set. -/
theorem writePixel_frame (dc : Context) (hwf : dc.WellFormed) (x y : Int)
    (hi : indexInRange dc x y) (i : Nat) (z : ℚ) (color : Color) :
    ∃ pix, pix.length = dc.ColorBuffer.Pix.length ∧ (∀ b ∈ pix, b < 256) ∧
      (dc.WriteColor = false → pix = dc.ColorBuffer.Pix) ∧
      writePixel dc x y i z color = some (dc.withBuffers
        (if dc.WriteDepth then dc.DepthBuffer.set i z else dc.DepthBuffer) pix) := by
  have hb := hwf.2.2.2.2.2.2.1
  have hlen : (if dc.WriteDepth = true then dc.DepthBuffer.set i z else dc.DepthBuffer).length
      = dc.DepthBuffer.length := by
    split_ifs <;> simp
  have e : (if dc.WriteDepth = true then { dc with DepthBuffer := dc.DepthBuffer.set i z } else dc)
      = dc.withBuffers (if dc.WriteDepth = true then dc.DepthBuffer.set i z else dc.DepthBuffer)
          dc.ColorBuffer.Pix := by
    split_ifs <;> rfl
  have hwf1 := wellFormed_withBuffers dc hwf _ _ hlen rfl hb
  have hi1 : indexInRange (dc.withBuffers
      (if dc.WriteDepth = true then dc.DepthBuffer.set i z else dc.DepthBuffer)
      dc.ColorBuffer.Pix) x y := by
    unfold indexInRange
    simp only [Context.withBuffers, hlen]
    exact hi
  simp only [writePixel, e]
  by_cases hwc : dc.WriteColor = true
  · obtain ⟨pix, h1, h2, h3⟩ := writeColor_frame _ hwf1 x y hi1 color
    refine ⟨pix, h1, h2, by simp [hwc], ?_⟩
    simp only [show ∀ d p, (dc.withBuffers d p).WriteColor = dc.WriteColor from fun _ _ => rfl,
      hwc, if_true]
    exact h3
  · refine ⟨dc.ColorBuffer.Pix, rfl, hb, fun _ => rfl, ?_⟩
    simp only [show ∀ d p, (dc.withBuffers d p).WriteColor = dc.WriteColor from fun _ _ => rfl,
      hwc]
    rfl

theorem depth_index_some (dc : Context) (x y : Int) (hi : indexInRange dc x y) :
    ∃ depth, dc.DepthBuffer[(y * dc.Width + x).toNat]? = some depth := by
  obtain ⟨h0, h1⟩ := hi
  have h : (y * dc.Width + x).toNat < dc.DepthBuffer.length := by omega
  exact ⟨dc.DepthBuffer[(y * dc.Width + x).toNat], List.getElem?_eq_getElem h⟩

theorem lock_index_ok (dc : Context) (hwf : dc.WellFormed) (x y : Int) :
    ¬ ¬ ((x + y) % 256).toNat < dc.locks := by
  rw [hwf.2.2.2.2.2.2.2]
  omega

/-- The result of `depthTestAndWrite` in closed form, for a well-formed context
and a pixel whose index lies in the depth buffer. -/
theorem depthTestAndWrite_eq (dc : Context) (hwf : dc.WellFormed) (x y : Int)
    (hi : indexInRange dc x y) (z : ℚ) (color : Color) (info : RasterizeInfo) :
    ∃ depth pix, dc.DepthBuffer[(y * dc.Width + x).toNat]? = some depth ∧
      pix.length = dc.ColorBuffer.Pix.length ∧ (∀ b ∈ pix, b < 256) ∧
      (dc.WriteColor = false → pix = dc.ColorBuffer.Pix) ∧
      depthTestAndWrite dc x y (y * dc.Width + x).toNat z color info =
        some (if color ≠ Discard ∧ (dc.ReadDepth = false ∨ z + dc.DepthBias ≤ depth) then
          (dc.withBuffers (if dc.WriteDepth = true then
            dc.DepthBuffer.set (y * dc.Width + x).toNat z else dc.DepthBuffer) pix,
            ({ info with UpdatedPixels := info.UpdatedPixels + 1 } : RasterizeInfo))
          else (dc, info)) := by
  obtain ⟨depth, hdepth⟩ := depth_index_some dc x y hi
  obtain ⟨pix, hp1, hp2, hp3, hw⟩ :=
    writePixel_frame dc hwf x y hi (y * dc.Width + x).toNat z color
  refine ⟨depth, pix, hdepth, hp1, hp2, hp3, ?_⟩
  simp only [depthTestAndWrite, hdepth, hw, Option.map_some', if_neg (lock_index_ok dc hwf x y)]
  by_cases hupd : color ≠ Discard ∧ (dc.ReadDepth = false ∨ z + dc.DepthBias ≤ depth)
  · obtain ⟨hc, hd⟩ := hupd
    have h1 : ¬ (dc.ReadDepth = true ∧ z + dc.DepthBias > depth) := by
      rintro ⟨hr, hgt⟩
      rcases hd with hd | hd
      · simp [hr] at hd
      · exact absurd hd (not_le.mpr hgt)
    have h3 : z + dc.DepthBias ≤ depth ∨ ¬ dc.ReadDepth = true := by
      rcases hd with hd | hd
      · exact Or.inr (by simp [hd])
      · exact Or.inl hd
    have hupd : color ≠ Discard ∧ (dc.ReadDepth = false ∨ z + dc.DepthBias ≤ depth) := ⟨hc, hd⟩
    rw [if_neg h1, if_neg hc, if_pos h3, if_pos hupd]
  · rw [if_neg hupd]
    by_cases h1 : dc.ReadDepth = true ∧ z + dc.DepthBias > depth
    · rw [if_pos h1]
    · rw [if_neg h1]
      by_cases h2 : color = Discard
      · rw [if_pos h2]
      · rw [if_neg h2, if_neg]
        intro h3
        apply hupd
        refine ⟨h2, ?_⟩
        rcases h3 with h3 | h3
        · exact Or.inr h3
        · exact Or.inl (by simpa using h3)

/-- C3. Depth test and write for one fragment of a well-formed context at a
pixel whose index `i = y*Width + x` lies in the depth buffer: with
`bz = z + DepthBias`, the pixel is updated (`UpdatedPixels` grows by one)
exactly when the colour is not `Discard` and `ReadDepth` is false or
`bz ≤ DepthBuffer[i]`, and otherwise nothing changes; an update with
`WriteDepth` stores the raw `z` in `DepthBuffer[i]`; without `WriteDepth` the
depth buffer is unchanged. -/
theorem depthTestAndWrite_spec (dc : Context) (hwf : dc.WellFormed) (x y : Int)
    (hi : indexInRange dc x y) (z : ℚ) (color : Color) (info : RasterizeInfo) :
    ∃ depth dc2 info2, dc.DepthBuffer[(y * dc.Width + x).toNat]? = some depth ∧
      depthTestAndWrite dc x y (y * dc.Width + x).toNat z color info = some (dc2, info2) ∧
      ((color ≠ Discard ∧ (dc.ReadDepth = false ∨ z + dc.DepthBias ≤ depth)) →
        info2.UpdatedPixels = info.UpdatedPixels + 1 ∧
        (dc.WriteDepth = true → dc2.DepthBuffer[(y * dc.Width + x).toNat]? = some z)) ∧
      (¬ (color ≠ Discard ∧ (dc.ReadDepth = false ∨ z + dc.DepthBias ≤ depth)) →
        info2 = info ∧ dc2.DepthBuffer = dc.DepthBuffer ∧ dc2.ColorBuffer = dc.ColorBuffer) ∧
      (dc.WriteDepth = false → dc2.DepthBuffer = dc.DepthBuffer) := by
  obtain ⟨depth, pix, hdepth, _, _, _, hres⟩ := depthTestAndWrite_eq dc hwf x y hi z color info
  have hlt : (y * dc.Width + x).toNat < dc.DepthBuffer.length := by
    obtain ⟨h0, h1⟩ := hi
    omega
  by_cases hupd : color ≠ Discard ∧ (dc.ReadDepth = false ∨ z + dc.DepthBias ≤ depth)
  · rw [if_pos hupd] at hres
    refine ⟨depth, _, _, hdepth, hres, fun _ => ⟨rfl, fun hwd => ?_⟩, fun hn => absurd hupd hn,
      fun hwd => ?_⟩
    · simp [Context.withBuffers, hwd, hlt]
    · simp [Context.withBuffers, hwd]
  · rw [if_neg hupd] at hres
    exact ⟨depth, dc, info, hdepth, hres, fun h => absurd h hupd, fun _ => ⟨rfl, rfl, rfl⟩,
      fun _ => rfl⟩

theorem depthTestAndWrite_spec_witness :
    ∃ dc2 info2,
      depthTestAndWrite context2x2 1 1 3 (1 / 2) ⟨1, 0, 0, 1⟩ ⟨1, 0⟩ = some (dc2, info2) ∧
      info2.UpdatedPixels = 1 ∧ dc2.DepthBuffer[3]? = some (1 / 2) := by
  obtain ⟨depth, dc2, info2, hd, hres, hupd, _, _⟩ :=
    depthTestAndWrite_spec context2x2 (by decide!) 1 1 (by decide!) (1 / 2) ⟨1, 0, 0, 1⟩ ⟨1, 0⟩
  have hd2 : depth = MaxFloat64 := by
    have h : context2x2.DepthBuffer[(1 * context2x2.Width + 1).toNat]? = some MaxFloat64 := by
      decide!
    rw [h] at hd
    exact (Option.some.inj hd).symm
  have h := hupd ⟨by decide!, Or.inr (by rw [hd2]; decide!)⟩
  exact ⟨dc2, info2, hres, h.1, h.2 (by decide!)⟩

theorem fragment_frame (Sqrt : ℚ → ℚ) (dc : Context) (hwf : dc.WellFormed) (v0 v1 v2 : Vertex)
    (s0 s1 s2 : Vector) (x y : Int) (b0 b1 b2 : ℚ) (info : RasterizeInfo) :
    ∃ depth pix info2, depth.length = dc.DepthBuffer.length ∧
      pix.length = dc.ColorBuffer.Pix.length ∧ (∀ b ∈ pix, b < 256) ∧
      fragment Sqrt dc v0 v1 v2 s0 s1 s2 x y b0 b1 b2 info
        = some (dc.withBuffers depth pix, info2) ∧
      info2.TotalPixels = info.TotalPixels + (if indexInRange dc x y then 1 else 0) := by
  by_cases hi : indexInRange dc x y
  · have hcond : ¬ (y * dc.Width + x < 0 ∨ y * dc.Width + x ≥ dc.DepthBuffer.length) := by
      obtain ⟨h0, h1⟩ := hi
      omega
    obtain ⟨depth, pix, _, hp1, hp2, _, hres⟩ := depthTestAndWrite_eq dc hwf x y hi
      (b0 * s0.Z + b1 * s1.Z + b2 * s2.Z)
      (dc.Shader.Fragment (fragmentVertex Sqrt v0 v1 v2 b0 b1 b2))
      { info with TotalPixels := info.TotalPixels + 1 }
    simp only [fragment, if_neg hcond, hres, if_pos hi]
    by_cases hupd : dc.Shader.Fragment (fragmentVertex Sqrt v0 v1 v2 b0 b1 b2) ≠ Discard ∧
        (dc.ReadDepth = false ∨ b0 * s0.Z + b1 * s1.Z + b2 * s2.Z + dc.DepthBias ≤ depth)
    · rw [if_pos hupd]
      exact ⟨_, pix, _, by split_ifs <;> simp, hp1, hp2, rfl, rfl⟩
    · rw [if_neg hupd]
      exact ⟨dc.DepthBuffer, dc.ColorBuffer.Pix, _, rfl, rfl, hwf.2.2.2.2.2.2.1, rfl, rfl⟩
  · have hcond : y * dc.Width + x < 0 ∨ y * dc.Width + x ≥ dc.DepthBuffer.length := by
      unfold indexInRange at hi
      omega
    simp only [fragment, if_pos hcond, if_neg hi]
    exact ⟨dc.DepthBuffer, dc.ColorBuffer.Pix, info, rfl, rfl, hwf.2.2.2.2.2.2.1, rfl, rfl⟩

theorem set_same {α : Type} (l : List α) (i : Nat) (v : α) (h : l[i]? = some v) :
    l.set i v = l := by
  apply List.ext_getElem?
  intro n
  rw [List.getElem?_set]
  split_ifs with h1 h2
  · rw [← h1, h]
  · exfalso
    rw [List.getElem?_eq_some] at h
    obtain ⟨hlt, _⟩ := h
    exact h2 hlt
  · rfl

theorem index_toNat {α : Type} (s : List α) (i : Int) (v : α) (h : image.index s i = some v) :
    s[i.toNat]? = some v := by
  unfold image.index at h
  split_ifs at h
  exact h

theorem blendChannel_zero_alpha : ∀ d, d < 256 → blendChannel d (sub32 0xffff 0 * 0x101 % 2 ^ 32) 0 = d := by
  decide!

theorem toUint8_lt (q : ℚ) : toUint8 q < 256 := by
  unfold toUint8
  have h := Int.emod_lt_of_pos (truncInt q) (show (0 : Int) < 256 by norm_num)
  have h0 := Int.emod_nonneg (truncInt q) (show (256 : Int) ≠ 0 by norm_num)
  omega

theorem nrgba_alpha_zero (c : Color) (h : c.A = 0) : c.NRGBA.A = 0 := by
  norm_num [Color.NRGBA, h, Clamp, toUint8, truncInt]

theorem rgba_alpha_zero (c : color.NRGBA) (h : c.A = 0) : c.RGBA = (0, 0, 0, 0) := by
  simp [color.NRGBA.RGBA, color.premul, h]

theorem nrgbaAt_set4 (p : image.NRGBA) (x y : Int) (r g b a : Nat)
    (hin : image.Point.In ⟨x, y⟩ p.Rect = true)
    (h0 : 0 ≤ p.PixOffset x y) (h1 : p.PixOffset x y + 4 ≤ (p.Pix.length : Int)) :
    image.NRGBA.NRGBAAt ⟨(((p.Pix.set (p.PixOffset x y).toNat r).set
      ((p.PixOffset x y).toNat + 1) g).set ((p.PixOffset x y).toNat + 2) b).set
      ((p.PixOffset x y).toNat + 3) a, p.Stride, p.Rect⟩ x y = some ⟨r, g, b, a⟩ := by
  simp only [image.NRGBA.NRGBAAt, hin, not_true_eq_false, if_false, image.NRGBA.PixOffset]
  simp only [image.NRGBA.PixOffset] at h0 h1
  generalize (y - p.Rect.Min.Y) * p.Stride + (x - p.Rect.Min.X) * 4 = j at h0 h1
  have hj : j.toNat + 3 < p.Pix.length := by omega
  have e1 : (j + 1).toNat = j.toNat + 1 := by omega
  have e2 : (j + 2).toNat = j.toNat + 2 := by omega
  have e3 : (j + 3).toNat = j.toNat + 3 := by omega
  have i0 : (0 : Int) ≤ j + 1 := by omega
  have i1 : (0 : Int) ≤ j + 2 := by omega
  have i2 : (0 : Int) ≤ j + 3 := by omega
  simp only [image.index, h0, i0, i1, i2, if_true, e1, e2, e3]
  simp [List.getElem?_set, hj, (by omega : j.toNat < p.Pix.length),
    (by omega : j.toNat + 1 < p.Pix.length), (by omega : j.toNat + 2 < p.Pix.length)]

/-- C10. Alpha-blend identity, for a well-formed context with `AlphaBlend`
set and a pixel whose index lies in the depth buffer: (i) a fragment with
alpha 1 is written by `SetNRGBA`, exactly as without `AlphaBlend`, and a pixel
inside the image then holds the bytes `color.NRGBA()`; (ii) a fragment with
alpha 0 leaves the context, hence the four destination bytes, unchanged. -/
theorem alpha_blend_identity (dc : Context) (hwf : dc.WellFormed) (x y : Int)
    (hi : indexInRange dc x y) (color : Color) (hab : dc.AlphaBlend = true) :
    (color.A = 1 →
      (writeColor dc x y color).map (fun d => d.ColorBuffer)
          = dc.ColorBuffer.SetNRGBA x y color.NRGBA ∧
        (writeColor { dc with AlphaBlend := false } x y color).map (fun d => d.ColorBuffer)
          = dc.ColorBuffer.SetNRGBA x y color.NRGBA ∧
        (image.Point.In ⟨x, y⟩ dc.ColorBuffer.Rect = true →
          (writeColor dc x y color).bind (fun d => d.ColorBuffer.NRGBAAt x y)
            = some color.NRGBA)) ∧
    (color.A = 0 → writeColor dc x y color = some dc) := by
  constructor
  · intro hA
    have hnb : ¬ (dc.AlphaBlend = true ∧ color.A < 1) := by
      rw [hA]
      simp
    have e1 : writeColor dc x y color = (dc.ColorBuffer.SetNRGBA x y color.NRGBA).map
        (fun im => { dc with ColorBuffer := im }) := by
      simp only [writeColor, if_neg hnb]
    have e2 : writeColor { dc with AlphaBlend := false } x y color
        = (dc.ColorBuffer.SetNRGBA x y color.NRGBA).map
          (fun im => { dc with AlphaBlend := false, ColorBuffer := im }) := by
      simp [writeColor]
    refine ⟨?_, ?_, ?_⟩
    · rw [e1]
      cases dc.ColorBuffer.SetNRGBA x y color.NRGBA <;> rfl
    · rw [e2]
      cases dc.ColorBuffer.SetNRGBA x y color.NRGBA <;> rfl
    · intro hin
      have hoff := pixOffset_wf dc hwf x y
      obtain ⟨hW, hH, hd, hp, hs, hr, hb, _⟩ := hwf
      have hin2 := hin
      simp only [image.Point.In, hr, decide_eq_true_eq] at hin2
      obtain ⟨hx0, hx1, hy0, hy1⟩ := hin2
      have hyw0 : 0 ≤ y * dc.Width := mul_nonneg hy0 hW
      have hcond : 0 ≤ dc.ColorBuffer.PixOffset x y ∧
          dc.ColorBuffer.PixOffset x y + 4 ≤ (dc.ColorBuffer.Pix.length : Int) := by
        rw [hoff, hp, mul_assoc]
        constructor
        · omega
        · nlinarith
      rw [e1]
      simp only [image.NRGBA.SetNRGBA, hin, not_true_eq_false, if_false, hcond, and_self, if_true,
        Option.map_some', Option.some_bind]
      rw [nrgbaAt_set4 dc.ColorBuffer x y _ _ _ _ hin hcond.1 hcond.2]
      have hmod : ∀ q : ℚ, toUint8 q % 256 = toUint8 q := fun q =>
        Nat.mod_eq_of_lt (toUint8_lt q)
      simp only [Color.NRGBA, hmod]
  · intro hA
    have hoff := pixOffset_wf dc hwf x y
    obtain ⟨hW, hH, hd, hp, hs, hr, hb, _⟩ := hwf
    obtain ⟨hi0, hi1⟩ := hi
    have hblend : dc.AlphaBlend = true ∧ color.A < 1 := by
      rw [hA]
      exact ⟨hab, by norm_num⟩
    have hj0 : 0 ≤ dc.ColorBuffer.PixOffset x y := by rw [hoff]; omega
    have hj1 : dc.ColorBuffer.PixOffset x y + 3 < dc.ColorBuffer.Pix.length := by
      rw [hoff, hp, mul_assoc]; omega
    obtain ⟨dr, hdr, mr⟩ := index_some dc.ColorBuffer.Pix (dc.ColorBuffer.PixOffset x y + 0)
      (by omega) (by omega)
    obtain ⟨dg, hdg, mg⟩ := index_some dc.ColorBuffer.Pix (dc.ColorBuffer.PixOffset x y + 1)
      (by omega) (by omega)
    obtain ⟨db, hdb, mb⟩ := index_some dc.ColorBuffer.Pix (dc.ColorBuffer.PixOffset x y + 2)
      (by omega) (by omega)
    obtain ⟨da, hda, ma⟩ := index_some dc.ColorBuffer.Pix (dc.ColorBuffer.PixOffset x y + 3)
      (by omega) (by omega)
    simp only [writeColor, if_pos hblend, rgba_alpha_zero _ (nrgba_alpha_zero color hA), hdr, hdg,
      hdb, hda]
    rw [blendChannel_zero_alpha dr (hb dr mr), blendChannel_zero_alpha dg (hb dg mg),
      blendChannel_zero_alpha db (hb db mb), blendChannel_zero_alpha da (hb da ma)]
    rw [set_same _ _ _ (index_toNat _ _ _ hdr)]
    rw [set_same _ _ _ (index_toNat _ _ _ hdg)]
    rw [set_same _ _ _ (index_toNat _ _ _ hdb)]
    rw [set_same _ _ _ (index_toNat _ _ _ hda)]

theorem alpha_blend_identity_witness :
    writeColor context2x2 1 1 ⟨1, 0, 0, 0⟩ = some context2x2 ∧
      (writeColor context2x2 1 1 ⟨1, 0, 0, 1⟩).bind (fun d => d.ColorBuffer.NRGBAAt 1 1)
        = some ⟨255, 0, 0, 255⟩ := by
  have h := alpha_blend_identity context2x2 (by decide!) 1 1 (by decide!)
  refine ⟨(h ⟨1, 0, 0, 0⟩ (by decide!)).2 rfl, ?_⟩
  have h2 := ((h ⟨1, 0, 0, 1⟩ (by decide!)).1 rfl).2.2 (by decide!)
  rw [h2]
  decide!

theorem fragment_discard (Sqrt : ℚ → ℚ) (dc : Context) (v0 v1 v2 : Vertex) (s0 s1 s2 : Vector)
    (x y : Int) (b0 b1 b2 : ℚ) (info : RasterizeInfo)
    (h : dc.Shader.Fragment (fragmentVertex Sqrt v0 v1 v2 b0 b1 b2) = Discard) :
    ∃ info2, fragment Sqrt dc v0 v1 v2 s0 s1 s2 x y b0 b1 b2 info = some (dc, info2) ∧
      info2.UpdatedPixels = info.UpdatedPixels := by
  by_cases hi : indexInRange dc x y
  · have hcond : ¬ (y * dc.Width + x < 0 ∨ y * dc.Width + x ≥ dc.DepthBuffer.length) := by
      obtain ⟨h0, h1⟩ := hi
      omega
    obtain ⟨depth, hdepth⟩ := depth_index_some dc x y hi
    simp only [fragment, if_neg hcond, depthTestAndWrite, hdepth, h, if_true]
    split_ifs
    · exact ⟨_, rfl, rfl⟩
    · exact ⟨_, rfl, rfl⟩
  · have hcond : y * dc.Width + x < 0 ∨ y * dc.Width + x ≥ dc.DepthBuffer.length := by
      unfold indexInRange at hi
      omega
    simp only [fragment, if_pos hcond]
    exact ⟨info, rfl, rfl⟩

theorem rasterizeRow_discard (Sqrt : ℚ → ℚ) (dc : Context) (v0 v1 v2 : Vertex)
    (s0 s1 s2 : Vector) (y : Int) (h : ∀ v, dc.Shader.Fragment v = Discard) :
    ∀ (n : Nat) (x : Int) (w0 w1 w2 : ℚ) (wasInside : Bool) (info : RasterizeInfo),
      ∃ info2, rasterizeRow Sqrt v0 v1 v2 s0 s1 s2 y n x w0 w1 w2 wasInside dc info
          = some (dc, info2) ∧ info2.UpdatedPixels = info.UpdatedPixels := by
  intro n
  induction n with
  | zero =>
    intro x w0 w1 w2 wasInside info
    exact ⟨info, rfl, rfl⟩
  | succ n ih =>
    intro x w0 w1 w2 wasInside info
    simp only [rasterizeRow]
    split_ifs with hout hwas
    · exact ⟨info, rfl, rfl⟩
    · exact ih _ _ _ _ _ _
    · obtain ⟨info1, hf, hu⟩ := fragment_discard Sqrt dc v0 v1 v2 s0 s1 s2 x y
        (w0 * (1 / edge s0 s1 s2)) (w1 * (1 / edge s0 s1 s2)) (w2 * (1 / edge s0 s1 s2)) info
        (h _)
      rw [hf]
      obtain ⟨info2, hr, hu2⟩ := ih (x + 1) (w0 + (s2.Y - s1.Y)) (w1 + (s0.Y - s2.Y))
        (w2 + (s1.Y - s0.Y)) true info1
      exact ⟨info2, hr, hu2.trans hu⟩

theorem rasterizeRows_discard (Sqrt : ℚ → ℚ) (dc : Context) (v0 v1 v2 : Vertex)
    (s0 s1 s2 : Vector) (x0 x1 : Int) (h : ∀ v, dc.Shader.Fragment v = Discard) :
    ∀ (n : Nat) (y : Int) (w00 w01 w02 : ℚ) (info : RasterizeInfo),
      ∃ info2, rasterizeRows Sqrt v0 v1 v2 s0 s1 s2 x0 x1 n y w00 w01 w02 dc info
          = some (dc, info2) ∧ info2.UpdatedPixels = info.UpdatedPixels := by
  intro n
  induction n with
  | zero =>
    intro y w00 w01 w02 info
    exact ⟨info, rfl, rfl⟩
  | succ n ih =>
    intro y w00 w01 w02 info
    simp only [rasterizeRows]
    obtain ⟨info1, hf, hu⟩ := rasterizeRow_discard Sqrt dc v0 v1 v2 s0 s1 s2 y h
      (x1 - (x0 + truncInt (skipAhead s0 s1 s2 w00 w01 w02)) + 1).toNat
      (x0 + truncInt (skipAhead s0 s1 s2 w00 w01 w02))
      (w00 + (s2.Y - s1.Y) * skipAhead s0 s1 s2 w00 w01 w02)
      (w01 + (s0.Y - s2.Y) * skipAhead s0 s1 s2 w00 w01 w02)
      (w02 + (s1.Y - s0.Y) * skipAhead s0 s1 s2 w00 w01 w02) false info
    rw [hf]
    obtain ⟨info2, hr, hu2⟩ := ih (y + 1) (w00 + (s1.X - s2.X)) (w01 + (s2.X - s0.X))
      (w02 + (s0.X - s1.X)) info1
    exact ⟨info2, hr, hu2.trans hu⟩

/-- C4. Discard skips the pixel entirely: when the fragment shader returns
`Discard` for a fragment, the pixel step leaves the context (depth entry and
colour bytes) unchanged and does not increment `UpdatedPixels`; when it
returns `Discard` for every fragment, `rasterize` returns the unchanged
context and `UpdatedPixels = 0`. -/
theorem discard_skips_pixel (Sqrt : ℚ → ℚ) (dc : Context) (v0 v1 v2 : Vertex)
    (s0 s1 s2 : Vector) :
    (∀ (x y : Int) (b0 b1 b2 : ℚ) (info : RasterizeInfo),
      dc.Shader.Fragment (fragmentVertex Sqrt v0 v1 v2 b0 b1 b2) = Discard →
      ∃ info2, fragment Sqrt dc v0 v1 v2 s0 s1 s2 x y b0 b1 b2 info = some (dc, info2) ∧
        info2.UpdatedPixels = info.UpdatedPixels) ∧
    ((∀ v, dc.Shader.Fragment v = Discard) →
      ∃ info, rasterize Sqrt dc v0 v1 v2 s0 s1 s2 = some (dc, info) ∧
        info.UpdatedPixels = 0) := by
  refine ⟨fun x y b0 b1 b2 info h => fragment_discard Sqrt dc v0 v1 v2 s0 s1 s2 x y b0 b1 b2 info h,
    fun h => ?_⟩
  simp only [rasterize]
  exact rasterizeRows_discard Sqrt dc v0 v1 v2 s0 s1 s2 _ _ h _ _ _ _ _ _

theorem discard_skips_pixel_witness :
    ∃ info, rasterize (fun _ => 1)
        { context2x2 with Shader := NewSolidColorShader Identity Discard }
        (sampleVertex 0 0 0 1 Discard) (sampleVertex 1 0 0 1 Discard)
        (sampleVertex 0 1 0 1 Discard) ⟨0, 2, 0⟩ ⟨2, 2, 0⟩ ⟨0, 0, 0⟩
        = some ({ context2x2 with Shader := NewSolidColorShader Identity Discard }, info) ∧
      info.UpdatedPixels = 0 :=
  (discard_skips_pixel (fun _ => 1)
    { context2x2 with Shader := NewSolidColorShader Identity Discard }
    (sampleVertex 0 0 0 1 Discard) (sampleVertex 1 0 0 1 Discard)
    (sampleVertex 0 1 0 1 Discard) ⟨0, 2, 0⟩ ⟨2, 2, 0⟩ ⟨0, 0, 0⟩).2 (fun _ => rfl)

theorem set4_set4 (l : List Nat) (i a b c d a2 b2 c2 d2 : Nat) :
    ((((((((l.set i a).set (i + 1) b).set (i + 2) c).set (i + 3) d).set i a2).set
      (i + 1) b2).set (i + 2) c2).set (i + 3) d2)
      = (((l.set i a2).set (i + 1) b2).set (i + 2) c2).set (i + 3) d2 := by
  apply List.ext_getElem?
  intro n
  simp only [List.getElem?_set, List.length_set]
  split_ifs <;> rfl

theorem setNRGBA_overwrite (p pA : image.NRGBA) (x y : Int) (cA cB : color.NRGBA)
    (h : p.SetNRGBA x y cA = some pA) : pA.SetNRGBA x y cB = p.SetNRGBA x y cB := by
  by_cases hin : image.Point.In ⟨x, y⟩ p.Rect = true
  · by_cases hcond : 0 ≤ p.PixOffset x y ∧ p.PixOffset x y + 4 ≤ (p.Pix.length : Int)
    · simp only [image.NRGBA.SetNRGBA, hin, not_true_eq_false, if_false, hcond, and_self, if_true,
        Option.some.injEq] at h
      subst h
      simp only [image.NRGBA.SetNRGBA, hin, not_true_eq_false, if_false, image.NRGBA.PixOffset,
        List.length_set]
      simp only [image.NRGBA.PixOffset] at hcond
      simp only [hcond, and_self, if_true, set4_set4]
    · simp [image.NRGBA.SetNRGBA, hin, hcond] at h
  · have hin2 : image.Point.In ⟨x, y⟩ p.Rect = false := by simpa using hin
    simp only [image.NRGBA.SetNRGBA, hin2, Bool.false_eq_true, not_false_eq_true, if_true,
      Option.some.injEq] at h
    subst h
    rfl

/-- The pixel step for a fragment of alpha 1 under `ReadDepth`, `WriteDepth`,
`WriteColor` and a zero `DepthBias`, in closed form. -/
theorem depthTestAndWrite_solid (dc : Context) (hwf : dc.WellFormed) (x y : Int) (z : ℚ) (color : Color) (info : RasterizeInfo)
    (hR : dc.ReadDepth = true) (hWd : dc.WriteDepth = true) (hWc : dc.WriteColor = true)
    (hbias : dc.DepthBias = 0) (hA : color.A = 1) (depth : ℚ)
    (hdepth : dc.DepthBuffer[(y * dc.Width + x).toNat]? = some depth) :
    ∃ pix, pix.length = dc.ColorBuffer.Pix.length ∧ (∀ b ∈ pix, b < 256) ∧
      dc.ColorBuffer.SetNRGBA x y color.NRGBA = some { dc.ColorBuffer with Pix := pix } ∧
      depthTestAndWrite dc x y (y * dc.Width + x).toNat z color info =
        some (if z ≤ depth then
          (dc.withBuffers (dc.DepthBuffer.set (y * dc.Width + x).toNat z) pix,
            ({ info with UpdatedPixels := info.UpdatedPixels + 1 } : RasterizeInfo))
          else (dc, info)) := by
  obtain ⟨pix, hp1, hp2, hset⟩ := setNRGBA_frame dc.ColorBuffer x y color.NRGBA dc.Width dc.Height
    hwf.1 hwf.2.2.2.1 hwf.2.2.2.2.1 hwf.2.2.2.2.2.1 hwf.2.2.2.2.2.2.1
  refine ⟨pix, hp1, hp2, hset, ?_⟩
  have hne : color ≠ Discard := by
    intro h
    rw [h] at hA
    exact absurd hA (by decide!)
  have hnb : ¬ (dc.AlphaBlend = true ∧ color.A < 1) := by
    rw [hA]
    simp
  simp only [depthTestAndWrite, hdepth, hR, hbias, add_zero, true_and, not_true_eq_false,
    or_false, if_neg hne, if_neg (lock_index_ok dc hwf x y), writePixel, hWd, if_true, hWc, writeColor, if_neg hnb, hset,
    Option.map_some']
  by_cases hz : z ≤ depth
  · rw [if_neg (not_lt.mpr hz), if_pos hz, if_pos hz]
    simp only [Context.withBuffers, hR, hWd, hWc, hbias]
  · rw [if_pos (not_le.mp hz), if_neg hz]

theorem two_fragments_ordered (dc : Context) (hwf : dc.WellFormed) (x y : Int)
    (hi : indexInRange dc x y) (hR : dc.ReadDepth = true) (hWd : dc.WriteDepth = true)
    (hWc : dc.WriteColor = true) (hbias : dc.DepthBias = 0) (zA zB : ℚ) (cA cB : Color)
    (hA : cA.A = 1) (hB : cB.A = 1) (hlt : zA < zB) (info : RasterizeInfo) :
    ∃ dc2 i1 i2,
      (depthTestAndWrite dc x y (y * dc.Width + x).toNat zA cA info).bind
        (fun r => depthTestAndWrite r.1 x y (y * dc.Width + x).toNat zB cB r.2)
          = some (dc2, i1) ∧
      (depthTestAndWrite dc x y (y * dc.Width + x).toNat zB cB info).bind
        (fun r => depthTestAndWrite r.1 x y (y * dc.Width + x).toNat zA cA r.2)
          = some (dc2, i2) := by
  obtain ⟨depth, hdepth⟩ := depth_index_some dc x y hi
  have hlt_i : (y * dc.Width + x).toNat < dc.DepthBuffer.length := by
    obtain ⟨h0, h1⟩ := hi
    omega
  obtain ⟨pixA, hA1, hA2, hsetA, hstepA⟩ :=
    depthTestAndWrite_solid dc hwf x y zA cA info hR hWd hWc hbias hA depth hdepth
  obtain ⟨pixB, hB1, hB2, hsetB, hstepB⟩ :=
    depthTestAndWrite_solid dc hwf x y zB cB info hR hWd hWc hbias hB depth hdepth
  rw [hstepA, hstepB]
  by_cases hAD : zA ≤ depth
  · -- the nearer fragment passes against the initial depth
    have hwf1 := wellFormed_withBuffers dc hwf (dc.DepthBuffer.set (y * dc.Width + x).toNat zA)
      pixA (by simp) hA1 hA2
    have hd1 : (dc.withBuffers (dc.DepthBuffer.set (y * dc.Width + x).toNat zA)
        pixA).DepthBuffer[(y * dc.Width + x).toNat]? = some zA := by
      simp [Context.withBuffers, hlt_i]
    obtain ⟨pixAB, _, _, _, hstepAB⟩ := depthTestAndWrite_solid _ hwf1 x y zB cB
      ({ info with UpdatedPixels := info.UpdatedPixels + 1 } : RasterizeInfo)
      hR hWd hWc hbias hB zA hd1
    rw [if_pos hAD, Option.some_bind]
    refine ⟨dc.withBuffers (dc.DepthBuffer.set (y * dc.Width + x).toNat zA) pixA, ?_⟩
    have hAB : depthTestAndWrite
        (dc.withBuffers (dc.DepthBuffer.set (y * dc.Width + x).toNat zA) pixA) x y
        (y * dc.Width + x).toNat zB cB
        ({ info with UpdatedPixels := info.UpdatedPixels + 1 } : RasterizeInfo)
        = some (dc.withBuffers (dc.DepthBuffer.set (y * dc.Width + x).toNat zA) pixA,
          ({ info with UpdatedPixels := info.UpdatedPixels + 1 } : RasterizeInfo)) := by
      rw [if_neg (not_le.mpr hlt)] at hstepAB
      exact hstepAB
    rw [hAB]
    by_cases hBD : zB ≤ depth
    · have hwf2 := wellFormed_withBuffers dc hwf
        (dc.DepthBuffer.set (y * dc.Width + x).toNat zB) pixB (by simp) hB1 hB2
      have hd2 : (dc.withBuffers (dc.DepthBuffer.set (y * dc.Width + x).toNat zB)
          pixB).DepthBuffer[(y * dc.Width + x).toNat]? = some zB := by
        simp [Context.withBuffers, hlt_i]
      obtain ⟨pixBA, _, _, hsetBA, hstepBA⟩ := depthTestAndWrite_solid _ hwf2 x y zA cA
        ({ info with UpdatedPixels := info.UpdatedPixels + 1 } : RasterizeInfo)
        hR hWd hWc hbias hA zB hd2
      have hover := setNRGBA_overwrite dc.ColorBuffer _ x y cB.NRGBA cA.NRGBA hsetB
      have hpix : pixBA = pixA := by
        have h1 : (dc.withBuffers (dc.DepthBuffer.set (y * dc.Width + x).toNat zB)
            pixB).ColorBuffer.SetNRGBA x y cA.NRGBA
            = some { dc.ColorBuffer with Pix := pixA } := by
          rw [← hsetA, ← hover]
          rfl
        rw [h1] at hsetBA
        have h2 := Option.some.inj hsetBA
        exact (congrArg image.NRGBA.Pix h2).symm
      rw [if_pos hBD, Option.some_bind]
      have hBA : depthTestAndWrite
          (dc.withBuffers (dc.DepthBuffer.set (y * dc.Width + x).toNat zB) pixB) x y
          (y * dc.Width + x).toNat zA cA
          ({ info with UpdatedPixels := info.UpdatedPixels + 1 } : RasterizeInfo)
          = some (dc.withBuffers (dc.DepthBuffer.set (y * dc.Width + x).toNat zA) pixA,
            ({ info with UpdatedPixels := info.UpdatedPixels + 1 + 1 } : RasterizeInfo)) := by
        rw [if_pos (le_of_lt hlt)] at hstepBA
        simp only [Context.withBuffers, List.set_set, hpix] at hstepBA
        exact hstepBA
      rw [hBA]
      exact ⟨_, _, rfl, rfl⟩
    · rw [if_neg hBD, Option.some_bind, hstepA, if_pos hAD]
      exact ⟨_, _, rfl, rfl⟩
  · -- both fragments fail against the initial depth
    have hBD : ¬ zB ≤ depth := fun h => hAD (le_trans (le_of_lt hlt) h)
    rw [if_neg hAD, if_neg hBD, Option.some_bind, Option.some_bind, hstepA, hstepB, if_neg hAD,
      if_neg hBD]
    exact ⟨dc, _, _, rfl, rfl⟩

/-- C5 (amended). Order independence under the opaque z-test with a zero
`DepthBias`: for a well-formed context with `ReadDepth`, `WriteDepth` and
`WriteColor` set and `DepthBias = 0`, and two fragments of alpha 1 with
different depths on the same in-range pixel, the pixel step for A then B and
the pixel step for B then A end in the same context (the same depth buffer
and colour buffer). -/
theorem depth_order_independent (dc : Context) (hwf : dc.WellFormed) (x y : Int)
    (hi : indexInRange dc x y) (hR : dc.ReadDepth = true) (hWd : dc.WriteDepth = true)
    (hWc : dc.WriteColor = true) (hbias : dc.DepthBias = 0) (zA zB : ℚ) (cA cB : Color)
    (hA : cA.A = 1) (hB : cB.A = 1) (hne : zA ≠ zB) (info : RasterizeInfo) :
    ∃ dc2 i1 i2,
      (depthTestAndWrite dc x y (y * dc.Width + x).toNat zA cA info).bind
        (fun r => depthTestAndWrite r.1 x y (y * dc.Width + x).toNat zB cB r.2)
          = some (dc2, i1) ∧
      (depthTestAndWrite dc x y (y * dc.Width + x).toNat zB cB info).bind
        (fun r => depthTestAndWrite r.1 x y (y * dc.Width + x).toNat zA cA r.2)
          = some (dc2, i2) := by
  rcases lt_or_gt_of_ne hne with h | h
  · exact two_fragments_ordered dc hwf x y hi hR hWd hWc hbias zA zB cA cB hA hB h info
  · obtain ⟨dc2, i1, i2, h1, h2⟩ :=
      two_fragments_ordered dc hwf x y hi hR hWd hWc hbias zB zA cB cA hB hA h info
    exact ⟨dc2, i2, i1, h2, h1⟩

theorem depth_order_independent_witness :
    ∃ dc2 i1 i2,
      (depthTestAndWrite context2x2 1 1 3 0 ⟨1, 0, 0, 1⟩ ⟨0, 0⟩).bind
        (fun r => depthTestAndWrite r.1 1 1 3 (1 / 2) ⟨0, 1, 0, 1⟩ r.2) = some (dc2, i1) ∧
      (depthTestAndWrite context2x2 1 1 3 (1 / 2) ⟨0, 1, 0, 1⟩ ⟨0, 0⟩).bind
        (fun r => depthTestAndWrite r.1 1 1 3 0 ⟨1, 0, 0, 1⟩ r.2) = some (dc2, i2) :=
  depth_order_independent context2x2 (by decide!) 1 1 (by decide!) rfl rfl rfl rfl 0 (1 / 2)
    ⟨1, 0, 0, 1⟩ ⟨0, 1, 0, 1⟩ rfl rfl (by decide!) ⟨0, 0⟩

/-- C5 as stated fails for a non-zero `DepthBias`: with `DepthBias = 1` on the
context of `NewContext 2 2`, fragment A (depth 0, red) then fragment B (depth
1/2, green) on pixel (1, 1) leaves depth 0 and red, while B then A leaves
depth 1/2 and green. -/
theorem depth_order_bias_counterexample :
    ((depthTestAndWrite biasedContext 1 1 3 0 ⟨1, 0, 0, 1⟩ ⟨0, 0⟩).bind
        (fun r => depthTestAndWrite r.1 1 1 3 (1 / 2) ⟨0, 1, 0, 1⟩ r.2)).map
          (fun r => (r.1.DepthBuffer[3]?, r.1.ColorBuffer.NRGBAAt 1 1))
        = some (some 0, some ⟨255, 0, 0, 255⟩) ∧
      ((depthTestAndWrite biasedContext 1 1 3 (1 / 2) ⟨0, 1, 0, 1⟩ ⟨0, 0⟩).bind
        (fun r => depthTestAndWrite r.1 1 1 3 0 ⟨1, 0, 0, 1⟩ r.2)).map
          (fun r => (r.1.DepthBuffer[3]?, r.1.ColorBuffer.NRGBAAt 1 1))
        = some (some (1 / 2), some ⟨0, 255, 0, 255⟩) := by
  decide!

/-- The result of `drawClippedTriangle` when the culling test
`Cull != CullNone && a <= 0` is decided by `culled`. -/
theorem drawClippedTriangle_eq (Sqrt : ℚ → ℚ) (dc : Context) (v0 v1 v2 : Vertex) :
    drawClippedTriangle Sqrt dc v0 v1 v2 =
      if dc.Cull ≠ CullNone ∧
          (if dc.FrontFace = FaceCW then
            -(if dc.Cull = CullFront then -ndcArea v0 v1 v2 else ndcArea v0 v1 v2)
           else (if dc.Cull = CullFront then -ndcArea v0 v1 v2 else ndcArea v0 v1 v2)) ≤ 0
      then some (dc, ⟨0, 0⟩) else orientedDraw Sqrt dc v0 v1 v2 := by
  unfold drawClippedTriangle orientedDraw screenDraw ndcArea
  by_cases ha : (((v1.Output.DivScalar v1.Output.W).Vector.X
      - (v0.Output.DivScalar v0.Output.W).Vector.X)
      * ((v2.Output.DivScalar v2.Output.W).Vector.Y - (v0.Output.DivScalar v0.Output.W).Vector.Y)
      - ((v2.Output.DivScalar v2.Output.W).Vector.X - (v0.Output.DivScalar v0.Output.W).Vector.X)
      * ((v1.Output.DivScalar v1.Output.W).Vector.Y
        - (v0.Output.DivScalar v0.Output.W).Vector.Y)) < 0
  · simp only [ha, if_true]
  · simp only [ha, if_false]

/-- With culling enabled (`Cull` other than `CullNone`) a triangle of zero
NDC signed area is culled: `drawClippedTriangle` returns the
unchanged context and the zero `RasterizeInfo`. -/
theorem degenerate_culled (Sqrt : ℚ → ℚ) (dc : Context) (v0 v1 v2 : Vertex)
    (hc : dc.Cull ≠ CullNone) (ha : ndcArea v0 v1 v2 = 0) :
    drawClippedTriangle Sqrt dc v0 v1 v2 = some (dc, ⟨0, 0⟩) := by
  rw [drawClippedTriangle_eq, ha]
  simp [hc]

theorem degenerate_culled_witness :
    drawClippedTriangle (fun _ => 1) context2x2 (sampleVertex 0 0 0 1 Discard)
      (sampleVertex 0 0 0 1 Discard) (sampleVertex 0 0 0 1 Discard)
      = some (context2x2, ⟨0, 0⟩) :=
  degenerate_culled (fun _ => 1) context2x2 (sampleVertex 0 0 0 1 Discard)
    (sampleVertex 0 0 0 1 Discard) (sampleVertex 0 0 0 1 Discard) (by decide) (by decide!)

/-- C7 fails on the code: on the context of `NewContext 2 2` (line width 2)
the line along the right edge, from NDC (1, 1) to NDC (1, -1), visits the
pixels (2, -1) and (2, 0), which lie outside the framebuffer; their indices
`y*Width + x` are 0 and 2, so the depth entries of the pixels (0, 0) and
(0, 1), which the line does not cover, are overwritten with 1/2 (their colour
bytes stay zero because `SetNRGBA` checks the bounds).  The first part is the
pixel step of the pixel (2, 0) alone: it stores its depth at index 2. -/
theorem line_wraps_around :
    (fragment sqrtTable context2x2 (sampleVertex 1 (-1) 0 1 Discard)
        (sampleVertex 1 1 0 1 Discard) (sampleVertex 1 1 0 1 Discard)
        ⟨3, 3, 1 / 2⟩ ⟨3, -1, 1 / 2⟩ ⟨1, -1, 1 / 2⟩ 2 0 (1 / 4) (1 / 4) (1 / 2) ⟨0, 0⟩).map
          (fun r => (r.1.DepthBuffer, r.2))
      = some ([MaxFloat64, MaxFloat64, 1 / 2, MaxFloat64], ⟨1, 1⟩) ∧
    (drawClippedLine sqrtTable context2x2 (sampleVertex 1 1 0 1 Discard)
        (sampleVertex 1 (-1) 0 1 Discard)).map
          (fun r => (r.1.DepthBuffer, r.1.ColorBuffer.Pix, r.2))
      = some ([1 / 2, 1 / 2, 1 / 2, 1 / 2],
          [0, 0, 0, 0, 255, 0, 255, 255, 0, 0, 0, 0, 255, 0, 255, 255], ⟨4, 4⟩) := by
  decide!

theorem sumFrom_eq_sum (f : Int → Nat) (n : Nat) :
    ∀ a : Int, sumFrom f a n = ∑ i in Finset.Icc a (a + n - 1), f i := by
  induction n with
  | zero =>
    intro a
    have h : Finset.Icc a (a + ((0 : Nat) : Int) - 1) = ∅ := by
      apply Finset.Icc_eq_empty
      simp
    rw [h]
    rfl
  | succ n ih =>
    intro a
    have h : Finset.Icc a (a + ((n + 1 : Nat) : Int) - 1)
        = insert a (Finset.Icc (a + 1) (a + 1 + (n : Int) - 1)) := by
      ext i
      simp only [Finset.mem_Icc, Finset.mem_insert]
      push_cast
      omega
    have hn : a ∉ Finset.Icc (a + 1) (a + 1 + (n : Int) - 1) := by
      simp only [Finset.mem_Icc]
      omega
    rw [h, Finset.sum_insert hn, ← ih (a + 1)]
    rfl

theorem Icc_toNat (a b : Int) : Finset.Icc a b = Finset.Icc a (a + ((b - a + 1).toNat : Int) - 1) := by
  ext i
  simp only [Finset.mem_Icc]
  omega

theorem countFrom_succ (P : Int → Prop) [DecidablePred P] (a : Int) (n : Nat) :
    countFrom P a (n + 1) = (if P a then 1 else 0) + countFrom P (a + 1) n := rfl

theorem countFrom_eq_zero (P : Int → Prop) [DecidablePred P] (n : Nat) :
    ∀ a : Int, (∀ k : Nat, k < n → ¬ P (a + k)) → countFrom P a n = 0 := by
  induction n with
  | zero =>
    intro a _
    rfl
  | succ n ih =>
    intro a h
    rw [countFrom_succ, ih (a + 1)]
    · have h0 : ¬ P a := by
        have := h 0 (Nat.succ_pos n)
        simpa using this
      simp [h0]
    · intro k hk
      have := h (k + 1) (Nat.succ_lt_succ hk)
      have e : a + 1 + (k : Int) = a + ((k + 1 : Nat) : Int) := by
        push_cast
        ring
      rw [e]
      exact this

theorem countFrom_skip (P : Int → Prop) [DecidablePred P] (d : Nat) :
    ∀ (a : Int) (n : Nat), (∀ k : Nat, k < d → ¬ P (a + k)) →
      countFrom P a n = countFrom P (a + d) (n - d) := by
  induction d with
  | zero =>
    intro a n _
    simp
  | succ d ih =>
    intro a n h
    cases n with
    | zero =>
      simp only [Nat.zero_sub]
      rfl
    | succ n =>
      have h0 : ¬ P a := by
        have := h 0 (Nat.succ_pos d)
        simpa using this
      rw [countFrom_succ, if_neg h0, zero_add, ih (a + 1) n]
      · have e : a + 1 + (d : Int) = a + ((d + 1 : Nat) : Int) := by
          push_cast
          ring
        rw [e, Nat.succ_sub_succ]
      · intro k hk
        have := h (k + 1) (Nat.succ_lt_succ hk)
        have e : a + 1 + (k : Int) = a + ((k + 1 : Nat) : Int) := by
          push_cast
          ring
        rw [e]
        exact this

theorem countFrom_congr (P Q : Int → Prop) [DecidablePred P] [DecidablePred Q]
    (h : ∀ x, P x ↔ Q x) (n : Nat) : ∀ a : Int, countFrom P a n = countFrom Q a n := by
  induction n with
  | zero =>
    intro a
    rfl
  | succ n ih =>
    intro a
    rw [countFrom_succ, countFrom_succ, ih (a + 1)]
    by_cases hp : P a
    · rw [if_pos hp, if_pos ((h a).mp hp)]
    · rw [if_neg hp, if_neg (fun hq => hp ((h a).mpr hq))]

theorem edge_pixel_add (a b : Vector) (x y : Int) (k : Nat) :
    edge a b (pixelCentre (x + k) y) = edge a b (pixelCentre x y) + (k : ℚ) * (b.Y - a.Y) := by
  simp only [edge, pixelCentre]
  push_cast
  ring

theorem edge_pixel_succ (a b : Vector) (x y : Int) :
    edge a b (pixelCentre (x + 1) y) = edge a b (pixelCentre x y) + (b.Y - a.Y) := by
  simp only [edge, pixelCentre]
  push_cast
  ring

theorem edge_pixel_row (a b : Vector) (x y : Int) :
    edge a b (pixelCentre x (y + 1)) = edge a b (pixelCentre x y) + (a.X - b.X) := by
  simp only [edge, pixelCentre]
  push_cast
  ring

theorem edge_pixel_sub (a b : Vector) (x x2 y : Int) :
    edge a b (pixelCentre x y)
      = edge a b (pixelCentre x2 y) + ((x : ℚ) - (x2 : ℚ)) * (b.Y - a.Y) := by
  simp only [edge, pixelCentre]
  ring

theorem scaled_neg_iff (w A : ℚ) (hA : 0 < A) : w * (1 / A) < 0 ↔ w < 0 := by
  have h : 0 < 1 / A := one_div_pos.mpr hA
  constructor
  · intro hw
    by_contra hn
    have := mul_nonneg (not_lt.mp hn) (le_of_lt h)
    linarith
  · intro hw
    exact mul_neg_of_neg_of_pos hw h

/-- Along a row the edge value of an edge that turns negative after a
non-negative value stays negative. -/
theorem edge_stays_negative (a b : Vector) (x2 x y : Int) (k : Nat) (hlt : x2 < x)
    (h2 : 0 ≤ edge a b (pixelCentre x2 y)) (h : edge a b (pixelCentre x y) < 0) :
    edge a b (pixelCentre (x + k) y) < 0 := by
  rw [edge_pixel_add]
  have e := edge_pixel_sub a b x x2 y
  have hpos : (0 : ℚ) < (x : ℚ) - (x2 : ℚ) := by
    have : (x2 : ℚ) < (x : ℚ) := by exact_mod_cast hlt
    linarith
  have hneg : (b.Y - a.Y) < 0 := by
    by_contra hn
    have := mul_nonneg (le_of_lt hpos) (not_lt.mp hn)
    linarith
  have hk : (k : ℚ) * (b.Y - a.Y) ≤ 0 :=
    mul_nonpos_of_nonneg_of_nonpos (Nat.cast_nonneg k) (le_of_lt hneg)
  linarith

/-- Convexity along a row: after an inside pixel, the first outside pixel is
followed by outside pixels only. -/
theorem outside_after_inside (s0 s1 s2 : Vector) (x2 x y : Int) (k : Nat) (hlt : x2 < x)
    (h2 : insidePixel s0 s1 s2 x2 y) (h : ¬ insidePixel s0 s1 s2 x y) :
    ¬ insidePixel s0 s1 s2 (x + k) y := by
  unfold insidePixel at h h2 ⊢
  obtain ⟨h20, h21, h22⟩ := h2
  intro ⟨hk0, hk1, hk2⟩
  by_cases c0 : edge s1 s2 (pixelCentre x y) < 0
  · exact absurd hk0 (not_le.mpr (edge_stays_negative s1 s2 x2 x y k hlt h20 c0))
  · by_cases c1 : edge s2 s0 (pixelCentre x y) < 0
    · exact absurd hk1 (not_le.mpr (edge_stays_negative s2 s0 x2 x y k hlt h21 c1))
    · by_cases c2 : edge s0 s1 (pixelCentre x y) < 0
      · exact absurd hk2 (not_le.mpr (edge_stays_negative s0 s1 x2 x y k hlt h22 c2))
      · exact h ⟨not_lt.mp c0, not_lt.mp c1, not_lt.mp c2⟩

theorem truncInt_of_nonneg (q : ℚ) (h : 0 ≤ q) : truncInt q = ⌊q⌋ := by
  simp [truncInt, h]

theorem truncInt_intCast (z : Int) : truncInt (z : ℚ) = z := by
  unfold truncInt
  split_ifs <;> simp

/-- One edge of the skip-ahead: when the edge value `w` at the first column is
negative and the offset `D = -w / a` is positive, every column offset below
`D` still has a negative edge value. -/
theorem skip_edge (w a D m : ℚ) (hw : w < 0) (hD : D = -w * (1 / a)) (hpos : 0 < D)
    (hm : m < D) : w + m * a < 0 := by
  have ha : 0 < a := by
    by_contra hn
    have h1 : 1 / a ≤ 0 := one_div_nonpos.mpr (not_lt.mp hn)
    have h2 : -w * (1 / a) ≤ 0 := mul_nonpos_of_nonneg_of_nonpos (by linarith) h1
    linarith
  have hDa : D * a = -w := by
    rw [hD]
    field_simp
  have : m * a < D * a := mul_lt_mul_of_pos_right hm ha
  linarith

/-- The value that the skip-ahead truncates is zero or the positive crossing
offset of an edge whose value at the first column is negative. -/
theorem skipAhead_cases (s0 s1 s2 : Vector) (w00 w01 w02 : ℚ) :
    ∃ D : ℚ, 0 ≤ D ∧
      skipAhead s0 s1 s2 w00 w01 w02
        = (if ((truncInt D : Int) : ℚ) < 0 then 0 else ((truncInt D : Int) : ℚ)) ∧
      (D = 0 ∨ (w00 < 0 ∧ D = -w00 * (1 / (s2.Y - s1.Y)) ∧ 0 < D) ∨
        (w01 < 0 ∧ D = -w01 * (1 / (s0.Y - s2.Y)) ∧ 0 < D) ∨
        (w02 < 0 ∧ D = -w02 * (1 / (s1.Y - s0.Y)) ∧ 0 < D)) := by
  unfold skipAhead
  simp only []
  by_cases c0 : w00 < 0 ∧ -w00 * (1 / (s2.Y - s1.Y)) > 0
  · rw [if_pos c0]
    by_cases c1 : w01 < 0 ∧ -w01 * (1 / (s0.Y - s2.Y)) > -w00 * (1 / (s2.Y - s1.Y))
    · rw [if_pos c1]
      by_cases c2 : w02 < 0 ∧ -w02 * (1 / (s1.Y - s0.Y)) > -w01 * (1 / (s0.Y - s2.Y))
      · rw [if_pos c2]
        exact ⟨_, by linarith [c0.2, c1.2, c2.2], rfl,
          Or.inr (Or.inr (Or.inr ⟨c2.1, rfl, by linarith [c0.2, c1.2, c2.2]⟩))⟩
      · rw [if_neg c2]
        exact ⟨_, by linarith [c0.2, c1.2], rfl,
          Or.inr (Or.inr (Or.inl ⟨c1.1, rfl, by linarith [c0.2, c1.2]⟩))⟩
    · rw [if_neg c1]
      by_cases c2 : w02 < 0 ∧ -w02 * (1 / (s1.Y - s0.Y)) > -w00 * (1 / (s2.Y - s1.Y))
      · rw [if_pos c2]
        exact ⟨_, by linarith [c0.2, c2.2], rfl,
          Or.inr (Or.inr (Or.inr ⟨c2.1, rfl, by linarith [c0.2, c2.2]⟩))⟩
      · rw [if_neg c2]
        exact ⟨_, le_of_lt c0.2, rfl, Or.inr (Or.inl ⟨c0.1, rfl, c0.2⟩)⟩
  · rw [if_neg c0]
    by_cases c1 : w01 < 0 ∧ -w01 * (1 / (s0.Y - s2.Y)) > 0
    · rw [if_pos c1]
      by_cases c2 : w02 < 0 ∧ -w02 * (1 / (s1.Y - s0.Y)) > -w01 * (1 / (s0.Y - s2.Y))
      · rw [if_pos c2]
        exact ⟨_, by linarith [c1.2, c2.2], rfl,
          Or.inr (Or.inr (Or.inr ⟨c2.1, rfl, by linarith [c1.2, c2.2]⟩))⟩
      · rw [if_neg c2]
        exact ⟨_, le_of_lt c1.2, rfl, Or.inr (Or.inr (Or.inl ⟨c1.1, rfl, c1.2⟩))⟩
    · rw [if_neg c1]
      by_cases c2 : w02 < 0 ∧ -w02 * (1 / (s1.Y - s0.Y)) > 0
      · rw [if_pos c2]
        exact ⟨_, le_of_lt c2.2, rfl, Or.inr (Or.inr (Or.inr ⟨c2.1, rfl, c2.2⟩))⟩
      · rw [if_neg c2]
        exact ⟨0, le_refl 0, rfl, Or.inl rfl⟩

/-- The skip-ahead of a row whose running values are the edge values at the
first column `x0`: the offset is a natural number `k`, and the `k` skipped
pixels all fail the naive inside test. -/
theorem skipAhead_sound (s0 s1 s2 : Vector) (x0 y : Int) :
    ∃ k : Nat,
      skipAhead s0 s1 s2 (edge s1 s2 (pixelCentre x0 y)) (edge s2 s0 (pixelCentre x0 y))
        (edge s0 s1 (pixelCentre x0 y)) = (k : ℚ) ∧
      ∀ m : Nat, m < k → ¬ insidePixel s0 s1 s2 (x0 + m) y := by
  obtain ⟨D, hD0, hsk, hcases⟩ := skipAhead_cases s0 s1 s2 (edge s1 s2 (pixelCentre x0 y))
    (edge s2 s0 (pixelCentre x0 y)) (edge s0 s1 (pixelCentre x0 y))
  have hfl : 0 ≤ ⌊D⌋ := Int.floor_nonneg.mpr hD0
  have htr : truncInt D = ⌊D⌋ := truncInt_of_nonneg D hD0
  refine ⟨⌊D⌋.toNat, ?_, ?_⟩
  · rw [hsk, htr]
    have h1 : ¬ ((⌊D⌋ : ℚ) < 0) := by
      have : (0 : ℚ) ≤ (⌊D⌋ : ℚ) := by exact_mod_cast hfl
      linarith
    rw [if_neg h1]
    have h2 : ((⌊D⌋.toNat : Int)) = ⌊D⌋ := Int.toNat_of_nonneg hfl
    have h3 : ((⌊D⌋.toNat : Nat) : ℚ) = ((⌊D⌋.toNat : Int) : ℚ) := by norm_cast
    rw [h3, h2]
  · intro m hm
    have hmD : (m : ℚ) < D := by
      have h1 : (m : Int) + 1 ≤ ⌊D⌋ := by omega
      have h2 : ((m : Int) : ℚ) + 1 ≤ (⌊D⌋ : ℚ) := by exact_mod_cast h1
      have h3 : (⌊D⌋ : ℚ) ≤ D := Int.floor_le D
      have h4 : ((m : Int) : ℚ) = (m : ℚ) := by norm_cast
      linarith
    unfold insidePixel
    rintro ⟨i0, i1, i2⟩
    rw [edge_pixel_add] at i0 i1 i2
    rcases hcases with h | ⟨hw, hD, hpos⟩ | ⟨hw, hD, hpos⟩ | ⟨hw, hD, hpos⟩
    · rw [h] at hmD
      have : (0 : ℚ) ≤ (m : ℚ) := Nat.cast_nonneg m
      linarith
    · have := skip_edge _ _ D (m : ℚ) hw hD hpos hmD
      linarith
    · have := skip_edge _ _ D (m : ℚ) hw hD hpos hmD
      linarith
    · have := skip_edge _ _ D (m : ℚ) hw hD hpos hmD
      linarith

theorem rasterizeRow_frame (Sqrt : ℚ → ℚ) (v0 v1 v2 : Vertex) (s0 s1 s2 : Vector) (y : Int)
    (n : Nat) :
    ∀ (x : Int) (w0 w1 w2 : ℚ) (wasInside : Bool) (dc : Context) (info : RasterizeInfo),
      dc.WellFormed →
      ∃ depth pix info2, depth.length = dc.DepthBuffer.length ∧
        pix.length = dc.ColorBuffer.Pix.length ∧ (∀ b ∈ pix, b < 256) ∧
        rasterizeRow Sqrt v0 v1 v2 s0 s1 s2 y n x w0 w1 w2 wasInside dc info
          = some (dc.withBuffers depth pix, info2) := by
  induction n with
  | zero =>
    intro x w0 w1 w2 wasInside dc info hwf
    exact ⟨dc.DepthBuffer, dc.ColorBuffer.Pix, info, rfl, rfl, hwf.2.2.2.2.2.2.1, rfl⟩
  | succ n ih =>
    intro x w0 w1 w2 wasInside dc info hwf
    simp only [rasterizeRow]
    split_ifs with hout hwas
    · exact ⟨dc.DepthBuffer, dc.ColorBuffer.Pix, info, rfl, rfl, hwf.2.2.2.2.2.2.1, rfl⟩
    · exact ih _ _ _ _ _ dc info hwf
    · obtain ⟨depth, pix, info1, hd, hp, hb, hf⟩ := fragment_frame Sqrt dc hwf v0 v1 v2 s0 s1 s2
        x y (w0 * (1 / edge s0 s1 s2)) (w1 * (1 / edge s0 s1 s2)) (w2 * (1 / edge s0 s1 s2)) info
      rw [hf.1]
      have hwf1 := wellFormed_withBuffers dc hwf depth pix hd hp hb
      obtain ⟨depth2, pix2, info2, hd2, hp2, hb2, hr⟩ := ih (x + 1) (w0 + (s2.Y - s1.Y))
        (w1 + (s0.Y - s2.Y)) (w2 + (s1.Y - s0.Y)) true (dc.withBuffers depth pix) info1 hwf1
      exact ⟨depth2, pix2, info2, hd2.trans hd, hp2.trans hp, hb2, hr⟩

theorem rasterizeRows_frame (Sqrt : ℚ → ℚ) (v0 v1 v2 : Vertex) (s0 s1 s2 : Vector)
    (x0 x1 : Int) (n : Nat) :
    ∀ (y : Int) (w00 w01 w02 : ℚ) (dc : Context) (info : RasterizeInfo),
      dc.WellFormed →
      ∃ depth pix info2, depth.length = dc.DepthBuffer.length ∧
        pix.length = dc.ColorBuffer.Pix.length ∧ (∀ b ∈ pix, b < 256) ∧
        rasterizeRows Sqrt v0 v1 v2 s0 s1 s2 x0 x1 n y w00 w01 w02 dc info
          = some (dc.withBuffers depth pix, info2) := by
  induction n with
  | zero =>
    intro y w00 w01 w02 dc info hwf
    exact ⟨dc.DepthBuffer, dc.ColorBuffer.Pix, info, rfl, rfl, hwf.2.2.2.2.2.2.1, rfl⟩
  | succ n ih =>
    intro y w00 w01 w02 dc info hwf
    simp only [rasterizeRows]
    obtain ⟨depth, pix, info1, hd, hp, hb, hf⟩ := rasterizeRow_frame Sqrt v0 v1 v2 s0 s1 s2 y
      (x1 - (x0 + truncInt (skipAhead s0 s1 s2 w00 w01 w02)) + 1).toNat
      (x0 + truncInt (skipAhead s0 s1 s2 w00 w01 w02))
      (w00 + (s2.Y - s1.Y) * skipAhead s0 s1 s2 w00 w01 w02)
      (w01 + (s0.Y - s2.Y) * skipAhead s0 s1 s2 w00 w01 w02)
      (w02 + (s1.Y - s0.Y) * skipAhead s0 s1 s2 w00 w01 w02) false dc info hwf
    rw [hf]
    have hwf1 := wellFormed_withBuffers dc hwf depth pix hd hp hb
    obtain ⟨depth2, pix2, info2, hd2, hp2, hb2, hr⟩ := ih (y + 1) (w00 + (s1.X - s2.X))
      (w01 + (s2.X - s0.X)) (w02 + (s0.X - s1.X)) (dc.withBuffers depth pix) info1 hwf1
    exact ⟨depth2, pix2, info2, hd2.trans hd, hp2.trans hp, hb2, hr⟩

theorem newContext_wellFormed (w h : Int) (hw : 0 ≤ w) (hh : 0 ≤ h) :
    ∃ dc, NewContext w h = some dc ∧ dc.WellFormed := by
  have hwh : ¬ w * h < 0 := not_lt.mpr (mul_nonneg hw hh)
  simp only [NewContext, if_neg hwh]
  refine ⟨_, rfl, ?_⟩
  have hx : ¬ (0 : Int) > w := not_lt.mpr hw
  have hy : ¬ (0 : Int) > h := not_lt.mpr hh
  unfold Context.WellFormed
  simp only [Context.ClearDepthBuffer, Context.ClearDepthBufferWith, image.NewNRGBA, image.Rect,
    hx, hy, if_false, List.length_map, List.length_replicate, sub_zero]
  refine ⟨hw, hh, ?_, ?_, trivial, trivial, ?_, trivial⟩
  · exact Int.toNat_of_nonneg (mul_nonneg hw hh)
  · exact Int.toNat_of_nonneg (mul_nonneg (mul_nonneg (by norm_num) hw) hh)
  · intro b hb
    rw [List.eq_of_mem_replicate hb]
    norm_num

/-- C8. No out-of-range buffer access: for non-negative `width` and `height`
`NewContext` returns a well-formed context (depth buffer of length
`Width*Height`, `4*Width*Height` colour bytes with stride `4*Width`), and on
every well-formed context, for every input triangle, `rasterize` returns a
result (no index panic) whose context is again well-formed. -/
theorem rasterize_no_panic (Sqrt : ℚ → ℚ) (w h : Int) (hw : 0 ≤ w) (hh : 0 ≤ h) :
    (∃ dc, NewContext w h = some dc ∧ dc.WellFormed) ∧
    ∀ (dc : Context) (v0 v1 v2 : Vertex) (s0 s1 s2 : Vector), dc.WellFormed →
      ∃ dc2 info, rasterize Sqrt dc v0 v1 v2 s0 s1 s2 = some (dc2, info) ∧
        dc2.WellFormed := by
  refine ⟨newContext_wellFormed w h hw hh, fun dc v0 v1 v2 s0 s1 s2 hwf => ?_⟩
  simp only [rasterize]
  obtain ⟨depth, pix, info, hd, hp, hb, hr⟩ := rasterizeRows_frame Sqrt v0 v1 v2 s0 s1 s2
    (truncInt (s0.Min (s1.Min s2)).Floor.X) (truncInt (s0.Max (s1.Max s2)).Ceil.X)
    (truncInt (s0.Max (s1.Max s2)).Ceil.Y - truncInt (s0.Min (s1.Min s2)).Floor.Y + 1).toNat
    (truncInt (s0.Min (s1.Min s2)).Floor.Y)
    (edge s1 s2 ⟨(truncInt (s0.Min (s1.Min s2)).Floor.X : ℚ) + 1 / 2,
      (truncInt (s0.Min (s1.Min s2)).Floor.Y : ℚ) + 1 / 2, 0⟩)
    (edge s2 s0 ⟨(truncInt (s0.Min (s1.Min s2)).Floor.X : ℚ) + 1 / 2,
      (truncInt (s0.Min (s1.Min s2)).Floor.Y : ℚ) + 1 / 2, 0⟩)
    (edge s0 s1 ⟨(truncInt (s0.Min (s1.Min s2)).Floor.X : ℚ) + 1 / 2,
      (truncInt (s0.Min (s1.Min s2)).Floor.Y : ℚ) + 1 / 2, 0⟩)
    dc ⟨0, 0⟩ hwf
  exact ⟨_, info, hr, wellFormed_withBuffers dc hwf depth pix hd hp hb⟩

theorem rasterize_no_panic_witness :
    ∃ dc2 info, rasterize (fun _ => 1) context2x2 (sampleVertex 0 0 0 1 Discard)
        (sampleVertex 1 0 0 1 Discard) (sampleVertex 0 1 0 1 Discard)
        ⟨0, 3, 0⟩ ⟨3, 3, 0⟩ ⟨0, 0, 0⟩ = some (dc2, info) ∧ dc2.WellFormed :=
  (rasterize_no_panic (fun _ => 1) 2 2 (by decide) (by decide)).2 context2x2
    (sampleVertex 0 0 0 1 Discard) (sampleVertex 1 0 0 1 Discard) (sampleVertex 0 1 0 1 Discard)
    ⟨0, 3, 0⟩ ⟨3, 3, 0⟩ ⟨0, 0, 0⟩ (by decide!)

theorem inside_iff_test (s0 s1 s2 : Vector) (harea : 0 < edge s0 s1 s2) (x y : Int) :
    ¬ (edge s1 s2 (pixelCentre x y) * (1 / edge s0 s1 s2) < 0 ∨
        edge s2 s0 (pixelCentre x y) * (1 / edge s0 s1 s2) < 0 ∨
        edge s0 s1 (pixelCentre x y) * (1 / edge s0 s1 s2) < 0) ↔ insidePixel s0 s1 s2 x y := by
  unfold insidePixel
  rw [scaled_neg_iff _ _ harea, scaled_neg_iff _ _ harea, scaled_neg_iff _ _ harea]
  constructor
  · intro h
    push_neg at h
    exact h
  · intro h
    push_neg
    exact h

/-- The pixel loop counts in `TotalPixels` exactly the pixels of the rest of
the row that pass the naive inside test and whose index is in range. -/
theorem rasterizeRow_count (Sqrt : ℚ → ℚ) (v0 v1 v2 : Vertex) (s0 s1 s2 : Vector)
    (harea : 0 < edge s0 s1 s2) (y W : Int) (L : Nat) (n : Nat) :
    ∀ (x : Int) (w0 w1 w2 : ℚ) (wasInside : Bool) (dc : Context) (info : RasterizeInfo),
      dc.WellFormed → dc.Width = W → dc.DepthBuffer.length = L →
      w0 = edge s1 s2 (pixelCentre x y) → w1 = edge s2 s0 (pixelCentre x y) →
      w2 = edge s0 s1 (pixelCentre x y) →
      (wasInside = true → ∃ x2, x2 < x ∧ insidePixel s0 s1 s2 x2 y) →
      ∀ dc2 info2,
        rasterizeRow Sqrt v0 v1 v2 s0 s1 s2 y n x w0 w1 w2 wasInside dc info = some (dc2, info2) →
        info2.TotalPixels = info.TotalPixels +
          countFrom (fun x2 => insidePixel s0 s1 s2 x2 y ∧
            (0 ≤ y * W + x2 ∧ y * W + x2 < (L : Int))) x n := by
  induction n with
  | zero =>
    intro x w0 w1 w2 wasInside dc info _ _ _ _ _ _ _ dc2 info2 hres
    simp only [rasterizeRow, Option.some.injEq, Prod.mk.injEq] at hres
    rw [← hres.2]
    rfl
  | succ n ih =>
    intro x w0 w1 w2 wasInside dc info hwf hW hL h0 h1 h2 hwas dc2 info2 hres
    have htest := inside_iff_test s0 s1 s2 harea x y
    rw [← h0, ← h1, ← h2] at htest
    simp only [rasterizeRow] at hres
    by_cases hout : w0 * (1 / edge s0 s1 s2) < 0 ∨ w1 * (1 / edge s0 s1 s2) < 0 ∨
        w2 * (1 / edge s0 s1 s2) < 0
    · have hnin : ¬ insidePixel s0 s1 s2 x y := fun hin => (htest.mpr hin) hout
      rw [if_pos hout] at hres
      by_cases hw : wasInside = true
      · rw [if_pos hw] at hres
        simp only [Option.some.injEq, Prod.mk.injEq] at hres
        obtain ⟨x2, hlt, hin2⟩ := hwas hw
        rw [← hres.2, countFrom_eq_zero]
        · rfl
        · intro k _ hk
          exact outside_after_inside s0 s1 s2 x2 x y k hlt hin2 hnin hk.1
      · rw [if_neg hw] at hres
        have := ih (x + 1) _ _ _ false dc info hwf hW hL
          (by rw [edge_pixel_succ, h0]) (by rw [edge_pixel_succ, h1])
          (by rw [edge_pixel_succ, h2]) (by simp) dc2 info2 hres
        rw [this, countFrom_succ, if_neg (fun hp => hnin hp.1), zero_add]
    · have hin : insidePixel s0 s1 s2 x y := htest.mp hout
      rw [if_neg hout] at hres
      obtain ⟨depth, pix, info1, hd, hp, hb, hf, htot⟩ := fragment_frame Sqrt dc hwf v0 v1 v2
        s0 s1 s2 x y (w0 * (1 / edge s0 s1 s2)) (w1 * (1 / edge s0 s1 s2))
        (w2 * (1 / edge s0 s1 s2)) info
      rw [hf] at hres
      simp only at hres
      have hwf1 := wellFormed_withBuffers dc hwf depth pix hd hp hb
      have := ih (x + 1) _ _ _ true (dc.withBuffers depth pix) info1 hwf1 hW (hd.trans hL)
        (by rw [edge_pixel_succ, h0]) (by rw [edge_pixel_succ, h1])
        (by rw [edge_pixel_succ, h2]) (fun _ => ⟨x, by omega, hin⟩) dc2 info2 hres
      rw [this, htot, countFrom_succ]
      have hiff : indexInRange dc x y ↔ (0 ≤ y * W + x ∧ y * W + x < (L : Int)) := by
        unfold indexInRange
        rw [hW, hL]
      by_cases hr : indexInRange dc x y
      · rw [if_pos hr, if_pos ⟨hin, hiff.mp hr⟩]
        omega
      · rw [if_neg hr, if_neg (fun hp => hr (hiff.mpr hp.2))]
        omega

/-- The row loop counts in `TotalPixels` exactly the pixels of the remaining
rows of the bounding rectangle that pass the naive inside test and whose
index is in range. -/
theorem rasterizeRows_count (Sqrt : ℚ → ℚ) (v0 v1 v2 : Vertex) (s0 s1 s2 : Vector)
    (harea : 0 < edge s0 s1 s2) (x0 x1 W : Int) (L : Nat) (n : Nat) :
    ∀ (y : Int) (w00 w01 w02 : ℚ) (dc : Context) (info : RasterizeInfo),
      dc.WellFormed → dc.Width = W → dc.DepthBuffer.length = L →
      w00 = edge s1 s2 (pixelCentre x0 y) → w01 = edge s2 s0 (pixelCentre x0 y) →
      w02 = edge s0 s1 (pixelCentre x0 y) →
      ∀ dc2 info2,
        rasterizeRows Sqrt v0 v1 v2 s0 s1 s2 x0 x1 n y w00 w01 w02 dc info = some (dc2, info2) →
        info2.TotalPixels = info.TotalPixels +
          sumFrom (fun y2 => countFrom (fun x2 => insidePixel s0 s1 s2 x2 y2 ∧
            (0 ≤ y2 * W + x2 ∧ y2 * W + x2 < (L : Int))) x0 (x1 - x0 + 1).toNat) y n := by
  induction n with
  | zero =>
    intro y w00 w01 w02 dc info _ _ _ _ _ _ dc2 info2 hres
    simp only [rasterizeRows, Option.some.injEq, Prod.mk.injEq] at hres
    rw [← hres.2]
    rfl
  | succ n ih =>
    intro y w00 w01 w02 dc info hwf hW hL h0 h1 h2 dc2 info2 hres
    obtain ⟨k, hk, hskip⟩ := skipAhead_sound s0 s1 s2 x0 y
    rw [← h0, ← h1, ← h2] at hk
    have htr : truncInt ((k : Nat) : ℚ) = (k : Int) := by
      have : ((k : Nat) : ℚ) = (((k : Nat) : Int) : ℚ) := by norm_cast
      rw [this, truncInt_intCast]
    simp only [rasterizeRows, hk, htr] at hres
    obtain ⟨depth, pix, info1, hd, hp, hb, hf⟩ := rasterizeRow_frame Sqrt v0 v1 v2 s0 s1 s2 y
      (x1 - (x0 + (k : Int)) + 1).toNat (x0 + (k : Int))
      (w00 + (s2.Y - s1.Y) * (k : ℚ)) (w01 + (s0.Y - s2.Y) * (k : ℚ))
      (w02 + (s1.Y - s0.Y) * (k : ℚ)) false dc info hwf
    have hrow := rasterizeRow_count Sqrt v0 v1 v2 s0 s1 s2 harea y W L
      (x1 - (x0 + (k : Int)) + 1).toNat (x0 + (k : Int))
      (w00 + (s2.Y - s1.Y) * (k : ℚ)) (w01 + (s0.Y - s2.Y) * (k : ℚ))
      (w02 + (s1.Y - s0.Y) * (k : ℚ)) false dc info hwf hW hL
      (by rw [edge_pixel_add, h0, mul_comm]) (by rw [edge_pixel_add, h1, mul_comm])
      (by rw [edge_pixel_add, h2, mul_comm]) (by simp) _ _ hf
    rw [hf] at hres
    simp only at hres
    have hwf1 := wellFormed_withBuffers dc hwf depth pix hd hp hb
    have hrest := ih (y + 1) _ _ _ (dc.withBuffers depth pix) info1 hwf1 hW (hd.trans hL)
      (by rw [edge_pixel_row, h0]) (by rw [edge_pixel_row, h1]) (by rw [edge_pixel_row, h2])
      dc2 info2 hres
    have hcount := countFrom_skip (fun x2 => insidePixel s0 s1 s2 x2 y ∧
      (0 ≤ y * W + x2 ∧ y * W + x2 < (L : Int))) k x0 (x1 - x0 + 1).toNat
      (fun m hm hp => hskip m hm hp.1)
    have hn : (x1 - x0 + 1).toNat - k = (x1 - (x0 + (k : Int)) + 1).toNat := by omega
    rw [hn] at hcount
    rw [hrest, hrow]
    show _ = info.TotalPixels + (countFrom _ x0 (x1 - x0 + 1).toNat + sumFrom _ (y + 1) n)
    rw [hcount]
    omega

theorem naive_eq_sumFrom (dc : Context) (s0 s1 s2 : Vector) :
    naiveTotalPixels dc s0 s1 s2 =
      sumFrom (fun y2 => countFrom (fun x2 => insidePixel s0 s1 s2 x2 y2 ∧
          (0 ≤ y2 * dc.Width + x2 ∧ y2 * dc.Width + x2 < (dc.DepthBuffer.length : Int)))
          (boundingRect s0 s1 s2).1
          ((boundingRect s0 s1 s2).2.2.1 - (boundingRect s0 s1 s2).1 + 1).toNat)
        (boundingRect s0 s1 s2).2.1
        ((boundingRect s0 s1 s2).2.2.2 - (boundingRect s0 s1 s2).2.1 + 1).toNat := by
  unfold naiveTotalPixels
  simp only []
  rw [Finset.card_filter, Finset.sum_product_right, sumFrom_eq_sum, ← Icc_toNat]
  apply Finset.sum_congr rfl
  intro y _
  unfold countFrom
  rw [sumFrom_eq_sum, ← Icc_toNat]
  rfl

/-- C1. Rasterizer coverage equals the naive definition, in exact arithmetic:
for a well-formed context and a screen triangle with `edge s0 s1 s2 > 0`,
`rasterize` returns, and its `TotalPixels` is exactly the number of pixels
`(x, y)` of the bounding rectangle whose index `y*Width + x` lies in the depth
buffer and whose three edge values at the centre are all non-negative.
Neither the skip-ahead nor the early row break drops such a pixel: the pixels
that the skip-ahead of a row passes over fail the naive test, and so does
every pixel after the first outside pixel that follows an inside pixel. -/
theorem rasterize_total_pixels (Sqrt : ℚ → ℚ) (dc : Context) (v0 v1 v2 : Vertex)
    (s0 s1 s2 : Vector) (hwf : dc.WellFormed) (harea : 0 < edge s0 s1 s2) :
    (∃ dc2 info, rasterize Sqrt dc v0 v1 v2 s0 s1 s2 = some (dc2, info) ∧
      info.TotalPixels = naiveTotalPixels dc s0 s1 s2) ∧
    (∀ y : Int, ∃ k : Nat,
      skipAhead s0 s1 s2 (edge s1 s2 (pixelCentre (boundingRect s0 s1 s2).1 y))
        (edge s2 s0 (pixelCentre (boundingRect s0 s1 s2).1 y))
        (edge s0 s1 (pixelCentre (boundingRect s0 s1 s2).1 y)) = (k : ℚ) ∧
      ∀ m : Nat, m < k → ¬ insidePixel s0 s1 s2 ((boundingRect s0 s1 s2).1 + m) y) ∧
    (∀ (x2 x y : Int) (k : Nat), x2 < x → insidePixel s0 s1 s2 x2 y →
      ¬ insidePixel s0 s1 s2 x y → ¬ insidePixel s0 s1 s2 (x + k) y) := by
  refine ⟨?_, fun y => skipAhead_sound s0 s1 s2 _ y,
    fun x2 x y k hlt h2 h => outside_after_inside s0 s1 s2 x2 x y k hlt h2 h⟩
  obtain ⟨depth, pix, info, hd, hp, hb, hr⟩ := rasterizeRows_frame Sqrt v0 v1 v2 s0 s1 s2
    (boundingRect s0 s1 s2).1 (boundingRect s0 s1 s2).2.2.1
    ((boundingRect s0 s1 s2).2.2.2 - (boundingRect s0 s1 s2).2.1 + 1).toNat
    (boundingRect s0 s1 s2).2.1
    (edge s1 s2 (pixelCentre (boundingRect s0 s1 s2).1 (boundingRect s0 s1 s2).2.1))
    (edge s2 s0 (pixelCentre (boundingRect s0 s1 s2).1 (boundingRect s0 s1 s2).2.1))
    (edge s0 s1 (pixelCentre (boundingRect s0 s1 s2).1 (boundingRect s0 s1 s2).2.1))
    dc ⟨0, 0⟩ hwf
  have hcount := rasterizeRows_count Sqrt v0 v1 v2 s0 s1 s2 harea
    (boundingRect s0 s1 s2).1 (boundingRect s0 s1 s2).2.2.1 dc.Width dc.DepthBuffer.length
    ((boundingRect s0 s1 s2).2.2.2 - (boundingRect s0 s1 s2).2.1 + 1).toNat
    (boundingRect s0 s1 s2).2.1 _ _ _ dc ⟨0, 0⟩ hwf rfl rfl rfl rfl rfl _ _ hr
  refine ⟨dc.withBuffers depth pix, info, hr, ?_⟩
  rw [hcount, naive_eq_sumFrom]
  simp

theorem rasterize_total_pixels_witness :
    ∃ dc2 info, rasterize (fun _ => 1) context2x2 (sampleVertex 0 0 0 1 Discard)
        (sampleVertex 1 0 0 1 Discard) (sampleVertex 0 1 0 1 Discard)
        ⟨0, 2, 0⟩ ⟨2, 2, 0⟩ ⟨0, 0, 0⟩ = some (dc2, info) ∧ info.TotalPixels = 3 := by
  obtain ⟨dc2, info, h1, h2⟩ := (rasterize_total_pixels (fun _ => 1) context2x2
    (sampleVertex 0 0 0 1 Discard) (sampleVertex 1 0 0 1 Discard) (sampleVertex 0 1 0 1 Discard)
    ⟨0, 2, 0⟩ ⟨2, 2, 0⟩ ⟨0, 0, 0⟩ (by decide!) (by decide!)).1
  refine ⟨dc2, info, h1, ?_⟩
  rw [h2, naive_eq_sumFrom]
  decide!

/-- C13. Edge-function consistency: for all points `s0 s1 s2 p` the three
edge values at `p` sum to `edge s0 s1 s2`, the value whose reciprocal
`rasterize` uses as `ra`. -/
theorem edge_sum (s0 s1 s2 p : Vector) :
    edge s1 s2 p + edge s2 s0 p + edge s0 s1 p = edge s0 s1 s2 := by
  simp only [edge]
  ring

/-- C15. Screen matrix: `Screen w h` has the rows `(w/2, 0, 0, w/2)`,
`(0, -h/2, 0, h/2)`, `(0, 0, 1/2, 1/2)`, `(0, 0, 0, 1)`; it maps `(x, y, z)`
to `(w/2*x + w/2, -h/2*y + h/2, z/2 + 1/2)`, in particular `(-1, -1, -1)` to
`(0, h, 0)` and `(1, 1, 1)` to `(w, 0, 1)`; and whenever `NewContext w h`
returns a context, its screen matrix is `Screen w h`. -/
theorem screen_matrix (w h : Int) :
    Screen w h = ⟨(w : ℚ) / 2, 0, 0, (w : ℚ) / 2, 0, -((h : ℚ) / 2), 0, (h : ℚ) / 2,
      0, 0, 1 / 2, 1 / 2, 0, 0, 0, 1⟩ ∧
    (∀ x y z : ℚ, (Screen w h).MulPosition ⟨x, y, z⟩
      = ⟨(w : ℚ) / 2 * x + (w : ℚ) / 2, -((h : ℚ) / 2) * y + (h : ℚ) / 2, z / 2 + 1 / 2⟩) ∧
    (Screen w h).MulPosition ⟨-1, -1, -1⟩ = ⟨0, (h : ℚ), 0⟩ ∧
    (Screen w h).MulPosition ⟨1, 1, 1⟩ = ⟨(w : ℚ), 0, 1⟩ ∧
    (NewContext w h).map (fun dc => dc.screenMatrix)
      = if w * h < 0 then none else some (Screen w h) := by
  refine ⟨rfl, ?_, ?_, ?_, ?_⟩
  · intro x y z
    simp only [Screen, Matrix.MulPosition, Vector.mk.injEq]
    refine ⟨by ring, by ring, by ring⟩
  · simp only [Screen, Matrix.MulPosition, Vector.mk.injEq]
    refine ⟨by ring, by ring, by ring⟩
  · simp only [Screen, Matrix.MulPosition, Vector.mk.injEq]
    refine ⟨by ring, by ring, by ring⟩
  · unfold NewContext
    split_ifs <;> rfl

/-- C16. Outside test: for every clip-space vector, `w ≤ 0` included,
`VectorW.Outside` is true iff `|x| > w` or `|y| > w` or `|z| > w`, and
`Vertex.Outside` is `VectorW.Outside` of the vertex output. -/
theorem outside_iff (a : VectorW) (v : Vertex) :
    (a.Outside = true ↔ |a.X| > a.W ∨ |a.Y| > a.W ∨ |a.Z| > a.W) ∧
    v.Outside = v.Output.Outside := by
  refine ⟨?_, rfl⟩
  simp only [VectorW.Outside, decide_eq_true_eq, gt_iff_lt, lt_abs]
  constructor
  · rintro (h | h | h | h | h | h)
    · exact Or.inl (Or.inr (by linarith))
    · exact Or.inl (Or.inl h)
    · exact Or.inr (Or.inl (Or.inr (by linarith)))
    · exact Or.inr (Or.inl (Or.inl h))
    · exact Or.inr (Or.inr (Or.inr (by linarith)))
    · exact Or.inr (Or.inr (Or.inl h))
  · rintro ((h | h) | (h | h) | (h | h))
    · exact Or.inr (Or.inl h)
    · exact Or.inl (by linarith)
    · exact Or.inr (Or.inr (Or.inr (Or.inl h)))
    · exact Or.inr (Or.inr (Or.inl (by linarith)))
    · exact Or.inr (Or.inr (Or.inr (Or.inr (Or.inr h))))
    · exact Or.inr (Or.inr (Or.inr (Or.inr (Or.inl (by linarith)))))

/-- C17. `NewContext` defaults: for `width ≥ 0` and `height ≥ 0` the call
returns a context with the given size, the transparent zero clear colour, the
solid-colour shader with the identity matrix and colour `(1, 0, 1, 1)`,
`ReadDepth = WriteDepth = WriteColor = AlphaBlend = true`, `Wireframe = false`,
`FrontFace = FaceCCW`, `Cull = CullBack`, `LineWidth = 2`, `DepthBias = 0`, a
depth buffer of exactly `width*height` entries all equal to `MaxFloat64` (the
largest finite `float64`, `2^1024 - 2^971`), and 256 locks. -/
theorem newContext_defaults (w h : Int) (hw : 0 ≤ w) (hh : 0 ≤ h) :
    ∃ dc, NewContext w h = some dc ∧ dc.Width = w ∧ dc.Height = h ∧
      dc.ClearColor = Transparent ∧ Transparent = ⟨0, 0, 0, 0⟩ ∧
      dc.Shader = NewSolidColorShader Identity ⟨1, 0, 1, 1⟩ ∧
      dc.ReadDepth = true ∧ dc.WriteDepth = true ∧ dc.WriteColor = true ∧
      dc.AlphaBlend = true ∧ dc.Wireframe = false ∧ dc.FrontFace = FaceCCW ∧
      dc.Cull = CullBack ∧ dc.LineWidth = 2 ∧ dc.DepthBias = 0 ∧
      (dc.DepthBuffer.length : Int) = w * h ∧ (∀ d ∈ dc.DepthBuffer, d = MaxFloat64) ∧
      MaxFloat64 = 2 ^ 1024 - 2 ^ 971 ∧ dc.locks = 256 := by
  have hwh : ¬ w * h < 0 := not_lt.mpr (mul_nonneg hw hh)
  simp only [NewContext, if_neg hwh]
  refine ⟨_, rfl, rfl, rfl, rfl, rfl, rfl, rfl, rfl, rfl, rfl, rfl, rfl, rfl, rfl, rfl, ?_, ?_,
    rfl, rfl⟩
  · simp only [Context.ClearDepthBuffer, Context.ClearDepthBufferWith, List.length_map,
      List.length_replicate]
    exact Int.toNat_of_nonneg (mul_nonneg hw hh)
  · intro d hd
    simp only [Context.ClearDepthBuffer, Context.ClearDepthBufferWith, List.mem_map] at hd
    obtain ⟨_, _, rfl⟩ := hd
    rfl

theorem newContext_defaults_witness :
    ∃ dc, NewContext 10 10 = some dc ∧ dc.DepthBuffer.length = 100 ∧ dc.locks = 256 ∧
      dc.Cull = CullBack := by
  obtain ⟨dc, h, _, _, _, _, _, _, _, _, _, _, _, hc, _, _, hl, _, _, hk⟩ :=
    newContext_defaults 10 10 (by decide) (by decide)
  exact ⟨dc, h, by exact_mod_cast hl, hk, hc⟩

theorem clamp_mem (x lo hi : ℚ) (h : lo ≤ hi) : lo ≤ Clamp x lo hi ∧ Clamp x lo hi ≤ hi := by
  unfold Clamp
  split_ifs with h1 h2
  · exact ⟨le_refl lo, h⟩
  · exact ⟨h, le_refl hi⟩
  · exact ⟨not_lt.mp h1, not_lt.mp h2⟩

theorem truncInt_unit_scaled (t : ℚ) (h0 : 0 ≤ t) (h1 : t ≤ 1) (n : Nat) :
    0 ≤ truncInt (t * (n : ℚ)) ∧ truncInt (t * (n : ℚ)) ≤ (n : Int) := by
  have hn : (0 : ℚ) ≤ (n : ℚ) := Nat.cast_nonneg n
  have hq : 0 ≤ t * (n : ℚ) := mul_nonneg h0 hn
  rw [truncInt_of_nonneg _ hq]
  refine ⟨Int.floor_nonneg.mpr hq, ?_⟩
  have hle : t * (n : ℚ) ≤ ((n : Int) : ℚ) := by
    have : t * (n : ℚ) ≤ 1 * (n : ℚ) := mul_le_mul_of_nonneg_right h1 hn
    simpa using this
  exact Int.floor_le_floor hle |>.trans (by simp)

theorem toUint8_clamp (x : ℚ) :
    toUint8 (Clamp x 0 1 * 255) = (truncInt (Clamp x 0 1 * 255)).toNat ∧
      (truncInt (Clamp x 0 1 * 255)).toNat ≤ 255 := by
  obtain ⟨c0, c1⟩ := clamp_mem x 0 1 (by norm_num)
  have h := truncInt_unit_scaled (Clamp x 0 1) c0 c1 255
  simp only [Nat.cast_ofNat] at h
  obtain ⟨t0, t1⟩ := h
  unfold toUint8
  constructor
  · congr 1
    omega
  · omega

theorem pixOffset_bounds (dc : Context) (hwf : dc.WellFormed) (x y : Int)
    (hin : image.Point.In ⟨x, y⟩ dc.ColorBuffer.Rect = true) :
    0 ≤ dc.ColorBuffer.PixOffset x y ∧
      dc.ColorBuffer.PixOffset x y + 4 ≤ (dc.ColorBuffer.Pix.length : Int) := by
  have hoff := pixOffset_wf dc hwf x y
  obtain ⟨hW, hH, hd, hp, hs, hr, hb, _⟩ := hwf
  simp only [image.Point.In, hr, decide_eq_true_eq] at hin
  obtain ⟨hx0, hx1, hy0, hy1⟩ := hin
  have hyw0 : 0 ≤ y * dc.Width := mul_nonneg hy0 hW
  rw [hoff, hp, mul_assoc]
  constructor
  · omega
  · nlinarith

/-- The blend branch of `writeColor` read back: the pixel holds the blend of
its previous bytes with the premultiplied fragment colour. -/
theorem writeColor_blend_readback (dc : Context) (x y : Int) (color : Color)
    (hblend : dc.AlphaBlend = true ∧ color.A < 1)
    (hin : image.Point.In ⟨x, y⟩ dc.ColorBuffer.Rect = true)
    (h0 : 0 ≤ dc.ColorBuffer.PixOffset x y)
    (h1 : dc.ColorBuffer.PixOffset x y + 4 ≤ (dc.ColorBuffer.Pix.length : Int))
    (d : Fauxgl.color.NRGBA) (hdst : dc.ColorBuffer.NRGBAAt x y = some d) :
    ∃ dc2, writeColor dc x y color = some dc2 ∧
      dc2.DepthBuffer = dc.DepthBuffer ∧
      dc2.ColorBuffer.NRGBAAt x y = some
        ⟨blendChannel d.R (sub32 0xffff color.NRGBA.RGBA.2.2.2 * 0x101 % 2 ^ 32)
          color.NRGBA.RGBA.1,
        blendChannel d.G (sub32 0xffff color.NRGBA.RGBA.2.2.2 * 0x101 % 2 ^ 32)
          color.NRGBA.RGBA.2.1,
        blendChannel d.B (sub32 0xffff color.NRGBA.RGBA.2.2.2 * 0x101 % 2 ^ 32)
          color.NRGBA.RGBA.2.2.1,
        blendChannel d.A (sub32 0xffff color.NRGBA.RGBA.2.2.2 * 0x101 % 2 ^ 32)
          color.NRGBA.RGBA.2.2.2⟩ := by
  obtain ⟨dr, hdr, _⟩ := index_some dc.ColorBuffer.Pix (dc.ColorBuffer.PixOffset x y)
    (by omega) (by omega)
  obtain ⟨dg, hdg, _⟩ := index_some dc.ColorBuffer.Pix (dc.ColorBuffer.PixOffset x y + 1)
    (by omega) (by omega)
  obtain ⟨db, hdb, _⟩ := index_some dc.ColorBuffer.Pix (dc.ColorBuffer.PixOffset x y + 2)
    (by omega) (by omega)
  obtain ⟨da, hda, _⟩ := index_some dc.ColorBuffer.Pix (dc.ColorBuffer.PixOffset x y + 3)
    (by omega) (by omega)
  simp only [image.NRGBA.NRGBAAt, hin, not_true_eq_false, if_false, hdr, hdg, hdb, hda,
    Option.some.injEq] at hdst
  subst hdst
  have e0 : (dc.ColorBuffer.PixOffset x y + 0).toNat = (dc.ColorBuffer.PixOffset x y).toNat := by
    simp
  have e1 : (dc.ColorBuffer.PixOffset x y + 1).toNat
      = (dc.ColorBuffer.PixOffset x y).toNat + 1 := by omega
  have e2 : (dc.ColorBuffer.PixOffset x y + 2).toNat
      = (dc.ColorBuffer.PixOffset x y).toNat + 2 := by omega
  have e3 : (dc.ColorBuffer.PixOffset x y + 3).toNat
      = (dc.ColorBuffer.PixOffset x y).toNat + 3 := by omega
  simp only [writeColor, if_pos hblend, add_zero, hdr, hdg, hdb, hda, e1, e2, e3]
  refine ⟨_, rfl, rfl, ?_⟩
  exact nrgbaAt_set4 dc.ColorBuffer x y _ _ _ _ hin h0 h1

/-- C11. Alpha-blend scenario: on a well-formed context with `AlphaBlend` and
`WriteColor` set, writing the fragment colour `(0, 0, 1, 0.5)` to a pixel of
the image that holds `(255, 0, 0, 255)` leaves the pixel at
`(128, 0, 127, 255)`, which is within 1 of `(128, 0, 128, 255)` in every
channel. -/
theorem alpha_blend_scenario (dc : Context) (hwf : dc.WellFormed) (x y : Int)
    (hin : image.Point.In ⟨x, y⟩ dc.ColorBuffer.Rect = true)
    (hab : dc.AlphaBlend = true) (hwc : dc.WriteColor = true)
    (hdst : dc.ColorBuffer.NRGBAAt x y = some ⟨255, 0, 0, 255⟩) (i : Nat) (z : ℚ) :
    ∃ dc2 p, writePixel dc x y i z ⟨0, 0, 1, 1 / 2⟩ = some dc2 ∧
      dc2.ColorBuffer.NRGBAAt x y = some p ∧ p = ⟨128, 0, 127, 255⟩ ∧
      (p.R ≤ 128 + 1 ∧ 128 ≤ p.R + 1) ∧ (p.G ≤ 0 + 1 ∧ 0 ≤ p.G + 1) ∧
      (p.B ≤ 128 + 1 ∧ 128 ≤ p.B + 1) ∧ (p.A ≤ 255 + 1 ∧ 255 ≤ p.A + 1) := by
  have e : (if dc.WriteDepth = true then { dc with DepthBuffer := dc.DepthBuffer.set i z } else dc)
      = dc.withBuffers (if dc.WriteDepth = true then dc.DepthBuffer.set i z else dc.DepthBuffer)
          dc.ColorBuffer.Pix := by
    split_ifs <;> rfl
  obtain ⟨h0, h1⟩ := pixOffset_bounds dc hwf x y hin
  obtain ⟨dc2, hw, _, hread⟩ := writeColor_blend_readback
    (dc.withBuffers (if dc.WriteDepth = true then dc.DepthBuffer.set i z else dc.DepthBuffer)
      dc.ColorBuffer.Pix) x y ⟨0, 0, 1, 1 / 2⟩ ⟨hab, by norm_num⟩ hin h0 h1 ⟨255, 0, 0, 255⟩ hdst
  refine ⟨dc2, ⟨128, 0, 127, 255⟩, ?_, ?_, rfl, by decide, by decide, by decide, by decide⟩
  · simp only [writePixel, e]
    simp only [show ∀ d p, (dc.withBuffers d p).WriteColor = dc.WriteColor from fun _ _ => rfl,
      hwc, if_true]
    exact hw
  · rw [hread]
    decide!

theorem alpha_blend_scenario_witness :
    ∃ dc2, writePixel redContext 1 1 3 (1 / 2) ⟨0, 0, 1, 1 / 2⟩ = some dc2 ∧
      dc2.ColorBuffer.NRGBAAt 1 1 = some ⟨128, 0, 127, 255⟩ := by
  obtain ⟨dc2, p, h1, h2, h3, _⟩ := alpha_blend_scenario redContext (by decide!) 1 1 (by decide!)
    (by decide!) (by decide!) (by decide!) 3 (1 / 2)
  exact ⟨dc2, h1, by rw [h2, h3]⟩

theorem fragment_indep (S1 S2 : ℚ → ℚ) (dc : Context) (v0 v1 v2 u0 u1 u2 : Vertex)
    (s0 s1 s2 : Vector) (x y : Int) (b0 b1 b2 : ℚ) (info : RasterizeInfo)
    (hc : ∀ v w, dc.Shader.Fragment v = dc.Shader.Fragment w) :
    fragment S1 dc v0 v1 v2 s0 s1 s2 x y b0 b1 b2 info
      = fragment S2 dc u0 u1 u2 s0 s1 s2 x y b0 b1 b2 info := by
  unfold fragment
  rw [hc (fragmentVertex S1 v0 v1 v2 b0 b1 b2) (fragmentVertex S2 u0 u1 u2 b0 b1 b2)]

/-- With a fragment shader that ignores its argument the pixel loop does not
depend on the vertex attributes or on the square-root function. -/
theorem rasterizeRow_indep (S1 S2 : ℚ → ℚ) (v0 v1 v2 u0 u1 u2 : Vertex) (s0 s1 s2 : Vector)
    (y : Int) (n : Nat) :
    ∀ (x : Int) (w0 w1 w2 : ℚ) (wasInside : Bool) (dc : Context) (info : RasterizeInfo),
      dc.WellFormed → (∀ v w, dc.Shader.Fragment v = dc.Shader.Fragment w) →
      rasterizeRow S1 v0 v1 v2 s0 s1 s2 y n x w0 w1 w2 wasInside dc info
        = rasterizeRow S2 u0 u1 u2 s0 s1 s2 y n x w0 w1 w2 wasInside dc info := by
  induction n with
  | zero =>
    intro x w0 w1 w2 wasInside dc info _ _
    rfl
  | succ n ih =>
    intro x w0 w1 w2 wasInside dc info hwf hc
    simp only [rasterizeRow]
    split_ifs with hout hwas
    · rfl
    · exact ih _ _ _ _ _ dc info hwf hc
    · rw [fragment_indep S1 S2 dc v0 v1 v2 u0 u1 u2 s0 s1 s2 x y _ _ _ info hc]
      obtain ⟨depth, pix, info1, hd, hp, hb, hf, _⟩ := fragment_frame S2 dc hwf u0 u1 u2 s0 s1 s2
        x y (w0 * (1 / edge s0 s1 s2)) (w1 * (1 / edge s0 s1 s2)) (w2 * (1 / edge s0 s1 s2)) info
      rw [hf]
      exact ih _ _ _ _ _ _ info1 (wellFormed_withBuffers dc hwf depth pix hd hp hb) hc

theorem rasterizeRows_indep (S1 S2 : ℚ → ℚ) (v0 v1 v2 u0 u1 u2 : Vertex) (s0 s1 s2 : Vector)
    (x0 x1 : Int) (n : Nat) :
    ∀ (y : Int) (w00 w01 w02 : ℚ) (dc : Context) (info : RasterizeInfo),
      dc.WellFormed → (∀ v w, dc.Shader.Fragment v = dc.Shader.Fragment w) →
      rasterizeRows S1 v0 v1 v2 s0 s1 s2 x0 x1 n y w00 w01 w02 dc info
        = rasterizeRows S2 u0 u1 u2 s0 s1 s2 x0 x1 n y w00 w01 w02 dc info := by
  induction n with
  | zero =>
    intro y w00 w01 w02 dc info _ _
    rfl
  | succ n ih =>
    intro y w00 w01 w02 dc info hwf hc
    simp only [rasterizeRows]
    rw [rasterizeRow_indep S1 S2 v0 v1 v2 u0 u1 u2 s0 s1 s2 y _ _ _ _ _ false dc info hwf hc]
    obtain ⟨depth, pix, info1, hd, hp, hb, hf⟩ := rasterizeRow_frame S2 u0 u1 u2 s0 s1 s2 y
      (x1 - (x0 + truncInt (skipAhead s0 s1 s2 w00 w01 w02)) + 1).toNat
      (x0 + truncInt (skipAhead s0 s1 s2 w00 w01 w02))
      (w00 + (s2.Y - s1.Y) * skipAhead s0 s1 s2 w00 w01 w02)
      (w01 + (s0.Y - s2.Y) * skipAhead s0 s1 s2 w00 w01 w02)
      (w02 + (s1.Y - s0.Y) * skipAhead s0 s1 s2 w00 w01 w02) false dc info hwf
    rw [hf]
    exact ih _ _ _ _ _ info1 (wellFormed_withBuffers dc hwf depth pix hd hp hb) hc

theorem rasterize_indep (S1 S2 : ℚ → ℚ) (dc : Context) (v0 v1 v2 u0 u1 u2 : Vertex)
    (s0 s1 s2 : Vector) (hwf : dc.WellFormed)
    (hc : ∀ v w, dc.Shader.Fragment v = dc.Shader.Fragment w) :
    rasterize S1 dc v0 v1 v2 s0 s1 s2 = rasterize S2 dc u0 u1 u2 s0 s1 s2 := by
  simp only [rasterize]
  exact rasterizeRows_indep S1 S2 v0 v1 v2 u0 u1 u2 s0 s1 s2 _ _ _ _ _ _ _ dc _ hwf hc

/-- With a fragment shader that ignores its argument and `Wireframe` off,
`drawClippedTriangle` depends on the vertices through their `Output` only. -/
theorem drawClippedTriangle_indep (S1 S2 : ℚ → ℚ) (dc : Context) (v0 v1 v2 u0 u1 u2 : Vertex)
    (hwf : dc.WellFormed) (hc : ∀ v w, dc.Shader.Fragment v = dc.Shader.Fragment w)
    (hwire : dc.Wireframe = false) (h0 : v0.Output = u0.Output) (h1 : v1.Output = u1.Output)
    (h2 : v2.Output = u2.Output) :
    drawClippedTriangle S1 dc v0 v1 v2 = drawClippedTriangle S2 dc u0 u1 u2 := by
  have ha : ndcArea v0 v1 v2 = ndcArea u0 u1 u2 := by
    simp only [ndcArea, h0, h1, h2]
  rw [drawClippedTriangle_eq, drawClippedTriangle_eq, ha]
  have hd : orientedDraw S1 dc v0 v1 v2 = orientedDraw S2 dc u0 u1 u2 := by
    simp only [orientedDraw, screenDraw, ha, hwire, h0, h1, h2, Bool.false_eq_true, if_false]
    split_ifs
    · exact rasterize_indep S1 S2 dc _ _ _ _ _ _ _ _ _ hwf hc
    · exact rasterize_indep S1 S2 dc _ _ _ _ _ _ _ _ _ hwf hc
  rw [hd]

theorem red_triangle_eval :
    (drawClippedTriangle (fun _ => 1) redShaderContext
        (sampleVertex (-1 / 2) (-1 / 2) 0 1 Discard) (sampleVertex (1 / 2) (-1 / 2) 0 1 Discard)
        (sampleVertex 0 (1 / 2) 0 1 Discard)).map
          (fun r => (redTriangleImage r.1.ColorBuffer, r.1.ColorBuffer.NRGBAAt 5 5,
            r.1.ColorBuffer.NRGBAAt 0 0, r.2))
      = some (true, some ⟨255, 0, 0, 255⟩, some ⟨0, 0, 0, 0⟩, ⟨18, 18⟩) := by
  decide!

/-- C12. Single red triangle end to end: on the context of `NewContext 10 10`
with the solid-colour shader (identity matrix, colour `(1, 0, 0, 1)`),
`DrawTriangle` of a triangle with the positions `(-0.5, -0.5, 0)`,
`(0.5, -0.5, 0)`, `(0, 0.5, 0)` returns, and afterwards every pixel whose
centre lies in the screen triangle `(2.5, 7.5), (7.5, 7.5), (5, 2.5)`
(boundary included) holds `(255, 0, 0, 255)`, for example pixel (5, 5), and
every other pixel holds `(0, 0, 0, 0)`, for example pixel (0, 0). -/
theorem red_triangle (Sqrt : ℚ → ℚ) (ClipTriangle : Triangle → List Triangle) (t : Triangle)
    (h1 : t.V1.Position = ⟨-1 / 2, -1 / 2, 0⟩) (h2 : t.V2.Position = ⟨1 / 2, -1 / 2, 0⟩)
    (h3 : t.V3.Position = ⟨0, 1 / 2, 0⟩) :
    ∃ dc2 info, DrawTriangle Sqrt ClipTriangle redShaderContext t = some (dc2, info) ∧
      (∀ x y : Int, 0 ≤ x → x < 10 → 0 ≤ y → y < 10 →
        dc2.ColorBuffer.NRGBAAt x y = some
          (if insidePixel ⟨5 / 2, 15 / 2, 1 / 2⟩ ⟨15 / 2, 15 / 2, 1 / 2⟩ ⟨5, 5 / 2, 1 / 2⟩ x y
            then ⟨255, 0, 0, 255⟩ else ⟨0, 0, 0, 0⟩)) ∧
      dc2.ColorBuffer.NRGBAAt 5 5 = some ⟨255, 0, 0, 255⟩ ∧
      dc2.ColorBuffer.NRGBAAt 0 0 = some ⟨0, 0, 0, 0⟩ := by
  have ho1 : (redShaderContext.Shader.Vertex t.V1).Output = ⟨-1 / 2, -1 / 2, 0, 1⟩ := by
    show Identity.MulPositionW t.V1.Position = _
    rw [h1]
    decide!
  have ho2 : (redShaderContext.Shader.Vertex t.V2).Output = ⟨1 / 2, -1 / 2, 0, 1⟩ := by
    show Identity.MulPositionW t.V2.Position = _
    rw [h2]
    decide!
  have ho3 : (redShaderContext.Shader.Vertex t.V3).Output = ⟨0, 1 / 2, 0, 1⟩ := by
    show Identity.MulPositionW t.V3.Position = _
    rw [h3]
    decide!
  have hout : ¬ ((redShaderContext.Shader.Vertex t.V1).Outside = true ∨
      (redShaderContext.Shader.Vertex t.V2).Outside = true ∨
      (redShaderContext.Shader.Vertex t.V3).Outside = true) := by
    simp only [Vertex.Outside, ho1, ho2, ho3]
    decide!
  have hdraw : DrawTriangle Sqrt ClipTriangle redShaderContext t
      = drawClippedTriangle (fun _ => 1) redShaderContext
        (sampleVertex (-1 / 2) (-1 / 2) 0 1 Discard) (sampleVertex (1 / 2) (-1 / 2) 0 1 Discard)
        (sampleVertex 0 (1 / 2) 0 1 Discard) := by
    simp only [DrawTriangle, if_neg hout]
    exact drawClippedTriangle_indep Sqrt (fun _ => 1) redShaderContext _ _ _ _ _ _ (by decide!)
      (fun _ _ => rfl) rfl ho1 ho2 ho3
  have heval := red_triangle_eval
  rw [← hdraw] at heval
  cases hres : DrawTriangle Sqrt ClipTriangle redShaderContext t with
  | none =>
    rw [hres] at heval
    exact absurd heval (by simp)
  | some r =>
    rw [hres] at heval
    simp only [Option.map_some', Option.some.injEq, Prod.mk.injEq] at heval
    obtain ⟨him, h55, h00, _⟩ := heval
    refine ⟨r.1, r.2, rfl, ?_, h55, h00⟩
    intro x y hx0 hx1 hy0 hy1
    have hall := of_decide_eq_true him
    have := hall x.toNat (List.mem_range.mpr (by omega)) y.toNat (List.mem_range.mpr (by omega))
    rw [Int.toNat_of_nonneg hx0, Int.toNat_of_nonneg hy0] at this
    exact this

theorem red_triangle_witness :
    ∃ dc2 info, DrawTriangle sqrtTable (fun _ => []) redShaderContext
        (NewTriangleForPoints sqrtTable ⟨-1 / 2, -1 / 2, 0⟩ ⟨1 / 2, -1 / 2, 0⟩ ⟨0, 1 / 2, 0⟩)
        = some (dc2, info) ∧
      dc2.ColorBuffer.NRGBAAt 5 5 = some ⟨255, 0, 0, 255⟩ ∧
      dc2.ColorBuffer.NRGBAAt 0 0 = some ⟨0, 0, 0, 0⟩ := by
  obtain ⟨dc2, info, h, _, h55, h00⟩ := red_triangle sqrtTable (fun _ => [])
    (NewTriangleForPoints sqrtTable ⟨-1 / 2, -1 / 2, 0⟩ ⟨1 / 2, -1 / 2, 0⟩ ⟨0, 1 / 2, 0⟩)
    (by decide!) (by decide!) (by decide!)
  exact ⟨dc2, info, h, h55, h00⟩

theorem floor_one_sub (v : ℚ) (h : v - (⌊v⌋ : Int) ≠ 0) : ⌊1 - v⌋ = -⌊v⌋ := by
  rw [Int.floor_eq_iff]
  have h1 : (⌊v⌋ : ℚ) ≤ v := Int.floor_le v
  have h2 : v < (⌊v⌋ : ℚ) + 1 := Int.lt_floor_add_one v
  have h3 : (⌊v⌋ : ℚ) < v := lt_of_le_of_ne h1 (fun e => h (sub_eq_zero.mpr e.symm))
  push_cast
  constructor <;> linarith

/-- C20 (amended). Nearest texture sampling, in exact arithmetic: for a
texture with non-negative `Width` and `Height`, `Sample` flips `v` first
(`v1 = 1 - v`), then wraps both coordinates (`u' = u - floor u`, `v' = v1 - floor v1`), and reads the
texel at `(floor (u' * W), floor (v' * H))`; when `v` is not an integer this
is the texel `(floor (u' * W), floor ((1 - (v - floor v)) * H))`. -/
theorem sample_texel (t : ImageTexture) (u v : ℚ) (hW : 0 ≤ t.Width) (hH : 0 ≤ t.Height) :
    t.Sample u v = MakeColor (t.Image.At ⌊(u - (⌊u⌋ : Int)) * (t.Width : ℚ)⌋
      ⌊((1 - v) - (⌊1 - v⌋ : Int)) * (t.Height : ℚ)⌋) ∧
    (v - (⌊v⌋ : Int) ≠ 0 → t.texel u v = wrapThenFlipTexel t.Width t.Height u v) := by
  have hu : 0 ≤ (u - (⌊u⌋ : Int)) * (t.Width : ℚ) :=
    mul_nonneg (sub_nonneg.mpr (Int.floor_le u)) (by exact_mod_cast hW)
  have hv : 0 ≤ ((1 - v) - (⌊1 - v⌋ : Int)) * (t.Height : ℚ) :=
    mul_nonneg (sub_nonneg.mpr (Int.floor_le (1 - v))) (by exact_mod_cast hH)
  have htex : t.texel u v = (⌊(u - (⌊u⌋ : Int)) * (t.Width : ℚ)⌋,
      ⌊((1 - v) - (⌊1 - v⌋ : Int)) * (t.Height : ℚ)⌋) := by
    simp only [ImageTexture.texel, truncInt_of_nonneg _ hu, truncInt_of_nonneg _ hv]
  refine ⟨?_, fun hne => ?_⟩
  · simp only [ImageTexture.Sample, htex]
  · rw [htex, wrapThenFlipTexel, floor_one_sub v hne]
    congr 2
    push_cast
    ring

theorem sample_texel_witness :
    coordTexture.Sample (1 / 4) (1 / 4) = ⟨0, 1 / 65535, 0, 1⟩ := by
  rw [(sample_texel coordTexture (1 / 4) (1 / 4) (by decide) (by decide)).1]
  decide!

theorem rasterizeRow_eq_runRow (Sqrt : ℚ → ℚ) (v0 v1 v2 : Vertex) (s0 s1 s2 : Vector) (y : Int)
    (n : Nat) :
    ∀ (x : Int) (w0 w1 w2 : ℚ) (wasInside : Bool) (dc : Context) (info : RasterizeInfo),
      rasterizeRow Sqrt v0 v1 v2 s0 s1 s2 y n x w0 w1 w2 wasInside dc info
        = runRow Sqrt v0 v1 v2 s0 s1 s2 y (rowTrace s0 s1 s2 n x w0 w1 w2 wasInside) dc info := by
  induction n with
  | zero =>
    intro x w0 w1 w2 wasInside dc info
    rfl
  | succ n ih =>
    intro x w0 w1 w2 wasInside dc info
    simp only [rasterizeRow, rowTrace, runRow]
    by_cases hout : w0 * (1 / edge s0 s1 s2) < 0 ∨ w1 * (1 / edge s0 s1 s2) < 0 ∨
        w2 * (1 / edge s0 s1 s2) < 0
    · simp only [if_pos hout]
      by_cases hw : wasInside = true
      · simp only [if_pos hw, runRow]
      · simp only [if_neg hw]
        exact ih _ _ _ _ _ _ _
    · simp only [if_neg hout]
      cases hf : fragment Sqrt dc v0 v1 v2 s0 s1 s2 x y (w0 * (1 / edge s0 s1 s2))
          (w1 * (1 / edge s0 s1 s2)) (w2 * (1 / edge s0 s1 s2)) info with
      | none => rfl
      | some r => exact ih _ _ _ _ _ _ _

theorem rasterizeRows_eq_runRows (Sqrt : ℚ → ℚ) (v0 v1 v2 : Vertex) (s0 s1 s2 : Vector)
    (x0 x1 : Int) (n : Nat) :
    ∀ (y : Int) (w00 w01 w02 : ℚ) (dc : Context) (info : RasterizeInfo),
      rasterizeRows Sqrt v0 v1 v2 s0 s1 s2 x0 x1 n y w00 w01 w02 dc info
        = runRows Sqrt v0 v1 v2 s0 s1 s2 (rowsTrace s0 s1 s2 x0 x1 n y w00 w01 w02) dc info := by
  induction n with
  | zero =>
    intro y w00 w01 w02 dc info
    rfl
  | succ n ih =>
    intro y w00 w01 w02 dc info
    simp only [rasterizeRows, rowsTrace, runRows, rasterizeRow_eq_runRow]
    cases hf : runRow Sqrt v0 v1 v2 s0 s1 s2 y
        (rowTrace s0 s1 s2 (x1 - (x0 + truncInt (skipAhead s0 s1 s2 w00 w01 w02)) + 1).toNat
          (x0 + truncInt (skipAhead s0 s1 s2 w00 w01 w02))
          (w00 + (s2.Y - s1.Y) * skipAhead s0 s1 s2 w00 w01 w02)
          (w01 + (s0.Y - s2.Y) * skipAhead s0 s1 s2 w00 w01 w02)
          (w02 + (s1.Y - s0.Y) * skipAhead s0 s1 s2 w00 w01 w02) false) dc info with
    | none => rfl
    | some r => exact ih _ _ _ _ _ _

theorem edge_sum_at (s0 s1 s2 p : Vector) :
    edge s1 s2 p + edge s2 s0 p + edge s0 s1 p = edge s0 s1 s2 := by
  simp only [edge]
  ring

theorem rowTrace_sum (s0 s1 s2 : Vector) (hA : edge s0 s1 s2 ≠ 0) (n : Nat) :
    ∀ (x : Int) (w0 w1 w2 : ℚ) (wasInside : Bool), w0 + w1 + w2 = edge s0 s1 s2 →
      ∀ p ∈ rowTrace s0 s1 s2 n x w0 w1 w2 wasInside, p.b0 + p.b1 + p.b2 = 1 := by
  induction n with
  | zero =>
    intro x w0 w1 w2 wasInside _ p hp
    simp [rowTrace] at hp
  | succ n ih =>
    intro x w0 w1 w2 wasInside hw p hp
    have hnext : (w0 + (s2.Y - s1.Y)) + (w1 + (s0.Y - s2.Y)) + (w2 + (s1.Y - s0.Y))
        = edge s0 s1 s2 := by
      rw [← hw]
      ring
    simp only [rowTrace, List.mem_cons] at hp
    rcases hp with hp | hp
    · rw [hp]
      show w0 * (1 / edge s0 s1 s2) + w1 * (1 / edge s0 s1 s2) + w2 * (1 / edge s0 s1 s2) = 1
      rw [← add_mul, ← add_mul, hw]
      field_simp
    · split_ifs at hp
      · simp at hp
      · exact ih _ _ _ _ _ hnext p hp
      · exact ih _ _ _ _ _ hnext p hp

theorem rowsTrace_sum (s0 s1 s2 : Vector) (hA : edge s0 s1 s2 ≠ 0) (x0 x1 : Int) (n : Nat) :
    ∀ (y : Int) (w00 w01 w02 : ℚ), w00 + w01 + w02 = edge s0 s1 s2 →
      ∀ r ∈ rowsTrace s0 s1 s2 x0 x1 n y w00 w01 w02, ∀ p ∈ r.2, p.b0 + p.b1 + p.b2 = 1 := by
  induction n with
  | zero =>
    intro y w00 w01 w02 _ r hr
    simp [rowsTrace] at hr
  | succ n ih =>
    intro y w00 w01 w02 hw r hr
    simp only [rowsTrace, List.mem_cons] at hr
    rcases hr with hr | hr
    · rw [hr]
      apply rowTrace_sum s0 s1 s2 hA
      rw [← hw]
      ring
    · apply ih _ _ _ _ _ r hr
      rw [← hw]
      ring

/-- C14. Barycentric partition, in exact arithmetic: for a triangle with
`edge s0 s1 s2 ≠ 0`, the three values `b0 b1 b2` computed for every pixel that
the loop of `rasterize` tests (every row, every column, after every
skip-ahead) sum to 1.  The tested pixels are those of `rasterTrace`, and
`rasterize` is exactly the run of the fragment steps over them; the forward
differences keep the sum because `a12 + a20 + a01 = 0` and
`b12 + b20 + b01 = 0`. -/
theorem barycentric_partition (Sqrt : ℚ → ℚ) (dc : Context) (v0 v1 v2 : Vertex)
    (s0 s1 s2 : Vector) (hA : edge s0 s1 s2 ≠ 0) :
    (∀ r ∈ rasterTrace s0 s1 s2, ∀ p ∈ r.2, p.b0 + p.b1 + p.b2 = 1) ∧
    rasterize Sqrt dc v0 v1 v2 s0 s1 s2
      = runRows Sqrt v0 v1 v2 s0 s1 s2 (rasterTrace s0 s1 s2) dc ⟨0, 0⟩ ∧
    (s2.Y - s1.Y) + (s0.Y - s2.Y) + (s1.Y - s0.Y) = 0 ∧
    (s1.X - s2.X) + (s2.X - s0.X) + (s0.X - s1.X) = 0 := by
  refine ⟨?_, ?_, by ring, by ring⟩
  · unfold rasterTrace
    exact rowsTrace_sum s0 s1 s2 hA _ _ _ _ _ _ _ (edge_sum_at s0 s1 s2 _)
  · simp only [rasterize]
    exact rasterizeRows_eq_runRows Sqrt v0 v1 v2 s0 s1 s2 _ _ _ _ _ _ _ dc _

theorem barycentric_partition_witness :
    (rasterTrace ⟨0, 2, 0⟩ ⟨2, 2, 0⟩ ⟨0, 0, 0⟩).length = 3 ∧
      ∀ r ∈ rasterTrace ⟨0, 2, 0⟩ ⟨2, 2, 0⟩ ⟨0, 0, 0⟩, ∀ p ∈ r.2, p.b0 + p.b1 + p.b2 = 1 :=
  ⟨by decide!, (barycentric_partition (fun _ => 1) context2x2 (sampleVertex 0 0 0 1 Discard)
    (sampleVertex 1 0 0 1 Discard) (sampleVertex 0 1 0 1 Discard)
    ⟨0, 2, 0⟩ ⟨2, 2, 0⟩ ⟨0, 0, 0⟩ (by decide!)).1⟩

theorem depthRange_fold (l : List ℚ) : ∀ p : ℚ × ℚ,
    ((l.foldl depthRangeStep p).1 ≤ p.1 ∧
      (∀ d ∈ l, d ≠ MaxFloat64 → (l.foldl depthRangeStep p).1 ≤ d) ∧
      ((l.foldl depthRangeStep p).1 = p.1 ∨
        ((l.foldl depthRangeStep p).1 ∈ l ∧ (l.foldl depthRangeStep p).1 ≠ MaxFloat64))) ∧
    (p.2 ≤ (l.foldl depthRangeStep p).2 ∧
      (∀ d ∈ l, d ≠ MaxFloat64 → d ≤ (l.foldl depthRangeStep p).2) ∧
      ((l.foldl depthRangeStep p).2 = p.2 ∨
        ((l.foldl depthRangeStep p).2 ∈ l ∧ (l.foldl depthRangeStep p).2 ≠ MaxFloat64))) := by
  induction l with
  | nil =>
    intro p
    simp
  | cons d l ih =>
    intro p
    simp only [List.foldl_cons]
    obtain ⟨⟨h1, h2, h3⟩, h4, h5, h6⟩ := ih (depthRangeStep p d)
    by_cases hd : d = MaxFloat64
    · have hq : depthRangeStep p d = p := by simp [depthRangeStep, hd]
      rw [hq] at h1 h2 h3 h4 h5 h6 ⊢
      refine ⟨⟨h1, ?_, ?_⟩, h4, ?_, ?_⟩
      · intro e he hne
        rcases List.mem_cons.mp he with h | h
        · exact absurd (h.trans hd) hne
        · exact h2 e h hne
      · rcases h3 with h | ⟨h, hn⟩
        · exact Or.inl h
        · exact Or.inr ⟨List.mem_cons_of_mem _ h, hn⟩
      · intro e he hne
        rcases List.mem_cons.mp he with h | h
        · exact absurd (h.trans hd) hne
        · exact h5 e h hne
      · rcases h6 with h | ⟨h, hn⟩
        · exact Or.inl h
        · exact Or.inr ⟨List.mem_cons_of_mem _ h, hn⟩
    · have hq1 : (depthRangeStep p d).1 = if d < p.1 then d else p.1 := by
        simp [depthRangeStep, hd]
      have hq2 : (depthRangeStep p d).2 = if d > p.2 then d else p.2 := by
        simp [depthRangeStep, hd]
      have a1 : (depthRangeStep p d).1 ≤ p.1 ∧ (depthRangeStep p d).1 ≤ d ∧
          ((depthRangeStep p d).1 = p.1 ∨ (depthRangeStep p d).1 = d) := by
        rw [hq1]
        split_ifs with h
        · exact ⟨le_of_lt h, le_refl _, Or.inr rfl⟩
        · exact ⟨le_refl _, not_lt.mp h, Or.inl rfl⟩
      have a2 : p.2 ≤ (depthRangeStep p d).2 ∧ d ≤ (depthRangeStep p d).2 ∧
          ((depthRangeStep p d).2 = p.2 ∨ (depthRangeStep p d).2 = d) := by
        rw [hq2]
        split_ifs with h
        · exact ⟨le_of_lt h, le_refl _, Or.inr rfl⟩
        · exact ⟨le_refl _, not_lt.mp h, Or.inl rfl⟩
      refine ⟨⟨h1.trans a1.1, ?_, ?_⟩, a2.1.trans h4, ?_, ?_⟩
      · intro e he hne
        rcases List.mem_cons.mp he with h | h
        · rw [h]
          exact h1.trans a1.2.1
        · exact h2 e h hne
      · rcases h3 with h | ⟨h, hn⟩
        · rcases a1.2.2 with a | a
          · exact Or.inl (h.trans a)
          · refine Or.inr ⟨?_, ?_⟩
            · rw [h, a]
              exact List.mem_cons_self _ _
            · rw [h, a]
              exact hd
        · exact Or.inr ⟨List.mem_cons_of_mem _ h, hn⟩
      · intro e he hne
        rcases List.mem_cons.mp he with h | h
        · rw [h]
          exact a2.2.1.trans h4
        · exact h5 e h hne
      · rcases h6 with h | ⟨h, hn⟩
        · rcases a2.2.2 with a | a
          · exact Or.inl (h.trans a)
          · refine Or.inr ⟨?_, ?_⟩
            · rw [h, a]
              exact List.mem_cons_self _ _
            · rw [h, a]
              exact hd
        · exact Or.inr ⟨List.mem_cons_of_mem _ h, hn⟩

/-- The first loop of `DepthImage` finds the least and the greatest
non-cleared entry, when these are float64 values. -/
theorem depthRange_eq (buf : List ℚ) (lo hi : ℚ)
    (hlo : lo ∈ buf) (hhi : hi ∈ buf)
    (hmin : ∀ d ∈ buf, d ≠ MaxFloat64 → lo ≤ d ∧ d ≤ hi)
    (hlt : lo < hi) (hfl : -MaxFloat64 ≤ lo) (hfh : hi < MaxFloat64) :
    depthRange buf = (lo, hi) := by
  have hloM : lo ≠ MaxFloat64 := ne_of_lt (hlt.trans hfh)
  have hhiM : hi ≠ MaxFloat64 := ne_of_lt hfh
  obtain ⟨⟨_, h2, h3⟩, _, h5, h6⟩ := depthRange_fold buf (MaxFloat64, -MaxFloat64)
  have e1 : (depthRange buf).1 = lo := by
    unfold depthRange
    apply le_antisymm (h2 lo hlo hloM)
    rcases h3 with h | ⟨h, hn⟩
    · rw [h]
      exact le_of_lt (hlt.trans hfh)
    · exact (hmin _ h hn).1
  have e2 : (depthRange buf).2 = hi := by
    unfold depthRange
    refine le_antisymm ?_ (h5 hi hhi hhiM)
    rcases h6 with h | ⟨h, hn⟩
    · rw [h]
      exact le_of_lt (lt_of_le_of_lt hfl hlt)
    · exact (hmin _ h hn).2
  exact Prod.ext e1 e2

theorem truncInt_mono (a b : ℚ) (h : a ≤ b) : truncInt a ≤ truncInt b := by
  unfold truncInt
  by_cases ha : 0 ≤ a
  · rw [if_pos ha, if_pos (ha.trans h)]
    exact Int.floor_le_floor h
  · rw [if_neg ha]
    by_cases hb : 0 ≤ b
    · rw [if_pos hb]
      have h1 : ⌈a⌉ ≤ 0 := Int.ceil_le.mpr (by
        push_cast
        exact le_of_lt (not_le.mp ha))
      exact h1.trans (Int.floor_nonneg.mpr hb)
    · rw [if_neg hb]
      exact Int.ceil_le_ceil h

theorem depthImageRow_spec (dc : Context) (lo hi : ℚ) (y W H : Int) (hy0 : 0 ≤ y) (hy1 : y < H)
    (hlen : (dc.DepthBuffer.length : Int) = W * H) (n : Nat) :
    ∀ (x i : Int) (im : image.Gray16), 0 ≤ x → x + n = W → i = y * W + x →
      im.Rect = ⟨⟨0, 0⟩, ⟨W, H⟩⟩ → (im.Y.length : Int) = W * H →
      ∃ im2, depthImageRow dc lo hi y n x i im = some (im2, i + n) ∧ im2.Rect = im.Rect ∧
        im2.Y.length = im.Y.length ∧
        (∀ k : Nat, ((k : Int) < i ∨ i + n ≤ (k : Int)) → im2.Y[k]? = im.Y[k]?) ∧
        (∀ k : Nat, i ≤ (k : Int) → (k : Int) < i + n →
          im2.Y[k]? = (dc.DepthBuffer[k]?).map (fun d => grayLevel lo hi d % 65536)) := by
  induction n with
  | zero =>
    intro x i im _ _ _ _ _
    refine ⟨im, ?_, rfl, rfl, fun _ _ => rfl, ?_⟩
    · simp [depthImageRow]
    · intro k h1 h2
      simp at h2
      omega
  | succ n ih =>
    intro x i im hx hxn hidx hr hl
    have hxW : x < W := by
      push_cast at hxn
      omega
    have hW : 0 ≤ W := by omega
    have hyW : 0 ≤ y * W := mul_nonneg hy0 hW
    have hyH : (y + 1) * W ≤ H * W := mul_le_mul_of_nonneg_right (by omega) hW
    have hi0 : 0 ≤ i := by omega
    have hi1 : i < W * H := by
      have e1 : (y + 1) * W = y * W + W := by ring
      have e2 : H * W = W * H := by ring
      omega
    obtain ⟨d, hd, _⟩ := index_some dc.DepthBuffer i hi0 (by omega)
    have hd2 := index_toNat _ _ _ hd
    have hin : image.Point.In ⟨x, y⟩ im.Rect = true := by
      simp only [image.Point.In, hr, decide_eq_true_eq]
      exact ⟨hx, hxW, hy0, hy1⟩
    have hoff : im.offset x y = i := by
      simp only [image.Gray16.offset, hr, sub_zero]
      omega
    have hset : im.SetGray16 x y (grayLevel lo hi d)
        = ⟨im.Y.set i.toNat (grayLevel lo hi d % 65536), im.Rect⟩ := by
      simp only [image.Gray16.SetGray16, hin, hoff]
      simp
    obtain ⟨im2, e, r2, l2, f2, s2⟩ := ih (x + 1) (i + 1)
      ⟨im.Y.set i.toNat (grayLevel lo hi d % 65536), im.Rect⟩ (by omega)
      (by push_cast at hxn; omega) (by omega) hr (by simpa using hl)
    refine ⟨im2, ?_, r2, ?_, ?_, ?_⟩
    · simp only [depthImageRow, hd, hset, e]
      congr 2
      push_cast
      ring
    · simpa using l2
    · intro k hk
      rw [f2 k (by push_cast at hk; omega)]
      simp only
      rw [List.getElem?_set_ne]
      omega
    · intro k h1 h2
      by_cases hk : (k : Int) = i
      · rw [f2 k (by omega)]
        have hk2 : k = i.toNat := by omega
        simp only
        rw [hk2, hd2, List.getElem?_set_self (by omega)]
        rfl
      · exact s2 k (by omega) (by push_cast at h2; omega)

theorem depthImageRows_spec (dc : Context) (lo hi : ℚ) (H : Int) (hW : 0 ≤ dc.Width)
    (hlen : (dc.DepthBuffer.length : Int) = dc.Width * H) (n : Nat) :
    ∀ (y i : Int) (im : image.Gray16), 0 ≤ y → y + n = H → i = y * dc.Width →
      im.Rect = ⟨⟨0, 0⟩, ⟨dc.Width, H⟩⟩ → (im.Y.length : Int) = dc.Width * H →
      ∃ im2 i2, depthImageRows dc lo hi n y i im = some (im2, i2) ∧ im2.Rect = im.Rect ∧
        im2.Y.length = im.Y.length ∧
        (∀ k : Nat, i ≤ (k : Int) → (k : Int) < dc.Width * H →
          im2.Y[k]? = (dc.DepthBuffer[k]?).map (fun d => grayLevel lo hi d % 65536)) ∧
        (∀ k : Nat, (k : Int) < i → im2.Y[k]? = im.Y[k]?) := by
  induction n with
  | zero =>
    intro y i im hy hyn hidx hr hl
    refine ⟨im, i, rfl, rfl, rfl, ?_, fun _ _ => rfl⟩
    intro k h1 h2
    simp at hyn
    rw [hyn] at hidx
    have : dc.Width * H = H * dc.Width := by ring
    omega
  | succ n ih =>
    intro y i im hy hyn hidx hr hl
    have hyH : y < H := by
      push_cast at hyn
      omega
    obtain ⟨im1, e1, r1, l1, f1, s1⟩ := depthImageRow_spec dc lo hi y dc.Width H hy hyH hlen
      dc.Width.toNat 0 i im (le_refl _) (by omega) (by omega) hr hl
    have hi2 : i + (dc.Width.toNat : Int) = (y + 1) * dc.Width := by
      have : (y + 1) * dc.Width = y * dc.Width + dc.Width := by ring
      omega
    obtain ⟨im2, i2, e2, r2, l2, s2, f2⟩ := ih (y + 1) (i + dc.Width.toNat) im1 (by omega)
      (by push_cast at hyn; omega) hi2 (r1.trans hr) (by rw [l1]; exact hl)
    refine ⟨im2, i2, ?_, r2.trans r1, l2.trans l1, ?_, ?_⟩
    · simp only [depthImageRows, e1, e2]
    · intro k h1 h2
      by_cases hk : (k : Int) < i + dc.Width.toNat
      · rw [f2 k hk]
        exact s1 k h1 hk
      · exact s2 k (by omega) h2
    · intro k hk
      rw [f2 k (by omega)]
      exact f1 k (Or.inl hk)

/-- C27 (amended). Edge function definition: for all points `a b p` the
function `edge a b p` of the rasterizer is
`(b.x - p.x) * (a.y - p.y) - (b.y - p.y) * (a.x - p.x)`, which is the negative
of `(b.x - a.x) * (p.y - a.y) - (b.y - a.y) * (p.x - a.x)`. -/
theorem edge_definition (a b p : Vector) :
    edge a b p = (b.X - p.X) * (a.Y - p.Y) - (b.Y - p.Y) * (a.X - p.X) ∧
    edge a b p = -((b.X - a.X) * (p.Y - a.Y) - (b.Y - a.Y) * (p.X - a.X)) ∧
    edge a b p = -specEdge a b p := by
  refine ⟨rfl, ?_, ?_⟩
  · simp only [edge]
    ring
  · simp only [edge, specEdge]
    ring

/-- C27 as stated fails: for `a = (0,0)`, `b = (1,0)`, `p = (0,1)` the
rasterizer's `edge` is `-1` and the stated formula gives `1`. -/
theorem edge_definition_counterexample :
    edge ⟨0, 0, 0⟩ ⟨1, 0, 0⟩ ⟨0, 1, 0⟩ = -1 ∧
    ((1 : ℚ) - 0) * (1 - 0) - (0 - 0) * (0 - 0) = 1 ∧
    specEdge ⟨0, 0, 0⟩ ⟨1, 0, 0⟩ ⟨0, 1, 0⟩ = 1 ∧
    edge ⟨0, 0, 0⟩ ⟨1, 0, 0⟩ ⟨0, 1, 0⟩ ≠ specEdge ⟨0, 0, 0⟩ ⟨1, 0, 0⟩ ⟨0, 1, 0⟩ := by
  decide!

/-- C25. FixNormals: after `FixNormals` a vertex whose `Normal` was exactly
the zero vector has the normal
`normalize((V2.Position - V1.Position) x (V3.Position - V1.Position))`, a
vertex whose `Normal` was not zero keeps it, and every `Position`, `Texture`,
`Color` and `Output` is unchanged; `NewTriangle` returns the triangle of its
three vertices after `FixNormals`. -/
theorem fix_normals (Sqrt : ℚ → ℚ) (t : Triangle) (v1 v2 v3 : Vertex) :
    (t.FixNormals Sqrt).V1.Normal
      = (if t.V1.Normal = ⟨0, 0, 0⟩ then
          ((t.V2.Position.Sub t.V1.Position).Cross
            (t.V3.Position.Sub t.V1.Position)).Normalize Sqrt
         else t.V1.Normal) ∧
    (t.FixNormals Sqrt).V2.Normal
      = (if t.V2.Normal = ⟨0, 0, 0⟩ then
          ((t.V2.Position.Sub t.V1.Position).Cross
            (t.V3.Position.Sub t.V1.Position)).Normalize Sqrt
         else t.V2.Normal) ∧
    (t.FixNormals Sqrt).V3.Normal
      = (if t.V3.Normal = ⟨0, 0, 0⟩ then
          ((t.V2.Position.Sub t.V1.Position).Cross
            (t.V3.Position.Sub t.V1.Position)).Normalize Sqrt
         else t.V3.Normal) ∧
    ((t.FixNormals Sqrt).V1.Position = t.V1.Position ∧
      (t.FixNormals Sqrt).V1.Texture = t.V1.Texture ∧
      (t.FixNormals Sqrt).V1.Color = t.V1.Color ∧
      (t.FixNormals Sqrt).V1.Output = t.V1.Output) ∧
    ((t.FixNormals Sqrt).V2.Position = t.V2.Position ∧
      (t.FixNormals Sqrt).V2.Texture = t.V2.Texture ∧
      (t.FixNormals Sqrt).V2.Color = t.V2.Color ∧
      (t.FixNormals Sqrt).V2.Output = t.V2.Output) ∧
    ((t.FixNormals Sqrt).V3.Position = t.V3.Position ∧
      (t.FixNormals Sqrt).V3.Texture = t.V3.Texture ∧
      (t.FixNormals Sqrt).V3.Color = t.V3.Color ∧
      (t.FixNormals Sqrt).V3.Output = t.V3.Output) ∧
    NewTriangle Sqrt v1 v2 v3 = Triangle.FixNormals Sqrt ⟨v1, v2, v3⟩ := by
  simp only [Triangle.FixNormals, Triangle.Normal, NewTriangle]
  by_cases h1 : t.V1.Normal = ⟨0, 0, 0⟩ <;> by_cases h2 : t.V2.Normal = ⟨0, 0, 0⟩ <;>
    by_cases h3 : t.V3.Normal = ⟨0, 0, 0⟩ <;> simp [h1, h2, h3]

/-- C26. Phong fragment output: for a `PhongShader` without a texture the
colour that `Fragment` returns has the alpha of the base colour (`ObjectColor`
when it is not the all-zero colour, else the vertex colour) and each of `R`,
`G`, `B` is `min (base channel * light channel) 1`, hence at most 1; when
`Normal . LightDirection ≤ 0` the light is exactly `AmbientColor`. -/
theorem phong_fragment (Sqrt : ℚ → ℚ) (Pow : ℚ → ℚ → ℚ) (shader : PhongShader) (v : Vertex)
    (htex : shader.Texture = none) :
    shader.Fragment Sqrt Pow v
      = ⟨min ((if shader.ObjectColor ≠ Discard then shader.ObjectColor else v.Color).R
            * (shader.light Sqrt Pow v).R) 1,
         min ((if shader.ObjectColor ≠ Discard then shader.ObjectColor else v.Color).G
            * (shader.light Sqrt Pow v).G) 1,
         min ((if shader.ObjectColor ≠ Discard then shader.ObjectColor else v.Color).B
            * (shader.light Sqrt Pow v).B) 1,
         (if shader.ObjectColor ≠ Discard then shader.ObjectColor else v.Color).A⟩ ∧
    (shader.Fragment Sqrt Pow v).R ≤ 1 ∧ (shader.Fragment Sqrt Pow v).G ≤ 1 ∧
    (shader.Fragment Sqrt Pow v).B ≤ 1 ∧
    (v.Normal.Dot shader.LightDirection ≤ 0 →
      shader.light Sqrt Pow v = shader.AmbientColor) := by
  have hbase : shader.baseColor v
      = if shader.ObjectColor ≠ Discard then shader.ObjectColor else v.Color := by
    simp only [PhongShader.baseColor, htex]
  refine ⟨?_, ?_, ?_, ?_, ?_⟩
  · simp only [PhongShader.Fragment, hbase, Color.Alpha, Color.Min, Color.Mul, White]
  · simp only [PhongShader.Fragment, Color.Alpha, Color.Min, White]
    exact min_le_right _ _
  · simp only [PhongShader.Fragment, Color.Alpha, Color.Min, White]
    exact min_le_right _ _
  · simp only [PhongShader.Fragment, Color.Alpha, Color.Min, White]
    exact min_le_right _ _
  · intro h
    have hd : max (v.Normal.Dot shader.LightDirection) 0 = 0 := max_eq_right h
    simp only [PhongShader.light, hd, gt_iff_lt, lt_self_iff_false, false_and, if_false,
      Color.Add, Color.MulScalar, mul_zero, add_zero]

theorem phong_fragment_witness :
    (NewPhongShader Identity ⟨0, 0, -1⟩ ⟨0, 0, 2⟩).Fragment (fun _ => 1) (fun x _ => x)
        (sampleVertex 0 0 0 1 ⟨1, 1 / 2, 0, 3 / 4⟩)
      = ⟨min (1 * ((NewPhongShader Identity ⟨0, 0, -1⟩ ⟨0, 0, 2⟩).light (fun _ => 1) (fun x _ => x)
            (sampleVertex 0 0 0 1 ⟨1, 1 / 2, 0, 3 / 4⟩)).R) 1,
         min (1 / 2 * ((NewPhongShader Identity ⟨0, 0, -1⟩ ⟨0, 0, 2⟩).light (fun _ => 1)
            (fun x _ => x) (sampleVertex 0 0 0 1 ⟨1, 1 / 2, 0, 3 / 4⟩)).G) 1,
         min (0 * ((NewPhongShader Identity ⟨0, 0, -1⟩ ⟨0, 0, 2⟩).light (fun _ => 1) (fun x _ => x)
            (sampleVertex 0 0 0 1 ⟨1, 1 / 2, 0, 3 / 4⟩)).B) 1,
         3 / 4⟩ ∧
    (NewPhongShader Identity ⟨0, 0, -1⟩ ⟨0, 0, 2⟩).Fragment (fun _ => 1) (fun x _ => x)
        (sampleVertex 0 0 0 1 ⟨1, 1 / 2, 0, 3 / 4⟩) = ⟨1 / 5, 1 / 10, 0, 3 / 4⟩ :=
  ⟨(phong_fragment (fun _ => 1) (fun x _ => x) (NewPhongShader Identity ⟨0, 0, -1⟩ ⟨0, 0, 2⟩)
    (sampleVertex 0 0 0 1 ⟨1, 1 / 2, 0, 3 / 4⟩) rfl).1, by decide!⟩

/-- One coordinate of two overlapping non-empty intervals: the interval that
`Intersection` builds holds exactly the common points. -/
theorem interval_intersection (a0 a1 b0 b1 p : ℚ) (ha : a0 ≤ a1) (hb : b0 ≤ b1)
    (h1 : ¬ a0 > b1) (h2 : ¬ a1 < b0) :
    (min (max a0 b0) (min a1 b1) ≤ p ∧ max (max a0 b0) (min a1 b1) ≥ p) ↔
      ((a0 ≤ p ∧ a1 ≥ p) ∧ (b0 ≤ p ∧ b1 ≥ p)) := by
  have hle : max a0 b0 ≤ min a1 b1 :=
    max_le (le_min ha (not_lt.mp h1)) (le_min (not_lt.mp h2) hb)
  rw [min_eq_left hle, max_eq_right hle]
  constructor
  · rintro ⟨h3, h4⟩
    exact ⟨⟨(le_max_left _ _).trans h3, h4.trans (min_le_left _ _)⟩,
      ⟨(le_max_right _ _).trans h3, h4.trans (min_le_right _ _)⟩⟩
  · rintro ⟨⟨h3, h4⟩, h5, h6⟩
    exact ⟨max_le h3 h5, le_min h4 h6⟩

/-- C23. Box intersection: for boxes `a` and `b` with `Min ≤ Max`
componentwise, `a.Intersection b` is `EmptyBox` when `a.Intersects b` is
false, and when the boxes overlap a point is contained in the intersection
exactly when it is contained in `a` and in `b`. -/
theorem box_intersection (a b : Box)
    (ha : a.Min.X ≤ a.Max.X ∧ a.Min.Y ≤ a.Max.Y ∧ a.Min.Z ≤ a.Max.Z)
    (hb : b.Min.X ≤ b.Max.X ∧ b.Min.Y ≤ b.Max.Y ∧ b.Min.Z ≤ b.Max.Z) :
    (a.Intersects b = false → a.Intersection b = EmptyBox) ∧
    (a.Intersects b = true → ∀ p : Vector,
      ((a.Intersection b).Contains p = true ↔ (a.Contains p = true ∧ b.Contains p = true))) := by
  constructor
  · intro h
    simp [Box.Intersection, h]
  · intro h p
    have hi := h
    simp only [Box.Intersects, Bool.not_eq_true', decide_eq_false_iff_not, not_or] at hi
    obtain ⟨x1, x2, y1, y2, z1, z2⟩ := hi
    have ex := interval_intersection a.Min.X a.Max.X b.Min.X b.Max.X p.X ha.1 hb.1 x1 x2
    have ey := interval_intersection a.Min.Y a.Max.Y b.Min.Y b.Max.Y p.Y ha.2.1 hb.2.1 y1 y2
    have ez := interval_intersection a.Min.Z a.Max.Z b.Min.Z b.Max.Z p.Z ha.2.2 hb.2.2 z1 z2
    simp only [Box.Intersection, h, not_true_eq_false, if_false, Box.Contains, Vector.Min,
      Vector.Max, decide_eq_true_eq]
    constructor
    · rintro ⟨c1, c2, c3, c4, c5, c6⟩
      obtain ⟨⟨p1, p2⟩, p3, p4⟩ := ex.mp ⟨c1, c2⟩
      obtain ⟨⟨q1, q2⟩, q3, q4⟩ := ey.mp ⟨c3, c4⟩
      obtain ⟨⟨r1, r2⟩, r3, r4⟩ := ez.mp ⟨c5, c6⟩
      exact ⟨⟨p1, p2, q1, q2, r1, r2⟩, p3, p4, q3, q4, r3, r4⟩
    · rintro ⟨⟨p1, p2, q1, q2, r1, r2⟩, p3, p4, q3, q4, r3, r4⟩
      obtain ⟨c1, c2⟩ := ex.mpr ⟨⟨p1, p2⟩, p3, p4⟩
      obtain ⟨c3, c4⟩ := ey.mpr ⟨⟨q1, q2⟩, q3, q4⟩
      obtain ⟨c5, c6⟩ := ez.mpr ⟨⟨r1, r2⟩, r3, r4⟩
      exact ⟨c1, c2, c3, c4, c5, c6⟩

theorem box_intersection_witness :
    ((⟨⟨0, 0, 0⟩, ⟨2, 2, 2⟩⟩ : Box).Intersects ⟨⟨3, 0, 0⟩, ⟨4, 1, 1⟩⟩ = false →
      (⟨⟨0, 0, 0⟩, ⟨2, 2, 2⟩⟩ : Box).Intersection ⟨⟨3, 0, 0⟩, ⟨4, 1, 1⟩⟩ = EmptyBox) ∧
    (⟨⟨0, 0, 0⟩, ⟨2, 2, 2⟩⟩ : Box).Intersects ⟨⟨3, 0, 0⟩, ⟨4, 1, 1⟩⟩ = false ∧
    (⟨⟨0, 0, 0⟩, ⟨2, 2, 2⟩⟩ : Box).Intersects ⟨⟨1, 1, 1⟩, ⟨3, 3, 3⟩⟩ = true ∧
    (⟨⟨0, 0, 0⟩, ⟨2, 2, 2⟩⟩ : Box).Intersection ⟨⟨1, 1, 1⟩, ⟨3, 3, 3⟩⟩ = ⟨⟨1, 1, 1⟩, ⟨2, 2, 2⟩⟩ :=
  ⟨(box_intersection ⟨⟨0, 0, 0⟩, ⟨2, 2, 2⟩⟩ ⟨⟨3, 0, 0⟩, ⟨4, 1, 1⟩⟩ (by decide!) (by decide!)).1,
    by decide!, by decide!, by decide!⟩

/-- One term of a row of `MulBox` at an end of the interval. -/
theorem mul_end_bounds (r a b x : ℚ) (hx : x = a ∨ x = b) :
    min (r * a) (r * b) ≤ r * x ∧ r * x ≤ max (r * a) (r * b) := by
  rcases hx with h | h
  · rw [h]
    exact ⟨min_le_left _ _, le_max_left _ _⟩
  · rw [h]
    exact ⟨min_le_right _ _, le_max_right _ _⟩

/-- One term of a row of `MulBox` inside the interval. -/
theorem mul_mid_bounds (r a b x : ℚ) (h1 : a ≤ x) (h2 : x ≤ b) :
    min (r * a) (r * b) ≤ r * x ∧ r * x ≤ max (r * a) (r * b) := by
  rcases le_total 0 r with hr | hr
  · exact ⟨(min_le_left _ _).trans (mul_le_mul_of_nonneg_left h1 hr),
      (mul_le_mul_of_nonneg_left h2 hr).trans (le_max_right _ _)⟩
  · exact ⟨(min_le_right _ _).trans (mul_le_mul_of_nonpos_left h2 hr),
      (mul_le_mul_of_nonpos_left h1 hr).trans (le_max_left _ _)⟩

theorem mul_min_attained (r a b : ℚ) : ∃ x, (x = a ∨ x = b) ∧ r * x = min (r * a) (r * b) := by
  rcases le_total (r * a) (r * b) with h | h
  · exact ⟨a, Or.inl rfl, (min_eq_left h).symm⟩
  · exact ⟨b, Or.inr rfl, (min_eq_right h).symm⟩

theorem mul_max_attained (r a b : ℚ) : ∃ x, (x = a ∨ x = b) ∧ r * x = max (r * a) (r * b) := by
  rcases le_total (r * a) (r * b) with h | h
  · exact ⟨b, Or.inr rfl, (max_eq_right h).symm⟩
  · exact ⟨a, Or.inl rfl, (max_eq_left h).symm⟩

theorem corners_coords (box : Box) (c : Vector) (h : c ∈ box.corners) :
    (c.X = box.Min.X ∨ c.X = box.Max.X) ∧ (c.Y = box.Min.Y ∨ c.Y = box.Max.Y) ∧
      (c.Z = box.Min.Z ∨ c.Z = box.Max.Z) := by
  simp only [Box.corners, List.mem_cons, List.mem_singleton, List.not_mem_nil, or_false] at h
  rcases h with h | h | h | h | h | h | h | h <;> rw [h] <;> simp

theorem mem_corners (box : Box) (x y z : ℚ) (hx : x = box.Min.X ∨ x = box.Max.X)
    (hy : y = box.Min.Y ∨ y = box.Max.Y) (hz : z = box.Min.Z ∨ z = box.Max.Z) :
    (⟨x, y, z⟩ : Vector) ∈ box.corners := by
  rcases hx with hx | hx <;> rcases hy with hy | hy <;> rcases hz with hz | hz <;>
    simp [Box.corners, hx, hy, hz]

/-- C22. `MulBox` is the tight bounding box, in exact arithmetic: for every
matrix `m` and box, every corner `c` of the box has `m.MulPosition c` between
`(m.MulBox box).Min` and `(m.MulBox box).Max` componentwise, each of the six
bounds is attained at a corner (so `Min` and `Max` are the componentwise
minimum and maximum over the eight corners), and `m.MulPosition p` is
contained in `m.MulBox box` for every point `p` contained in the box. -/
theorem mulBox_tight (m : Matrix) (box : Box) :
    (∀ c ∈ box.corners,
      (m.MulBox box).Min.X ≤ (m.MulPosition c).X ∧ (m.MulPosition c).X ≤ (m.MulBox box).Max.X ∧
      (m.MulBox box).Min.Y ≤ (m.MulPosition c).Y ∧ (m.MulPosition c).Y ≤ (m.MulBox box).Max.Y ∧
      (m.MulBox box).Min.Z ≤ (m.MulPosition c).Z ∧ (m.MulPosition c).Z ≤ (m.MulBox box).Max.Z) ∧
    (∃ c ∈ box.corners, (m.MulPosition c).X = (m.MulBox box).Min.X) ∧
    (∃ c ∈ box.corners, (m.MulPosition c).Y = (m.MulBox box).Min.Y) ∧
    (∃ c ∈ box.corners, (m.MulPosition c).Z = (m.MulBox box).Min.Z) ∧
    (∃ c ∈ box.corners, (m.MulPosition c).X = (m.MulBox box).Max.X) ∧
    (∃ c ∈ box.corners, (m.MulPosition c).Y = (m.MulBox box).Max.Y) ∧
    (∃ c ∈ box.corners, (m.MulPosition c).Z = (m.MulBox box).Max.Z) ∧
    (∀ p : Vector, box.Contains p = true → (m.MulBox box).Contains (m.MulPosition p) = true) := by
  refine ⟨?_, ?_, ?_, ?_, ?_, ?_, ?_, ?_⟩
  · intro c hc
    obtain ⟨hx, hy, hz⟩ := corners_coords box c hc
    simp only [Matrix.MulBox, Matrix.MulPosition, Vector.Add, Vector.Min, Vector.Max,
      Vector.MulScalar]
    have a1 := mul_end_bounds m.X00 _ _ _ hx
    have a2 := mul_end_bounds m.X01 _ _ _ hy
    have a3 := mul_end_bounds m.X02 _ _ _ hz
    have b1 := mul_end_bounds m.X10 _ _ _ hx
    have b2 := mul_end_bounds m.X11 _ _ _ hy
    have b3 := mul_end_bounds m.X12 _ _ _ hz
    have c1 := mul_end_bounds m.X20 _ _ _ hx
    have c2 := mul_end_bounds m.X21 _ _ _ hy
    have c3 := mul_end_bounds m.X22 _ _ _ hz
    refine ⟨?_, ?_, ?_, ?_, ?_, ?_⟩ <;> linarith [a1.1, a1.2, a2.1, a2.2, a3.1, a3.2, b1.1, b1.2,
      b2.1, b2.2, b3.1, b3.2, c1.1, c1.2, c2.1, c2.2, c3.1, c3.2]
  · obtain ⟨x, hx, ex⟩ := mul_min_attained m.X00 box.Min.X box.Max.X
    obtain ⟨y, hy, ey⟩ := mul_min_attained m.X01 box.Min.Y box.Max.Y
    obtain ⟨z, hz, ez⟩ := mul_min_attained m.X02 box.Min.Z box.Max.Z
    refine ⟨⟨x, y, z⟩, mem_corners box x y z hx hy hz, ?_⟩
    simp only [Matrix.MulBox, Matrix.MulPosition, Vector.Add, Vector.Min, Vector.Max,
      Vector.MulScalar, ex, ey, ez]
  · obtain ⟨x, hx, ex⟩ := mul_min_attained m.X10 box.Min.X box.Max.X
    obtain ⟨y, hy, ey⟩ := mul_min_attained m.X11 box.Min.Y box.Max.Y
    obtain ⟨z, hz, ez⟩ := mul_min_attained m.X12 box.Min.Z box.Max.Z
    refine ⟨⟨x, y, z⟩, mem_corners box x y z hx hy hz, ?_⟩
    simp only [Matrix.MulBox, Matrix.MulPosition, Vector.Add, Vector.Min, Vector.Max,
      Vector.MulScalar, ex, ey, ez]
  · obtain ⟨x, hx, ex⟩ := mul_min_attained m.X20 box.Min.X box.Max.X
    obtain ⟨y, hy, ey⟩ := mul_min_attained m.X21 box.Min.Y box.Max.Y
    obtain ⟨z, hz, ez⟩ := mul_min_attained m.X22 box.Min.Z box.Max.Z
    refine ⟨⟨x, y, z⟩, mem_corners box x y z hx hy hz, ?_⟩
    simp only [Matrix.MulBox, Matrix.MulPosition, Vector.Add, Vector.Min, Vector.Max,
      Vector.MulScalar, ex, ey, ez]
  · obtain ⟨x, hx, ex⟩ := mul_max_attained m.X00 box.Min.X box.Max.X
    obtain ⟨y, hy, ey⟩ := mul_max_attained m.X01 box.Min.Y box.Max.Y
    obtain ⟨z, hz, ez⟩ := mul_max_attained m.X02 box.Min.Z box.Max.Z
    refine ⟨⟨x, y, z⟩, mem_corners box x y z hx hy hz, ?_⟩
    simp only [Matrix.MulBox, Matrix.MulPosition, Vector.Add, Vector.Min, Vector.Max,
      Vector.MulScalar, ex, ey, ez]
  · obtain ⟨x, hx, ex⟩ := mul_max_attained m.X10 box.Min.X box.Max.X
    obtain ⟨y, hy, ey⟩ := mul_max_attained m.X11 box.Min.Y box.Max.Y
    obtain ⟨z, hz, ez⟩ := mul_max_attained m.X12 box.Min.Z box.Max.Z
    refine ⟨⟨x, y, z⟩, mem_corners box x y z hx hy hz, ?_⟩
    simp only [Matrix.MulBox, Matrix.MulPosition, Vector.Add, Vector.Min, Vector.Max,
      Vector.MulScalar, ex, ey, ez]
  · obtain ⟨x, hx, ex⟩ := mul_max_attained m.X20 box.Min.X box.Max.X
    obtain ⟨y, hy, ey⟩ := mul_max_attained m.X21 box.Min.Y box.Max.Y
    obtain ⟨z, hz, ez⟩ := mul_max_attained m.X22 box.Min.Z box.Max.Z
    refine ⟨⟨x, y, z⟩, mem_corners box x y z hx hy hz, ?_⟩
    simp only [Matrix.MulBox, Matrix.MulPosition, Vector.Add, Vector.Min, Vector.Max,
      Vector.MulScalar, ex, ey, ez]
  · intro p hp
    simp only [Box.Contains, decide_eq_true_eq] at hp
    obtain ⟨x1, x2, y1, y2, z1, z2⟩ := hp
    simp only [Box.Contains, decide_eq_true_eq, Matrix.MulBox, Matrix.MulPosition, Vector.Add,
      Vector.Min, Vector.Max, Vector.MulScalar]
    have a1 := mul_mid_bounds m.X00 _ _ _ x1 x2
    have a2 := mul_mid_bounds m.X01 _ _ _ y1 y2
    have a3 := mul_mid_bounds m.X02 _ _ _ z1 z2
    have b1 := mul_mid_bounds m.X10 _ _ _ x1 x2
    have b2 := mul_mid_bounds m.X11 _ _ _ y1 y2
    have b3 := mul_mid_bounds m.X12 _ _ _ z1 z2
    have c1 := mul_mid_bounds m.X20 _ _ _ x1 x2
    have c2 := mul_mid_bounds m.X21 _ _ _ y1 y2
    have c3 := mul_mid_bounds m.X22 _ _ _ z1 z2
    refine ⟨?_, ?_, ?_, ?_, ?_, ?_⟩ <;> linarith [a1.1, a1.2, a2.1, a2.2, a3.1, a3.2, b1.1, b1.2,
      b2.1, b2.2, b3.1, b3.2, c1.1, c1.2, c2.1, c2.2, c3.1, c3.2]

/-- One coordinate of `BilinearSample`: the wrapped coordinate scaled by
`W - 1` and truncated. -/
theorem bilinear_coord (u : ℚ) (W : Int) (hW : 1 ≤ W) :
    0 ≤ truncInt ((u - (⌊u⌋ : Int)) * ((W - 1 : Int) : ℚ)) ∧
    truncInt ((u - (⌊u⌋ : Int)) * ((W - 1 : Int) : ℚ)) ≤ W - 1 ∧
    (2 ≤ W → truncInt ((u - (⌊u⌋ : Int)) * ((W - 1 : Int) : ℚ)) + 1 ≤ W - 1) ∧
    (W = 1 → truncInt ((u - (⌊u⌋ : Int)) * ((W - 1 : Int) : ℚ)) = 0) := by
  have f0 : 0 ≤ u - (⌊u⌋ : Int) := sub_nonneg.mpr (Int.floor_le u)
  have f1 : u - (⌊u⌋ : Int) < 1 := by
    have := Int.lt_floor_add_one u
    linarith
  have hw : (0 : ℚ) ≤ ((W - 1 : Int) : ℚ) := by
    have : (0 : Int) ≤ W - 1 := by omega
    exact_mod_cast this
  have hq : 0 ≤ (u - (⌊u⌋ : Int)) * ((W - 1 : Int) : ℚ) := mul_nonneg f0 hw
  rw [truncInt_of_nonneg _ hq]
  refine ⟨Int.floor_nonneg.mpr hq, ?_, ?_, ?_⟩
  · have h1 : (u - (⌊u⌋ : Int)) * ((W - 1 : Int) : ℚ) ≤ ((W - 1 : Int) : ℚ) := by
      have := mul_le_mul_of_nonneg_right (le_of_lt f1) hw
      linarith
    have h2 := Int.floor_le_floor h1
    rw [Int.floor_intCast] at h2
    exact h2
  · intro h2
    have hpos : (0 : ℚ) < ((W - 1 : Int) : ℚ) := by
      have : (0 : Int) < W - 1 := by omega
      exact_mod_cast this
    have h1 : (u - (⌊u⌋ : Int)) * ((W - 1 : Int) : ℚ) < ((W - 1 : Int) : ℚ) := by
      have := mul_lt_mul_of_pos_right f1 hpos
      linarith
    have h3 : ⌊(u - (⌊u⌋ : Int)) * ((W - 1 : Int) : ℚ)⌋ < W - 1 := Int.floor_lt.mpr h1
    omega
  · intro h1
    rw [h1]
    simp

/-- The area that `rasterize` divides by, for screen positions under the
matrix `Screen W H`: `W * H / 4` times the NDC signed area. -/
theorem edge_screen (dc : Context) (v0 v1 v2 : Vertex)
    (hs : dc.screenMatrix = Screen dc.Width dc.Height) :
    edge (dc.screenPosition v0) (dc.screenPosition v1) (dc.screenPosition v2)
      = (dc.Width : ℚ) * (dc.Height : ℚ) / 4 * ndcArea v0 v1 v2 := by
  simp only [Context.screenPosition, hs, Screen, Matrix.MulPosition, edge, ndcArea]
  ring

theorem ndcArea_reverse (v0 v1 v2 : Vertex) : ndcArea v2 v1 v0 = -ndcArea v0 v1 v2 := by
  simp only [ndcArea]
  ring

/-- C28 (amended). In exact arithmetic, the area given to the rasterizer is
positive: on a context with
`Width > 0`, `Height > 0` and the screen matrix `Screen Width Height`, for a
triangle that `drawClippedTriangle` does not cull and whose NDC signed area
`a` is not zero, the call is `rasterize` on the vertices (reversed when
`a < 0`) with their screen positions `s0 s1 s2`, and
`edge s0 s1 s2 = (Width * Height / 4) * |a| > 0`, so `ra = 1 / edge s0 s1 s2`
is positive. -/
theorem raster_area_positive (Sqrt : ℚ → ℚ) (dc : Context) (v0 v1 v2 : Vertex)
    (hW : 0 < dc.Width) (hH : 0 < dc.Height)
    (hs : dc.screenMatrix = Screen dc.Width dc.Height) (hwire : dc.Wireframe = false)
    (hcull : ¬ (dc.Cull ≠ CullNone ∧
      (if dc.FrontFace = FaceCW then
        -(if dc.Cull = CullFront then -ndcArea v0 v1 v2 else ndcArea v0 v1 v2)
       else (if dc.Cull = CullFront then -ndcArea v0 v1 v2 else ndcArea v0 v1 v2)) ≤ 0))
    (ha : ndcArea v0 v1 v2 ≠ 0) :
    drawClippedTriangle Sqrt dc v0 v1 v2
      = (if ndcArea v0 v1 v2 < 0 then
          rasterize Sqrt dc v2 v1 v0 (dc.screenPosition v2) (dc.screenPosition v1)
            (dc.screenPosition v0)
         else
          rasterize Sqrt dc v0 v1 v2 (dc.screenPosition v0) (dc.screenPosition v1)
            (dc.screenPosition v2)) ∧
    (ndcArea v0 v1 v2 < 0 →
      edge (dc.screenPosition v2) (dc.screenPosition v1) (dc.screenPosition v0)
        = (dc.Width : ℚ) * (dc.Height : ℚ) / 4 * |ndcArea v0 v1 v2| ∧
      0 < edge (dc.screenPosition v2) (dc.screenPosition v1) (dc.screenPosition v0) ∧
      0 < 1 / edge (dc.screenPosition v2) (dc.screenPosition v1) (dc.screenPosition v0)) ∧
    (¬ ndcArea v0 v1 v2 < 0 →
      edge (dc.screenPosition v0) (dc.screenPosition v1) (dc.screenPosition v2)
        = (dc.Width : ℚ) * (dc.Height : ℚ) / 4 * |ndcArea v0 v1 v2| ∧
      0 < edge (dc.screenPosition v0) (dc.screenPosition v1) (dc.screenPosition v2) ∧
      0 < 1 / edge (dc.screenPosition v0) (dc.screenPosition v1) (dc.screenPosition v2)) := by
  have hWq : (0 : ℚ) < (dc.Width : ℚ) := by exact_mod_cast hW
  have hHq : (0 : ℚ) < (dc.Height : ℚ) := by exact_mod_cast hH
  have hk : (0 : ℚ) < (dc.Width : ℚ) * (dc.Height : ℚ) / 4 := by positivity
  have habs : 0 < |ndcArea v0 v1 v2| := abs_pos.mpr ha
  refine ⟨?_, ?_, ?_⟩
  · rw [drawClippedTriangle_eq, if_neg hcull]
    simp only [orientedDraw, screenDraw, hwire, Context.screenPosition]
    rfl
  · intro hneg
    have e : edge (dc.screenPosition v2) (dc.screenPosition v1) (dc.screenPosition v0)
        = (dc.Width : ℚ) * (dc.Height : ℚ) / 4 * |ndcArea v0 v1 v2| := by
      rw [edge_screen dc v2 v1 v0 hs, ndcArea_reverse, abs_of_neg hneg]
    rw [e]
    exact ⟨rfl, mul_pos hk habs, one_div_pos.mpr (mul_pos hk habs)⟩
  · intro hneg
    have e : edge (dc.screenPosition v0) (dc.screenPosition v1) (dc.screenPosition v2)
        = (dc.Width : ℚ) * (dc.Height : ℚ) / 4 * |ndcArea v0 v1 v2| := by
      rw [edge_screen dc v0 v1 v2 hs, abs_of_nonneg (not_lt.mp hneg)]
    rw [e]
    exact ⟨rfl, mul_pos hk habs, one_div_pos.mpr (mul_pos hk habs)⟩

theorem raster_area_positive_witness :
    ndcArea (sampleVertex 0 0 0 1 Discard) (sampleVertex 1 0 0 1 Discard)
        (sampleVertex 0 1 0 1 Discard) = 1 ∧
    edge (context2x2.screenPosition (sampleVertex 0 0 0 1 Discard))
        (context2x2.screenPosition (sampleVertex 1 0 0 1 Discard))
        (context2x2.screenPosition (sampleVertex 0 1 0 1 Discard))
      = (context2x2.Width : ℚ) * (context2x2.Height : ℚ) / 4
        * |ndcArea (sampleVertex 0 0 0 1 Discard) (sampleVertex 1 0 0 1 Discard)
            (sampleVertex 0 1 0 1 Discard)| ∧
    0 < edge (context2x2.screenPosition (sampleVertex 0 0 0 1 Discard))
        (context2x2.screenPosition (sampleVertex 1 0 0 1 Discard))
        (context2x2.screenPosition (sampleVertex 0 1 0 1 Discard)) ∧
    0 < 1 / edge (context2x2.screenPosition (sampleVertex 0 0 0 1 Discard))
        (context2x2.screenPosition (sampleVertex 1 0 0 1 Discard))
        (context2x2.screenPosition (sampleVertex 0 1 0 1 Discard)) :=
  ⟨by decide!, (raster_area_positive (fun _ => 1) context2x2 (sampleVertex 0 0 0 1 Discard)
    (sampleVertex 1 0 0 1 Discard) (sampleVertex 0 1 0 1 Discard) (by decide) (by decide)
    (by decide!) (by decide) (by decide!) (by decide!)).2.2 (by decide!)⟩

theorem rowTrace_eq_map (s0 s1 s2 : Vector) (n : Nat) :
    ∀ (x : Int) (w0 w1 w2 : ℚ) (wasInside : Bool),
      rowTrace s0 s1 s2 n x w0 w1 w2 wasInside
        = (rowWeights s0 s1 s2 n x w0 w1 w2 wasInside).map (Visited.tested s0 s1 s2) := by
  induction n with
  | zero =>
    intro x w0 w1 w2 wasInside
    rfl
  | succ n ih =>
    intro x w0 w1 w2 wasInside
    simp only [rowTrace, rowWeights, List.map_cons, Visited.tested]
    congr 1
    split_ifs
    · rfl
    · exact ih _ _ _ _ _
    · exact ih _ _ _ _ _

theorem rowsTrace_eq_map (s0 s1 s2 : Vector) (x0 x1 : Int) (n : Nat) :
    ∀ (y : Int) (w00 w01 w02 : ℚ),
      rowsTrace s0 s1 s2 x0 x1 n y w00 w01 w02
        = (rowsWeights s0 s1 s2 x0 x1 n y w00 w01 w02).map
            (fun r => (r.1, r.2.map (Visited.tested s0 s1 s2))) := by
  induction n with
  | zero =>
    intro y w00 w01 w02
    rfl
  | succ n ih =>
    intro y w00 w01 w02
    simp only [rowsTrace, rowsWeights, List.map_cons, rowTrace_eq_map, ih]

/-- Along a row the running values are the edge values at the pixel centres,
and the visited columns lie in the rest of the row. -/
theorem rowWeights_direct (s0 s1 s2 : Vector) (y : Int) (n : Nat) :
    ∀ (x : Int) (w0 w1 w2 : ℚ) (wasInside : Bool),
      w0 = edge s1 s2 (pixelCentre x y) → w1 = edge s2 s0 (pixelCentre x y) →
      w2 = edge s0 s1 (pixelCentre x y) →
      ∀ e ∈ rowWeights s0 s1 s2 n x w0 w1 w2 wasInside,
        (x ≤ e.x ∧ e.x < x + n) ∧ e.w0 = edge s1 s2 (pixelCentre e.x y) ∧
        e.w1 = edge s2 s0 (pixelCentre e.x y) ∧ e.w2 = edge s0 s1 (pixelCentre e.x y) := by
  induction n with
  | zero =>
    intro x w0 w1 w2 wasInside _ _ _ e he
    simp [rowWeights] at he
  | succ n ih =>
    intro x w0 w1 w2 wasInside h0 h1 h2 e he
    have n0 : w0 + (s2.Y - s1.Y) = edge s1 s2 (pixelCentre (x + 1) y) := by
      rw [edge_pixel_succ, h0]
    have n1 : w1 + (s0.Y - s2.Y) = edge s2 s0 (pixelCentre (x + 1) y) := by
      rw [edge_pixel_succ, h1]
    have n2 : w2 + (s1.Y - s0.Y) = edge s0 s1 (pixelCentre (x + 1) y) := by
      rw [edge_pixel_succ, h2]
    simp only [rowWeights, List.mem_cons] at he
    have hrest : ∀ b, e ∈ rowWeights s0 s1 s2 n (x + 1) (w0 + (s2.Y - s1.Y))
        (w1 + (s0.Y - s2.Y)) (w2 + (s1.Y - s0.Y)) b →
        (x ≤ e.x ∧ e.x < x + (n + 1 : Nat)) ∧ e.w0 = edge s1 s2 (pixelCentre e.x y) ∧
        e.w1 = edge s2 s0 (pixelCentre e.x y) ∧ e.w2 = edge s0 s1 (pixelCentre e.x y) := by
      intro b hb
      obtain ⟨⟨r1, r2⟩, r3⟩ := ih _ _ _ _ b n0 n1 n2 e hb
      refine ⟨⟨by omega, ?_⟩, r3⟩
      push_cast
      omega
    rcases he with he | he
    · rw [he]
      refine ⟨⟨le_refl _, ?_⟩, h0, h1, h2⟩
      push_cast
      omega
    · split_ifs at he
      · simp at he
      · exact hrest _ he
      · exact hrest _ he

/-- Over the rows the running values are the edge values at the pixel
centres; the visited columns of a row lie between the column after the
skip-ahead and `x1`. -/
theorem rowsWeights_direct (s0 s1 s2 : Vector) (x0 x1 : Int) (n : Nat) :
    ∀ (y : Int) (w00 w01 w02 : ℚ),
      w00 = edge s1 s2 (pixelCentre x0 y) → w01 = edge s2 s0 (pixelCentre x0 y) →
      w02 = edge s0 s1 (pixelCentre x0 y) →
      ∀ r ∈ rowsWeights s0 s1 s2 x0 x1 n y w00 w01 w02,
        (y ≤ r.1 ∧ r.1 < y + n) ∧
        ∀ e ∈ r.2,
          (x0 + truncInt (skipAhead s0 s1 s2 (edge s1 s2 (pixelCentre x0 r.1))
              (edge s2 s0 (pixelCentre x0 r.1)) (edge s0 s1 (pixelCentre x0 r.1))) ≤ e.x ∧
            e.x ≤ x1) ∧
          e.w0 = edge s1 s2 (pixelCentre e.x r.1) ∧ e.w1 = edge s2 s0 (pixelCentre e.x r.1) ∧
          e.w2 = edge s0 s1 (pixelCentre e.x r.1) := by
  induction n with
  | zero =>
    intro y w00 w01 w02 _ _ _ r hr
    simp [rowsWeights] at hr
  | succ n ih =>
    intro y w00 w01 w02 h0 h1 h2 r hr
    simp only [rowsWeights, List.mem_cons] at hr
    rcases hr with hr | hr
    · rw [hr]
      refine ⟨⟨le_refl _, by push_cast; omega⟩, ?_⟩
      intro e he
      simp only at he ⊢
      obtain ⟨k, hk, _⟩ := skipAhead_sound s0 s1 s2 x0 y
      rw [← h0, ← h1, ← h2] at hk ⊢
      have htr : truncInt (skipAhead s0 s1 s2 w00 w01 w02) = (k : Int) := by
        rw [hk]
        exact truncInt_intCast k
      have htr2 : truncInt ((k : Nat) : ℚ) = (k : Int) := truncInt_intCast k
      rw [hk, htr2] at he
      rw [htr]
      have m0 : w00 + (s2.Y - s1.Y) * (k : ℚ) = edge s1 s2 (pixelCentre (x0 + k) y) := by
        rw [edge_pixel_add, h0]
        ring
      have m1 : w01 + (s0.Y - s2.Y) * (k : ℚ) = edge s2 s0 (pixelCentre (x0 + k) y) := by
        rw [edge_pixel_add, h1]
        ring
      have m2 : w02 + (s1.Y - s0.Y) * (k : ℚ) = edge s0 s1 (pixelCentre (x0 + k) y) := by
        rw [edge_pixel_add, h2]
        ring
      obtain ⟨⟨r1, r2⟩, r3⟩ := rowWeights_direct s0 s1 s2 y _ _ _ _ _ _ m0 m1 m2 e he
      refine ⟨⟨r1, ?_⟩, r3⟩
      omega
    · have n0 : w00 + (s1.X - s2.X) = edge s1 s2 (pixelCentre x0 (y + 1)) := by
        rw [edge_pixel_row, h0]
      have n1 : w01 + (s2.X - s0.X) = edge s2 s0 (pixelCentre x0 (y + 1)) := by
        rw [edge_pixel_row, h1]
      have n2 : w02 + (s0.X - s1.X) = edge s0 s1 (pixelCentre x0 (y + 1)) := by
        rw [edge_pixel_row, h2]
      obtain ⟨⟨r1, r2⟩, r3⟩ := ih _ _ _ _ n0 n1 n2 r hr
      refine ⟨⟨by omega, ?_⟩, r3⟩
      push_cast
      omega

/-- Every row from `y` on is visited. -/
theorem rowsWeights_rows (s0 s1 s2 : Vector) (x0 x1 : Int) (n : Nat) :
    ∀ (y : Int) (w00 w01 w02 : ℚ) (y2 : Int), y ≤ y2 → y2 < y + n →
      ∃ row, (y2, row) ∈ rowsWeights s0 s1 s2 x0 x1 n y w00 w01 w02 := by
  induction n with
  | zero =>
    intro y w00 w01 w02 y2 h1 h2
    simp at h2
    omega
  | succ n ih =>
    intro y w00 w01 w02 y2 h1 h2
    by_cases hy : y2 = y
    · rw [hy]
      exact ⟨_, List.mem_cons_self _ _⟩
    · obtain ⟨row, hrow⟩ := ih (y + 1) (w00 + (s1.X - s2.X)) (w01 + (s2.X - s0.X))
        (w02 + (s0.X - s1.X)) y2 (by omega) (by push_cast at h2; omega)
      exact ⟨row, List.mem_cons_of_mem _ hrow⟩

/-- C29. Forward differencing equals direct evaluation, in exact arithmetic:
`rasterize` is the run of the fragment steps over the pixels of
`rasterWeights`, whose `b` values are the running values times `ra`; every row
`y` of the bounding rectangle `[y0, y1]` is visited, and for every pixel
`(x, y)` visited (`x` from `x0 + d` to `x1`) the running values `w0 w1 w2` are
`edge s1 s2 p`, `edge s2 s0 p`, `edge s0 s1 p` at the pixel centre
`p = (x + 0.5, y + 0.5)`. -/
theorem forward_differencing (Sqrt : ℚ → ℚ) (dc : Context) (v0 v1 v2 : Vertex)
    (s0 s1 s2 : Vector) :
    rasterize Sqrt dc v0 v1 v2 s0 s1 s2
      = runRows Sqrt v0 v1 v2 s0 s1 s2
          ((rasterWeights s0 s1 s2).map (fun r => (r.1, r.2.map (Visited.tested s0 s1 s2))))
          dc ⟨0, 0⟩ ∧
    (∀ y : Int, (boundingRect s0 s1 s2).2.1 ≤ y → y ≤ (boundingRect s0 s1 s2).2.2.2 →
      ∃ row, (y, row) ∈ rasterWeights s0 s1 s2) ∧
    (∀ r ∈ rasterWeights s0 s1 s2,
      ((boundingRect s0 s1 s2).2.1 ≤ r.1 ∧ r.1 ≤ (boundingRect s0 s1 s2).2.2.2) ∧
      ∀ e ∈ r.2,
        ((boundingRect s0 s1 s2).1
            + truncInt (skipAhead s0 s1 s2 (edge s1 s2 (pixelCentre (boundingRect s0 s1 s2).1 r.1))
              (edge s2 s0 (pixelCentre (boundingRect s0 s1 s2).1 r.1))
              (edge s0 s1 (pixelCentre (boundingRect s0 s1 s2).1 r.1))) ≤ e.x ∧
          e.x ≤ (boundingRect s0 s1 s2).2.2.1) ∧
        e.w0 = edge s1 s2 (pixelCentre e.x r.1) ∧ e.w1 = edge s2 s0 (pixelCentre e.x r.1) ∧
        e.w2 = edge s0 s1 (pixelCentre e.x r.1)) := by
  refine ⟨?_, ?_, ?_⟩
  · have h := rasterizeRows_eq_runRows Sqrt v0 v1 v2 s0 s1 s2 (boundingRect s0 s1 s2).1
      (boundingRect s0 s1 s2).2.2.1
      ((boundingRect s0 s1 s2).2.2.2 - (boundingRect s0 s1 s2).2.1 + 1).toNat
      (boundingRect s0 s1 s2).2.1
      (edge s1 s2 (pixelCentre (boundingRect s0 s1 s2).1 (boundingRect s0 s1 s2).2.1))
      (edge s2 s0 (pixelCentre (boundingRect s0 s1 s2).1 (boundingRect s0 s1 s2).2.1))
      (edge s0 s1 (pixelCentre (boundingRect s0 s1 s2).1 (boundingRect s0 s1 s2).2.1)) dc ⟨0, 0⟩
    rw [rowsTrace_eq_map] at h
    exact h
  · intro y h1 h2
    exact rowsWeights_rows s0 s1 s2 _ _ _ _ _ _ _ y h1 (by omega)
  · intro r hr
    obtain ⟨⟨r1, r2⟩, r3⟩ := rowsWeights_direct s0 s1 s2 _ _ _ _ _ _ _ rfl rfl rfl r hr
    exact ⟨⟨r1, by omega⟩, r3⟩

/-- C30. Skip-ahead is sound: on every row `y`, with the running values of
the first column `x0`, the offset `d` computed for the row is a natural
number `k`, the pixel loop of the row starts at the column `x0 + k`, and
every pixel `x` with `x0 ≤ x < x0 + k` has at least one of its three edge
values strictly negative at its centre, so no inside pixel is skipped.  No
sign of `edge s0 s1 s2` is needed for this. -/
theorem skip_ahead_no_inside_skipped (s0 s1 s2 : Vector) (x0 x1 y : Int) (n : Nat) :
    ∃ k : Nat,
      skipAhead s0 s1 s2 (edge s1 s2 (pixelCentre x0 y)) (edge s2 s0 (pixelCentre x0 y))
        (edge s0 s1 (pixelCentre x0 y)) = (k : ℚ) ∧
      (rowsWeights s0 s1 s2 x0 x1 (n + 1) y (edge s1 s2 (pixelCentre x0 y))
          (edge s2 s0 (pixelCentre x0 y)) (edge s0 s1 (pixelCentre x0 y))).head?
        = some (y, rowWeights s0 s1 s2 (x1 - (x0 + k) + 1).toNat (x0 + k)
            (edge s1 s2 (pixelCentre (x0 + k) y)) (edge s2 s0 (pixelCentre (x0 + k) y))
            (edge s0 s1 (pixelCentre (x0 + k) y)) false) ∧
      ∀ x : Int, x0 ≤ x → x < x0 + k →
        edge s1 s2 (pixelCentre x y) < 0 ∨ edge s2 s0 (pixelCentre x y) < 0 ∨
          edge s0 s1 (pixelCentre x y) < 0 := by
  obtain ⟨k, hk, hout⟩ := skipAhead_sound s0 s1 s2 x0 y
  refine ⟨k, hk, ?_, ?_⟩
  · have htr : truncInt ((k : Nat) : ℚ) = (k : Int) := truncInt_intCast k
    simp only [rowsWeights, List.head?_cons, hk, htr]
    rw [edge_pixel_add, edge_pixel_add, edge_pixel_add]
    simp only [mul_comm]
  · intro x h1 h2
    have hx : x = x0 + ((x - x0).toNat : Int) := by omega
    have hm := hout (x - x0).toNat (by omega)
    rw [← hx] at hm
    unfold insidePixel at hm
    by_contra hn
    push_neg at hn
    exact hm hn

theorem setColor_boundingBox (t : Triangle) (c : Color) :
    (t.SetColor c).BoundingBox = t.BoundingBox := rfl

theorem min_reverse (a b c : ℚ) : min (min c b) a = min (min a b) c := by
  rw [min_comm (min c b) a, min_comm c b, ← min_assoc]

theorem max_reverse (a b c : ℚ) : max (max c b) a = max (max a b) c := by
  rw [max_comm (max c b) a, max_comm c b, ← max_assoc]

theorem reverseWinding_boundingBox (t : Triangle) :
    t.ReverseWinding.BoundingBox = t.BoundingBox := by
  simp only [Triangle.ReverseWinding, Triangle.BoundingBox, Vector.Min, Vector.Max,
    Box.mk.injEq, Vector.mk.injEq]
  exact ⟨⟨min_reverse _ _ _, min_reverse _ _ _, min_reverse _ _ _⟩,
    max_reverse _ _ _, max_reverse _ _ _, max_reverse _ _ _⟩

/-- Changing the triangles of a list of pointers, one after the other, by a
function that keeps the bounding box keeps the bounding box at every
address. -/
theorem foldl_update_boundingBox (f : Triangle → Triangle)
    (hf : ∀ t, (f t).BoundingBox = t.BoundingBox) (l : List Nat) :
    ∀ (tr : Nat → Triangle) (p : Nat),
      ((l.foldl (fun tr q => Function.update tr q (f (tr q))) tr) p).BoundingBox
        = (tr p).BoundingBox := by
  induction l with
  | nil =>
    intro tr p
    rfl
  | cons q l ih =>
    intro tr p
    rw [List.foldl_cons, ih]
    by_cases hp : p = q
    · rw [hp, Function.update_same, hf]
    · rw [Function.update_noteq hp]

theorem computeBox_congr (h h2 : Heap) (m : Mesh)
    (ht : ∀ p, (h2.triangles p).BoundingBox = (h.triangles p).BoundingBox)
    (hl : h2.lines = h.lines) : m.computeBox h2 = m.computeBox h := by
  have e : (fun (box : Box) (p : Nat) => box.Extend (h2.triangles p).BoundingBox)
      = (fun (box : Box) (p : Nat) => box.Extend (h.triangles p).BoundingBox) := by
    funext box p
    rw [ht]
  simp only [Mesh.computeBox, e, hl]

theorem cacheValid_apply (Sqrt : ℚ → ℚ) (op : MeshOp) (s : Heap × Mesh)
    (hv : s.2.cacheValid s.1) : (op.apply Sqrt s).2.cacheValid (op.apply Sqrt s).1 := by
  cases op with
  | boundingBox =>
    simp only [MeshOp.apply, Mesh.BoundingBox]
    cases hb : s.2.box with
    | none => exact Or.inr rfl
    | some b =>
      rcases hv with hv | hv
      · rw [hv] at hb
        exact absurd hb (by simp)
      · exact Or.inr (by simpa [hb] using hv)
  | add b => exact Or.inl rfl
  | transform matrix => exact Or.inl rfl
  | setColor c =>
    simp only [MeshOp.apply]
    have e : s.2.computeBox (s.2.SetColor s.1 c) = s.2.computeBox s.1 :=
      computeBox_congr _ _ _
        (foldl_update_boundingBox _ (fun t => setColor_boundingBox t c) _ _) rfl
    rcases hv with hv | hv
    · exact Or.inl hv
    · exact Or.inr (by rw [e]; exact hv)
  | reverseWinding =>
    simp only [MeshOp.apply]
    have e : s.2.computeBox (s.2.ReverseWinding s.1) = s.2.computeBox s.1 :=
      computeBox_congr _ _ _
        (foldl_update_boundingBox _ reverseWinding_boundingBox _ _) rfl
    rcases hv with hv | hv
    · exact Or.inl hv
    · exact Or.inr (by rw [e]; exact hv)

theorem cacheValid_run (Sqrt : ℚ → ℚ) (ops : List MeshOp) :
    ∀ s : Heap × Mesh, s.2.cacheValid s.1 →
      (runMeshOps Sqrt ops s).2.cacheValid (runMeshOps Sqrt ops s).1 := by
  induction ops with
  | nil =>
    intro s hv
    exact hv
  | cons op ops ih =>
    intro s hv
    exact ih _ (cacheValid_apply Sqrt op s hv)

theorem boundingBox_of_valid (h : Heap) (m : Mesh) (hv : m.cacheValid h) :
    (m.BoundingBox h).2 = m.computeBox h ∧ (m.BoundingBox h).1.box = some (m.computeBox h) := by
  cases hb : m.box with
  | none =>
    simp only [Mesh.BoundingBox, hb]
    exact ⟨trivial, trivial⟩
  | some b =>
    rcases hv with hv | hv
    · rw [hv] at hb
      exact absurd hb (by simp)
    · have e : m.computeBox h = b := Option.some.inj (hv.symm.trans hb)
      simp only [Mesh.BoundingBox, hb]
      exact ⟨e.symm, by rw [e]⟩

theorem boundingBox_twice (h : Heap) (m : Mesh) :
    ((m.BoundingBox h).1.BoundingBox h).2 = (m.BoundingBox h).2 := by
  cases hb : m.box with
  | none => simp only [Mesh.BoundingBox, hb]
  | some b => simp only [Mesh.BoundingBox, hb]

/-- C24. The bounding-box cache is never stale: after any sequence of the
operations `BoundingBox`, `Add`, `Transform`, `SetColor` and `ReverseWinding`
on a mesh created by `NewMesh`, `BoundingBox` returns the box computed from
scratch from the current triangles and lines of the mesh; `Add` and
`Transform` leave the cached box `nil`; a second `BoundingBox` call returns
the same box as the first. -/
theorem mesh_box_never_stale (Sqrt : ℚ → ℚ) (h : Heap) (triangles lines : List Nat)
    (ops : List MeshOp) (m b : Mesh) (h2 : Heap) (matrix : Matrix) :
    ((runMeshOps Sqrt ops (h, NewMesh triangles lines)).2.BoundingBox
        (runMeshOps Sqrt ops (h, NewMesh triangles lines)).1).2
      = (runMeshOps Sqrt ops (h, NewMesh triangles lines)).2.computeBox
          (runMeshOps Sqrt ops (h, NewMesh triangles lines)).1 ∧
    (m.Add b).box = none ∧ (m.Transform Sqrt h2 matrix).2.box = none ∧
    (((runMeshOps Sqrt ops (h, NewMesh triangles lines)).2.BoundingBox
        (runMeshOps Sqrt ops (h, NewMesh triangles lines)).1).1.BoundingBox
        (runMeshOps Sqrt ops (h, NewMesh triangles lines)).1).2
      = ((runMeshOps Sqrt ops (h, NewMesh triangles lines)).2.BoundingBox
          (runMeshOps Sqrt ops (h, NewMesh triangles lines)).1).2 ∧
    ((m.BoundingBox h2).1.BoundingBox h2).2 = (m.BoundingBox h2).2 := by
  have hv := cacheValid_run Sqrt ops (h, NewMesh triangles lines) (Or.inl rfl)
  exact ⟨(boundingBox_of_valid _ _ hv).1, rfl, rfl, boundingBox_twice _ _, boundingBox_twice _ _⟩

/-- C36. Matrix inverse, in exact arithmetic: for every matrix `a` with
`a.Determinant ≠ 0`, `a.Mul a.Inverse` and `a.Inverse.Mul a` both equal
`Identity`. -/
theorem matrix_inverse (a : Matrix) (hd : a.Determinant ≠ 0) :
    a.Mul a.Inverse = Identity ∧ a.Inverse.Mul a = Identity := by
  have e : a.Determinant = a.X00 * a.X11 * a.X22 * a.X33 - a.X00 * a.X11 * a.X23 * a.X32 +
    a.X00 * a.X12 * a.X23 * a.X31 - a.X00 * a.X12 * a.X21 * a.X33 +
    a.X00 * a.X13 * a.X21 * a.X32 - a.X00 * a.X13 * a.X22 * a.X31 -
    a.X01 * a.X12 * a.X23 * a.X30 + a.X01 * a.X12 * a.X20 * a.X33 -
    a.X01 * a.X13 * a.X20 * a.X32 + a.X01 * a.X13 * a.X22 * a.X30 -
    a.X01 * a.X10 * a.X22 * a.X33 + a.X01 * a.X10 * a.X23 * a.X32 +
    a.X02 * a.X13 * a.X20 * a.X31 - a.X02 * a.X13 * a.X21 * a.X30 +
    a.X02 * a.X10 * a.X21 * a.X33 - a.X02 * a.X10 * a.X23 * a.X31 +
    a.X02 * a.X11 * a.X23 * a.X30 - a.X02 * a.X11 * a.X20 * a.X33 -
    a.X03 * a.X10 * a.X21 * a.X32 + a.X03 * a.X10 * a.X22 * a.X31 -
    a.X03 * a.X11 * a.X22 * a.X30 + a.X03 * a.X11 * a.X20 * a.X32 -
    a.X03 * a.X12 * a.X20 * a.X31 + a.X03 * a.X12 * a.X21 * a.X30 := rfl
  constructor
  · simp only [Matrix.Mul, Matrix.Inverse, Identity, Matrix.mk.injEq]
    refine ⟨?_, ?_, ?_, ?_, ?_, ?_, ?_, ?_, ?_, ?_, ?_, ?_, ?_, ?_, ?_, ?_⟩ <;>
      (simp only [← mul_div_assoc, div_mul_eq_mul_div, ← add_div]
       first
        | (rw [div_eq_one_iff_eq hd, e]; ring)
        | (rw [div_eq_zero_iff]; left; ring))
  · simp only [Matrix.Mul, Matrix.Inverse, Identity, Matrix.mk.injEq]
    refine ⟨?_, ?_, ?_, ?_, ?_, ?_, ?_, ?_, ?_, ?_, ?_, ?_, ?_, ?_, ?_, ?_⟩ <;>
      (simp only [← mul_div_assoc, div_mul_eq_mul_div, ← add_div]
       first
        | (rw [div_eq_one_iff_eq hd, e]; ring)
        | (rw [div_eq_zero_iff]; left; ring))

theorem matrix_inverse_witness :
    (Screen 2 4).Determinant ≠ 0 ∧ (Screen 2 4).Determinant = -1 ∧
    ((Screen 2 4).Mul (Screen 2 4).Inverse = Identity ∧
      (Screen 2 4).Inverse.Mul (Screen 2 4) = Identity) :=
  ⟨by decide!, by decide!, matrix_inverse (Screen 2 4) (by decide!)⟩

/-- The barycentric coordinates of a point of the plane of a non-degenerate
triangle. -/
theorem barycentric_plane (p1 p2 p3 : Vector) (s t : ℚ)
    (hd : (p2.Sub p1).Dot (p2.Sub p1) * (p3.Sub p1).Dot (p3.Sub p1)
      ≠ (p2.Sub p1).Dot (p3.Sub p1) ^ 2) :
    Barycentric p1 p2 p3 ((p1.Add ((p2.Sub p1).MulScalar s)).Add ((p3.Sub p1).MulScalar t))
      = ⟨1 - s - t, s, t, 1⟩ := by
  have hd2 : (p2.Sub p1).Dot (p2.Sub p1) * (p3.Sub p1).Dot (p3.Sub p1)
      - (p2.Sub p1).Dot (p3.Sub p1) * (p2.Sub p1).Dot (p3.Sub p1) ≠ 0 := by
    intro h
    apply hd
    rw [pow_two]
    linarith
  have ev : ((p3.Sub p1).Dot (p3.Sub p1)
        * (((p1.Add ((p2.Sub p1).MulScalar s)).Add ((p3.Sub p1).MulScalar t)).Sub p1).Dot
            (p2.Sub p1)
      - (p2.Sub p1).Dot (p3.Sub p1)
        * (((p1.Add ((p2.Sub p1).MulScalar s)).Add ((p3.Sub p1).MulScalar t)).Sub p1).Dot
            (p3.Sub p1))
      / ((p2.Sub p1).Dot (p2.Sub p1) * (p3.Sub p1).Dot (p3.Sub p1)
        - (p2.Sub p1).Dot (p3.Sub p1) * (p2.Sub p1).Dot (p3.Sub p1)) = s := by
    rw [div_eq_iff hd2]
    simp only [Vector.Dot, Vector.Sub, Vector.Add, Vector.MulScalar]
    ring
  have ew : ((p2.Sub p1).Dot (p2.Sub p1)
        * (((p1.Add ((p2.Sub p1).MulScalar s)).Add ((p3.Sub p1).MulScalar t)).Sub p1).Dot
            (p3.Sub p1)
      - (p2.Sub p1).Dot (p3.Sub p1)
        * (((p1.Add ((p2.Sub p1).MulScalar s)).Add ((p3.Sub p1).MulScalar t)).Sub p1).Dot
            (p2.Sub p1))
      / ((p2.Sub p1).Dot (p2.Sub p1) * (p3.Sub p1).Dot (p3.Sub p1)
        - (p2.Sub p1).Dot (p3.Sub p1) * (p2.Sub p1).Dot (p3.Sub p1)) = t := by
    rw [div_eq_iff hd2]
    simp only [Vector.Dot, Vector.Sub, Vector.Add, Vector.MulScalar]
    ring
  simp only [Barycentric, ev, ew]

theorem plane_point_vertices (p1 p2 p3 : Vector) :
    (p1.Add ((p2.Sub p1).MulScalar 0)).Add ((p3.Sub p1).MulScalar 0) = p1 ∧
    (p1.Add ((p2.Sub p1).MulScalar 1)).Add ((p3.Sub p1).MulScalar 0) = p2 ∧
    (p1.Add ((p2.Sub p1).MulScalar 0)).Add ((p3.Sub p1).MulScalar 1) = p3 := by
  refine ⟨?_, ?_, ?_⟩ <;> simp [Vector.Add, Vector.Sub, Vector.MulScalar]

/-- C37. Barycentric round trip, in exact arithmetic: for a non-degenerate
triangle (`|p2-p1|^2 * |p3-p1|^2 ≠ ((p2-p1).(p3-p1))^2`) and all `s t`,
`Barycentric p1 p2 p3 (p1 + s*(p2-p1) + t*(p3-p1)) = (1-s-t, s, t, 1)`; the
first three components sum to 1, the vertices map to `(1,0,0)`, `(0,1,0)`,
`(0,0,1)`, and `InterpolateVectors` of the barycentric coordinates of a
point of the plane is the point. -/
theorem barycentric_round_trip (p1 p2 p3 : Vector) (s t : ℚ)
    (hd : (p2.Sub p1).Dot (p2.Sub p1) * (p3.Sub p1).Dot (p3.Sub p1)
      ≠ (p2.Sub p1).Dot (p3.Sub p1) ^ 2) :
    Barycentric p1 p2 p3 ((p1.Add ((p2.Sub p1).MulScalar s)).Add ((p3.Sub p1).MulScalar t))
      = ⟨1 - s - t, s, t, 1⟩ ∧
    (Barycentric p1 p2 p3
        ((p1.Add ((p2.Sub p1).MulScalar s)).Add ((p3.Sub p1).MulScalar t))).X
      + (Barycentric p1 p2 p3
        ((p1.Add ((p2.Sub p1).MulScalar s)).Add ((p3.Sub p1).MulScalar t))).Y
      + (Barycentric p1 p2 p3
        ((p1.Add ((p2.Sub p1).MulScalar s)).Add ((p3.Sub p1).MulScalar t))).Z = 1 ∧
    Barycentric p1 p2 p3 p1 = ⟨1, 0, 0, 1⟩ ∧
    Barycentric p1 p2 p3 p2 = ⟨0, 1, 0, 1⟩ ∧
    Barycentric p1 p2 p3 p3 = ⟨0, 0, 1, 1⟩ ∧
    InterpolateVectors p1 p2 p3 (Barycentric p1 p2 p3
        ((p1.Add ((p2.Sub p1).MulScalar s)).Add ((p3.Sub p1).MulScalar t)))
      = (p1.Add ((p2.Sub p1).MulScalar s)).Add ((p3.Sub p1).MulScalar t) := by
  have h := barycentric_plane p1 p2 p3 s t hd
  obtain ⟨e1, e2, e3⟩ := plane_point_vertices p1 p2 p3
  have h1 := barycentric_plane p1 p2 p3 0 0 hd
  have h2 := barycentric_plane p1 p2 p3 1 0 hd
  have h3 := barycentric_plane p1 p2 p3 0 1 hd
  rw [e1] at h1
  rw [e2] at h2
  rw [e3] at h3
  refine ⟨h, ?_, ?_, ?_, ?_, ?_⟩
  · rw [h]
    ring
  · rw [h1]
    norm_num
  · rw [h2]
    norm_num
  · rw [h3]
    norm_num
  · rw [h]
    simp only [InterpolateVectors, Vector.Add, Vector.Sub, Vector.MulScalar, Vector.mk.injEq]
    refine ⟨?_, ?_, ?_⟩ <;> ring

theorem barycentric_round_trip_witness :
    Barycentric ⟨0, 0, 0⟩ ⟨2, 0, 0⟩ ⟨0, 3, 1⟩
        (((⟨0, 0, 0⟩ : Vector).Add (((⟨2, 0, 0⟩ : Vector).Sub ⟨0, 0, 0⟩).MulScalar (1 / 4))).Add
          (((⟨0, 3, 1⟩ : Vector).Sub ⟨0, 0, 0⟩).MulScalar (1 / 2)))
      = ⟨1 - 1 / 4 - 1 / 2, 1 / 4, 1 / 2, 1⟩ ∧
    Barycentric ⟨0, 0, 0⟩ ⟨2, 0, 0⟩ ⟨0, 3, 1⟩ ⟨1 / 2, 3 / 2, 1 / 2⟩ = ⟨1 / 4, 1 / 4, 1 / 2, 1⟩ :=
  ⟨(barycentric_round_trip ⟨0, 0, 0⟩ ⟨2, 0, 0⟩ ⟨0, 3, 1⟩ (1 / 4) (1 / 2) (by decide!)).1,
    by decide!⟩

theorem cross_reverse (a b c : Vector) :
    (b.Sub c).Cross (a.Sub c) = ((b.Sub a).Cross (c.Sub a)).Negate := by
  simp only [Vector.Cross, Vector.Sub, Vector.Negate, Vector.mk.injEq]
  refine ⟨?_, ?_, ?_⟩ <;> ring

/-- C35 (amended). In exact arithmetic, with culling disabled the winding
does not matter: for
`Cull = CullNone` and three vertices with non-zero NDC signed area,
`drawClippedTriangle v0 v1 v2` and `drawClippedTriangle v2 v1 v0` are the same
drawing call, `rasterize` or `wireframe` on the vertices in the order of
positive area with their screen positions, and so return the same context
and the same `RasterizeInfo`. -/
theorem cull_none_winding (Sqrt : ℚ → ℚ) (dc : Context) (v0 v1 v2 : Vertex)
    (hc : dc.Cull = CullNone) (ha : ndcArea v0 v1 v2 ≠ 0) :
    drawClippedTriangle Sqrt dc v0 v1 v2 = drawClippedTriangle Sqrt dc v2 v1 v0 ∧
    drawClippedTriangle Sqrt dc v0 v1 v2
      = (if ndcArea v0 v1 v2 < 0 then screenDraw Sqrt dc v2 v1 v0
         else screenDraw Sqrt dc v0 v1 v2) ∧
    drawClippedTriangle Sqrt dc v2 v1 v0
      = (if ndcArea v0 v1 v2 < 0 then screenDraw Sqrt dc v2 v1 v0
         else screenDraw Sqrt dc v0 v1 v2) := by
  have h1 : drawClippedTriangle Sqrt dc v0 v1 v2
      = (if ndcArea v0 v1 v2 < 0 then screenDraw Sqrt dc v2 v1 v0
         else screenDraw Sqrt dc v0 v1 v2) := by
    rw [drawClippedTriangle_eq]
    simp only [hc, ne_eq, not_true_eq_false, false_and, if_false, orientedDraw]
  have h2 : drawClippedTriangle Sqrt dc v2 v1 v0
      = (if ndcArea v0 v1 v2 < 0 then screenDraw Sqrt dc v2 v1 v0
         else screenDraw Sqrt dc v0 v1 v2) := by
    rw [drawClippedTriangle_eq]
    simp only [hc, ne_eq, not_true_eq_false, false_and, if_false, orientedDraw]
    rw [ndcArea_reverse v0 v1 v2]
    rcases lt_or_gt_of_ne ha with h | h
    · rw [if_neg (by linarith), if_pos h]
    · rw [if_pos (by linarith), if_neg (by linarith)]
  exact ⟨h1.trans h2.symm, h1, h2⟩

theorem cull_none_winding_witness :
    drawClippedTriangle (fun _ => 1) cullNoneContext (sampleVertex 0 0 0 1 White)
        (sampleVertex 1 0 0 1 White) (sampleVertex 0 1 0 1 White)
      = drawClippedTriangle (fun _ => 1) cullNoneContext (sampleVertex 0 1 0 1 White)
        (sampleVertex 1 0 0 1 White) (sampleVertex 0 0 0 1 White) :=
  (cull_none_winding (fun _ => 1) cullNoneContext (sampleVertex 0 0 0 1 White)
    (sampleVertex 1 0 0 1 White) (sampleVertex 0 1 0 1 White) (by decide) (by decide!)).1

theorem lor_shift_byte : ∀ c, c < 256 → (c ||| (c <<< 8)) = c * 257 := by
  decide!

/-- A premultiplied channel of `color.NRGBA.RGBA` for byte arguments: nothing
wraps, and the channel is at most the 16-bit alpha. -/
theorem premul_byte (c alpha : Nat) (hc : c < 256) (ha : alpha < 256) :
    color.premul c alpha = c * alpha * 257 / 255 ∧ color.premul c alpha ≤ alpha * 257 := by
  have h1 : c % 2 ^ 32 = c := Nat.mod_eq_of_lt (by omega)
  have h2 : alpha % 2 ^ 32 = alpha := Nat.mod_eq_of_lt (by omega)
  have h4 := lor_shift_byte c hc
  have h3 : (c <<< 8) % 2 ^ 32 = c <<< 8 := by
    apply Nat.mod_eq_of_lt
    rw [Nat.shiftLeft_eq]
    omega
  have hca : c * alpha ≤ 255 * 255 := Nat.mul_le_mul (by omega) (by omega)
  have e : c * 257 * alpha = c * alpha * 257 := by ring
  have h5 : c * alpha * 257 < 2 ^ 32 := by omega
  have hp : color.premul c alpha = c * alpha * 257 / 255 := by
    unfold color.premul
    rw [h1, h2, h3, h4, e, Nat.mod_eq_of_lt h5]
  refine ⟨hp, ?_⟩
  rw [hp]
  apply Nat.div_le_of_le_mul
  have : c * alpha ≤ 255 * alpha := Nat.mul_le_mul_right alpha (by omega)
  omega

/-- The 16-bit components of `color.NRGBA.RGBA` for byte channels. -/
theorem rgba_bounds (n : color.NRGBA) (hr : n.R < 256) (hg : n.G < 256) (hb : n.B < 256)
    (ha : n.A < 256) :
    n.RGBA.2.2.2 = n.A * 257 ∧ n.RGBA.1 ≤ n.RGBA.2.2.2 ∧ n.RGBA.2.1 ≤ n.RGBA.2.2.2 ∧
      n.RGBA.2.2.1 ≤ n.RGBA.2.2.2 := by
  have h2 : n.A % 2 ^ 32 = n.A := Nat.mod_eq_of_lt (by omega)
  have h3 : (n.A <<< 8) % 2 ^ 32 = n.A <<< 8 := by
    apply Nat.mod_eq_of_lt
    rw [Nat.shiftLeft_eq]
    omega
  have hA : n.RGBA.2.2.2 = n.A * 257 := by
    simp only [color.NRGBA.RGBA, h2, h3]
    exact lor_shift_byte n.A ha
  refine ⟨hA, ?_, ?_, ?_⟩
  · rw [hA]
    exact (premul_byte n.R n.A hr ha).2
  · rw [hA]
    exact (premul_byte n.G n.A hg ha).2
  · rw [hA]
    exact (premul_byte n.B n.A hb ha).2

/-- One channel of the blend for a destination byte `d`, a 16-bit alpha
`sa = A * 257` and a source component `s ≤ sa`: no intermediate value wraps. -/
theorem blend_channel_exact (d A s : Nat) (hd : d < 256) (hA : A < 256) (hs : s ≤ A * 257) :
    sub32 0xffff (A * 257) * 0x101 % 2 ^ 32 = (0xffff - A * 257) * 0x101 ∧
    d * ((0xffff - A * 257) * 0x101) < 2 ^ 32 ∧
    d * ((0xffff - A * 257) * 0x101) / 0xffff + s ≤ 0xffff ∧
    (d * ((0xffff - A * 257) * 0x101) / 0xffff + s) >>> 8 ≤ 255 ∧
    blendChannel d ((0xffff - A * 257) * 0x101) s
      = (d * ((0xffff - A * 257) * 0x101) / 0xffff + s) >>> 8 := by
  have hsa : A * 257 ≤ 65535 := by omega
  have e1 : sub32 0xffff (A * 257) = 0xffff - A * 257 := by
    unfold sub32
    omega
  have ha : (0xffff - A * 257) * 0x101 ≤ 65535 * 257 := Nat.mul_le_mul_right _ (by omega)
  have hda : d * ((0xffff - A * 257) * 0x101) ≤ 255 * ((0xffff - A * 257) * 0x101) :=
    Nat.mul_le_mul_right _ (by omega)
  have hlt : d * ((0xffff - A * 257) * 0x101) < 2 ^ 32 := by omega
  have hdiv : d * ((0xffff - A * 257) * 0x101) / 0xffff ≤ 0xffff - A * 257 := by
    apply Nat.div_le_of_le_mul
    omega
  have hsum : d * ((0xffff - A * 257) * 0x101) / 0xffff + s ≤ 0xffff := by omega
  have hshift : (d * ((0xffff - A * 257) * 0x101) / 0xffff + s) >>> 8 ≤ 255 := by
    rw [Nat.shiftRight_eq_div_pow]
    omega
  refine ⟨?_, hlt, hsum, hshift, ?_⟩
  · rw [e1]
    exact Nat.mod_eq_of_lt (by omega)
  · unfold blendChannel
    have hd2 : d % 2 ^ 32 = d := Nat.mod_eq_of_lt (by omega)
    rw [hd2, Nat.mod_eq_of_lt hlt, Nat.mod_eq_of_lt (by omega : d * ((0xffff - A * 257) * 0x101)
      / 0xffff + s < 2 ^ 32)]
    exact Nat.mod_eq_of_lt (by omega)

/-- C33. Blend arithmetic never overflows or wraps: for every destination
byte `d` in `0..255` and every fragment colour, with `(sr, sg, sb, sa)` the
16-bit premultiplied components of `color.NRGBA()` and
`a = (0xffff - sa) * 0x101`, nothing wraps in computing `a`, the product
`d * a` is below `2^32`, `d * a / 0xffff + s ≤ 0xffff` for each `s` of
`sr, sg, sb, sa`, the value shifted right by 8 is at most 255, and it is the
byte that the blend stores. -/
theorem blend_no_overflow (d : Nat) (hd : d < 256) (c : Color) :
    c.NRGBA.RGBA.2.2.2 ≤ 0xffff ∧
    sub32 0xffff c.NRGBA.RGBA.2.2.2 * 0x101 % 2 ^ 32 = (0xffff - c.NRGBA.RGBA.2.2.2) * 0x101 ∧
    d * ((0xffff - c.NRGBA.RGBA.2.2.2) * 0x101) < 2 ^ 32 ∧
    (∀ s, (s = c.NRGBA.RGBA.1 ∨ s = c.NRGBA.RGBA.2.1 ∨ s = c.NRGBA.RGBA.2.2.1 ∨
        s = c.NRGBA.RGBA.2.2.2) →
      d * ((0xffff - c.NRGBA.RGBA.2.2.2) * 0x101) / 0xffff + s ≤ 0xffff ∧
      (d * ((0xffff - c.NRGBA.RGBA.2.2.2) * 0x101) / 0xffff + s) >>> 8 ≤ 255 ∧
      blendChannel d (sub32 0xffff c.NRGBA.RGBA.2.2.2 * 0x101 % 2 ^ 32) s
        = (d * ((0xffff - c.NRGBA.RGBA.2.2.2) * 0x101) / 0xffff + s) >>> 8) := by
  have hR : c.NRGBA.R < 256 := toUint8_lt _
  have hG : c.NRGBA.G < 256 := toUint8_lt _
  have hB : c.NRGBA.B < 256 := toUint8_lt _
  have hA : c.NRGBA.A < 256 := toUint8_lt _
  obtain ⟨ea, br, bg, bb⟩ := rgba_bounds c.NRGBA hR hG hB hA
  rw [ea] at br bg bb ⊢
  obtain ⟨b1, b2, _, _, _⟩ := blend_channel_exact d c.NRGBA.A 0 hd hA (Nat.zero_le _)
  refine ⟨by omega, b1, b2, ?_⟩
  intro s hs
  have hsle : s ≤ c.NRGBA.A * 257 := by
    rcases hs with h | h | h | h
    · rw [h]; exact br
    · rw [h]; exact bg
    · rw [h]; exact bb
    · rw [h]
  obtain ⟨_, _, c3, c4, c5⟩ := blend_channel_exact d c.NRGBA.A s hd hA hsle
  rw [b1]
  exact ⟨c3, c4, c5⟩

theorem blend_no_overflow_witness :
    (⟨0, 0, 1, 1 / 2⟩ : Color).NRGBA.RGBA = (0, 0, 32639, 32639) ∧
    255 * ((0xffff - (⟨0, 0, 1, 1 / 2⟩ : Color).NRGBA.RGBA.2.2.2) * 0x101) < 2 ^ 32 :=
  ⟨by decide!, (blend_no_overflow 255 (by decide) ⟨0, 0, 1, 1 / 2⟩).2.2.1⟩

theorem extend_step (acc b : Box) (hacc : acc.Ordered) (hb : b.Ordered) :
    (acc.Extend b).Ordered ∧ b.within (acc.Extend b) ∧
      (acc ≠ EmptyBox → acc.within (acc.Extend b) ∧ acc.Extend b ≠ EmptyBox) ∧
      (b ≠ EmptyBox → acc.Extend b ≠ EmptyBox) := by
  obtain ⟨a1, a2, a3⟩ := hacc
  obtain ⟨b1, b2, b3⟩ := hb
  by_cases he : acc = EmptyBox
  · simp only [Box.Extend, if_pos he]
    exact ⟨⟨b1, b2, b3⟩, ⟨⟨le_refl _, le_refl _, le_refl _⟩, le_refl _, le_refl _, le_refl _⟩,
      fun h => absurd he h, fun h => h⟩
  · simp only [Box.Extend, if_neg he]
    have hne : (⟨acc.Min.Min b.Min, acc.Max.Max b.Max⟩ : Box) ≠ EmptyBox := by
      intro h
      simp only [EmptyBox, Vector.Min, Vector.Max, Box.mk.injEq, Vector.mk.injEq] at h
      obtain ⟨⟨m1, m2, m3⟩, n1, n2, n3⟩ := h
      apply he
      have x1 : 0 ≤ acc.Min.X := by rw [← m1]; exact min_le_left _ _
      have x2 : acc.Max.X ≤ 0 := by rw [← n1]; exact le_max_left _ _
      have y1 : 0 ≤ acc.Min.Y := by rw [← m2]; exact min_le_left _ _
      have y2 : acc.Max.Y ≤ 0 := by rw [← n2]; exact le_max_left _ _
      have z1 : 0 ≤ acc.Min.Z := by rw [← m3]; exact min_le_left _ _
      have z2 : acc.Max.Z ≤ 0 := by rw [← n3]; exact le_max_left _ _
      obtain ⟨⟨p1, p2, p3⟩, ⟨q1, q2, q3⟩⟩ := acc
      simp only [EmptyBox, Box.mk.injEq, Vector.mk.injEq]
      simp only at a1 a2 a3 x1 x2 y1 y2 z1 z2
      exact ⟨⟨by linarith, by linarith, by linarith⟩, by linarith, by linarith, by linarith⟩
    refine ⟨?_, ?_, fun _ => ⟨?_, hne⟩, fun _ => hne⟩
    · exact ⟨(min_le_left _ _).trans (a1.trans (le_max_left _ _)),
        (min_le_left _ _).trans (a2.trans (le_max_left _ _)),
        (min_le_left _ _).trans (a3.trans (le_max_left _ _))⟩
    · exact ⟨⟨min_le_right _ _, min_le_right _ _, min_le_right _ _⟩,
        le_max_right _ _, le_max_right _ _, le_max_right _ _⟩
    · exact ⟨⟨min_le_left _ _, min_le_left _ _, min_le_left _ _⟩,
        le_max_left _ _, le_max_left _ _, le_max_left _ _⟩

theorem within_trans (a b c : Box) (h1 : a.within b) (h2 : b.within c) : a.within c := by
  obtain ⟨⟨a1, a2, a3⟩, a4, a5, a6⟩ := h1
  obtain ⟨⟨b1, b2, b3⟩, b4, b5, b6⟩ := h2
  exact ⟨⟨b1.trans a1, b2.trans a2, b3.trans a3⟩, a4.trans b4, a5.trans b5, a6.trans b6⟩

/-- Folding `Extend` over boxes: every box other than `EmptyBox` lies within
the result. -/
theorem foldl_extend (bs : List Box) :
    ∀ acc : Box, acc.Ordered → (∀ b ∈ bs, b.Ordered) →
      (bs.foldl Box.Extend acc).Ordered ∧
      (acc ≠ EmptyBox → acc.within (bs.foldl Box.Extend acc) ∧
        bs.foldl Box.Extend acc ≠ EmptyBox) ∧
      (∀ b ∈ bs, b ≠ EmptyBox → b.within (bs.foldl Box.Extend acc)) := by
  induction bs with
  | nil =>
    intro acc hacc _
    refine ⟨hacc, fun h => ⟨?_, h⟩, fun b hb => absurd hb (List.not_mem_nil b)⟩
    exact ⟨⟨le_refl _, le_refl _, le_refl _⟩, le_refl _, le_refl _, le_refl _⟩
  | cons b bs ih =>
    intro acc hacc hbs
    obtain ⟨s1, s2, s3, s4⟩ := extend_step acc b hacc (hbs b (List.mem_cons_self _ _))
    obtain ⟨i1, i2, i3⟩ := ih (acc.Extend b) s1 (fun c hc => hbs c (List.mem_cons_of_mem _ hc))
    simp only [List.foldl_cons]
    refine ⟨i1, fun h => ?_, fun c hc hne => ?_⟩
    · obtain ⟨t1, t2⟩ := s3 h
      obtain ⟨u1, u2⟩ := i2 t2
      exact ⟨within_trans _ _ _ t1 u1, u2⟩
    · rcases List.mem_cons.mp hc with hcb | hcb
      · rw [hcb] at hne ⊢
        exact within_trans _ _ _ s2 (i2 (s4 hne)).1
      · exact i3 c hcb hne

theorem computeBox_eq_foldl (h : Heap) (m : Mesh) :
    m.computeBox h = ((m.Triangles.map (fun p => (h.triangles p).BoundingBox))
      ++ (m.Lines.map (fun p => (h.lines p).BoundingBox))).foldl Box.Extend EmptyBox := by
  simp only [Mesh.computeBox, List.foldl_append, List.foldl_map]

theorem triangle_box (t : Triangle) :
    t.BoundingBox.Ordered ∧
    (∀ r : Box, t.BoundingBox.within r →
      r.Contains t.V1.Position = true ∧ r.Contains t.V2.Position = true ∧
        r.Contains t.V3.Position = true) ∧
    (t.BoundingBox = EmptyBox ↔
      t.V1.Position = ⟨0, 0, 0⟩ ∧ t.V2.Position = ⟨0, 0, 0⟩ ∧ t.V3.Position = ⟨0, 0, 0⟩) := by
  obtain ⟨⟨⟨x1, y1, z1⟩, _, _, _, _⟩, ⟨⟨x2, y2, z2⟩, _, _, _, _⟩, ⟨⟨x3, y3, z3⟩, _, _, _, _⟩⟩ := t
  refine ⟨?_, ?_, ?_⟩
  · simp only [Box.Ordered, Vector.le, Triangle.BoundingBox, Vector.Min, Vector.Max]
    refine ⟨?_, ?_, ?_⟩ <;>
      exact (min_le_left _ _).trans ((min_le_left _ _).trans
        ((le_max_left _ _).trans (le_max_left _ _)))
  · intro r hr
    simp only [Box.within, Vector.le, Triangle.BoundingBox, Vector.Min, Vector.Max] at hr
    obtain ⟨⟨a1, a2, a3⟩, a4, a5, a6⟩ := hr
    simp only [Box.Contains, decide_eq_true_eq, ge_iff_le]
    have m1 := min_le_left (min x1 x2) x3
    have m2 := min_le_right (min x1 x2) x3
    have m3 := min_le_left x1 x2
    have m4 := min_le_right x1 x2
    have m5 := min_le_left (min y1 y2) y3
    have m6 := min_le_right (min y1 y2) y3
    have m7 := min_le_left y1 y2
    have m8 := min_le_right y1 y2
    have m9 := min_le_left (min z1 z2) z3
    have m10 := min_le_right (min z1 z2) z3
    have m11 := min_le_left z1 z2
    have m12 := min_le_right z1 z2
    have n1 := le_max_left (max x1 x2) x3
    have n2 := le_max_right (max x1 x2) x3
    have n3 := le_max_left x1 x2
    have n4 := le_max_right x1 x2
    have n5 := le_max_left (max y1 y2) y3
    have n6 := le_max_right (max y1 y2) y3
    have n7 := le_max_left y1 y2
    have n8 := le_max_right y1 y2
    have n9 := le_max_left (max z1 z2) z3
    have n10 := le_max_right (max z1 z2) z3
    have n11 := le_max_left z1 z2
    have n12 := le_max_right z1 z2
    refine ⟨⟨?_, ?_, ?_, ?_, ?_, ?_⟩, ⟨?_, ?_, ?_, ?_, ?_, ?_⟩, ⟨?_, ?_, ?_, ?_, ?_, ?_⟩⟩ <;>
      linarith
  · simp only [Triangle.BoundingBox, Vector.Min, Vector.Max, EmptyBox, Box.mk.injEq,
      Vector.mk.injEq]
    constructor
    · rintro ⟨⟨a1, a2, a3⟩, a4, a5, a6⟩
      have m1 := min_le_left (min x1 x2) x3
      have m2 := min_le_right (min x1 x2) x3
      have m3 := min_le_left x1 x2
      have m4 := min_le_right x1 x2
      have m5 := min_le_left (min y1 y2) y3
      have m6 := min_le_right (min y1 y2) y3
      have m7 := min_le_left y1 y2
      have m8 := min_le_right y1 y2
      have m9 := min_le_left (min z1 z2) z3
      have m10 := min_le_right (min z1 z2) z3
      have m11 := min_le_left z1 z2
      have m12 := min_le_right z1 z2
      have n1 := le_max_left (max x1 x2) x3
      have n2 := le_max_right (max x1 x2) x3
      have n3 := le_max_left x1 x2
      have n4 := le_max_right x1 x2
      have n5 := le_max_left (max y1 y2) y3
      have n6 := le_max_right (max y1 y2) y3
      have n7 := le_max_left y1 y2
      have n8 := le_max_right y1 y2
      have n9 := le_max_left (max z1 z2) z3
      have n10 := le_max_right (max z1 z2) z3
      have n11 := le_max_left z1 z2
      have n12 := le_max_right z1 z2
      refine ⟨⟨?_, ?_, ?_⟩, ⟨?_, ?_, ?_⟩, ⟨?_, ?_, ?_⟩⟩ <;> linarith
    · rintro ⟨⟨e1, e2, e3⟩, ⟨e4, e5, e6⟩, ⟨e7, e8, e9⟩⟩
      subst e1 e2 e3 e4 e5 e6 e7 e8 e9
      simp

theorem line_box (l : Line) :
    l.BoundingBox.Ordered ∧
    (∀ r : Box, l.BoundingBox.within r →
      r.Contains l.V1.Position = true ∧ r.Contains l.V2.Position = true) ∧
    (l.BoundingBox = EmptyBox ↔ l.V1.Position = ⟨0, 0, 0⟩ ∧ l.V2.Position = ⟨0, 0, 0⟩) := by
  obtain ⟨⟨⟨x1, y1, z1⟩, _, _, _, _⟩, ⟨⟨x2, y2, z2⟩, _, _, _, _⟩⟩ := l
  refine ⟨?_, ?_, ?_⟩
  · simp only [Box.Ordered, Vector.le, Line.BoundingBox, Vector.Min, Vector.Max]
    refine ⟨?_, ?_, ?_⟩ <;> exact (min_le_left _ _).trans (le_max_left _ _)
  · intro r hr
    simp only [Box.within, Vector.le, Line.BoundingBox, Vector.Min, Vector.Max] at hr
    obtain ⟨⟨a1, a2, a3⟩, a4, a5, a6⟩ := hr
    simp only [Box.Contains, decide_eq_true_eq, ge_iff_le]
    have m3 := min_le_left x1 x2
    have m4 := min_le_right x1 x2
    have m7 := min_le_left y1 y2
    have m8 := min_le_right y1 y2
    have m11 := min_le_left z1 z2
    have m12 := min_le_right z1 z2
    have n3 := le_max_left x1 x2
    have n4 := le_max_right x1 x2
    have n7 := le_max_left y1 y2
    have n8 := le_max_right y1 y2
    have n11 := le_max_left z1 z2
    have n12 := le_max_right z1 z2
    refine ⟨⟨?_, ?_, ?_, ?_, ?_, ?_⟩, ⟨?_, ?_, ?_, ?_, ?_, ?_⟩⟩ <;> linarith
  · simp only [Line.BoundingBox, Vector.Min, Vector.Max, EmptyBox, Box.mk.injEq,
      Vector.mk.injEq]
    constructor
    · rintro ⟨⟨a1, a2, a3⟩, a4, a5, a6⟩
      have m3 := min_le_left x1 x2
      have m4 := min_le_right x1 x2
      have m7 := min_le_left y1 y2
      have m8 := min_le_right y1 y2
      have m11 := min_le_left z1 z2
      have m12 := min_le_right z1 z2
      have n3 := le_max_left x1 x2
      have n4 := le_max_right x1 x2
      have n7 := le_max_left y1 y2
      have n8 := le_max_right y1 y2
      have n11 := le_max_left z1 z2
      have n12 := le_max_right z1 z2
      refine ⟨⟨?_, ?_, ?_⟩, ⟨?_, ?_, ?_⟩⟩ <;> linarith
    · rintro ⟨⟨e1, e2, e3⟩, ⟨e4, e5, e6⟩⟩
      subst e1 e2 e3 e4 e5 e6
      simp

theorem boundingBox_valid (h : Heap) (m : Mesh) (hv : m.cacheValid h) :
    (m.BoundingBox h).2 = m.computeBox h := by
  cases hb : m.box with
  | none => simp only [Mesh.BoundingBox, hb]
  | some b =>
    rcases hv with hv | hv
    · rw [hv] at hb
      exact absurd hb (by simp)
    · have e : m.computeBox h = b := Option.some.inj (hv.symm.trans hb)
      simp only [Mesh.BoundingBox, hb]
      exact e.symm

theorem depthNotAbove_refl (l : List ℚ) : depthNotAbove l l :=
  ⟨rfl, fun _ d h => ⟨d, h, le_refl _⟩⟩

theorem depthNotAbove_trans (a b c : List ℚ) (h1 : depthNotAbove a b)
    (h2 : depthNotAbove b c) : depthNotAbove a c := by
  refine ⟨h1.1.trans h2.1, fun j d hj => ?_⟩
  obtain ⟨d2, e2, l2⟩ := h2.2 j d hj
  obtain ⟨d3, e3, l3⟩ := h1.2 j d2 e2
  exact ⟨d3, e3, l3.trans l2⟩

theorem depthNotAbove_set (l : List ℚ) (i : Nat) (z : ℚ) (hz : ∀ d, l[i]? = some d → z ≤ d) :
    depthNotAbove (l.set i z) l := by
  refine ⟨List.length_set _ _ _, fun j d hj => ?_⟩
  by_cases hij : i = j
  · subst hij
    have hlt : i < l.length := by
      by_contra hn
      rw [List.getElem?_eq_none (not_lt.mp hn)] at hj
      exact absurd hj (by simp)
    exact ⟨z, List.getElem?_set_self hlt, hz d hj⟩
  · exact ⟨d, by rw [List.getElem?_set_ne hij]; exact hj, le_refl _⟩

/-- With `ReadDepth` set and a non-negative `DepthBias` the per-pixel update
stores a depth only over an entry that is not smaller. -/
theorem depthTestAndWrite_mono (dc : Context) (hwf : dc.WellFormed) (hr : dc.ReadDepth = true)
    (hbias : 0 ≤ dc.DepthBias) (x y : Int) (hi : indexInRange dc x y) (z : ℚ) (color : Color)
    (info : RasterizeInfo) :
    ∃ depth pix info2, depthNotAbove depth dc.DepthBuffer ∧
      pix.length = dc.ColorBuffer.Pix.length ∧ (∀ b ∈ pix, b < 256) ∧
      depthTestAndWrite dc x y (y * dc.Width + x).toNat z color info
        = some (dc.withBuffers depth pix, info2) := by
  obtain ⟨depth0, pix, hdepth, hp1, hp2, _, hres⟩ := depthTestAndWrite_eq dc hwf x y hi z color info
  by_cases hupd : color ≠ Discard ∧ (dc.ReadDepth = false ∨ z + dc.DepthBias ≤ depth0)
  · rw [if_pos hupd] at hres
    refine ⟨_, pix, _, ?_, hp1, hp2, hres⟩
    have hz : z ≤ depth0 := by
      rcases hupd.2 with h | h
      · rw [hr] at h
        exact absurd h (by simp)
      · linarith
    by_cases hw : dc.WriteDepth = true
    · rw [if_pos hw]
      apply depthNotAbove_set
      intro d hd
      rw [hdepth] at hd
      rw [← Option.some.inj hd]
      exact hz
    · rw [if_neg hw]
      exact depthNotAbove_refl _
  · rw [if_neg hupd] at hres
    exact ⟨dc.DepthBuffer, dc.ColorBuffer.Pix, info, depthNotAbove_refl _, rfl,
      hwf.2.2.2.2.2.2.1, hres⟩

theorem fragment_mono (Sqrt : ℚ → ℚ) (dc : Context) (hwf : dc.WellFormed)
    (hr : dc.ReadDepth = true) (hbias : 0 ≤ dc.DepthBias) (v0 v1 v2 : Vertex)
    (s0 s1 s2 : Vector) (x y : Int) (b0 b1 b2 : ℚ) (info : RasterizeInfo) :
    ∃ depth pix info2, depthNotAbove depth dc.DepthBuffer ∧
      pix.length = dc.ColorBuffer.Pix.length ∧ (∀ b ∈ pix, b < 256) ∧
      fragment Sqrt dc v0 v1 v2 s0 s1 s2 x y b0 b1 b2 info
        = some (dc.withBuffers depth pix, info2) := by
  by_cases hi : indexInRange dc x y
  · have hcond : ¬ (y * dc.Width + x < 0 ∨ y * dc.Width + x ≥ dc.DepthBuffer.length) := by
      obtain ⟨h0, h1⟩ := hi
      omega
    obtain ⟨depth, pix, info2, h1, h2, h3, h4⟩ := depthTestAndWrite_mono dc hwf hr hbias x y hi
      (b0 * s0.Z + b1 * s1.Z + b2 * s2.Z)
      (dc.Shader.Fragment (fragmentVertex Sqrt v0 v1 v2 b0 b1 b2))
      { info with TotalPixels := info.TotalPixels + 1 }
    simp only [fragment, if_neg hcond]
    exact ⟨depth, pix, info2, h1, h2, h3, h4⟩
  · have hcond : y * dc.Width + x < 0 ∨ y * dc.Width + x ≥ dc.DepthBuffer.length := by
      unfold indexInRange at hi
      omega
    simp only [fragment, if_pos hcond]
    exact ⟨dc.DepthBuffer, dc.ColorBuffer.Pix, info, depthNotAbove_refl _, rfl,
      hwf.2.2.2.2.2.2.1, rfl⟩

theorem rasterizeRow_mono (Sqrt : ℚ → ℚ) (v0 v1 v2 : Vertex) (s0 s1 s2 : Vector) (y : Int)
    (n : Nat) :
    ∀ (x : Int) (w0 w1 w2 : ℚ) (wasInside : Bool) (dc : Context) (info : RasterizeInfo),
      dc.WellFormed → dc.ReadDepth = true → 0 ≤ dc.DepthBias →
      ∃ depth pix info2, depthNotAbove depth dc.DepthBuffer ∧
        pix.length = dc.ColorBuffer.Pix.length ∧ (∀ b ∈ pix, b < 256) ∧
        rasterizeRow Sqrt v0 v1 v2 s0 s1 s2 y n x w0 w1 w2 wasInside dc info
          = some (dc.withBuffers depth pix, info2) := by
  induction n with
  | zero =>
    intro x w0 w1 w2 wasInside dc info hwf _ _
    exact ⟨dc.DepthBuffer, dc.ColorBuffer.Pix, info, depthNotAbove_refl _, rfl,
      hwf.2.2.2.2.2.2.1, rfl⟩
  | succ n ih =>
    intro x w0 w1 w2 wasInside dc info hwf hr hbias
    simp only [rasterizeRow]
    split_ifs with hout hwas
    · exact ⟨dc.DepthBuffer, dc.ColorBuffer.Pix, info, depthNotAbove_refl _, rfl,
        hwf.2.2.2.2.2.2.1, rfl⟩
    · exact ih _ _ _ _ _ dc info hwf hr hbias
    · obtain ⟨depth, pix, info1, hd, hp, hb, hf⟩ := fragment_mono Sqrt dc hwf hr hbias v0 v1 v2
        s0 s1 s2 x y (w0 * (1 / edge s0 s1 s2)) (w1 * (1 / edge s0 s1 s2))
        (w2 * (1 / edge s0 s1 s2)) info
      rw [hf]
      have hwf1 := wellFormed_withBuffers dc hwf depth pix hd.1 hp hb
      obtain ⟨depth2, pix2, info2, hd2, hp2, hb2, hres⟩ := ih (x + 1) (w0 + (s2.Y - s1.Y))
        (w1 + (s0.Y - s2.Y)) (w2 + (s1.Y - s0.Y)) true (dc.withBuffers depth pix) info1 hwf1
        hr hbias
      exact ⟨depth2, pix2, info2, depthNotAbove_trans _ _ _ hd2 hd, hp2.trans hp, hb2, hres⟩

theorem rasterizeRows_mono (Sqrt : ℚ → ℚ) (v0 v1 v2 : Vertex) (s0 s1 s2 : Vector)
    (x0 x1 : Int) (n : Nat) :
    ∀ (y : Int) (w00 w01 w02 : ℚ) (dc : Context) (info : RasterizeInfo),
      dc.WellFormed → dc.ReadDepth = true → 0 ≤ dc.DepthBias →
      ∃ depth pix info2, depthNotAbove depth dc.DepthBuffer ∧
        pix.length = dc.ColorBuffer.Pix.length ∧ (∀ b ∈ pix, b < 256) ∧
        rasterizeRows Sqrt v0 v1 v2 s0 s1 s2 x0 x1 n y w00 w01 w02 dc info
          = some (dc.withBuffers depth pix, info2) := by
  induction n with
  | zero =>
    intro y w00 w01 w02 dc info hwf _ _
    exact ⟨dc.DepthBuffer, dc.ColorBuffer.Pix, info, depthNotAbove_refl _, rfl,
      hwf.2.2.2.2.2.2.1, rfl⟩
  | succ n ih =>
    intro y w00 w01 w02 dc info hwf hr hbias
    simp only [rasterizeRows]
    obtain ⟨depth, pix, info1, hd, hp, hb, hf⟩ := rasterizeRow_mono Sqrt v0 v1 v2 s0 s1 s2 y
      (x1 - (x0 + truncInt (skipAhead s0 s1 s2 w00 w01 w02)) + 1).toNat
      (x0 + truncInt (skipAhead s0 s1 s2 w00 w01 w02))
      (w00 + (s2.Y - s1.Y) * skipAhead s0 s1 s2 w00 w01 w02)
      (w01 + (s0.Y - s2.Y) * skipAhead s0 s1 s2 w00 w01 w02)
      (w02 + (s1.Y - s0.Y) * skipAhead s0 s1 s2 w00 w01 w02) false dc info hwf hr hbias
    rw [hf]
    have hwf1 := wellFormed_withBuffers dc hwf depth pix hd.1 hp hb
    obtain ⟨depth2, pix2, info2, hd2, hp2, hb2, hres⟩ := ih (y + 1) (w00 + (s1.X - s2.X))
      (w01 + (s2.X - s0.X)) (w02 + (s0.X - s1.X)) (dc.withBuffers depth pix) info1 hwf1 hr hbias
    exact ⟨depth2, pix2, info2, depthNotAbove_trans _ _ _ hd2 hd, hp2.trans hp, hb2, hres⟩

theorem rasterize_mono (Sqrt : ℚ → ℚ) (dc : Context) (hwf : dc.WellFormed)
    (hr : dc.ReadDepth = true) (hbias : 0 ≤ dc.DepthBias) (v0 v1 v2 : Vertex)
    (s0 s1 s2 : Vector) :
    ∃ depth pix info, depthNotAbove depth dc.DepthBuffer ∧
      pix.length = dc.ColorBuffer.Pix.length ∧ (∀ b ∈ pix, b < 256) ∧
      rasterize Sqrt dc v0 v1 v2 s0 s1 s2 = some (dc.withBuffers depth pix, info) := by
  simp only [rasterize]
  exact rasterizeRows_mono Sqrt v0 v1 v2 s0 s1 s2 _ _ _ _ _ _ _ dc ⟨0, 0⟩ hwf hr hbias

theorem rasterizeAll_mono (Sqrt : ℚ → ℚ)
    (draws : List (Vertex × Vertex × Vertex × Vector × Vector × Vector)) :
    ∀ dc : Context, dc.WellFormed → dc.ReadDepth = true → 0 ≤ dc.DepthBias →
      ∃ depth pix, depthNotAbove depth dc.DepthBuffer ∧
        pix.length = dc.ColorBuffer.Pix.length ∧ (∀ b ∈ pix, b < 256) ∧
        rasterizeAll Sqrt draws dc = some (dc.withBuffers depth pix) := by
  induction draws with
  | nil =>
    intro dc hwf _ _
    exact ⟨dc.DepthBuffer, dc.ColorBuffer.Pix, depthNotAbove_refl _, rfl, hwf.2.2.2.2.2.2.1, rfl⟩
  | cons t rest ih =>
    intro dc hwf hr hbias
    obtain ⟨depth, pix, info, hd, hp, hb, hres⟩ := rasterize_mono Sqrt dc hwf hr hbias t.1 t.2.1
      t.2.2.1 t.2.2.2.1 t.2.2.2.2.1 t.2.2.2.2.2
    have hwf1 := wellFormed_withBuffers dc hwf depth pix hd.1 hp hb
    obtain ⟨depth2, pix2, hd2, hp2, hb2, hres2⟩ := ih (dc.withBuffers depth pix) hwf1 hr hbias
    have e : rasterizeAll Sqrt (t :: rest) dc
        = rasterizeAll Sqrt rest (dc.withBuffers depth pix) := by
      simp only [rasterizeAll, List.foldl_cons, rasterizeNext, Option.some_bind, hres,
        Option.map_some']
    rw [e]
    exact ⟨depth2, pix2, depthNotAbove_trans _ _ _ hd2 hd, hp2.trans hp, hb2, hres2⟩

/-- C34. Depth never moves away from the viewer: on a well-formed context
with `ReadDepth` set and `DepthBias ≥ 0` (with or without `WriteDepth`), the
per-pixel update of `rasterize` returns and leaves every depth-buffer entry
less than or equal to its previous value; so does every `rasterize` call,
and so does every sequence of `rasterize` calls: each entry of the depth
buffer is monotonically non-increasing. -/
theorem depth_monotone (Sqrt : ℚ → ℚ) (dc : Context) (hwf : dc.WellFormed)
    (hr : dc.ReadDepth = true) (hbias : 0 ≤ dc.DepthBias) :
    (∀ (x y : Int) (z : ℚ) (color : Color) (info : RasterizeInfo), indexInRange dc x y →
      ∃ dc2 info2, depthTestAndWrite dc x y (y * dc.Width + x).toNat z color info
          = some (dc2, info2) ∧
        depthNotAbove dc2.DepthBuffer dc.DepthBuffer) ∧
    (∀ (v0 v1 v2 : Vertex) (s0 s1 s2 : Vector),
      ∃ dc2 info, rasterize Sqrt dc v0 v1 v2 s0 s1 s2 = some (dc2, info) ∧
        depthNotAbove dc2.DepthBuffer dc.DepthBuffer) ∧
    (∀ draws : List (Vertex × Vertex × Vertex × Vector × Vector × Vector),
      ∃ dc2, rasterizeAll Sqrt draws dc = some dc2 ∧
        depthNotAbove dc2.DepthBuffer dc.DepthBuffer) := by
  refine ⟨fun x y z color info hi => ?_, fun v0 v1 v2 s0 s1 s2 => ?_, fun draws => ?_⟩
  · obtain ⟨depth, pix, info2, hd, _, _, hres⟩ :=
      depthTestAndWrite_mono dc hwf hr hbias x y hi z color info
    exact ⟨_, info2, hres, hd⟩
  · obtain ⟨depth, pix, info, hd, _, _, hres⟩ := rasterize_mono Sqrt dc hwf hr hbias v0 v1 v2
      s0 s1 s2
    exact ⟨_, info, hres, hd⟩
  · obtain ⟨depth, pix, hd, _, _, hres⟩ := rasterizeAll_mono Sqrt draws dc hwf hr hbias
    exact ⟨_, hres, hd⟩

theorem depth_monotone_witness :
    ∃ dc2 info, rasterize (fun _ => 1) context2x2 (sampleVertex 0 0 0 1 White)
        (sampleVertex 1 0 0 1 White) (sampleVertex 0 1 0 1 White)
        ⟨0, 3, 0⟩ ⟨3, 3, 0⟩ ⟨0, 0, 0⟩ = some (dc2, info) ∧
      depthNotAbove dc2.DepthBuffer context2x2.DepthBuffer :=
  (depth_monotone (fun _ => 1) context2x2 (by decide!) (by decide) (by decide!)).2.1
    (sampleVertex 0 0 0 1 White) (sampleVertex 1 0 0 1 White) (sampleVertex 0 1 0 1 White)
    ⟨0, 3, 0⟩ ⟨3, 3, 0⟩ ⟨0, 0, 0⟩

theorem line_eq_quad (Sqrt : ℚ → ℚ) (dc : Context) (v0 v1 : Vertex) (s0 s1 : Vector) :
    line Sqrt dc v0 v1 s0 s1
      = match rasterize Sqrt dc v1 v0 v0
          ((lineEnd Sqrt dc.LineWidth s0 s1).Sub (lineNormal Sqrt dc.LineWidth s0 s1))
          ((lineStart Sqrt dc.LineWidth s0 s1).Sub (lineNormal Sqrt dc.LineWidth s0 s1))
          ((lineStart Sqrt dc.LineWidth s0 s1).Add (lineNormal Sqrt dc.LineWidth s0 s1)) with
        | none => none
        | some (dc1, info1) =>
          match rasterize Sqrt dc1 v1 v1 v0
            ((lineEnd Sqrt dc.LineWidth s0 s1).Add (lineNormal Sqrt dc.LineWidth s0 s1))
            ((lineEnd Sqrt dc.LineWidth s0 s1).Sub (lineNormal Sqrt dc.LineWidth s0 s1))
            ((lineStart Sqrt dc.LineWidth s0 s1).Add (lineNormal Sqrt dc.LineWidth s0 s1)) with
          | none => none
          | some (dc2, info2) => some (dc2, info1.Add info2) := rfl

theorem lineStart_eq (Sqrt : ℚ → ℚ) (lw : ℚ) (s0 s1 : Vector) :
    lineStart Sqrt lw s0 s1
      = s0.Add ((s0.Sub s1).MulScalar (1 / Sqrt (s0.Sub s1).LengthSquared * (lw / 2))) := by
  simp only [lineStart, Vector.Normalize, Vector.LengthSquared, Vector.MulScalar, Vector.Add,
    Vector.mk.injEq]
  refine ⟨?_, ?_, ?_⟩ <;> ring

theorem lineEnd_eq (Sqrt : ℚ → ℚ) (lw : ℚ) (s0 s1 : Vector) :
    lineEnd Sqrt lw s0 s1
      = s1.Add ((s1.Sub (lineStart Sqrt lw s0 s1)).MulScalar
          (1 / Sqrt (s1.Sub (lineStart Sqrt lw s0 s1)).LengthSquared * (lw / 2))) := by
  simp only [lineEnd, Vector.Normalize, Vector.LengthSquared, Vector.MulScalar, Vector.Add,
    Vector.mk.injEq]
  refine ⟨?_, ?_, ?_⟩ <;> ring

theorem lineNormal_eq (Sqrt : ℚ → ℚ) (lw : ℚ) (s0 s1 : Vector)
    (hxy : ¬ ((s1.Sub s0).X = 0 ∧ (s1.Sub s0).Y = 0)) :
    lineNormal Sqrt lw s0 s1
      = (⟨-(s1.Sub s0).Y, (s1.Sub s0).X, 0⟩ : Vector).MulScalar
          (1 / Sqrt (⟨-(s1.Sub s0).Y, (s1.Sub s0).X, 0⟩ : Vector).LengthSquared * (lw / 2)) := by
  simp only [lineNormal, Vector.Perpendicular, if_neg hxy, Vector.Normalize,
    Vector.LengthSquared, Vector.MulScalar, Vector.mk.injEq]
  refine ⟨?_, ?_, ?_⟩ <;> ring

/-- C32. Both triangles of a line are counter-clockwise: for `LineWidth > 0`
and screen points that differ in xy, with `Sqrt` positive at the three
arguments that `line` passes to it, the two triangles that `line` rasterizes,
`(s11, s01, s00)` and `(s10, s11, s00)`, have the same positive area
`edge`, so `rasterize` runs neither of them with a negative area. -/
theorem line_triangles_ccw (Sqrt : ℚ → ℚ) (lw : ℚ) (s0 s1 : Vector) (hlw : 0 < lw)
    (hxy : ¬ ((s1.Sub s0).X = 0 ∧ (s1.Sub s0).Y = 0))
    (h0 : 0 < Sqrt (s0.Sub s1).LengthSquared)
    (h1 : 0 < Sqrt (s1.Sub (lineStart Sqrt lw s0 s1)).LengthSquared)
    (hn : 0 < Sqrt (⟨-(s1.Sub s0).Y, (s1.Sub s0).X, 0⟩ : Vector).LengthSquared) :
    0 < edge ((lineEnd Sqrt lw s0 s1).Sub (lineNormal Sqrt lw s0 s1))
          ((lineStart Sqrt lw s0 s1).Sub (lineNormal Sqrt lw s0 s1))
          ((lineStart Sqrt lw s0 s1).Add (lineNormal Sqrt lw s0 s1)) ∧
    0 < edge ((lineEnd Sqrt lw s0 s1).Add (lineNormal Sqrt lw s0 s1))
          ((lineEnd Sqrt lw s0 s1).Sub (lineNormal Sqrt lw s0 s1))
          ((lineStart Sqrt lw s0 s1).Add (lineNormal Sqrt lw s0 s1)) ∧
    edge ((lineEnd Sqrt lw s0 s1).Add (lineNormal Sqrt lw s0 s1))
          ((lineEnd Sqrt lw s0 s1).Sub (lineNormal Sqrt lw s0 s1))
          ((lineStart Sqrt lw s0 s1).Add (lineNormal Sqrt lw s0 s1))
      = edge ((lineEnd Sqrt lw s0 s1).Sub (lineNormal Sqrt lw s0 s1))
          ((lineStart Sqrt lw s0 s1).Sub (lineNormal Sqrt lw s0 s1))
          ((lineStart Sqrt lw s0 s1).Add (lineNormal Sqrt lw s0 s1)) ∧
    (∀ (dc : Context) (v0 v1 : Vertex), dc.LineWidth = lw →
      line Sqrt dc v0 v1 s0 s1
        = match rasterize Sqrt dc v1 v0 v0
            ((lineEnd Sqrt lw s0 s1).Sub (lineNormal Sqrt lw s0 s1))
            ((lineStart Sqrt lw s0 s1).Sub (lineNormal Sqrt lw s0 s1))
            ((lineStart Sqrt lw s0 s1).Add (lineNormal Sqrt lw s0 s1)) with
          | none => none
          | some (dc1, info1) =>
            match rasterize Sqrt dc1 v1 v1 v0
              ((lineEnd Sqrt lw s0 s1).Add (lineNormal Sqrt lw s0 s1))
              ((lineEnd Sqrt lw s0 s1).Sub (lineNormal Sqrt lw s0 s1))
              ((lineStart Sqrt lw s0 s1).Add (lineNormal Sqrt lw s0 s1)) with
            | none => none
            | some (dc2, info2) => some (dc2, info1.Add info2)) := by
  have hsum : 0 < (s1.Sub s0).X * (s1.Sub s0).X + (s1.Sub s0).Y * (s1.Sub s0).Y := by
    by_contra hneg
    have hx := mul_self_nonneg (s1.Sub s0).X
    have hy := mul_self_nonneg (s1.Sub s0).Y
    have ex : (s1.Sub s0).X * (s1.Sub s0).X = 0 := by linarith
    have ey : (s1.Sub s0).Y * (s1.Sub s0).Y = 0 := by linarith
    exact hxy ⟨mul_self_eq_zero.mp ex, mul_self_eq_zero.mp ey⟩
  have key : ∀ (M L P : ℚ) (e f : Vector),
      e = s1.Add ((s1.Sub f).MulScalar (1 / M * (lw / 2))) →
      f = s0.Add ((s0.Sub s1).MulScalar (1 / L * (lw / 2))) →
      edge (e.Sub ((⟨-(s1.Sub s0).Y, (s1.Sub s0).X, 0⟩ : Vector).MulScalar (1 / P * (lw / 2))))
          (f.Sub ((⟨-(s1.Sub s0).Y, (s1.Sub s0).X, 0⟩ : Vector).MulScalar (1 / P * (lw / 2))))
          (f.Add ((⟨-(s1.Sub s0).Y, (s1.Sub s0).X, 0⟩ : Vector).MulScalar (1 / P * (lw / 2))))
        = 2 * (lw / 2) * (1 / P) * ((1 + lw / 2 * (1 / L)) * (1 + lw / 2 * (1 / M)))
            * ((s1.Sub s0).X * (s1.Sub s0).X + (s1.Sub s0).Y * (s1.Sub s0).Y) ∧
      edge (e.Add ((⟨-(s1.Sub s0).Y, (s1.Sub s0).X, 0⟩ : Vector).MulScalar (1 / P * (lw / 2))))
          (e.Sub ((⟨-(s1.Sub s0).Y, (s1.Sub s0).X, 0⟩ : Vector).MulScalar (1 / P * (lw / 2))))
          (f.Add ((⟨-(s1.Sub s0).Y, (s1.Sub s0).X, 0⟩ : Vector).MulScalar (1 / P * (lw / 2))))
        = 2 * (lw / 2) * (1 / P) * ((1 + lw / 2 * (1 / L)) * (1 + lw / 2 * (1 / M)))
            * ((s1.Sub s0).X * (s1.Sub s0).X + (s1.Sub s0).Y * (s1.Sub s0).Y) := by
    intro M L P e f he hf
    subst hf
    subst he
    simp only [edge, Vector.Sub, Vector.Add, Vector.MulScalar]
    constructor <;> ring
  obtain ⟨k1, k2⟩ := key _ _
    (Sqrt (⟨-(s1.Sub s0).Y, (s1.Sub s0).X, 0⟩ : Vector).LengthSquared) _ _
    (lineEnd_eq Sqrt lw s0 s1) (lineStart_eq Sqrt lw s0 s1)
  rw [lineNormal_eq Sqrt lw s0 s1 hxy, k1, k2]
  refine ⟨by positivity, by positivity, rfl, ?_⟩
  intro dc v0 v1 hdc
  rw [line_eq_quad, hdc, lineNormal_eq Sqrt lw s0 s1 hxy]

theorem line_triangles_ccw_witness :
    ((0 : ℚ) < 2 ∧
      ¬ (((⟨3, 4, 0⟩ : Vector).Sub ⟨0, 0, 0⟩).X = 0 ∧ ((⟨3, 4, 0⟩ : Vector).Sub ⟨0, 0, 0⟩).Y = 0) ∧
      0 < sqrtFive ((⟨0, 0, 0⟩ : Vector).Sub ⟨3, 4, 0⟩).LengthSquared ∧
      0 < sqrtFive
        ((⟨3, 4, 0⟩ : Vector).Sub (lineStart sqrtFive 2 ⟨0, 0, 0⟩ ⟨3, 4, 0⟩)).LengthSquared ∧
      0 < sqrtFive (⟨-4, 3, 0⟩ : Vector).LengthSquared) ∧
    edge ((lineEnd sqrtFive 2 ⟨0, 0, 0⟩ ⟨3, 4, 0⟩).Sub (lineNormal sqrtFive 2 ⟨0, 0, 0⟩ ⟨3, 4, 0⟩))
      ((lineStart sqrtFive 2 ⟨0, 0, 0⟩ ⟨3, 4, 0⟩).Sub (lineNormal sqrtFive 2 ⟨0, 0, 0⟩ ⟨3, 4, 0⟩))
      ((lineStart sqrtFive 2 ⟨0, 0, 0⟩ ⟨3, 4, 0⟩).Add (lineNormal sqrtFive 2 ⟨0, 0, 0⟩ ⟨3, 4, 0⟩))
      = 14 ∧
    0 < edge
      ((lineEnd sqrtFive 2 ⟨0, 0, 0⟩ ⟨3, 4, 0⟩).Add (lineNormal sqrtFive 2 ⟨0, 0, 0⟩ ⟨3, 4, 0⟩))
      ((lineEnd sqrtFive 2 ⟨0, 0, 0⟩ ⟨3, 4, 0⟩).Sub (lineNormal sqrtFive 2 ⟨0, 0, 0⟩ ⟨3, 4, 0⟩))
      ((lineStart sqrtFive 2 ⟨0, 0, 0⟩ ⟨3, 4, 0⟩).Add (lineNormal sqrtFive 2 ⟨0, 0, 0⟩ ⟨3, 4, 0⟩)) :=
  ⟨⟨by decide!, by decide!, by decide!, by decide!, by decide!⟩, by decide!,
    (line_triangles_ccw sqrtFive 2 ⟨0, 0, 0⟩ ⟨3, 4, 0⟩ (by decide!) (by decide!) (by decide!)
      (by decide!) (by decide!)).2.1⟩

theorem forRange_inv {σ : Type} (body : Int → σ → Option σ) (n : Nat) :
    ∀ (P : Nat → σ → Prop) (lo : Int) (s : σ), P 0 s →
      (∀ (k : Nat) (s : σ), k < n → P k s → ∃ s1, body (lo + k) s = some s1 ∧ P (k + 1) s1) →
      ∃ s1, forRange lo n body s = some s1 ∧ P n s1 := by
  induction n with
  | zero =>
    intro P lo s h0 _
    exact ⟨s, rfl, h0⟩
  | succ n ih =>
    intro P lo s h0 hstep
    obtain ⟨s1, hb, h1⟩ := hstep 0 s (Nat.succ_pos n) h0
    simp only [Nat.cast_zero, add_zero] at hb
    obtain ⟨s2, hr, h2⟩ := ih (fun k t => P (k + 1) t) (lo + 1) s1 h1 (by
      intro k t hk hP
      obtain ⟨t1, hb1, hP1⟩ := hstep (k + 1) t (Nat.succ_lt_succ hk) hP
      refine ⟨t1, ?_, hP1⟩
      rw [← hb1]
      congr 1
      push_cast
      ring)
    exact ⟨s2, by simp only [forRange, hb, Option.some_bind, hr], h2⟩

theorem gridGet_some (g : List (List Int)) (nj ni j i : Int) (hs : gridShape g nj ni)
    (hj0 : 0 ≤ j) (hj1 : j < nj) (hi0 : 0 ≤ i) (hi1 : i < ni) :
    gridGet g j i = some (gridVal g j i) := by
  obtain ⟨hl, hr⟩ := hs
  have hjl : j.toNat < g.length := by omega
  have hrow := hr (g.get ⟨j.toNat, hjl⟩) (List.get_mem _ _ _)
  have hil : i.toNat < (g.get ⟨j.toNat, hjl⟩).length := by omega
  have e1 : g[j.toNat]? = some (g.get ⟨j.toNat, hjl⟩) := by
    simp only [List.get_eq_getElem, List.getElem?_eq_getElem hjl]
  have e2 : (g.get ⟨j.toNat, hjl⟩)[i.toNat]?
      = some ((g.get ⟨j.toNat, hjl⟩).get ⟨i.toNat, hil⟩) :=
    List.getElem?_eq_getElem hil
  simp only [gridVal, gridGet, hj0, hi0, and_self, if_true, e1, Option.some_bind, e2,
    Option.getD_some]

theorem gridVal_outside (g : List (List Int)) (nj ni j i : Int) (hs : gridShape g nj ni)
    (h : ¬ (0 ≤ j ∧ j < nj ∧ 0 ≤ i ∧ i < ni)) : gridVal g j i = 0 := by
  obtain ⟨hl, hr⟩ := hs
  by_cases hc : 0 ≤ j ∧ 0 ≤ i
  · simp only [gridVal, gridGet, if_pos hc]
    by_cases hjl : j.toNat < g.length
    · have hrow := hr (g.get ⟨j.toNat, hjl⟩) (List.get_mem _ _ _)
      have hil : ¬ i.toNat < (g.get ⟨j.toNat, hjl⟩).length := by omega
      have e1 : g[j.toNat]? = some (g.get ⟨j.toNat, hjl⟩) := by
        simp only [List.get_eq_getElem, List.getElem?_eq_getElem hjl]
      have e2 : (g.get ⟨j.toNat, hjl⟩)[i.toNat]? = none :=
        List.getElem?_eq_none (by omega)
      simp only [e1, Option.some_bind, e2, Option.getD_none]
    · have e1 : g[j.toNat]? = none := List.getElem?_eq_none (by omega)
      simp only [e1, Option.none_bind, Option.getD_none]
  · simp only [gridVal, gridGet, if_neg hc, Option.getD_none]

theorem sum_set_int (l : List Int) : ∀ (n : Nat) (x : Int), n < l.length →
    (l.set n x).sum = l.sum - (l[n]?).getD 0 + x := by
  induction l with
  | nil => intro n x h; simp at h
  | cons a l ih =>
    intro n x h
    cases n with
    | zero => simp only [List.set_cons_zero, List.sum_cons, List.getElem?_cons_zero,
        Option.getD_some]; ring
    | succ n =>
      simp only [List.set_cons_succ, List.sum_cons, List.getElem?_cons_succ,
        ih n x (Nat.lt_of_succ_lt_succ h)]
      ring

theorem gridSet_some (g : List (List Int)) (nj ni j i v : Int) (hs : gridShape g nj ni)
    (hj0 : 0 ≤ j) (hj1 : j < nj) (hi0 : 0 ≤ i) (hi1 : i < ni) :
    ∃ g1, gridSet g j i v = some g1 ∧ gridShape g1 nj ni ∧
      (∀ j1 i1, gridVal g1 j1 i1 = if j1 = j ∧ i1 = i then v else gridVal g j1 i1) ∧
      gridOnes g1 = gridOnes g - gridVal g j i + v := by
  have hval := gridGet_some g nj ni j i hs hj0 hj1 hi0 hi1
  obtain ⟨hl, hr⟩ := hs
  have hjl : j.toNat < g.length := by omega
  have hrow := hr (g.get ⟨j.toNat, hjl⟩) (List.get_mem _ _ _)
  have hil : i.toNat < (g.get ⟨j.toNat, hjl⟩).length := by omega
  have e1 : g[j.toNat]? = some (g.get ⟨j.toNat, hjl⟩) := by
    simp only [List.get_eq_getElem, List.getElem?_eq_getElem hjl]
  generalize hrowdef : g.get ⟨j.toNat, hjl⟩ = row at hrow hil e1
  have hv : row[i.toNat]? = some (gridVal g j i) := by
    have := hval
    simp only [gridGet, hj0, hi0, and_self, if_true, e1, Option.some_bind] at this
    exact this
  refine ⟨g.set j.toNat (row.set i.toNat v), ?_, ⟨?_, ?_⟩, ?_, ?_⟩
  · simp only [gridSet, hj0, hi0, and_self, if_true, e1, Option.some_bind, if_pos hil]
  · simp only [List.length_set]
    exact hl
  · intro r hr1
    rcases List.mem_or_eq_of_mem_set hr1 with h | h
    · exact hr r h
    · rw [h, List.length_set]
      exact hrow
  · intro j1 i1
    by_cases hc : 0 ≤ j1 ∧ 0 ≤ i1
    · by_cases hjj : j1 = j
      · subst hjj
        have e3 : (g.set j1.toNat (row.set i.toNat v))[j1.toNat]? = some (row.set i.toNat v) := by
          rw [List.getElem?_set_self hjl]
        by_cases hii : i1 = i
        · subst hii
          have e4 : (row.set i1.toNat v)[i1.toNat]? = some v := by
            rw [List.getElem?_set_self hil]
          simp only [gridVal, gridGet, if_pos hc, e3, Option.some_bind, e4, Option.getD_some,
            and_self, if_true]
        · have hne : i.toNat ≠ i1.toNat := by omega
          have e4 : (row.set i.toNat v)[i1.toNat]? = row[i1.toNat]? :=
            List.getElem?_set_ne hne
          simp only [gridVal, gridGet, if_pos hc, e3, Option.some_bind, e4, e1, hii, and_false,
            if_false]
      · have hne : j.toNat ≠ j1.toNat := by omega
        have e3 : (g.set j.toNat (row.set i.toNat v))[j1.toNat]? = g[j1.toNat]? :=
          List.getElem?_set_ne hne
        simp only [gridVal, gridGet, if_pos hc, e3, hjj, false_and, if_false]
    · have hne : ¬ (j1 = j ∧ i1 = i) := by
        intro h
        apply hc
        rw [h.1, h.2]
        exact ⟨hj0, hi0⟩
      simp only [gridVal, gridGet, if_neg hc, if_neg hne]
  · have hm : (g.set j.toNat (row.set i.toNat v)).map List.sum
        = (g.map List.sum).set j.toNat (row.set i.toNat v).sum := by
      rw [List.map_set]
    have hg : ((g.map List.sum)[j.toNat]?).getD 0 = row.sum := by
      rw [List.getElem?_map, e1]
      rfl
    rw [gridOnes, hm, sum_set_int _ _ _ (by rw [List.length_map]; exact hjl), hg,
      sum_set_int _ _ _ hil, hv]
    simp only [Option.getD_some, gridOnes]
    ring

theorem gridVal_zero_or_mem (g : List (List Int)) (j i : Int) :
    gridVal g j i = 0 ∨ ∃ row ∈ g, gridVal g j i ∈ row := by
  by_cases hc : 0 ≤ j ∧ 0 ≤ i
  · simp only [gridVal, gridGet, if_pos hc]
    cases hg : g[j.toNat]? with
    | none => left; rfl
    | some row =>
      cases hr : row[i.toNat]? with
      | none => left; simp only [Option.some_bind, hr, Option.getD_none]
      | some x =>
        right
        refine ⟨row, List.getElem?_mem hg, ?_⟩
        simp only [Option.some_bind, hr, Option.getD_some]
        exact List.getElem?_mem hr
  · left
    simp only [gridVal, gridGet, if_neg hc, Option.getD_none]

theorem mem_gridVal (g : List (List Int)) (row : List Int) (x : Int) (hrow : row ∈ g)
    (hx : x ∈ row) : ∃ j i, gridVal g j i = x := by
  obtain ⟨n, hn⟩ := List.mem_iff_getElem?.mp hrow
  obtain ⟨m, hm⟩ := List.mem_iff_getElem?.mp hx
  refine ⟨(n : Int), (m : Int), ?_⟩
  have hc : (0 : Int) ≤ (n : Int) ∧ (0 : Int) ≤ (m : Int) := ⟨by omega, by omega⟩
  simp only [gridVal, gridGet, if_pos hc, Int.toNat_ofNat, hn, Option.some_bind, hm,
    Option.getD_some]

theorem sum_zero_int (l : List Int) (h : ∀ x ∈ l, 0 ≤ x) :
    0 ≤ l.sum ∧ (l.sum = 0 → ∀ x ∈ l, x = 0) := by
  induction l with
  | nil => exact ⟨le_refl _, fun _ x hx => absurd hx (List.not_mem_nil x)⟩
  | cons a l ih =>
    have ha := h a (List.mem_cons_self a l)
    obtain ⟨h1, h2⟩ := ih (fun x hx => h x (List.mem_cons_of_mem a hx))
    simp only [List.sum_cons]
    refine ⟨by omega, ?_⟩
    intro hs x hx
    rcases List.mem_cons.mp hx with e | e
    · omega
    · exact h2 (by omega) x e

theorem gridOnes_bits (g : List (List Int)) (hb : gridBits g) :
    0 ≤ gridOnes g ∧ (gridOnes g = 0 → ∀ j i, gridVal g j i = 0) ∧
      (0 < gridOnes g → ∃ j i, gridVal g j i = 1) := by
  have hx : ∀ row ∈ g, ∀ x ∈ row, x = 0 ∨ x = 1 := by
    intro row hrow x hx
    obtain ⟨j, i, e⟩ := mem_gridVal g row x hrow hx
    rw [← e]
    exact hb j i
  have hrows : ∀ r ∈ g.map List.sum, 0 ≤ r := by
    intro r hr
    obtain ⟨row, hrow, e⟩ := List.mem_map.mp hr
    rw [← e]
    exact (sum_zero_int row (fun x h => by rcases hx row hrow x h with e | e <;> omega)).1
  obtain ⟨h1, h2⟩ := sum_zero_int (g.map List.sum) hrows
  have hzero : gridOnes g = 0 → ∀ j i, gridVal g j i = 0 := by
    intro h0 j i
    rcases gridVal_zero_or_mem g j i with e | ⟨row, hrow, hmem⟩
    · exact e
    · have hs := h2 h0 row.sum (List.mem_map.mpr ⟨row, hrow, rfl⟩)
      exact (sum_zero_int row (fun x h => by rcases hx row hrow x h with e | e <;> omega)).2
        hs _ hmem
  refine ⟨h1, hzero, ?_⟩
  intro hpos
  by_contra hne
  have hall : ∀ row ∈ g, row.sum = 0 := by
    intro row hrow
    have hz : ∀ x ∈ row, x = 0 := by
      intro x hxm
      rcases hx row hrow x hxm with e | e
      · exact e
      · exfalso
        obtain ⟨j, i, e1⟩ := mem_gridVal g row x hrow hxm
        exact hne ⟨j, i, by rw [e1, e]⟩
    clear hrow
    induction row with
    | nil => rfl
    | cons a l ih =>
      rw [List.sum_cons, hz a (List.mem_cons_self a l),
        ih (fun x h => hz x (List.mem_cons_of_mem a h))]
      rfl
  have hsum : gridOnes g = 0 := by
    unfold gridOnes
    clear hpos hzero h1 h2 hrows hx hb hne
    induction g with
    | nil => rfl
    | cons r g ih =>
      rw [List.map_cons, List.sum_cons, hall r (List.mem_cons_self r g),
        ih (fun row h => hall row (List.mem_cons_of_mem r h))]
      rfl
  omega

theorem makeGrid_spec (nj ni : Int) (hnj : 0 ≤ nj) (hni : 0 ≤ ni) :
    ∃ g, makeGrid nj ni = some g ∧ gridShape g nj ni ∧ (∀ j i, gridVal g j i = 0) ∧
      gridOnes g = 0 := by
  have hval : ∀ (g : List (List Int)), (∀ row ∈ g, ∀ x ∈ row, x = 0) →
      ∀ j i, gridVal g j i = 0 := by
    intro g hg j i
    rcases gridVal_zero_or_mem g j i with e | ⟨row, hrow, hmem⟩
    · exact e
    · exact hg row hrow _ hmem
  have hones : ∀ (g : List (List Int)), (∀ j i, gridVal g j i = 0) → gridOnes g = 0 := by
    intro g hg
    have hb : gridBits g := fun j i => Or.inl (hg j i)
    obtain ⟨h0, _, h2⟩ := gridOnes_bits g hb
    by_contra hne
    obtain ⟨j, i, e⟩ := h2 (by omega)
    rw [hg j i] at e
    omega
  by_cases h0 : nj = 0
  · refine ⟨[], ?_, ⟨?_, ?_⟩, ?_, ?_⟩
    · simp only [makeGrid, h0, lt_irrefl, if_false, if_true]
    · rw [h0]; rfl
    · intro row hrow
      exact absurd hrow (List.not_mem_nil row)
    · exact hval [] (fun row hrow => absurd hrow (List.not_mem_nil row))
    · rfl
  · have hg : ∀ row ∈ List.replicate nj.toNat (List.replicate ni.toNat (0 : Int)),
        ∀ x ∈ row, x = 0 := by
      intro row hrow x hx
      rw [List.eq_of_mem_replicate hrow] at hx
      exact List.eq_of_mem_replicate hx
    refine ⟨List.replicate nj.toNat (List.replicate ni.toNat 0), ?_, ⟨?_, ?_⟩, ?_, ?_⟩
    · simp only [makeGrid, not_lt.mpr hnj, not_lt.mpr hni, h0, if_false]
    · rw [List.length_replicate]
      omega
    · intro row hrow
      rw [List.eq_of_mem_replicate hrow, List.length_replicate]
      omega
    · exact hval _ hg
    · exact hones _ (hval _ hg)

theorem pow2_eq (k : Int) : pow2 k = (2 : ℚ) ^ k := by
  unfold pow2
  by_cases h : 0 ≤ k
  · obtain ⟨n, rfl⟩ := Int.eq_ofNat_of_zero_le h
    rw [if_pos h]
    simp
  · rw [if_neg h]
    obtain ⟨n, hn⟩ := Int.eq_ofNat_of_zero_le (show 0 ≤ -k by omega)
    have hk : k = -(n : Int) := by omega
    rw [hn, hk]
    simp

theorem pow2_pos (k : Int) : 0 < pow2 k := by
  rw [pow2_eq]
  positivity

theorem pow2_add (a b : Int) : pow2 (a + b) = pow2 a * pow2 b := by
  rw [pow2_eq, pow2_eq, pow2_eq, zpow_add₀ (by norm_num)]

theorem pow2_le (a b : Int) (h : a ≤ b) : pow2 a ≤ pow2 b := by
  rw [pow2_eq, pow2_eq]
  exact zpow_le_zpow_right₀ (by norm_num) h

theorem pow2_natCast (n : Nat) : pow2 (n : Int) = ((2 ^ n : Nat) : ℚ) := by
  rw [pow2_eq]
  simp

theorem log2Aux_zero (L : List Nat) : ∀ acc, log2Aux L 0 acc = acc := by
  induction L with
  | nil => intro acc; rfl
  | cons s ss ih =>
    intro acc
    have h : ¬ 2 ^ s ≤ 0 := by
      have : 0 < 2 ^ s := pow_pos (by norm_num) s
      omega
    simp only [log2Aux, if_neg h, ih]

theorem log2Aux_spec (L : List Nat) : shiftsOk L → ∀ n acc, 1 ≤ n → n < 2 ^ (L.sum + 1) →
    ∃ r, log2Aux L n acc = acc + r ∧ 2 ^ r ≤ n ∧ n < 2 ^ (r + 1) := by
  induction L with
  | nil =>
    intro _ n acc h1 h2
    refine ⟨0, rfl, ?_, ?_⟩
    · simpa using h1
    · simpa using h2
  | cons s ss ih =>
    intro hok n acc h1 h2
    obtain ⟨hs, hss⟩ := hok
    have hpos : 0 < 2 ^ s := pow_pos (by norm_num) s
    by_cases hc : 2 ^ s ≤ n
    · have hn1 : 1 ≤ n / 2 ^ s := (Nat.one_le_div_iff hpos).mpr hc
      have hn2 : n / 2 ^ s < 2 ^ (ss.sum + 1) := by
        rw [Nat.div_lt_iff_lt_mul hpos]
        calc n < 2 ^ ((s :: ss).sum + 1) := h2
          _ = 2 ^ (ss.sum + 1) * 2 ^ s := by
            rw [List.sum_cons, ← pow_add]
            congr 1
            omega
      obtain ⟨r, hr, hr1, hr2⟩ := ih hss (n / 2 ^ s) (acc + s) hn1 hn2
      refine ⟨s + r, ?_, ?_, ?_⟩
      · simp only [log2Aux, if_pos hc, hr]
        omega
      · calc 2 ^ (s + r) = 2 ^ r * 2 ^ s := by rw [pow_add, mul_comm]
          _ ≤ n / 2 ^ s * 2 ^ s := Nat.mul_le_mul_right _ hr1
          _ ≤ n := Nat.div_mul_le_self n (2 ^ s)
      · have h3 : n < (n / 2 ^ s + 1) * 2 ^ s := by
          have := Nat.lt_succ_iff.mpr (le_refl (n / 2 ^ s))
          exact (Nat.div_lt_iff_lt_mul hpos).mp this
        calc n < (n / 2 ^ s + 1) * 2 ^ s := h3
          _ ≤ 2 ^ (r + 1) * 2 ^ s := Nat.mul_le_mul_right _ hr2
          _ = 2 ^ (s + r + 1) := by
            rw [← pow_add]
            congr 1
            omega
    · have hn2 : n < 2 ^ (ss.sum + 1) :=
        lt_of_lt_of_le (not_le.mp hc) (Nat.pow_le_pow_right (by norm_num) hs)
      obtain ⟨r, hr, hr1, hr2⟩ := ih hss n acc h1 hn2
      exact ⟨r, by simp only [log2Aux, if_neg hc, hr], hr1, hr2⟩

theorem binadeExp_spec (q : ℚ) (h0 : 0 ≤ q) (h1 : q < pow2 1026) :
    -1022 ≤ binadeExp q ∧ q < pow2 (binadeExp q + 1) ∧
      (-1022 < binadeExp q → pow2 (binadeExp q) ≤ q) := by
  have hp := pow2_pos 1022
  have hq0 : 0 ≤ q * pow2 1022 := mul_nonneg h0 (le_of_lt hp)
  have hfl : 0 ≤ ⌊q * pow2 1022⌋ := Int.floor_nonneg.mpr hq0
  have hn : ((⌊q * pow2 1022⌋.toNat : Nat) : ℚ) = ((⌊q * pow2 1022⌋ : Int) : ℚ) := by
    have : ((⌊q * pow2 1022⌋.toNat : Nat) : Int) = ⌊q * pow2 1022⌋ := Int.toNat_of_nonneg hfl
    exact_mod_cast this
  have hle : ((⌊q * pow2 1022⌋.toNat : Nat) : ℚ) ≤ q * pow2 1022 := by
    rw [hn]
    exact Int.floor_le _
  have hlt : q * pow2 1022 < ((⌊q * pow2 1022⌋.toNat : Nat) : ℚ) + 1 := by
    rw [hn]
    exact Int.lt_floor_add_one _
  have hdiv : ∀ (x : ℚ), x * pow2 (-1022) * pow2 1022 = x := by
    intro x
    rw [mul_assoc, ← pow2_add]
    simp [pow2]
  generalize hN : ⌊q * pow2 1022⌋.toNat = n at hle hlt
  unfold binadeExp
  rw [hN]
  rcases Nat.eq_zero_or_pos n with hz | hpos
  · subst hz
    rw [log2Aux_zero]
    refine ⟨by simp, ?_, fun h => absurd h (by simp)⟩
    simp only [Nat.cast_zero, zero_add] at hlt
    have e : pow2 ((0 : Nat) - 1022 + 1) * pow2 1022 = 2 := by
      rw [← pow2_add]
      simp [pow2]
    have : q * pow2 1022 < pow2 ((0 : Nat) - 1022 + 1) * pow2 1022 := by
      rw [e]
      linarith
    exact lt_of_mul_lt_mul_right this (le_of_lt hp)
  · have hbound : n < 2 ^ ([1024, 512, 256, 128, 64, 32, 16, 8, 4, 2, 1].sum + 1) := by
      have h2 : q * pow2 1022 < pow2 1026 * pow2 1022 := mul_lt_mul_of_pos_right h1 hp
      have h3 : (n : ℚ) < pow2 1026 * pow2 1022 := lt_of_le_of_lt hle h2
      rw [← pow2_add] at h3
      have h4 : pow2 (1026 + 1022) = ((2 ^ 2048 : Nat) : ℚ) := pow2_natCast 2048
      rw [h4] at h3
      have hs : [1024, 512, 256, 128, 64, 32, 16, 8, 4, 2, 1].sum + 1 = 2048 := by decide
      rw [hs]
      exact_mod_cast h3
    obtain ⟨r, hr, hr1, hr2⟩ := log2Aux_spec [1024, 512, 256, 128, 64, 32, 16, 8, 4, 2, 1]
      (by simp [shiftsOk]) n 0 hpos hbound
    rw [hr]
    have hr1q : pow2 (r : Int) ≤ (n : ℚ) := by
      rw [pow2_natCast]
      exact_mod_cast hr1
    have hr2q : (n : ℚ) + 1 ≤ pow2 ((r : Int) + 1) := by
      have : pow2 ((r : Int) + 1) = ((2 ^ (r + 1) : Nat) : ℚ) := by
        rw [← pow2_natCast]
        push_cast
        rfl
      rw [this]
      exact_mod_cast hr2
    have x1 : ((0 + r : Nat) : Int) - 1022 + 1 + 1022 = (r : Int) + 1 := by omega
    have x2 : ((0 + r : Nat) : Int) - 1022 + 1022 = (r : Int) := by omega
    have e1 : pow2 (((0 + r : Nat) : Int) - 1022 + 1) * pow2 1022 = pow2 ((r : Int) + 1) := by
      rw [← pow2_add, x1]
    have e2 : pow2 (((0 + r : Nat) : Int) - 1022) * pow2 1022 = pow2 (r : Int) := by
      rw [← pow2_add, x2]
    refine ⟨by push_cast; omega, ?_, fun _ => ?_⟩
    · have : q * pow2 1022 < pow2 (((0 + r : Nat) : Int) - 1022 + 1) * pow2 1022 := by
        rw [e1]
        linarith
      exact lt_of_mul_lt_mul_right this (le_of_lt hp)
    · have : pow2 (((0 + r : Nat) : Int) - 1022) * pow2 1022 ≤ q * pow2 1022 := by
        rw [e2]
        linarith
      exact le_of_mul_le_mul_right this hp

theorem roundHalfEven_bounds (x : ℚ) : ⌊x⌋ ≤ roundHalfEven x ∧ roundHalfEven x ≤ ⌊x⌋ + 1 := by
  unfold roundHalfEven
  split_ifs <;> omega

theorem roundHalfEven_intCast (n : Int) : roundHalfEven (n : ℚ) = n := by
  unfold roundHalfEven
  rw [Int.floor_intCast, sub_self, if_pos (by norm_num)]

theorem roundHalfEven_mono (x y : ℚ) (h : x ≤ y) : roundHalfEven x ≤ roundHalfEven y := by
  have hf : ⌊x⌋ ≤ ⌊y⌋ := Int.floor_mono h
  rcases lt_or_eq_of_le hf with hlt | heq
  · have h1 := (roundHalfEven_bounds x).2
    have h2 := (roundHalfEven_bounds y).1
    omega
  · have hfrac : x - ⌊x⌋ ≤ y - ⌊y⌋ := by
      rw [heq]
      linarith
    unfold roundHalfEven
    rw [heq]
    by_cases c1 : x - (⌊y⌋ : ℚ) < 1 / 2
    · rw [heq] at hfrac
      rw [if_pos c1]
      split_ifs <;> omega
    · rw [heq] at hfrac
      rw [if_neg c1]
      by_cases c2 : 1 / 2 < x - (⌊y⌋ : ℚ)
      · have c3 : ¬ (y - (⌊y⌋ : ℚ) < 1 / 2) := by linarith
        have c4 : 1 / 2 < y - (⌊y⌋ : ℚ) := by linarith
        rw [if_pos c2, if_neg c3, if_pos c4]
      · have c3 : ¬ (y - (⌊y⌋ : ℚ) < 1 / 2) := by linarith
        rw [if_neg c2, if_neg c3]
        split_ifs <;> omega

theorem roundHalfEven_near (x : ℚ) :
    (roundHalfEven x : ℚ) - x ≤ 1 / 2 ∧ x - (roundHalfEven x : ℚ) ≤ 1 / 2 := by
  have h1 := Int.floor_le x
  have h2 := Int.lt_floor_add_one x
  unfold roundHalfEven
  split_ifs with c1 c2 c3
  · constructor <;> linarith
  · push_cast
    constructor <;> linarith
  · constructor <;> linarith
  · push_cast
    constructor <;> linarith

theorem binadeExp_mono (x y : ℚ) (h0 : 0 ≤ x) (h : x ≤ y) (h1 : y < pow2 1026) :
    binadeExp x ≤ binadeExp y := by
  obtain ⟨a1, a2, a3⟩ := binadeExp_spec x h0 (lt_of_le_of_lt h h1)
  obtain ⟨b1, b2, b3⟩ := binadeExp_spec y (le_trans h0 h) h1
  by_contra hc
  have hc1 : binadeExp y + 1 ≤ binadeExp x := by omega
  have h3 := a3 (by omega)
  have h4 := pow2_le _ _ hc1
  linarith

theorem roundMag_nonneg (q : ℚ) (h0 : 0 ≤ q) : 0 ≤ roundMag q := by
  unfold roundMag
  have hu := pow2_pos (binadeExp q - 52)
  have h1 : 0 ≤ q / pow2 (binadeExp q - 52) := div_nonneg h0 (le_of_lt hu)
  have h2 : (0 : Int) ≤ roundHalfEven (q / pow2 (binadeExp q - 52)) := by
    have := roundHalfEven_mono 0 _ h1
    have e : roundHalfEven (0 : ℚ) = 0 := by
      have := roundHalfEven_intCast 0
      simpa using this
    omega
  have h3 : (0 : ℚ) ≤ (roundHalfEven (q / pow2 (binadeExp q - 52)) : ℚ) := by exact_mod_cast h2
  exact mul_nonneg h3 (le_of_lt hu)

theorem roundMag_binade (q : ℚ) (h0 : 0 ≤ q) (h1 : q < pow2 1026) :
    roundMag q ≤ pow2 (binadeExp q + 1) ∧ (-1022 < binadeExp q → pow2 (binadeExp q) ≤ roundMag q) := by
  obtain ⟨a1, a2, a3⟩ := binadeExp_spec q h0 h1
  have hu := pow2_pos (binadeExp q - 52)
  have e53 : pow2 (binadeExp q + 1) = ((2 ^ 53 : Int) : ℚ) * pow2 (binadeExp q - 52) := by
    have : binadeExp q + 1 = 53 + (binadeExp q - 52) := by ring
    rw [this, pow2_add]
    congr 1
  have e52 : pow2 (binadeExp q) = ((2 ^ 52 : Int) : ℚ) * pow2 (binadeExp q - 52) := by
    have : binadeExp q = 52 + (binadeExp q - 52) := by ring
    nth_rewrite 1 [this]
    rw [pow2_add]
    congr 1
  unfold roundMag
  constructor
  · rw [e53]
    apply mul_le_mul_of_nonneg_right _ (le_of_lt hu)
    have hx : q / pow2 (binadeExp q - 52) ≤ ((2 ^ 53 : Int) : ℚ) := by
      rw [div_le_iff₀ hu, ← e53]
      exact le_of_lt a2
    have := roundHalfEven_mono _ _ hx
    rw [roundHalfEven_intCast] at this
    exact_mod_cast this
  · intro he
    rw [e52]
    apply mul_le_mul_of_nonneg_right _ (le_of_lt hu)
    have hx : ((2 ^ 52 : Int) : ℚ) ≤ q / pow2 (binadeExp q - 52) := by
      rw [le_div_iff₀ hu, ← e52]
      exact a3 he
    have := roundHalfEven_mono _ _ hx
    rw [roundHalfEven_intCast] at this
    exact_mod_cast this

/-- Rounding to binary64 is monotone (on the non-negative rationals below
the overflow threshold). -/
theorem roundMag_mono (x y : ℚ) (h0 : 0 ≤ x) (h : x ≤ y) (h1 : y < pow2 1026) :
    roundMag x ≤ roundMag y := by
  have hx1 : x < pow2 1026 := lt_of_le_of_lt h h1
  have hy0 : 0 ≤ y := le_trans h0 h
  rcases lt_or_eq_of_le (binadeExp_mono x y h0 h h1) with hlt | heq
  · obtain ⟨a1, _⟩ := roundMag_binade x h0 hx1
    obtain ⟨_, b2⟩ := roundMag_binade y hy0 h1
    have hge := (binadeExp_spec x h0 hx1).1
    have := pow2_le (binadeExp x + 1) (binadeExp y) (by omega)
    have := b2 (by omega)
    linarith
  · unfold roundMag
    rw [heq]
    have hu := pow2_pos (binadeExp y - 52)
    apply mul_le_mul_of_nonneg_right _ (le_of_lt hu)
    have hx : x / pow2 (binadeExp y - 52) ≤ y / pow2 (binadeExp y - 52) :=
      div_le_div_of_nonneg_right h (le_of_lt hu)
    exact_mod_cast roundHalfEven_mono _ _ hx

/-- A rational that is an integer multiple of the unit of its binade is a
binary64 value: rounding leaves it unchanged. -/
theorem roundMag_exact (q : ℚ) (m : Int) (h : q = (m : ℚ) * pow2 (binadeExp q - 52)) :
    roundMag q = q := by
  have hu := pow2_pos (binadeExp q - 52)
  unfold roundMag
  have e : q / pow2 (binadeExp q - 52) = (m : ℚ) := by
    rw [div_eq_iff (ne_of_gt hu)]
    exact h
  rw [e, roundHalfEven_intCast]
  exact h.symm

/-- Every natural number below `2^53` is a binary64 value. -/
theorem roundMag_natCast (n : Nat) (hn : n < 2 ^ 53) : roundMag (n : ℚ) = (n : ℚ) := by
  have h0 : (0 : ℚ) ≤ (n : ℚ) := Nat.cast_nonneg n
  have h53 : ((2 ^ 53 : Nat) : ℚ) = pow2 53 := (pow2_natCast 53).symm
  have hlt : (n : ℚ) < pow2 53 := by
    rw [← h53]
    exact_mod_cast hn
  have h1 : (n : ℚ) < pow2 1026 := lt_of_lt_of_le hlt (pow2_le 53 1026 (by norm_num))
  obtain ⟨a1, a2, a3⟩ := binadeExp_spec (n : ℚ) h0 h1
  have he : binadeExp (n : ℚ) ≤ 52 := by
    by_contra hc
    have h3 := a3 (by omega)
    have := pow2_le 53 (binadeExp (n : ℚ)) (by omega)
    linarith
  obtain ⟨k, hk⟩ := Int.eq_ofNat_of_zero_le (show 0 ≤ 52 - binadeExp (n : ℚ) by omega)
  apply roundMag_exact (n : ℚ) ((n * 2 ^ k : Nat) : Int)
  have e1 : pow2 (k : Int) * pow2 (binadeExp (n : ℚ) - 52) = 1 := by
    rw [← pow2_add, ← hk]
    have : 52 - binadeExp (n : ℚ) + (binadeExp (n : ℚ) - 52) = 0 := by ring
    rw [this]
    simp [pow2]
  push_cast
  rw [mul_assoc]
  have e2 : ((2 : ℚ) ^ k) = pow2 (k : Int) := by
    rw [pow2_natCast]
    push_cast
    rfl
  rw [e2, e1, mul_one]

/-- Every value of the rounding is a multiple of the least positive binary64
value `2^(-1074)`. -/
theorem roundMag_grid (q : ℚ) (h0 : 0 ≤ q) (h1 : q < pow2 1026) :
    ∃ k : Int, roundMag q = (k : ℚ) * pow2 (-1074) := by
  obtain ⟨a1, _, _⟩ := binadeExp_spec q h0 h1
  obtain ⟨j, hj⟩ := Int.eq_ofNat_of_zero_le (show 0 ≤ binadeExp q + 1022 by omega)
  refine ⟨roundHalfEven (q / pow2 (binadeExp q - 52)) * ((2 ^ j : Nat) : Int), ?_⟩
  unfold roundMag
  have e : pow2 (binadeExp q - 52) = ((2 ^ j : Nat) : ℚ) * pow2 (-1074) := by
    have x1 : binadeExp q - 52 = binadeExp q + 1022 + -1074 := by omega
    rw [← pow2_natCast, ← pow2_add, ← hj, ← x1]
  rw [e]
  push_cast
  ring

theorem roundF64_of_nonneg (q : ℚ) (h : 0 ≤ q) : roundF64 q = roundMag q := by
  unfold roundF64
  rw [if_neg (not_lt.mpr h)]

/-- The rounded product of a value in `[0, 1]` and a natural number
`n < 2^53 - 1` lies in `[0, n]`, and its integer part is the integer part of
the exact product or one more. -/
theorem fmul_unit_scaled (t : ℚ) (h0 : 0 ≤ t) (h1 : t ≤ 1) (n : Nat) (hn : n + 1 < 2 ^ 53) :
    0 ≤ fmul t n ∧ fmul t n ≤ n ∧
      ⌊t * (n : ℚ)⌋ ≤ truncInt (fmul t n) ∧ truncInt (fmul t n) ≤ ⌊t * (n : ℚ)⌋ + 1 ∧
      truncInt (fmul t n) ≤ n := by
  have hnq : (0 : ℚ) ≤ (n : ℚ) := Nat.cast_nonneg n
  have hq : 0 ≤ t * (n : ℚ) := mul_nonneg h0 hnq
  have hle : t * (n : ℚ) ≤ (n : ℚ) := by
    have := mul_le_mul_of_nonneg_right h1 hnq
    linarith
  have h53 : ((2 ^ 53 : Nat) : ℚ) = pow2 53 := (pow2_natCast 53).symm
  have hbig : ∀ m : Nat, m < 2 ^ 53 → (m : ℚ) < pow2 1026 := by
    intro m hm
    have : (m : ℚ) < pow2 53 := by
      rw [← h53]
      exact_mod_cast hm
    exact lt_of_lt_of_le this (pow2_le 53 1026 (by norm_num))
  have hfl0 : 0 ≤ ⌊t * (n : ℚ)⌋ := Int.floor_nonneg.mpr hq
  obtain ⟨k, hk⟩ := Int.eq_ofNat_of_zero_le hfl0
  have hk1 : ((k : Nat) : ℚ) ≤ t * (n : ℚ) := by
    have := Int.floor_le (t * (n : ℚ))
    rw [hk] at this
    exact_mod_cast this
  have hk2 : t * (n : ℚ) < ((k + 1 : Nat) : ℚ) := by
    have := Int.lt_floor_add_one (t * (n : ℚ))
    rw [hk] at this
    push_cast
    exact_mod_cast this
  have hkn : k ≤ n := by
    have : ((k : Nat) : ℚ) ≤ (n : ℚ) := le_trans hk1 hle
    exact_mod_cast this
  have e : fmul t n = roundMag (t * (n : ℚ)) := roundF64_of_nonneg _ hq
  have m1 : roundMag ((k : Nat) : ℚ) ≤ roundMag (t * (n : ℚ)) :=
    roundMag_mono _ _ (Nat.cast_nonneg k) hk1 (lt_of_le_of_lt hle (hbig n (by omega)))
  have m2 : roundMag (t * (n : ℚ)) ≤ roundMag ((k + 1 : Nat) : ℚ) :=
    roundMag_mono _ _ hq (le_of_lt hk2) (hbig (k + 1) (by omega))
  have m3 : roundMag (t * (n : ℚ)) ≤ roundMag (n : ℚ) :=
    roundMag_mono _ _ hq hle (hbig n (by omega))
  rw [roundMag_natCast k (by omega)] at m1
  rw [roundMag_natCast (k + 1) (by omega)] at m2
  rw [roundMag_natCast n (by omega)] at m3
  have hp0 : 0 ≤ fmul t n := by
    rw [e]
    exact le_trans (Nat.cast_nonneg k) m1
  rw [truncInt_of_nonneg _ hp0, e, hk]
  refine ⟨le_trans (Nat.cast_nonneg k) m1, m3, ?_, ?_, ?_⟩
  · apply Int.le_floor.mpr
    exact_mod_cast m1
  · have : ⌊roundMag (t * (n : ℚ))⌋ ≤ ⌊(((k + 1 : Nat) : Int) : ℚ)⌋ :=
      Int.floor_le_floor (by exact_mod_cast m2)
    rw [Int.floor_intCast] at this
    push_cast at this
    exact this
  · have : ⌊roundMag (t * (n : ℚ))⌋ ≤ ⌊((n : Int) : ℚ)⌋ :=
      Int.floor_le_floor (by exact_mod_cast m3)
    rw [Int.floor_intCast] at this
    exact this

theorem toUint8_fmul_clamp (x : ℚ) :
    toUint8 (fmul (Clamp x 0 1) 255) = (truncInt (fmul (Clamp x 0 1) 255)).toNat ∧
      (truncInt (fmul (Clamp x 0 1) 255)).toNat ≤ 255 := by
  obtain ⟨c0, c1⟩ := clamp_mem x 0 1 (by norm_num)
  obtain ⟨h0, _, h2, _, h4⟩ := fmul_unit_scaled (Clamp x 0 1) c0 c1 255 (by norm_num)
  simp only [Nat.cast_ofNat] at h0 h2 h4
  have hfl : 0 ≤ ⌊Clamp x 0 1 * 255⌋ := Int.floor_nonneg.mpr (mul_nonneg c0 (by norm_num))
  unfold toUint8
  constructor
  · congr 1
    omega
  · omega

/-- C19 (amended). Colour clamping at 8-bit conversion, as the code computes
it on `float64`: each channel of `c.NRGBA()` is `trunc(p)` for the product
`p = Clamp(channel, 0, 1) * 255` rounded to the nearest binary64 value.  The
rounded product lies in `[0, 255]`, so the byte never wraps around; the byte
is `floor(Clamp(channel, 0, 1) * 255)` of the exact product or one more; a
component `≤ 0` becomes 0 and a component `≥ 1` becomes 255; `Clamp x lo hi`
lies in `[lo, hi]` (for `lo ≤ hi`) and equals `x` whenever `lo ≤ x ≤ hi`. -/
theorem color_clamping (c : Color) (x lo hi : ℚ) :
    c.NRGBAF64 = ⟨(truncInt (fmul (Clamp c.R 0 1) 255)).toNat,
      (truncInt (fmul (Clamp c.G 0 1) 255)).toNat,
      (truncInt (fmul (Clamp c.B 0 1) 255)).toNat,
      (truncInt (fmul (Clamp c.A 0 1) 255)).toNat⟩ ∧
    (0 ≤ fmul (Clamp x 0 1) 255 ∧ fmul (Clamp x 0 1) 255 ≤ 255) ∧
    (truncInt (fmul (Clamp x 0 1) 255)).toNat ≤ 255 ∧
    (⌊Clamp x 0 1 * 255⌋ ≤ truncInt (fmul (Clamp x 0 1) 255) ∧
      truncInt (fmul (Clamp x 0 1) 255) ≤ ⌊Clamp x 0 1 * 255⌋ + 1) ∧
    (x ≤ 0 → (truncInt (fmul (Clamp x 0 1) 255)).toNat = 0) ∧
    (1 ≤ x → (truncInt (fmul (Clamp x 0 1) 255)).toNat = 255) ∧
    (lo ≤ hi → lo ≤ Clamp x lo hi ∧ Clamp x lo hi ≤ hi) ∧
    (lo ≤ x → x ≤ hi → Clamp x lo hi = x) := by
  obtain ⟨c0, c1⟩ := clamp_mem x 0 1 (by norm_num)
  obtain ⟨h0, h1, h2, h3, _⟩ := fmul_unit_scaled (Clamp x 0 1) c0 c1 255 (by norm_num)
  simp only [Nat.cast_ofNat] at h0 h1 h2 h3
  refine ⟨?_, ⟨h0, h1⟩, (toUint8_fmul_clamp x).2, ⟨h2, h3⟩, ?_, ?_, clamp_mem x lo hi, ?_⟩
  · simp only [Color.NRGBAF64, color.NRGBA.mk.injEq]
    exact ⟨(toUint8_fmul_clamp c.R).1, (toUint8_fmul_clamp c.G).1, (toUint8_fmul_clamp c.B).1,
      (toUint8_fmul_clamp c.A).1⟩
  · intro hx
    have hc : Clamp x 0 1 = 0 := by
      unfold Clamp
      split_ifs with h1 h2
      · rfl
      · linarith
      · linarith [not_lt.mp h1]
    rw [hc]
    decide!
  · intro hx
    have hc : Clamp x 0 1 = 1 := by
      unfold Clamp
      split_ifs with h1 h2
      · linarith
      · rfl
      · linarith [not_lt.mp h2]
    rw [hc]
    decide!
  · intro h1 h2
    unfold Clamp
    rw [if_neg (not_lt.mpr h1), if_neg (not_lt.mpr h2)]

/-- C19 as stated fails on `float64`: the channel value `x`, the binary64
value nearest to `1/255`, is below `1/255`, so `trunc(Clamp(x, 0, 1) * 255)`
is 0 for the exact product, but the product rounds to 1 and the byte of
`NRGBA()` is 1. -/
theorem color_clamping_counterexample :
    roundF64 (1 / 255) = 282578800148737 / 72057594037927936 ∧
    roundF64 (282578800148737 / 72057594037927936) = 282578800148737 / 72057594037927936 ∧
    (truncInt (Clamp (282578800148737 / 72057594037927936) 0 1 * 255)).toNat = 0 ∧
    (⟨282578800148737 / 72057594037927936, 0, 1, 1⟩ : Color).NRGBAF64 = ⟨1, 0, 255, 255⟩ := by
  decide!

theorem maxFloat64_lt : MaxFloat64 < pow2 1026 := by
  decide!

theorem roundMag_zero : roundMag 0 = 0 := by
  have := roundMag_natCast 0 (by norm_num)
  simpa using this

theorem roundMag_one : roundMag 1 = 1 := by
  have := roundMag_natCast 1 (by norm_num)
  simpa using this

theorem roundMag_least : roundMag (pow2 (-1074)) = pow2 (-1074) := by
  apply roundMag_exact (pow2 (-1074)) 1
  have e : binadeExp (pow2 (-1074)) = -1022 := by decide!
  rw [e]
  norm_num

/-- A binary64 value is a multiple of the least positive one. -/
theorem roundF64_grid (q : ℚ) (h1 : -pow2 1026 < q) (h2 : q < pow2 1026) (h : roundF64 q = q) :
    ∃ k : Int, q = (k : ℚ) * pow2 (-1074) := by
  by_cases hneg : q < 0
  · obtain ⟨k, hk⟩ := roundMag_grid (-q) (by linarith) (by linarith)
    refine ⟨-k, ?_⟩
    have e : roundF64 q = -roundMag (-q) := by
      unfold roundF64
      rw [if_pos hneg]
    rw [← h, e, hk]
    push_cast
    ring
  · obtain ⟨k, hk⟩ := roundMag_grid q (not_lt.mp hneg) h2
    refine ⟨k, ?_⟩
    rw [← hk, ← roundF64_of_nonneg q (not_lt.mp hneg), h]

/-- Two different binary64 values differ by at least the least positive
one, so their rounded difference is positive. -/
theorem fsub_pos (lo hi : ℚ) (hlt : lo < hi) (hl1 : -pow2 1026 < lo) (hh1 : hi < pow2 1026)
    (hrl : roundF64 lo = lo) (hrh : roundF64 hi = hi) (hov : hi - lo < pow2 1026) :
    0 < fsub hi lo := by
  obtain ⟨k1, e1⟩ := roundF64_grid lo hl1 (lt_trans hlt hh1) hrl
  obtain ⟨k2, e2⟩ := roundF64_grid hi (lt_trans hl1 hlt) hh1 hrh
  have hu := pow2_pos (-1074)
  have hk : k1 < k2 := by
    by_contra hc
    have : (k2 : ℚ) ≤ (k1 : ℚ) := by exact_mod_cast not_lt.mp hc
    have := mul_le_mul_of_nonneg_right this (le_of_lt hu)
    linarith
  have hge : pow2 (-1074) ≤ hi - lo := by
    have h1 : ((1 : Int) : ℚ) ≤ ((k2 - k1 : Int) : ℚ) := by exact_mod_cast (by omega : 1 ≤ k2 - k1)
    have := mul_le_mul_of_nonneg_right h1 (le_of_lt hu)
    push_cast at this
    rw [e1, e2]
    linarith
  have hpos : 0 ≤ hi - lo := by linarith
  unfold fsub
  rw [roundF64_of_nonneg _ hpos]
  have := roundMag_mono _ _ (le_of_lt hu) hge hov
  rw [roundMag_least] at this
  linarith

/-- The grey level before truncation, for a depth between `lo` and `hi`:
the rounded difference, quotient and product stay in range and are monotone
in the depth. -/
theorem grayScale_range (lo hi d e : ℚ) (hov : hi - lo < pow2 1026) (hD : 0 < fsub hi lo)
    (h0 : lo ≤ d) (hde : d ≤ e) (h1 : e ≤ hi) :
    0 ≤ fdiv (fsub d lo) (fsub hi lo) ∧ fdiv (fsub d lo) (fsub hi lo) ≤ 1 ∧
    fdiv (fsub d lo) (fsub hi lo) ≤ fdiv (fsub e lo) (fsub hi lo) ∧
    fmul (fdiv (fsub d lo) (fsub hi lo)) 0xffff ≤ fmul (fdiv (fsub e lo) (fsub hi lo)) 0xffff := by
  have big1 : (1 : ℚ) < pow2 1026 := by
    have := pow2_le 1 1026 (by norm_num)
    have e : pow2 1 = 2 := by simp [pow2]
    linarith
  have hdl : 0 ≤ d - lo := by linarith
  have hel : 0 ≤ e - lo := by linarith
  have hhl : 0 ≤ hi - lo := by linarith
  have sub_mono : ∀ a b : ℚ, lo ≤ a → a ≤ b → b ≤ hi → 0 ≤ fsub a lo ∧ fsub a lo ≤ fsub b lo := by
    intro a b ha hab hb
    unfold fsub
    rw [roundF64_of_nonneg _ (by linarith), roundF64_of_nonneg _ (by linarith)]
    exact ⟨roundMag_nonneg _ (by linarith),
      roundMag_mono _ _ (by linarith) (by linarith) (by linarith)⟩
  obtain ⟨n0, n1⟩ := sub_mono d e h0 hde h1
  obtain ⟨m0, m1⟩ := sub_mono e hi (by linarith) h1 (le_refl _)
  have q0 : ∀ a : ℚ, 0 ≤ a → 0 ≤ a / fsub hi lo := fun a ha => div_nonneg ha (le_of_lt hD)
  have q1 : ∀ a : ℚ, a ≤ fsub hi lo → a / fsub hi lo ≤ 1 := fun a ha => (div_le_one hD).mpr ha
  have div_mono : ∀ a b : ℚ, 0 ≤ a → a ≤ b → b ≤ fsub hi lo →
      0 ≤ fdiv a (fsub hi lo) ∧ fdiv a (fsub hi lo) ≤ fdiv b (fsub hi lo) ∧
        fdiv b (fsub hi lo) ≤ 1 := by
    intro a b ha hab hb
    have hb0 : 0 ≤ b := by linarith
    unfold fdiv
    rw [roundF64_of_nonneg _ (q0 a ha), roundF64_of_nonneg _ (q0 b hb0)]
    refine ⟨roundMag_nonneg _ (q0 a ha), ?_, ?_⟩
    · exact roundMag_mono _ _ (q0 a ha) (div_le_div_of_nonneg_right hab (le_of_lt hD))
        (lt_of_le_of_lt (q1 b hb) big1)
    · have := roundMag_mono _ _ (q0 b hb0) (q1 b hb) big1
      rw [roundMag_one] at this
      exact this
  obtain ⟨t0, t1, t2⟩ := div_mono (fsub d lo) (fsub e lo) n0 n1 m1
  have t3 : fdiv (fsub d lo) (fsub hi lo) ≤ 1 := le_trans t1 t2
  have t4 : 0 ≤ fdiv (fsub e lo) (fsub hi lo) := le_trans t0 t1
  refine ⟨t0, t3, t1, ?_⟩
  unfold fmul
  have p0 : 0 ≤ fdiv (fsub d lo) (fsub hi lo) * 0xffff := mul_nonneg t0 (by norm_num)
  have p1 : 0 ≤ fdiv (fsub e lo) (fsub hi lo) * 0xffff := mul_nonneg t4 (by norm_num)
  rw [roundF64_of_nonneg _ p0, roundF64_of_nonneg _ p1]
  apply roundMag_mono _ _ p0 (mul_le_mul_of_nonneg_right t1 (by norm_num))
  have : fdiv (fsub e lo) (fsub hi lo) * 0xffff ≤ 1 * 0xffff :=
    mul_le_mul_of_nonneg_right t2 (by norm_num)
  have b2 := pow2_le 16 1026 (by norm_num)
  have e16 : pow2 16 = 65536 := by simp [pow2]
  linarith

/-- The grey level of a cleared entry and of an entry between `lo` and `hi`. -/
theorem grayLevel_eq (lo hi d : ℚ) (hov : hi - lo < pow2 1026) (hD : 0 < fsub hi lo)
    (hd : d ≠ MaxFloat64 → lo ≤ d ∧ d ≤ hi) :
    grayLevel lo hi d % 65536
      = if d = MaxFloat64 then 0xffff
        else (truncInt (fmul (fdiv (fsub d lo) (fsub hi lo)) 0xffff)).toNat := by
  by_cases h : d = MaxFloat64
  · simp only [grayLevel, if_pos h, toUint16]
    decide!
  · obtain ⟨h0, h1⟩ := hd h
    obtain ⟨t0, t1, _, _⟩ := grayScale_range lo hi d d hov hD h0 (le_refl _) h1
    obtain ⟨b0, _, _, _, b4⟩ := fmul_unit_scaled _ t0 t1 65535 (by norm_num)
    simp only [Nat.cast_ofNat] at b0 b4
    have b5 : 0 ≤ truncInt (fmul (fdiv (fsub d lo) (fsub hi lo)) 65535) := by
      rw [truncInt_of_nonneg _ b0]
      exact Int.floor_nonneg.mpr b0
    simp only [grayLevel, if_neg h, toUint16]
    omega

/-- C18 (amended). Depth image, as the code computes it on `float64`: for a
well-formed context whose non-cleared depth entries have the minimum `lo`
and the maximum `hi` (binary64 values with `lo < hi`) whose difference
`hi - lo` does not overflow, the first loop of `DepthImage` finds
`(lo, hi)`, `DepthImage` returns an image over the whole context in which
every cleared pixel (depth `MaxFloat64`) has the grey level `0xffff` and
every other pixel with depth `d` has the grey level `trunc(t * 0xffff)` for
`t = (d - lo) / (hi - lo)`, the difference, the quotient and the product
each rounded to the nearest binary64 value.  That level lies in
`[0, 0xffff]` for `lo ≤ d ≤ hi`, is 0 at `d = lo` and `0xffff` at `d = hi`,
and is monotonically non-decreasing in `d`. -/
theorem depth_image (dc : Context) (hwf : dc.WellFormed) (lo hi : ℚ)
    (hlo : lo ∈ dc.DepthBuffer) (hhi : hi ∈ dc.DepthBuffer)
    (hmin : ∀ d ∈ dc.DepthBuffer, d ≠ MaxFloat64 → lo ≤ d ∧ d ≤ hi)
    (hlt : lo < hi) (hfl : -MaxFloat64 ≤ lo) (hfh : hi < MaxFloat64)
    (hrl : roundF64 lo = lo) (hrh : roundF64 hi = hi) (hov : hi - lo ≤ MaxFloat64) :
    depthRange dc.DepthBuffer = (lo, hi) ∧
    (∃ im, dc.DepthImage = some im ∧ im.Rect = ⟨⟨0, 0⟩, ⟨dc.Width, dc.Height⟩⟩ ∧
      ∀ x y : Int, 0 ≤ x → x < dc.Width → 0 ≤ y → y < dc.Height →
        ∃ d, image.index dc.DepthBuffer (y * dc.Width + x) = some d ∧
          im.Gray16At x y = some (if d = MaxFloat64 then 0xffff
            else (truncInt (fmul (fdiv (fsub d lo) (fsub hi lo)) 0xffff)).toNat)) ∧
    (∀ d, lo ≤ d → d ≤ hi → 0 ≤ truncInt (fmul (fdiv (fsub d lo) (fsub hi lo)) 0xffff) ∧
      truncInt (fmul (fdiv (fsub d lo) (fsub hi lo)) 0xffff) ≤ 0xffff) ∧
    truncInt (fmul (fdiv (fsub lo lo) (fsub hi lo)) 0xffff) = 0 ∧
    truncInt (fmul (fdiv (fsub hi lo) (fsub hi lo)) 0xffff) = 0xffff ∧
    (∀ d e, lo ≤ d → d ≤ e → e ≤ hi →
      truncInt (fmul (fdiv (fsub d lo) (fsub hi lo)) 0xffff)
        ≤ truncInt (fmul (fdiv (fsub e lo) (fsub hi lo)) 0xffff)) := by
  obtain ⟨hW, hH, hd, _, _, _, _, _⟩ := hwf
  have hbig := maxFloat64_lt
  have hov2 : hi - lo < pow2 1026 := lt_of_le_of_lt hov hbig
  have hD : 0 < fsub hi lo :=
    fsub_pos lo hi hlt (by linarith) (by linarith) hrl hrh hov2
  have hrange := depthRange_eq dc.DepthBuffer lo hi hlo hhi hmin hlt hfl hfh
  refine ⟨hrange, ?_, ?_, ?_, ?_, ?_⟩
  · have hx : ¬ (0 : Int) > dc.Width := not_lt.mpr hW
    have hy : ¬ (0 : Int) > dc.Height := not_lt.mpr hH
    have hrect : image.Rect 0 0 dc.Width dc.Height = ⟨⟨0, 0⟩, ⟨dc.Width, dc.Height⟩⟩ := by
      simp only [image.Rect, hx, hy, if_false]
    obtain ⟨im2, i2, e, r2, l2, s2, _⟩ := depthImageRows_spec dc lo hi dc.Height hW hd
      dc.Height.toNat 0 0 (image.NewGray16 (image.Rect 0 0 dc.Width dc.Height)) (le_refl _)
      (by omega) (by ring)
      (by simp only [image.NewGray16, hrect])
      (by
        simp only [image.NewGray16, hrect, List.length_replicate, sub_zero]
        exact Int.toNat_of_nonneg (mul_nonneg hW hH))
    have r3 : im2.Rect = ⟨⟨0, 0⟩, ⟨dc.Width, dc.Height⟩⟩ := by
      rw [r2]
      simp only [image.NewGray16, hrect]
    refine ⟨im2, ?_, r3, ?_⟩
    · simp only [Context.DepthImage, hrange, e, Option.map_some']
    · intro x y hx0 hx1 hy0 hy1
      have hyW : 0 ≤ y * dc.Width := mul_nonneg hy0 hW
      have hyH : (y + 1) * dc.Width ≤ dc.Height * dc.Width :=
        mul_le_mul_of_nonneg_right (by omega) hW
      have e1 : (y + 1) * dc.Width = y * dc.Width + dc.Width := by ring
      have e2 : dc.Height * dc.Width = dc.Width * dc.Height := by ring
      have hi0 : 0 ≤ y * dc.Width + x := by omega
      have hi1 : y * dc.Width + x < dc.Width * dc.Height := by omega
      obtain ⟨d, hdv, hmem⟩ := index_some dc.DepthBuffer (y * dc.Width + x) hi0 (by omega)
      refine ⟨d, hdv, ?_⟩
      have hin : image.Point.In ⟨x, y⟩ im2.Rect = true := by
        simp only [image.Point.In, r3, decide_eq_true_eq]
        exact ⟨hx0, hx1, hy0, hy1⟩
      have hoff : im2.offset x y = y * dc.Width + x := by
        simp only [image.Gray16.offset, r3, sub_zero]
      have hk := s2 (y * dc.Width + x).toNat (by omega) (by omega)
      rw [index_toNat _ _ _ hdv] at hk
      simp only [image.Gray16.Gray16At, hin, hoff, image.index, if_pos hi0]
      simp only [not_true_eq_false, if_false, hk, Option.map_some']
      rw [grayLevel_eq lo hi d hov2 hD (hmin d hmem)]
  · intro d h0 h1
    obtain ⟨t0, t1, _, _⟩ := grayScale_range lo hi d d hov2 hD h0 (le_refl _) h1
    obtain ⟨b0, _, _, _, b4⟩ := fmul_unit_scaled _ t0 t1 65535 (by norm_num)
    simp only [Nat.cast_ofNat] at b0 b4
    refine ⟨?_, b4⟩
    rw [truncInt_of_nonneg _ b0]
    exact Int.floor_nonneg.mpr b0
  · have e0 : fsub lo lo = 0 := by
      unfold fsub
      rw [sub_self, roundF64_of_nonneg 0 (le_refl _), roundMag_zero]
    have e1 : fdiv 0 (fsub hi lo) = 0 := by
      unfold fdiv
      rw [zero_div, roundF64_of_nonneg 0 (le_refl _), roundMag_zero]
    have e2 : fmul 0 0xffff = 0 := by
      unfold fmul
      rw [zero_mul, roundF64_of_nonneg 0 (le_refl _), roundMag_zero]
    rw [e0, e1, e2]
    exact truncInt_intCast 0
  · have e1 : fdiv (fsub hi lo) (fsub hi lo) = 1 := by
      unfold fdiv
      rw [div_self (ne_of_gt hD), roundF64_of_nonneg 1 (by norm_num), roundMag_one]
    have e2 : fmul 1 0xffff = 65535 := by
      unfold fmul
      rw [one_mul, roundF64_of_nonneg _ (by norm_num)]
      have := roundMag_natCast 65535 (by norm_num)
      simpa using this
    rw [e1, e2]
    exact truncInt_intCast 65535
  · intro d e h0 hde h1
    apply truncInt_mono
    exact (grayScale_range lo hi d e hov2 hD h0 hde h1).2.2.2

theorem depth_image_witness :
    depthContext.WellFormed ∧ depthRange depthContext.DepthBuffer = (0, 1) ∧
      (∃ im, depthContext.DepthImage = some im ∧
        im.Rect = ⟨⟨0, 0⟩, ⟨depthContext.Width, depthContext.Height⟩⟩ ∧
        ∀ x y : Int, 0 ≤ x → x < depthContext.Width → 0 ≤ y → y < depthContext.Height →
          ∃ d, image.index depthContext.DepthBuffer (y * depthContext.Width + x) = some d ∧
            im.Gray16At x y = some (if d = MaxFloat64 then 0xffff
              else (truncInt (fmul (fdiv (fsub d 0) (fsub 1 0)) 0xffff)).toNat)) :=
  ⟨by decide!, (depth_image depthContext (by decide!) 0 1 (by decide!) (by decide!) (by decide!)
    (by decide!) (by decide!) (by decide!) (by decide!) (by decide!) (by decide!)).1,
   (depth_image depthContext (by decide!) 0 1 (by decide!) (by decide!) (by decide!)
    (by decide!) (by decide!) (by decide!) (by decide!) (by decide!) (by decide!)).2.1⟩

/-- C18 as stated fails on `float64`: in the depth buffer
`[0, x, 1, MaxFloat64]`, with `x` the binary64 value nearest to `1/65535`
(which is below `1/65535`), the least depth is 0 and the greatest is 1, and
`trunc(((x - 0) / (1 - 0)) * 0xffff)` is 0 for the exact product, but the
product rounds to 1 and `DepthImage` gives the pixel the grey level 1. -/
theorem depth_image_counterexample :
    roundF64 (1 / 65535) = 281479271743489 / 18446744073709551616 ∧
    depthRange depthRoundingContext.DepthBuffer = (0, 1) ∧
    image.index depthRoundingContext.DepthBuffer (0 * depthRoundingContext.Width + 1)
      = some (281479271743489 / 18446744073709551616) ∧
    (truncInt ((281479271743489 / 18446744073709551616 - 0) / (1 - 0) * 0xffff)).toNat = 0 ∧
    depthRoundingContext.DepthImage.bind (fun im => im.Gray16At 1 0) = some 1 := by
  decide!

/-- C28 as stated fails on `float64`: on the context of `NewContext 2 2` the
three vertices at the binary64 values nearest to `(-0.6, -0.4)`, `(0.2, 0)`
and `(0.6, 0.2)` have a positive NDC signed area, in exact arithmetic and as
the code computes it, so the triangle is passed on in this order; but
`edge s0 s1 s2` of the screen positions, as the code computes it, is
negative, and so is `ra`. -/
theorem raster_area_positive_counterexample :
    (0 < context2x2.Width ∧ 0 < context2x2.Height ∧
      context2x2.screenMatrix = Screen context2x2.Width context2x2.Height) ∧
    ndcArea (sliverVertex (-3 / 5) (-2 / 5)) (sliverVertex (1 / 5) 0) (sliverVertex (3 / 5) (1 / 5))
      = 3602879701896397 / 324518553658426726783156020576256 ∧
    ndcAreaF64 (sliverVertex (-3 / 5) (-2 / 5)) (sliverVertex (1 / 5) 0)
        (sliverVertex (3 / 5) (1 / 5)) = 1 / 9007199254740992 ∧
    edgeF64 (context2x2.screenPositionF64 (sliverVertex (-3 / 5) (-2 / 5)))
        (context2x2.screenPositionF64 (sliverVertex (1 / 5) 0))
        (context2x2.screenPositionF64 (sliverVertex (3 / 5) (1 / 5)))
      = -(1 / 36028797018963968) := by
  decide!

/-- C35 as stated fails on `float64`: for the three vertices at the binary64
values nearest to `(-0.6, -0.4)`, `(0.2, 0)` and `(0.6, 0.2)`, whose NDC
signed area is not zero, the area that the code computes is positive for the
order `(v0, v1, v2)` and for the order `(v2, v1, v0)`.  So neither call
reverses its vertices: `drawClippedTriangle(v0, v1, v2)` passes on
`(v0, v1, v2)` and `drawClippedTriangle(v2, v1, v0)` passes on
`(v2, v1, v0)`, two different calls. -/
theorem cull_none_winding_counterexample :
    ndcArea (sliverVertex (-3 / 5) (-2 / 5)) (sliverVertex (1 / 5) 0) (sliverVertex (3 / 5) (1 / 5))
      ≠ 0 ∧
    0 < ndcAreaF64 (sliverVertex (-3 / 5) (-2 / 5)) (sliverVertex (1 / 5) 0)
        (sliverVertex (3 / 5) (1 / 5)) ∧
    0 < ndcAreaF64 (sliverVertex (3 / 5) (1 / 5)) (sliverVertex (1 / 5) 0)
        (sliverVertex (-3 / 5) (-2 / 5)) ∧
    drawOrderF64 (sliverVertex (-3 / 5) (-2 / 5)) (sliverVertex (1 / 5) 0)
        (sliverVertex (3 / 5) (1 / 5))
      = (sliverVertex (-3 / 5) (-2 / 5), sliverVertex (1 / 5) 0, sliverVertex (3 / 5) (1 / 5)) ∧
    drawOrderF64 (sliverVertex (3 / 5) (1 / 5)) (sliverVertex (1 / 5) 0)
        (sliverVertex (-3 / 5) (-2 / 5))
      = (sliverVertex (3 / 5) (1 / 5), sliverVertex (1 / 5) 0, sliverVertex (-3 / 5) (-2 / 5)) ∧
    sliverVertex (-3 / 5) (-2 / 5) ≠ sliverVertex (3 / 5) (1 / 5) := by
  decide!

/-- C20 as stated fails at an integer `v`: on a 2x2 texture `Sample 0 0`
reads the texel `(0, 0)`, whereas wrapping before flipping names the texel
`(0, 2)`, which lies outside the image and holds another colour.  It also
fails on `float64` where the wrapped coordinate rounds to 1: `u = -2^-60` is
a binary64 value, `u - floor u` rounds to 1, and `Sample u (1/4)` computes
the texel `(2, 1)`, in the column `Width`, whereas the claim names the texel
`(1, 1)`. -/
theorem sample_texel_counterexample :
    coordTexture.texel 0 0 = (0, 0) ∧ wrapThenFlipTexel 2 2 0 0 = (0, 2) ∧
      coordTexture.Sample 0 0 ≠ MakeColor (coordTexture.Image.At
        (wrapThenFlipTexel 2 2 0 0).1 (wrapThenFlipTexel 2 2 0 0).2) ∧
    roundF64 (-(pow2 (-60))) = -(pow2 (-60)) ∧
    fsub (-(pow2 (-60))) (⌊-(pow2 (-60))⌋ : Int) = 1 ∧
    coordTexture.texelF64 (-(pow2 (-60))) (1 / 4) = (2, 1) ∧
    wrapThenFlipTexel 2 2 (-(pow2 (-60))) (1 / 4) = (1, 1) := by
  decide!

/-- C21 fails on the code: `BilinearSample` reads the column `x1 = x0 + 1`
and the row `y1 = y0 + 1` without a clamp.  On a 1x1 texture
`BilinearSample 0 0` has `x0 = y0 = 0` and reads the column 1 and the row 1,
outside the image (`Width - 1 = 0`), in exact arithmetic and on `float64`
alike.  On `float64` the same happens for a larger texture where the wrapped
coordinate rounds to 1: `u = -2^-60` is a binary64 value, and on a 2x2
texture `BilinearSample u (1/4)` has `x0 = 1 = Width - 1` and reads the
column `x1 = 2 = Width`. -/
theorem bilinear_out_of_bounds :
    1 ≤ unitTexture.Width ∧ 1 ≤ unitTexture.Height ∧
    (unitTexture.bilinear 0 0).1 + 1 = 1 ∧ (unitTexture.bilinear 0 0).2.1 + 1 = 1 ∧
    ¬ ((unitTexture.bilinear 0 0).1 + 1 ≤ unitTexture.Width - 1) ∧
    ¬ ((unitTexture.bilinear 0 0).2.1 + 1 ≤ unitTexture.Height - 1) ∧
    unitTexture.bilinearF64 0 0 = (0, 0, 0, 0) ∧
    roundF64 (-(pow2 (-60))) = -(pow2 (-60)) ∧
    coordTexture.bilinearF64 (-(pow2 (-60))) (1 / 4) = (1, 0, 0, 3 / 4) ∧
    ¬ ((coordTexture.bilinearF64 (-(pow2 (-60))) (1 / 4)).1 + 1 ≤ coordTexture.Width - 1) := by
  decide!

/-- C9 fails on the code under `CullNone`: three coincident vertices at the
centre of the 1x1 context have zero NDC area; `drawClippedTriangle` makes no
area test when `Cull` is `CullNone` and calls `rasterize` with three equal
screen positions, for which the denominator `edge s0 s1 s2` of `ra` is zero.
The call itself is not evaluated here: the code divides by zero there (`ra`
is infinite and the weights `b0 b1 b2` are NaN, which pass the test `b < 0`),
and the rational arithmetic of this development has no such values. -/
theorem degenerate_reaches_rasterize :
    cullNoneContext.Cull = CullNone ∧
    ndcArea (sampleVertex 0 0 0 1 Discard) (sampleVertex 0 0 0 1 Discard)
        (sampleVertex 0 0 0 1 Discard) = 0 ∧
    cullNoneContext.screenPosition (sampleVertex 0 0 0 1 Discard) = ⟨1 / 2, 1 / 2, 1 / 2⟩ ∧
    edge (⟨1 / 2, 1 / 2, 1 / 2⟩ : Vector) ⟨1 / 2, 1 / 2, 1 / 2⟩ ⟨1 / 2, 1 / 2, 1 / 2⟩ = 0 ∧
    drawClippedTriangle (fun _ => 1) cullNoneContext (sampleVertex 0 0 0 1 Discard)
        (sampleVertex 0 0 0 1 Discard) (sampleVertex 0 0 0 1 Discard)
      = rasterize (fun _ => 1) cullNoneContext (sampleVertex 0 0 0 1 Discard)
        (sampleVertex 0 0 0 1 Discard) (sampleVertex 0 0 0 1 Discard)
        ⟨1 / 2, 1 / 2, 1 / 2⟩ ⟨1 / 2, 1 / 2, 1 / 2⟩ ⟨1 / 2, 1 / 2, 1 / 2⟩ := by
  have hs : cullNoneContext.screenMatrix.MulPosition
      ((sampleVertex 0 0 0 1 Discard).Output.DivScalar
        (sampleVertex 0 0 0 1 Discard).Output.W).Vector = ⟨1 / 2, 1 / 2, 1 / 2⟩ := by
    decide!
  refine ⟨rfl, by decide!, by decide!, by decide!, ?_⟩
  rw [drawClippedTriangle_eq, if_neg (by decide!)]
  unfold orientedDraw
  rw [if_neg (by decide!)]
  unfold screenDraw
  rw [hs, if_neg (by decide!)]

theorem nonneg_root_unique_over {K : Type} [LinearOrderedField K] (M c : K) (hM : 0 ≤ M)
    (hc : 0 ≤ c) (h : M * M = c * c) : M = c := by
  rcases mul_self_eq_mul_self_iff.mp h with h1 | h1
  · exact h1
  · linarith

theorem lengthSquared_pos_over {K : Type} [LinearOrderedField K] (a : VectorOver K)
    (h : a ≠ ⟨0, 0, 0⟩) : 0 < a.LengthSquared := by
  obtain ⟨x, y, z⟩ := a
  simp only [VectorOver.LengthSquared]
  by_contra hn
  have hx := mul_self_nonneg x
  have hy := mul_self_nonneg y
  have hz := mul_self_nonneg z
  have ex : x * x = 0 := by linarith
  have ey : y * y = 0 := by linarith
  have ez : z * z = 0 := by linarith
  apply h
  rw [mul_self_eq_zero.mp ex, mul_self_eq_zero.mp ey, mul_self_eq_zero.mp ez]

theorem sqrtExactOver_pos {K : Type} [LinearOrderedField K] (Sqrt : K → K) (q : K)
    (h : SqrtExactOver Sqrt q) (hq : 0 < q) : 0 < Sqrt q := by
  obtain ⟨h0, h1⟩ := h
  rcases eq_or_lt_of_le h0 with e | e
  · rw [← e] at h1
    linarith
  · exact e

theorem lineNormalOver_eq {K : Type} [LinearOrderedField K] (Sqrt : K → K) (lw : K)
    (s0 s1 : VectorOver K) (hxy : ¬ ((s1.Sub s0).X = 0 ∧ (s1.Sub s0).Y = 0)) :
    lineNormalOver Sqrt lw s0 s1
      = (⟨-(s1.Sub s0).Y, (s1.Sub s0).X, 0⟩ : VectorOver K).MulScalar
          (1 / Sqrt (⟨-(s1.Sub s0).Y, (s1.Sub s0).X, 0⟩ : VectorOver K).LengthSquared
            * (lw / 2)) := by
  simp only [lineNormalOver, VectorOver.Perpendicular, if_neg hxy, VectorOver.Normalize,
    VectorOver.LengthSquared, VectorOver.MulScalar, VectorOver.mk.injEq]
  refine ⟨?_, ?_, ?_⟩ <;> ring

theorem mulScalar_lengthSquared_over {K : Type} [LinearOrderedField K] (a : VectorOver K)
    (k : K) : (a.MulScalar k).LengthSquared = a.LengthSquared * (k * k) := by
  simp only [VectorOver.LengthSquared, VectorOver.MulScalar]
  ring

/-- The two extended endpoints of `line` in terms of the exact length `L` of
the segment: both move by `(s0 - s1) / L * (lw / 2)`, in opposite directions. -/
theorem line_ends_over {K : Type} [LinearOrderedField K] (Sqrt : K → K) (lw : K)
    (s0 s1 : VectorOver K) (hne : s0 ≠ s1) (hlw : 0 ≤ lw)
    (h0 : SqrtExactOver Sqrt (s0.Sub s1).LengthSquared)
    (h1 : SqrtExactOver Sqrt (s1.Sub (lineStartOver Sqrt lw s0 s1)).LengthSquared) :
    0 < Sqrt (s0.Sub s1).LengthSquared ∧
    lineStartOver Sqrt lw s0 s1
      = s0.Add ((s0.Sub s1).MulScalar (1 / Sqrt (s0.Sub s1).LengthSquared * (lw / 2))) ∧
    lineEndOver Sqrt lw s0 s1
      = s1.Add ((s1.Sub s0).MulScalar (1 / Sqrt (s0.Sub s1).LengthSquared * (lw / 2))) := by
  have hne2 : s0.Sub s1 ≠ ⟨0, 0, 0⟩ := by
    intro h
    apply hne
    obtain ⟨x0, y0, z0⟩ := s0
    obtain ⟨x1, y1, z1⟩ := s1
    simp only [VectorOver.Sub, VectorOver.mk.injEq] at h ⊢
    exact ⟨by linarith [h.1], by linarith [h.2.1], by linarith [h.2.2]⟩
  have hQ := lengthSquared_pos_over _ hne2
  have hL := sqrtExactOver_pos Sqrt _ h0 hQ
  have hLL := h0.2
  have hstart : lineStartOver Sqrt lw s0 s1
      = s0.Add ((s0.Sub s1).MulScalar (1 / Sqrt (s0.Sub s1).LengthSquared * (lw / 2))) := by
    simp only [lineStartOver, VectorOver.Normalize, VectorOver.LengthSquared,
      VectorOver.MulScalar, VectorOver.Add, VectorOver.mk.injEq]
    refine ⟨?_, ?_, ?_⟩ <;> ring
  generalize hLdef : Sqrt (s0.Sub s1).LengthSquared = L at *
  have hk : 0 < 1 + 1 / L * (lw / 2) := by positivity
  have hdiff : s1.Sub (lineStartOver Sqrt lw s0 s1)
      = (s1.Sub s0).MulScalar (1 + 1 / L * (lw / 2)) := by
    rw [hstart]
    simp only [VectorOver.Sub, VectorOver.MulScalar, VectorOver.Add, VectorOver.mk.injEq]
    refine ⟨?_, ?_, ?_⟩ <;> ring
  have hlen : (s1.Sub (lineStartOver Sqrt lw s0 s1)).LengthSquared
      = (L * (1 + 1 / L * (lw / 2))) * (L * (1 + 1 / L * (lw / 2))) := by
    rw [hdiff]
    have e : ((s1.Sub s0).MulScalar (1 + 1 / L * (lw / 2))).LengthSquared
        = (s0.Sub s1).LengthSquared * ((1 + 1 / L * (lw / 2)) * (1 + 1 / L * (lw / 2))) := by
      simp only [VectorOver.LengthSquared, VectorOver.Sub, VectorOver.MulScalar]
      ring
    rw [e, ← hLL]
    ring
  have hMeq : Sqrt (s1.Sub (lineStartOver Sqrt lw s0 s1)).LengthSquared
      = L * (1 + 1 / L * (lw / 2)) := by
    apply nonneg_root_unique_over _ _ h1.1 (le_of_lt (mul_pos hL hk))
    rw [h1.2, hlen]
  refine ⟨hL, hstart, ?_⟩
  have hend : lineEndOver Sqrt lw s0 s1
      = s1.Add ((s1.Sub (lineStartOver Sqrt lw s0 s1)).MulScalar
          (1 / Sqrt (s1.Sub (lineStartOver Sqrt lw s0 s1)).LengthSquared * (lw / 2))) := by
    simp only [lineEndOver, VectorOver.Normalize, VectorOver.LengthSquared,
      VectorOver.MulScalar, VectorOver.Add, VectorOver.mk.injEq]
    refine ⟨?_, ?_, ?_⟩ <;> ring
  rw [hend, hMeq, hdiff]
  have hscal : (1 + 1 / L * (lw / 2)) * (1 / (L * (1 + 1 / L * (lw / 2))) * (lw / 2))
      = 1 / L * (lw / 2) := by
    field_simp
    ring
  simp only [VectorOver.Sub, VectorOver.MulScalar, VectorOver.Add, VectorOver.mk.injEq,
    mul_assoc, hscal]

theorem lineNormalOver_perp {K : Type} [LinearOrderedField K] (Sqrt : K → K) (lw : K)
    (s0 s1 : VectorOver K) (hne : s0 ≠ s1)
    (hn : ¬ ((s1.Sub s0).X = 0 ∧ (s1.Sub s0).Y = 0) →
      SqrtExactOver Sqrt (⟨-(s1.Sub s0).Y, (s1.Sub s0).X, 0⟩ : VectorOver K).LengthSquared) :
    (lineNormalOver Sqrt lw s0 s1).X * (s1.X - s0.X)
      + (lineNormalOver Sqrt lw s0 s1).Y * (s1.Y - s0.Y) = 0 ∧
    (lineNormalOver Sqrt lw s0 s1).LengthSquared = lw / 2 * (lw / 2) := by
  by_cases hxy : (s1.Sub s0).X = 0 ∧ (s1.Sub s0).Y = 0
  · have hz : ¬ (s1.Sub s0).Z = 0 := by
      intro hz
      apply hne
      obtain ⟨x0, y0, z0⟩ := s0
      obtain ⟨x1, y1, z1⟩ := s1
      simp only [VectorOver.Sub] at hxy hz
      simp only [VectorOver.mk.injEq]
      exact ⟨by linarith [hxy.1], by linarith [hxy.2], by linarith⟩
    have hy : s1.Y - s0.Y = 0 := hxy.2
    simp only [lineNormalOver, VectorOver.Perpendicular, if_pos hxy, if_neg hz,
      VectorOver.MulScalar, VectorOver.LengthSquared, hy]
    constructor <;> ring
  · have hP := hn hxy
    rw [lineNormalOver_eq Sqrt lw s0 s1 hxy]
    have hpos : 0 < (⟨-(s1.Sub s0).Y, (s1.Sub s0).X, 0⟩ : VectorOver K).LengthSquared := by
      apply lengthSquared_pos_over
      intro h
      simp only [VectorOver.mk.injEq] at h
      exact hxy ⟨h.2.1, by linarith [h.1]⟩
    have hPpos := sqrtExactOver_pos Sqrt _ hP hpos
    have hPP := hP.2
    generalize Sqrt (⟨-(s1.Sub s0).Y, (s1.Sub s0).X, 0⟩ : VectorOver K).LengthSquared = P at *
    constructor
    · simp only [VectorOver.MulScalar, VectorOver.Sub]
      ring
    · have e : ((⟨-(s1.Sub s0).Y, (s1.Sub s0).X, 0⟩ : VectorOver K).MulScalar
          (1 / P * (lw / 2))).LengthSquared
          = (⟨-(s1.Sub s0).Y, (s1.Sub s0).X, 0⟩ : VectorOver K).LengthSquared
            * ((1 / P * (lw / 2)) * (1 / P * (lw / 2))) := by
        simp only [VectorOver.LengthSquared, VectorOver.MulScalar]
        ring
      rw [e, ← hPP]
      field_simp
      ring

theorem lengthSquared_nonneg_over {K : Type} [LinearOrderedField K] (a : VectorOver K) :
    0 ≤ a.LengthSquared := by
  simp only [VectorOver.LengthSquared]
  have hx := mul_self_nonneg a.X
  have hy := mul_self_nonneg a.Y
  have hz := mul_self_nonneg a.Z
  linarith

theorem real_sqrtExact (a : VectorOver ℝ) : SqrtExactOver Real.sqrt a.LengthSquared :=
  ⟨Real.sqrt_nonneg _, Real.mul_self_sqrt (lengthSquared_nonneg_over a)⟩

theorem real_length_of_sq (a : VectorOver ℝ) (c : ℝ) (hc : 0 ≤ c)
    (h : a.LengthSquared = c * c) : a.Length Real.sqrt = c := by
  have e : a.Length Real.sqrt = Real.sqrt a.LengthSquared := rfl
  rw [e, h]
  exact Real.sqrt_mul_self hc

theorem lineNormal_over (Sqrt : ℚ → ℚ) (lw : ℚ) (q0 q1 : Vector) :
    (lineNormalOver Sqrt lw q0.over q1.over).toVector = lineNormal Sqrt lw q0 q1 := by
  by_cases hxy : q1.X - q0.X = 0 ∧ q1.Y - q0.Y = 0
  · by_cases hz : q1.Z - q0.Z = 0
    · simp [lineNormalOver, lineNormal, VectorOver.Perpendicular, Vector.Perpendicular,
        Vector.over, VectorOver.Sub, Vector.Sub, VectorOver.toVector, VectorOver.MulScalar,
        Vector.MulScalar, hxy, hz]
    · simp [lineNormalOver, lineNormal, VectorOver.Perpendicular, Vector.Perpendicular,
        Vector.over, VectorOver.Sub, Vector.Sub, VectorOver.toVector, VectorOver.MulScalar,
        Vector.MulScalar, hxy, hz]
  · simp only [lineNormalOver, lineNormal, VectorOver.Perpendicular, Vector.Perpendicular,
      Vector.over, VectorOver.Sub, Vector.Sub, VectorOver.toVector, VectorOver.MulScalar,
      Vector.MulScalar, if_neg hxy, VectorOver.Normalize, Vector.Normalize]

theorem lineStart_over (Sqrt : ℚ → ℚ) (lw : ℚ) (q0 q1 : Vector) :
    (lineStartOver Sqrt lw q0.over q1.over).toVector = lineStart Sqrt lw q0 q1 := rfl

theorem lineEnd_over (Sqrt : ℚ → ℚ) (lw : ℚ) (q0 q1 : Vector) :
    (lineEndOver Sqrt lw q0.over q1.over).toVector = lineEnd Sqrt lw q0 q1 := rfl

theorem toVector_add (a b : VectorOver ℚ) : (a.Add b).toVector = a.toVector.Add b.toVector := rfl

theorem toVector_sub (a b : VectorOver ℚ) : (a.Sub b).toVector = a.toVector.Sub b.toVector := rfl

/-- Over the rationals `line` is the two `rasterize` calls on the corners of
`lineCornersOver`. -/
theorem line_eq_cornersOver (Sqrt : ℚ → ℚ) (dc : Context) (v0 v1 : Vertex) (q0 q1 : Vector) :
    line Sqrt dc v0 v1 q0 q1
      = match rasterize Sqrt dc v1 v0 v0
          (lineCornersOver Sqrt dc.LineWidth q0.over q1.over).2.2.2.toVector
          (lineCornersOver Sqrt dc.LineWidth q0.over q1.over).2.1.toVector
          (lineCornersOver Sqrt dc.LineWidth q0.over q1.over).1.toVector with
        | none => none
        | some (dc1, info1) =>
          match rasterize Sqrt dc1 v1 v1 v0
            (lineCornersOver Sqrt dc.LineWidth q0.over q1.over).2.2.1.toVector
            (lineCornersOver Sqrt dc.LineWidth q0.over q1.over).2.2.2.toVector
            (lineCornersOver Sqrt dc.LineWidth q0.over q1.over).1.toVector with
          | none => none
          | some (dc2, info2) => some (dc2, info1.Add info2) := by
  have hc : lineCornersOver Sqrt dc.LineWidth q0.over q1.over
      = ((lineStartOver Sqrt dc.LineWidth q0.over q1.over).Add
            (lineNormalOver Sqrt dc.LineWidth q0.over q1.over),
         (lineStartOver Sqrt dc.LineWidth q0.over q1.over).Sub
            (lineNormalOver Sqrt dc.LineWidth q0.over q1.over),
         (lineEndOver Sqrt dc.LineWidth q0.over q1.over).Add
            (lineNormalOver Sqrt dc.LineWidth q0.over q1.over),
         (lineEndOver Sqrt dc.LineWidth q0.over q1.over).Sub
            (lineNormalOver Sqrt dc.LineWidth q0.over q1.over)) := rfl
  rw [hc, line_eq_quad]
  simp only [toVector_add, toVector_sub, lineNormal_over, lineStart_over, lineEnd_over]

/-- C31. Line caps are symmetric, in exact arithmetic: over the real numbers,
with `Real.sqrt` for `math.Sqrt`, for all screen points `s0 ≠ s1` and every
`LineWidth ≥ 0`, `line` moves each endpoint away from the other along the
segment by a displacement of length `LineWidth/2`, the two displacements are
exact opposites, and the extension of `s1` computed from the already extended
`s0` is the point computed from the original `s0`.  The quad corners are
`s0' ± n` and `s1' ± n`, with `n` perpendicular to the segment in xy and of
length `LineWidth/2`.  The last part ties the corner computation to `line`:
over the rationals, `line` is the two `rasterize` calls on these corners. -/
theorem line_caps_symmetric (lw : ℝ) (s0 s1 : VectorOver ℝ) (hne : s0 ≠ s1) (hlw : 0 ≤ lw) :
    (∃ k : ℝ, 0 ≤ k ∧ (lineStartOver Real.sqrt lw s0 s1).Sub s0 = (s0.Sub s1).MulScalar k ∧
      (lineEndOver Real.sqrt lw s0 s1).Sub s1 = (s1.Sub s0).MulScalar k) ∧
    ((lineStartOver Real.sqrt lw s0 s1).Sub s0).Length Real.sqrt = lw / 2 ∧
    ((lineEndOver Real.sqrt lw s0 s1).Sub s1).Length Real.sqrt = lw / 2 ∧
    (lineEndOver Real.sqrt lw s0 s1).Sub s1
      = ((lineStartOver Real.sqrt lw s0 s1).Sub s0).Negate ∧
    lineEndOver Real.sqrt lw s0 s1
      = s1.Add (((s1.Sub s0).Normalize Real.sqrt).MulScalar (lw / 2)) ∧
    ((lineNormalOver Real.sqrt lw s0 s1).X * (s1.X - s0.X)
      + (lineNormalOver Real.sqrt lw s0 s1).Y * (s1.Y - s0.Y) = 0 ∧
      (lineNormalOver Real.sqrt lw s0 s1).Length Real.sqrt = lw / 2) ∧
    lineCornersOver Real.sqrt lw s0 s1
      = ((lineStartOver Real.sqrt lw s0 s1).Add (lineNormalOver Real.sqrt lw s0 s1),
         (lineStartOver Real.sqrt lw s0 s1).Sub (lineNormalOver Real.sqrt lw s0 s1),
         (lineEndOver Real.sqrt lw s0 s1).Add (lineNormalOver Real.sqrt lw s0 s1),
         (lineEndOver Real.sqrt lw s0 s1).Sub (lineNormalOver Real.sqrt lw s0 s1)) ∧
    (∀ (Sqrt : ℚ → ℚ) (dc : Context) (v0 v1 : Vertex) (q0 q1 : Vector),
      line Sqrt dc v0 v1 q0 q1
        = match rasterize Sqrt dc v1 v0 v0
            (lineCornersOver Sqrt dc.LineWidth q0.over q1.over).2.2.2.toVector
            (lineCornersOver Sqrt dc.LineWidth q0.over q1.over).2.1.toVector
            (lineCornersOver Sqrt dc.LineWidth q0.over q1.over).1.toVector with
          | none => none
          | some (dc1, info1) =>
            match rasterize Sqrt dc1 v1 v1 v0
              (lineCornersOver Sqrt dc.LineWidth q0.over q1.over).2.2.1.toVector
              (lineCornersOver Sqrt dc.LineWidth q0.over q1.over).2.2.2.toVector
              (lineCornersOver Sqrt dc.LineWidth q0.over q1.over).1.toVector with
            | none => none
            | some (dc2, info2) => some (dc2, info1.Add info2)) := by
  obtain ⟨hL, hstart, hend⟩ := line_ends_over Real.sqrt lw s0 s1 hne hlw
    (real_sqrtExact _) (real_sqrtExact _)
  have hLL := (real_sqrtExact (s0.Sub s1)).2
  have hlen10 : (s1.Sub s0).LengthSquared = (s0.Sub s1).LengthSquared := by
    simp only [VectorOver.LengthSquared, VectorOver.Sub]
    ring
  have hdirect : s1.Add (((s1.Sub s0).Normalize Real.sqrt).MulScalar (lw / 2))
      = s1.Add ((s1.Sub s0).MulScalar
          (1 / Real.sqrt (s0.Sub s1).LengthSquared * (lw / 2))) := by
    have e : (s1.Sub s0).Normalize Real.sqrt
        = (s1.Sub s0).MulScalar (1 / Real.sqrt (s1.Sub s0).LengthSquared) := by
      simp only [VectorOver.Normalize, VectorOver.LengthSquared, VectorOver.MulScalar]
    rw [e, hlen10]
    simp only [VectorOver.MulScalar, VectorOver.Add, VectorOver.mk.injEq]
    refine ⟨?_, ?_, ?_⟩ <;> ring
  have d0 : (lineStartOver Real.sqrt lw s0 s1).Sub s0
      = (s0.Sub s1).MulScalar (1 / Real.sqrt (s0.Sub s1).LengthSquared * (lw / 2)) := by
    rw [hstart]
    simp only [VectorOver.Sub, VectorOver.MulScalar, VectorOver.Add, VectorOver.mk.injEq]
    refine ⟨?_, ?_, ?_⟩ <;> ring
  have d1 : (lineEndOver Real.sqrt lw s0 s1).Sub s1
      = (s1.Sub s0).MulScalar (1 / Real.sqrt (s0.Sub s1).LengthSquared * (lw / 2)) := by
    rw [hend]
    simp only [VectorOver.Sub, VectorOver.MulScalar, VectorOver.Add, VectorOver.mk.injEq]
    refine ⟨?_, ?_, ?_⟩ <;> ring
  have hsq : (s0.Sub s1).LengthSquared
      * (1 / Real.sqrt (s0.Sub s1).LengthSquared * (lw / 2)
        * (1 / Real.sqrt (s0.Sub s1).LengthSquared * (lw / 2))) = lw / 2 * (lw / 2) := by
    have hL0 : Real.sqrt (s0.Sub s1).LengthSquared ≠ 0 := ne_of_gt hL
    have e : (s0.Sub s1).LengthSquared
        = Real.sqrt (s0.Sub s1).LengthSquared * Real.sqrt (s0.Sub s1).LengthSquared :=
      hLL.symm
    generalize Real.sqrt (s0.Sub s1).LengthSquared = L at e hL0
    rw [e]
    field_simp
    ring
  have hlw2 : 0 ≤ lw / 2 := by linarith
  obtain ⟨hperp, hnlen⟩ := lineNormalOver_perp Real.sqrt lw s0 s1 hne
    (fun _ => real_sqrtExact _)
  refine ⟨⟨_, by positivity, d0, d1⟩, ?_, ?_, ?_, ?_,
    ⟨hperp, real_length_of_sq _ _ hlw2 hnlen⟩, rfl, ?_⟩
  · apply real_length_of_sq _ _ hlw2
    rw [d0, mulScalar_lengthSquared_over, hsq]
  · apply real_length_of_sq _ _ hlw2
    rw [d1, mulScalar_lengthSquared_over, hlen10, hsq]
  · rw [d0, d1]
    simp only [VectorOver.Sub, VectorOver.MulScalar, VectorOver.Negate, VectorOver.mk.injEq]
    refine ⟨?_, ?_, ?_⟩ <;> ring
  · rw [hdirect, hend]
  · intro Sqrt dc v0 v1 q0 q1
    exact line_eq_cornersOver Sqrt dc v0 v1 q0 q1

theorem line_caps_symmetric_witness :
    ((⟨0, 0, 0⟩ : VectorOver ℝ) ≠ ⟨1, 1, 0⟩ ∧ (0 : ℝ) ≤ 2) ∧
    ((lineStartOver Real.sqrt 2 ⟨0, 0, 0⟩ ⟨1, 1, 0⟩).Sub ⟨0, 0, 0⟩).Length Real.sqrt = 2 / 2 ∧
    (lineEndOver Real.sqrt 2 ⟨0, 0, 0⟩ ⟨1, 1, 0⟩).Sub ⟨1, 1, 0⟩
      = ((lineStartOver Real.sqrt 2 ⟨0, 0, 0⟩ ⟨1, 1, 0⟩).Sub ⟨0, 0, 0⟩).Negate :=
  ⟨⟨by simp, by norm_num⟩,
    (line_caps_symmetric 2 ⟨0, 0, 0⟩ ⟨1, 1, 0⟩ (by simp) (by norm_num)).2.1,
    (line_caps_symmetric 2 ⟨0, 0, 0⟩ ⟨1, 1, 0⟩ (by simp) (by norm_num)).2.2.2.1⟩

theorem wrap64_eq (x : Int) (h0 : -2 ^ 63 ≤ x) (h1 : x < 2 ^ 63) : wrap64 x = x := by
  unfold wrap64
  omega

theorem forLe_eq {σ : Type} (lo hi : Int) (body : Int → σ → Option σ) (s : σ)
    (h : hi < 2 ^ 63 - 1) : forLe lo hi body s = forRange lo (hi - lo + 1).toNat body s := by
  unfold forLe
  rw [if_pos h]

theorem markRow_spec (i0 j0 v d u j lo : Int) (n : Nat) (nj ni : Int) (s : fillState)
    (hs : gridShape s.a nj ni) (hfit : gridFits i0 j0 nj ni) (hd : d = 1 ∨ d = -1)
    (hc0 : -2 ^ 63 ≤ s.count ∧ s.count < 2 ^ 63)
    (hc1 : -2 ^ 63 ≤ s.count + d * n ∧ s.count + d * n < 2 ^ 63)
    (hin : ∀ i, lo ≤ i → i < lo + n →
      0 ≤ j - j0 ∧ j - j0 < nj ∧ 0 ≤ i - i0 ∧ i - i0 < ni ∧ gridVal s.a (j - j0) (i - i0) = u) :
    ∃ s1, forRange lo n (markCell i0 j0 v d j) s = some s1 ∧ gridShape s1.a nj ni ∧
      (∀ jr ir, gridVal s1.a jr ir
        = if jr = j - j0 ∧ lo - i0 ≤ ir ∧ ir < lo - i0 + n then v else gridVal s.a jr ir) ∧
      gridOnes s1.a = gridOnes s.a + (v - u) * n ∧ s1.count = s.count + d * n := by
  obtain ⟨_, _, _, _, hni, hnj, _⟩ := hfit
  have key := forRange_inv (markCell i0 j0 v d j) n
    (fun k t => gridShape t.a nj ni ∧
      (∀ jr ir, gridVal t.a jr ir
        = if jr = j - j0 ∧ lo - i0 ≤ ir ∧ ir < lo - i0 + k then v else gridVal s.a jr ir) ∧
      gridOnes t.a = gridOnes s.a + (v - u) * k ∧ t.count = s.count + d * k) lo s
    ⟨hs, by
      intro jr ir
      have : ¬ (jr = j - j0 ∧ lo - i0 ≤ ir ∧ ir < lo - i0 + ((0 : Nat) : Int)) := by
        push_cast; omega
      rw [if_neg this], by push_cast; ring, by push_cast; ring⟩
    (by
      intro k t hk ⟨hts, htv, hto, htc⟩
      obtain ⟨h1, h2, h3, h4, h5⟩ := hin (lo + k) (by omega) (by omega)
      obtain ⟨g1, hg1, hg1s, hg1v, hg1o⟩ :=
        gridSet_some t.a nj ni (j - j0) (lo + k - i0) v hts h1 h2 h3 h4
      have e1 : sub64 j j0 = j - j0 := wrap64_eq _ (by omega) (by omega)
      have e2 : sub64 (lo + k) i0 = lo + k - i0 := wrap64_eq _ (by omega) (by omega)
      have e3 : add64 t.count d = t.count + d := by
        apply wrap64_eq
        · rw [htc]
          rcases hd with e | e <;> subst e <;> omega
        · rw [htc]
          rcases hd with e | e <;> subst e <;> omega
      refine ⟨⟨g1, t.count + d⟩, ?_, hg1s, ?_, ?_, ?_⟩
      · simp only [markCell, e1, e2, e3, hg1, Option.map_some']
      · intro jr ir
        rw [hg1v jr ir, htv jr ir]
        by_cases c1 : jr = j - j0 ∧ ir = lo + k - i0
        · have c2 : jr = j - j0 ∧ lo - i0 ≤ ir ∧ ir < lo - i0 + ((k + 1 : Nat) : Int) := by
            push_cast; omega
          rw [if_pos c1, if_pos c2]
        · by_cases c3 : jr = j - j0 ∧ lo - i0 ≤ ir ∧ ir < lo - i0 + (k : Int)
          · have c2 : jr = j - j0 ∧ lo - i0 ≤ ir ∧ ir < lo - i0 + ((k + 1 : Nat) : Int) := by
              push_cast; omega
            rw [if_neg c1, if_pos c3, if_pos c2]
          · have c2 : ¬ (jr = j - j0 ∧ lo - i0 ≤ ir ∧ ir < lo - i0 + ((k + 1 : Nat) : Int)) := by
              push_cast; omega
            rw [if_neg c1, if_neg c3, if_neg c2]
      · have hold : gridVal t.a (j - j0) (lo + k - i0) = u := by
          rw [htv]
          have c3 : ¬ (j - j0 = j - j0 ∧ lo - i0 ≤ lo + k - i0 ∧ lo + k - i0 < lo - i0 + (k : Int)) := by
            omega
          rw [if_neg c3]
          exact h5
        show gridOnes g1 = _
        rw [hg1o, hold, hto]
        push_cast
        ring
      · show t.count + d = _
        rw [htc]
        push_cast
        ring)
  exact key

theorem markFace_spec (i0 j0 v d u : Int) (f : voxelFace) (nj ni : Int) (s : fillState)
    (hs : gridShape s.a nj ni) (hfit : gridFits i0 j0 nj ni) (hd : d = 1 ∨ d = -1)
    (hc0 : -2 ^ 63 ≤ s.count ∧ s.count < 2 ^ 63)
    (hc1 : -2 ^ 63 ≤ s.count + d * f.area ∧ s.count + d * f.area < 2 ^ 63)
    (hfi : f.I0 ≤ f.I1) (hfj : f.J0 ≤ f.J1)
    (hin : ∀ i j, f.covers i j →
      0 ≤ j - j0 ∧ j - j0 < nj ∧ 0 ≤ i - i0 ∧ i - i0 < ni ∧ gridVal s.a (j - j0) (i - i0) = u) :
    ∃ s1, markFace i0 j0 v d f s = some s1 ∧ gridShape s1.a nj ni ∧
      (∀ i j, gridVal s1.a (j - j0) (i - i0)
        = if f.covers i j then v else gridVal s.a (j - j0) (i - i0)) ∧
      gridOnes s1.a = gridOnes s.a + (v - u) * f.area ∧ s1.count = s.count + d * f.area := by
  have hnI : (((f.I1 - f.I0 + 1).toNat : Nat) : Int) = f.I1 - f.I0 + 1 := by omega
  have hnJ : (((f.J1 - f.J0 + 1).toNat : Nat) : Int) = f.J1 - f.J0 + 1 := by omega
  have hcorner := hin f.I1 f.J1 ⟨hfi, le_refl _, hfj, le_refl _⟩
  have hI : f.I1 < 2 ^ 63 - 1 := by
    obtain ⟨_, h2, _⟩ := hfit
    omega
  have hJ : f.J1 < 2 ^ 63 - 1 := by
    obtain ⟨_, _, _, h4, _⟩ := hfit
    omega
  have hmf : markFace i0 j0 v d f s = forRange f.J0 (f.J1 - f.J0 + 1).toNat
      (fun j => forRange f.I0 (f.I1 - f.I0 + 1).toNat (markCell i0 j0 v d j)) s := by
    unfold markFace forLe
    simp only [if_pos hI, if_pos hJ]
  rw [hmf]
  have harea : f.area = (f.J1 - f.J0 + 1) * (f.I1 - f.I0 + 1) := by
    unfold voxelFace.area
    ring
  rw [harea] at hc1
  have key := forRange_inv
    (fun j => forRange f.I0 (f.I1 - f.I0 + 1).toNat (markCell i0 j0 v d j))
    (f.J1 - f.J0 + 1).toNat
    (fun k t => gridShape t.a nj ni ∧
      (∀ jr ir, gridVal t.a jr ir
        = if (f.J0 - j0 ≤ jr ∧ jr < f.J0 - j0 + k) ∧ f.I0 - i0 ≤ ir ∧ ir ≤ f.I1 - i0 then v
          else gridVal s.a jr ir) ∧
      gridOnes t.a = gridOnes s.a + (v - u) * (k * (f.I1 - f.I0 + 1)) ∧
      t.count = s.count + d * (k * (f.I1 - f.I0 + 1))) f.J0 s
    ⟨hs, by
      intro jr ir
      have : ¬ ((f.J0 - j0 ≤ jr ∧ jr < f.J0 - j0 + ((0 : Nat) : Int)) ∧
          f.I0 - i0 ≤ ir ∧ ir ≤ f.I1 - i0) := by
        push_cast; omega
      rw [if_neg this], by push_cast; ring, by push_cast; ring⟩
    (by
      intro k t hk ⟨hts, htv, hto, htc⟩
      have hk0 : (0 : Int) ≤ (k : Int) * (f.I1 - f.I0 + 1) :=
        mul_nonneg (by omega) (by omega)
      have hk1 : (k : Int) * (f.I1 - f.I0 + 1) + (f.I1 - f.I0 + 1)
          ≤ (f.J1 - f.J0 + 1) * (f.I1 - f.I0 + 1) := by
        have : ((k : Int) + 1) * (f.I1 - f.I0 + 1) ≤ (f.J1 - f.J0 + 1) * (f.I1 - f.I0 + 1) :=
          mul_le_mul_of_nonneg_right (by omega) (by omega)
        linarith
      have hcr0 : -2 ^ 63 ≤ t.count ∧ t.count < 2 ^ 63 := by
        rw [htc]
        generalize (k : Int) * (f.I1 - f.I0 + 1) = P at hk0 hk1
        generalize (f.J1 - f.J0 + 1) * (f.I1 - f.I0 + 1) = Q at hk1 hc1
        rcases hd with e | e <;> subst e <;> omega
      have hcr1 : -2 ^ 63 ≤ t.count + d * ((f.I1 - f.I0 + 1).toNat : Int) ∧
          t.count + d * ((f.I1 - f.I0 + 1).toNat : Int) < 2 ^ 63 := by
        rw [htc, hnI]
        generalize (k : Int) * (f.I1 - f.I0 + 1) = P at hk0 hk1
        generalize (f.J1 - f.J0 + 1) * (f.I1 - f.I0 + 1) = Q at hk1 hc1
        rcases hd with e | e <;> subst e <;> omega
      obtain ⟨t1, ht1, ht1s, ht1v, ht1o, ht1c⟩ :=
        markRow_spec i0 j0 v d u (f.J0 + k) f.I0 (f.I1 - f.I0 + 1).toNat nj ni t hts hfit hd
          hcr0 hcr1 (by
          intro i hi0 hi1
          obtain ⟨h1, h2, h3, h4, h5⟩ := hin i (f.J0 + k) ⟨hi0, by omega, by omega, by omega⟩
          refine ⟨h1, h2, h3, h4, ?_⟩
          rw [htv]
          have c : ¬ ((f.J0 - j0 ≤ f.J0 + k - j0 ∧ f.J0 + k - j0 < f.J0 - j0 + (k : Int)) ∧
              f.I0 - i0 ≤ i - i0 ∧ i - i0 ≤ f.I1 - i0) := by omega
          rw [if_neg c]
          exact h5)
      refine ⟨t1, ht1, ht1s, ?_, ?_, ?_⟩
      · intro jr ir
        rw [ht1v jr ir, htv jr ir, hnI]
        by_cases c1 : jr = f.J0 + k - j0 ∧ f.I0 - i0 ≤ ir ∧ ir < f.I0 - i0 + (f.I1 - f.I0 + 1)
        · have c2 : (f.J0 - j0 ≤ jr ∧ jr < f.J0 - j0 + ((k + 1 : Nat) : Int)) ∧
              f.I0 - i0 ≤ ir ∧ ir ≤ f.I1 - i0 := by
            push_cast; omega
          rw [if_pos c1, if_pos c2]
        · by_cases c3 : (f.J0 - j0 ≤ jr ∧ jr < f.J0 - j0 + (k : Int)) ∧
              f.I0 - i0 ≤ ir ∧ ir ≤ f.I1 - i0
          · have c2 : (f.J0 - j0 ≤ jr ∧ jr < f.J0 - j0 + ((k + 1 : Nat) : Int)) ∧
                f.I0 - i0 ≤ ir ∧ ir ≤ f.I1 - i0 := by
              push_cast; omega
            rw [if_neg c1, if_pos c3, if_pos c2]
          · have c2 : ¬ ((f.J0 - j0 ≤ jr ∧ jr < f.J0 - j0 + ((k + 1 : Nat) : Int)) ∧
                f.I0 - i0 ≤ ir ∧ ir ≤ f.I1 - i0) := by
              push_cast; omega
            rw [if_neg c1, if_neg c3, if_neg c2]
      · rw [ht1o, hto, hnI]
        push_cast
        ring
      · rw [ht1c, htc, hnI]
        push_cast
        ring)
  obtain ⟨s1, hs1, hs1s, hs1v, hs1o, hs1c⟩ := key
  refine ⟨s1, hs1, hs1s, ?_, ?_, ?_⟩
  · intro i j
    rw [hs1v, hnJ]
    by_cases c : f.covers i j
    · have c2 : (f.J0 - j0 ≤ j - j0 ∧ j - j0 < f.J0 - j0 + (f.J1 - f.J0 + 1)) ∧
          f.I0 - i0 ≤ i - i0 ∧ i - i0 ≤ f.I1 - i0 := by
        obtain ⟨c1, c2, c3, c4⟩ := c
        omega
      rw [if_pos c, if_pos c2]
    · have c2 : ¬ ((f.J0 - j0 ≤ j - j0 ∧ j - j0 < f.J0 - j0 + (f.J1 - f.J0 + 1)) ∧
          f.I0 - i0 ≤ i - i0 ∧ i - i0 ≤ f.I1 - i0) := by
        intro h
        apply c
        refine ⟨?_, ?_, ?_, ?_⟩ <;> omega
      rw [if_neg c, if_neg c2]
  · rw [hs1o, hnJ, voxelFace.area]
    ring
  · rw [hs1c, hnJ, voxelFace.area]
    ring

theorem wrap64_add_left (x y : Int) : wrap64 (wrap64 x + y) = wrap64 (x + y) := by
  unfold wrap64
  omega

theorem wrap64_sub_left (x y : Int) : wrap64 (wrap64 x - y) = wrap64 (x - y) := by
  unfold wrap64
  omega

theorem succ_nowrap (v b : Int) (h0 : 0 ≤ v) (h1 : v < b) (hb : b < 2 ^ 63) :
    add64 v 1 = v + 1 :=
  wrap64_eq _ (by omega) (by omega)

theorem pred_nowrap (j b : Int) (h0 : 1 ≤ j) (h1 : j < b) (hb : b < 2 ^ 63) :
    sub64 j 1 = j - 1 :=
  wrap64_eq _ (by omega) (by omega)

theorem sub_nowrap (j k b : Int) (h0 : 0 ≤ k) (h1 : k ≤ j) (h2 : j < b) (hb : b < 2 ^ 63) :
    sub64 j k = j - k :=
  wrap64_eq _ (by omega) (by omega)

theorem add_nowrap (i0 i ni : Int) (h1 : -2 ^ 63 ≤ i0) (h2 : i0 + ni < 2 ^ 63) (hi0 : 0 ≤ i)
    (hi1 : i < ni) : add64 i0 i = i0 + i :=
  wrap64_eq _ (by omega) (by omega)

theorem mul_nowrap (k m nj ni : Int) (hk0 : 0 ≤ k) (hk : k + 1 ≤ nj) (hm0 : 0 ≤ m) (hm : m ≤ ni)
    (hnj : nj < 2 ^ 63) (h : nj * ni < 2 ^ 63) : mul64 (add64 k 1) m = (k + 1) * m := by
  have ek : add64 k 1 = k + 1 := wrap64_eq _ (by omega) (by omega)
  have hprod : (k + 1) * m ≤ nj * ni := mul_le_mul hk hm hm0 (by omega)
  have hp0 : 0 ≤ (k + 1) * m := mul_nonneg (by omega) hm0
  rw [ek]
  exact wrap64_eq _ (by omega) (by omega)

theorem left_nowrap (i0 i m ni : Int) (h1 : -2 ^ 63 ≤ i0) (h2 : i0 + ni < 2 ^ 63) (hi1 : i < ni)
    (hm1 : 1 ≤ m) (hm2 : m ≤ i + 1) :
    add64 (sub64 (add64 i0 i) m) 1 = i0 + i - m + 1 := by
  unfold add64 sub64
  rw [wrap64_sub_left, wrap64_add_left]
  exact wrap64_eq _ (by omega) (by omega)

theorem top_nowrap (j0 j k nj : Int) (h1 : -2 ^ 63 ≤ j0) (h2 : j0 + nj < 2 ^ 63) (hj1 : j < nj)
    (hk0 : 0 ≤ k) (hk : k ≤ j) : sub64 (add64 j0 j) k = j0 + j - k := by
  unfold add64 sub64
  rw [wrap64_sub_left]
  exact wrap64_eq _ (by omega) (by omega)

/-- The arithmetic of the loop over `dh` does not wrap for a cell of a grid
that fits. -/
theorem dh_nowrap (i0 j0 nj ni j i m : Int) (k : Nat) (hfit : gridFits i0 j0 nj ni)
    (hj0 : 0 ≤ j) (hj1 : j < nj) (hi0 : 0 ≤ i) (hi1 : i < ni) (hk : (k : Int) ≤ j)
    (hm1 : 1 ≤ m) (hm2 : m ≤ i + 1) :
    sub64 j (k : Int) = j - k ∧
    mul64 (add64 (k : Int) 1) m = ((k : Int) + 1) * m ∧
    add64 (sub64 (add64 i0 i) m) 1 = i0 + i - m + 1 ∧
    sub64 (add64 j0 j) (k : Int) = j0 + j - k ∧
    add64 i0 i = i0 + i ∧ add64 j0 j = j0 + j := by
  obtain ⟨hf1, hf2, hf3, hf4, hf5, hf6, hf7⟩ := hfit
  have hk0 : (0 : Int) ≤ (k : Int) := Int.ofNat_nonneg k
  exact ⟨sub_nowrap j k nj hk0 hk hj1 hf6,
    mul_nowrap k m nj ni hk0 (by linarith) (by linarith) (by linarith) hf6 hf7,
    left_nowrap i0 i m ni hf1 hf2 hi1 hm1 hm2,
    top_nowrap j0 j k nj hf3 hf4 hj1 hk0 hk,
    add_nowrap i0 i ni hf1 hf2 hi0 hi1, add_nowrap j0 j nj hf3 hf4 hj0 hj1⟩

theorem gridFits_ni (i0 j0 nj ni : Int) (h : gridFits i0 j0 nj ni) : ni < 2 ^ 63 := by
  obtain ⟨_, _, _, _, h5, _, _⟩ := h
  exact h5

theorem gridFits_nj (i0 j0 nj ni : Int) (h : gridFits i0 j0 nj ni) : nj < 2 ^ 63 := by
  obtain ⟨_, _, _, _, _, h6, _⟩ := h
  exact h6

theorem gridFits_cells (i0 j0 nj ni : Int) (h : gridFits i0 j0 nj ni) : nj * ni < 2 ^ 63 := by
  obtain ⟨_, _, _, _, _, _, h7⟩ := h
  exact h7

theorem sum_le_length_mul (l : List Int) (c : Int) (h : ∀ x ∈ l, x ≤ c) :
    l.sum ≤ (l.length : Int) * c := by
  induction l with
  | nil => simp
  | cons a l ih =>
    have ha := h a (List.mem_cons_self a l)
    have hl := ih (fun x hx => h x (List.mem_cons_of_mem a hx))
    rw [List.sum_cons, List.length_cons]
    push_cast
    linarith [show ((l.length : Int) + 1) * c = (l.length : Int) * c + c by ring]

theorem gridOnes_le (g : List (List Int)) (nj ni : Int) (hs : gridShape g nj ni)
    (hb : gridBits g) : gridOnes g ≤ nj * ni := by
  have hx : ∀ row ∈ g, ∀ x ∈ row, x ≤ 1 := by
    intro row hrow x hx
    obtain ⟨j, i, e⟩ := mem_gridVal g row x hrow hx
    rw [← e]
    rcases hb j i with h | h <;> omega
  have hrows : ∀ r ∈ g.map List.sum, r ≤ ni := by
    intro r hr
    obtain ⟨row, hrow, e⟩ := List.mem_map.mp hr
    have h1 := sum_le_length_mul row 1 (hx row hrow)
    rw [hs.2 row hrow] at h1
    omega
  have h2 := sum_le_length_mul (g.map List.sum) ni hrows
  rw [List.length_map, hs.1] at h2
  exact h2

theorem gridVal_neg (g : List (List Int)) (j i : Int) (h : j < 0 ∨ i < 0) :
    gridVal g j i = 0 := by
  have hc : ¬ (0 ≤ j ∧ 0 ≤ i) := by omega
  simp only [gridVal, gridGet, if_neg hc, Option.getD_none]

theorem wSound_bound (a w : List (List Int)) (hw : wSound a w) (j i : Int) (hi : 0 ≤ i) :
    gridVal w j i ≤ i + 1 := by
  by_contra hlt
  have h1 := (hw j i).2 (-1) (by omega) (by omega)
  rw [gridVal_neg a j (-1) (Or.inr (by omega))] at h1
  omega

theorem hSound_bound (a w h : List (List Int)) (hh : hSound a w h) (j i : Int) (hj : 0 ≤ j) :
    gridVal h j i ≤ j + 1 := by
  by_contra hlt
  have h1 := ((hh j i).2 (-1) (by omega) (by omega)).1
  rw [gridVal_neg a (-1) i (Or.inl (by omega))] at h1
  omega

theorem dhLoop_spec (a w : List (List Int)) (i0 j0 j i nj ni : Int) (hws : gridShape w nj ni)
    (hfit : gridFits i0 j0 nj ni)
    (hw : wSound a w) (hj0 : 0 ≤ j) (hj1 : j < nj) (hi0 : 0 ≤ i) (hi1 : i < ni) (n : Nat)
    (hn : (n : Int) ≤ j + 1)
    (hrun : ∀ t : Int, 0 ≤ t → t < n → gridVal a (j - t) i = 1 ∧ 1 ≤ gridVal w (j - t) i)
    (A : Int) (F : voxelFace) (hA : 0 ≤ A) (hF : 0 < A → rectOnes a i0 j0 F) :
    ∃ d, forRange 0 n (dhBody w i0 j0 j i) ⟨gridVal w j i, A, F⟩ = some d ∧
      A ≤ d.maxArea ∧ (0 < d.maxArea → rectOnes a i0 j0 d.maxFace) ∧
      (0 < n → 0 < d.maxArea) := by
  by_cases hn0 : n = 0
  · subst hn0
    exact ⟨⟨gridVal w j i, A, F⟩, rfl, le_refl _, hF, fun h => absurd h (lt_irrefl 0)⟩
  have hw0 : 1 ≤ gridVal w j i := by
    have := (hrun 0 (le_refl _) (by omega)).2
    simpa using this
  have key := forRange_inv (dhBody w i0 j0 j i) n
    (fun k d => 1 ≤ d.minw ∧ d.minw ≤ gridVal w j i ∧
      (∀ t : Int, 0 ≤ t → t < k → d.minw ≤ gridVal w (j - t) i) ∧
      A ≤ d.maxArea ∧ (0 < d.maxArea → rectOnes a i0 j0 d.maxFace) ∧
      (0 < k → 0 < d.maxArea)) 0 ⟨gridVal w j i, A, F⟩
    ⟨hw0, le_refl _, by intro t h0 h1; exfalso; simp at h1; omega, le_refl _, hF,
      fun h => absurd h (lt_irrefl 0)⟩
    (by
      intro k d hk ⟨hm1, hm2, hm3, hA1, hF1, _⟩
      obtain ⟨ha1, hx1⟩ := hrun k (by omega) (by omega)
      rw [zero_add]
      have hget : gridGet w (j - (k : Int)) i = some (gridVal w (j - k) i) :=
        gridGet_some w nj ni (j - k) i hws (by omega) (by omega) hi0 hi1
      generalize hx : gridVal w (j - k) i = x at hget hx1
      have hmin1 : 1 ≤ (if x < d.minw then x else d.minw) := by
        split <;> omega
      have hmin2 : (if x < d.minw then x else d.minw) ≤ d.minw := by
        split <;> omega
      have hmin3 : (if x < d.minw then x else d.minw) ≤ x := by
        split <;> omega
      generalize hm : (if x < d.minw then x else d.minw) = m at hmin1 hmin2 hmin3
      have hbody : dhBody w i0 j0 j i (k : Int) d = some
          (if ((k : Int) + 1) * m > d.maxArea then
            ⟨m, ((k : Int) + 1) * m, ⟨i0 + i - m + 1, j0 + j - (k : Int), i0 + i, j0 + j⟩⟩
           else ⟨m, d.maxArea, d.maxFace⟩) := by
        obtain ⟨e1, e2, e3, e4, e5, e6⟩ := dh_nowrap i0 j0 nj ni j i m k hfit hj0 hj1 hi0 hi1
          (by omega) hmin1 (by
            have := wSound_bound a w hw j i hi0
            omega)
        simp only [dhBody, e1, hget, Option.map_some', hm, e2]
        rw [e3, e4, e5, e6]
      have harea : 1 ≤ ((k : Int) + 1) * m := by
        have : (1 : Int) * 1 ≤ ((k : Int) + 1) * m :=
          mul_le_mul (by omega) hmin1 (by omega) (by omega)
        omega
      have hrows : ∀ t : Int, 0 ≤ t → t < ((k + 1 : Nat) : Int) → m ≤ gridVal w (j - t) i := by
        intro t h0 h1
        by_cases ht : t < k
        · exact le_trans hmin2 (hm3 t h0 ht)
        · have : t = k := by push_cast at h1; omega
          rw [this, hx]
          exact hmin3
      by_cases hgt : ((k : Int) + 1) * m > d.maxArea
      · refine ⟨⟨m, ((k : Int) + 1) * m,
          ⟨i0 + i - m + 1, j0 + j - (k : Int), i0 + i, j0 + j⟩⟩, ?_, hmin1, ?_,
          hrows, ?_, ?_, ?_⟩
        · rw [hbody, if_pos hgt]
        · show m ≤ gridVal w j i
          omega
        · show A ≤ ((k : Int) + 1) * m
          omega
        · intro _
          refine ⟨by show i0 + i - m + 1 ≤ i0 + i; omega,
            by show j0 + j - (k : Int) ≤ j0 + j; omega, ?_⟩
          intro i1 j1 hc
          obtain ⟨c1, c2, c3, c4⟩ := hc
          simp only at c1 c2 c3 c4
          have hmt : m ≤ gridVal w (j - (j + j0 - j1)) i :=
            hrows (j + j0 - j1) (by omega) (by push_cast; omega)
          have := (hw (j - (j + j0 - j1)) i).2 (i1 - i0) (by omega) (by omega)
          have e : j - (j + j0 - j1) = j1 - j0 := by ring
          rw [e] at this
          exact this
        · intro _
          show 0 < ((k : Int) + 1) * m
          omega
      · refine ⟨⟨m, d.maxArea, d.maxFace⟩, ?_, hmin1, ?_, hrows, hA1, hF1, ?_⟩
        · rw [hbody, if_neg hgt]
        · show m ≤ gridVal w j i
          omega
        · intro _
          show 0 < d.maxArea
          omega)
  obtain ⟨d, hd, _, _, _, h4, h5, h6⟩ := key
  exact ⟨d, hd, h4, h5, h6⟩

theorem scanCell_spec (a : List (List Int)) (i0 j0 nj ni j i : Int) (s : scanState)
    (ha : gridShape a nj ni) (hb : gridBits a) (hfit : gridFits i0 j0 nj ni)
    (hinv : scanInv a nj ni i0 j0 s)
    (hj0 : 0 ≤ j) (hj1 : j < nj) (hi0 : 0 ≤ i) (hi1 : i < ni) :
    ∃ s1, scanCell a i0 j0 j i s = some s1 ∧ scanInv a nj ni i0 j0 s1 ∧
      s.maxArea ≤ s1.maxArea ∧ (gridVal a j i = 1 → 0 < s1.maxArea) := by
  obtain ⟨hws, hhs, hw, hh, hA, hF⟩ := hinv
  have hga := gridGet_some a nj ni j i ha hj0 hj1 hi0 hi1
  by_cases hv : gridVal a j i = 0
  · refine ⟨s, ?_, ⟨hws, hhs, hw, hh, hA, hF⟩, le_refl _, ?_⟩
    · simp only [scanCell, hga, Option.some_bind, hv, if_true]
    · intro h1
      omega
  have hone : gridVal a j i = 1 := by
    rcases hb j i with e | e
    · exact absurd e hv
    · exact e
  -- the new entry of `h`
  have hhv : ∃ hv1, (if j = 0 then some 1
      else (gridGet s.h (sub64 j 1) i).map (fun x => add64 x 1)) = some hv1 ∧ 1 ≤ hv1 ∧ hv1 ≤ j + 1 ∧
      (∀ j1, j - hv1 < j1 → j1 ≤ j - 1 → gridVal a j1 i = 1 ∧ 1 ≤ gridVal s.w j1 i) := by
    by_cases hj : j = 0
    · refine ⟨1, by rw [if_pos hj], le_refl _, by omega, ?_⟩
      intro j1 h1 h2
      omega
    · refine ⟨gridVal s.h (j - 1) i + 1, ?_, ?_, ?_, ?_⟩
      · have e1 : sub64 j 1 = j - 1 :=
          pred_nowrap j nj (by omega) hj1 (gridFits_nj i0 j0 nj ni hfit)
        have e2 : add64 (gridVal s.h (j - 1) i) 1 = gridVal s.h (j - 1) i + 1 :=
          succ_nowrap _ nj (hh (j - 1) i).1 (by
            have := hSound_bound a s.w s.h hh (j - 1) i (by omega)
            omega) (gridFits_nj i0 j0 nj ni hfit)
        rw [if_neg hj, e1, gridGet_some s.h nj ni (j - 1) i hhs (by omega) (by omega) hi0 hi1]
        simp only [Option.map_some', e2]
      · have := (hh (j - 1) i).1
        omega
      · have := hSound_bound a s.w s.h hh (j - 1) i (by omega)
        omega
      · intro j1 h1 h2
        exact (hh (j - 1) i).2 j1 (by omega) h2
  obtain ⟨hv1, hhv1, hhv2, hhv3, hhv4⟩ := hhv
  obtain ⟨h1, hh1, hh1s, hh1v, _⟩ := gridSet_some s.h nj ni j i hv1 hhs hj0 hj1 hi0 hi1
  -- the new entry of `w`
  have hwv : ∃ wv1, (if i = 0 then some 1
      else (gridGet s.w j (sub64 i 1)).map (fun x => add64 x 1)) = some wv1 ∧ 1 ≤ wv1 ∧
      (∀ i1, i - wv1 < i1 → i1 ≤ i - 1 → gridVal a j i1 = 1) := by
    by_cases hi : i = 0
    · refine ⟨1, by rw [if_pos hi], le_refl _, ?_⟩
      intro i1 h1 h2
      omega
    · refine ⟨gridVal s.w j (i - 1) + 1, ?_, ?_, ?_⟩
      · have e1 : sub64 i 1 = i - 1 :=
          pred_nowrap i ni (by omega) hi1 (gridFits_ni i0 j0 nj ni hfit)
        have e2 : add64 (gridVal s.w j (i - 1)) 1 = gridVal s.w j (i - 1) + 1 :=
          succ_nowrap _ ni (hw j (i - 1)).1 (by
            have := wSound_bound a s.w hw j (i - 1) (by omega)
            omega) (gridFits_ni i0 j0 nj ni hfit)
        rw [if_neg hi, e1, gridGet_some s.w nj ni j (i - 1) hws hj0 hj1 (by omega) (by omega)]
        simp only [Option.map_some', e2]
      · have := (hw j (i - 1)).1
        omega
      · intro i1 h1 h2
        exact (hw j (i - 1)).2 i1 (by omega) h2
  obtain ⟨wv1, hwv1, hwv2, hwv3⟩ := hwv
  obtain ⟨w1, hw1, hw1s, hw1v, _⟩ := gridSet_some s.w nj ni j i wv1 hws hj0 hj1 hi0 hi1
  have hw1ji : gridVal w1 j i = wv1 := by
    rw [hw1v]
    simp only [and_self, if_true]
  have hh1ji : gridVal h1 j i = hv1 := by
    rw [hh1v]
    simp only [and_self, if_true]
  have hw1ge : ∀ j1 i1, 1 ≤ gridVal s.w j1 i1 → 1 ≤ gridVal w1 j1 i1 := by
    intro j1 i1 h
    rw [hw1v]
    split
    · exact hwv2
    · exact h
  have hwS : wSound a w1 := by
    intro j1 i1
    by_cases hc : j1 = j ∧ i1 = i
    · obtain ⟨e1, e2⟩ := hc
      subst e1
      subst e2
      rw [hw1ji]
      refine ⟨by omega, ?_⟩
      intro i2 h1 h2
      by_cases hi2 : i2 = i1
      · rw [hi2]
        exact hone
      · exact hwv3 i2 h1 (by omega)
    · rw [hw1v, if_neg hc]
      exact hw j1 i1
  have hhS : hSound a w1 h1 := by
    intro j1 i1
    by_cases hc : j1 = j ∧ i1 = i
    · obtain ⟨e1, e2⟩ := hc
      subst e1
      subst e2
      rw [hh1ji]
      refine ⟨by omega, ?_⟩
      intro j2 h1 h2
      by_cases hj2 : j2 = j1
      · rw [hj2, hw1ji]
        exact ⟨hone, hwv2⟩
      · obtain ⟨r1, r2⟩ := hhv4 j2 h1 (by omega)
        exact ⟨r1, hw1ge j2 i1 r2⟩
    · rw [hh1v, if_neg hc]
      refine ⟨(hh j1 i1).1, ?_⟩
      intro j2 h1 h2
      obtain ⟨r1, r2⟩ := (hh j1 i1).2 j2 h1 h2
      exact ⟨r1, hw1ge j2 i1 r2⟩
  have hgw := gridGet_some w1 nj ni j i hw1s hj0 hj1 hi0 hi1
  have hgh := gridGet_some h1 nj ni j i hh1s hj0 hj1 hi0 hi1
  obtain ⟨d, hd, hd1, hd2, hd3⟩ := dhLoop_spec a w1 i0 j0 j i nj ni hw1s hfit hwS hj0 hj1
    hi0 hi1
    hv1.toNat (by omega) (by
      intro t h0 h1
      have := (hhS j i).2 (j - t) (by rw [hh1ji]; omega) (by omega)
      exact this) s.maxArea s.maxFace hA hF
  refine ⟨⟨w1, h1, d.maxArea, d.maxFace⟩, ?_, ⟨hw1s, hh1s, hwS, hhS, ?_, hd2⟩, hd1, ?_⟩
  · simp only [scanCell, hga, Option.some_bind, hv, if_false, hhv1, hh1, hwv1, hw1, hgw, hgh,
      hh1ji, hd, Option.map_some']
  · show 0 ≤ d.maxArea
    omega
  · intro _
    exact hd3 (by omega)

theorem scanRow_spec (a : List (List Int)) (i0 j0 nj ni j : Int) (s : scanState)
    (ha : gridShape a nj ni) (hb : gridBits a) (hfit : gridFits i0 j0 nj ni)
    (hinv : scanInv a nj ni i0 j0 s) (hj0 : 0 ≤ j) (hj1 : j < nj) :
    ∃ s1, forRange 0 ni.toNat (scanCell a i0 j0 j) s = some s1 ∧ scanInv a nj ni i0 j0 s1 ∧
      s.maxArea ≤ s1.maxArea ∧ (∀ i, gridVal a j i = 1 → 0 < s1.maxArea) := by
  obtain ⟨s1, hs1, h1, h2, h3⟩ := forRange_inv (scanCell a i0 j0 j) ni.toNat
    (fun k t => scanInv a nj ni i0 j0 t ∧ s.maxArea ≤ t.maxArea ∧
      (∀ i : Int, 0 ≤ i → i < k → gridVal a j i = 1 → 0 < t.maxArea)) 0 s
    ⟨hinv, le_refl _, by intro i h0 h1; exfalso; simp at h1; omega⟩
    (by
      intro k t hk ⟨hti, htm, hto⟩
      rw [zero_add]
      obtain ⟨t1, ht1, ht1i, ht1m, ht1o⟩ :=
        scanCell_spec a i0 j0 nj ni j k t ha hb hfit hti hj0 hj1 (by omega) (by omega)
      refine ⟨t1, ht1, ht1i, by omega, ?_⟩
      intro i h0 h1 hone
      by_cases hik : i < k
      · have := hto i h0 hik hone
        omega
      · have e : i = k := by push_cast at h1; omega
        rw [e] at hone
        exact ht1o hone)
  refine ⟨s1, hs1, h1, h2, ?_⟩
  intro i hone
  by_cases hin : 0 ≤ j ∧ j < nj ∧ 0 ≤ i ∧ i < ni
  · exact h3 i hin.2.2.1 (by omega) hone
  · rw [gridVal_outside a nj ni j i ha hin] at hone
    omega

theorem scanGrid_spec (a : List (List Int)) (i0 j0 nj ni : Int) (s : scanState)
    (ha : gridShape a nj ni) (hb : gridBits a) (hfit : gridFits i0 j0 nj ni)
    (hinv : scanInv a nj ni i0 j0 s) :
    ∃ s1, scanGrid a i0 j0 nj ni s = some s1 ∧ scanInv a nj ni i0 j0 s1 ∧
      (∀ j i, gridVal a j i = 1 → 0 < s1.maxArea) := by
  obtain ⟨s1, hs1, h1, h2⟩ := forRange_inv
    (fun j => forRange 0 ni.toNat (scanCell a i0 j0 j)) nj.toNat
    (fun k t => scanInv a nj ni i0 j0 t ∧
      (∀ j i : Int, 0 ≤ j → j < k → gridVal a j i = 1 → 0 < t.maxArea)) 0 s
    ⟨hinv, by intro j i h0 h1; exfalso; simp at h1; omega⟩
    (by
      intro k t hk ⟨hti, hto⟩
      rw [zero_add]
      obtain ⟨t1, ht1, ht1i, ht1m, ht1o⟩ :=
        scanRow_spec a i0 j0 nj ni k t ha hb hfit hti (by omega) (by omega)
      refine ⟨t1, ht1, ht1i, ?_⟩
      intro j i h0 h1 hone
      by_cases hjk : j < k
      · have := hto j i h0 hjk hone
        omega
      · have e : j = k := by push_cast at h1; omega
        rw [e] at hone
        exact ht1o i hone)
  refine ⟨s1, hs1, h1, ?_⟩
  intro j i hone
  by_cases hin : 0 ≤ j ∧ j < nj ∧ 0 ≤ i ∧ i < ni
  · exact h2 j i hin.1 (by omega) hone
  · rw [gridVal_outside a nj ni j i ha hin] at hone
    omega

theorem resetRow_spec (nj ni j : Int) (s : List (List Int) × List (List Int))
    (hw : gridShape s.1 nj ni) (hh : gridShape s.2 nj ni) (hj0 : 0 ≤ j) (hj1 : j < nj)
    (hz : ∀ jr ir, jr < j → gridVal s.1 jr ir = 0 ∧ gridVal s.2 jr ir = 0) :
    ∃ s1, forRange 0 ni.toNat (resetCell j) s = some s1 ∧ gridShape s1.1 nj ni ∧
      gridShape s1.2 nj ni ∧
      (∀ jr ir, jr < j + 1 → gridVal s1.1 jr ir = 0 ∧ gridVal s1.2 jr ir = 0) := by
  obtain ⟨s1, hs1, h1, h2, h3⟩ := forRange_inv (resetCell j) ni.toNat
    (fun k t => gridShape t.1 nj ni ∧ gridShape t.2 nj ni ∧
      (∀ jr ir : Int, (jr < j ∨ (jr = j ∧ ir < k)) →
        gridVal t.1 jr ir = 0 ∧ gridVal t.2 jr ir = 0)) 0 s
    ⟨hw, hh, by
      intro jr ir h
      rcases h with h | h
      · exact hz jr ir h
      · by_cases hneg : ir < 0
        · exact ⟨gridVal_neg _ _ _ (Or.inr hneg), gridVal_neg _ _ _ (Or.inr hneg)⟩
        · exfalso
          have := h.2
          simp at this
          omega⟩
    (by
      intro k t hk ⟨htw, hth, htz⟩
      rw [zero_add]
      obtain ⟨w1, hw1, hw1s, hw1v, _⟩ :=
        gridSet_some t.1 nj ni j k 0 htw hj0 hj1 (by omega) (by omega)
      obtain ⟨h1, hh1, hh1s, hh1v, _⟩ :=
        gridSet_some t.2 nj ni j k 0 hth hj0 hj1 (by omega) (by omega)
      refine ⟨(w1, h1), ?_, hw1s, hh1s, ?_⟩
      · simp only [resetCell, hw1, Option.some_bind, hh1, Option.map_some']
      · intro jr ir h
        show gridVal w1 jr ir = 0 ∧ gridVal h1 jr ir = 0
        rw [hw1v, hh1v]
        by_cases hc : jr = j ∧ ir = k
        · rw [if_pos hc, if_pos hc]
          exact ⟨rfl, rfl⟩
        · rw [if_neg hc, if_neg hc]
          apply htz
          push_cast at h
          omega)
  refine ⟨s1, hs1, h1, h2, ?_⟩
  intro jr ir hjr
  by_cases hin : 0 ≤ jr ∧ jr < nj ∧ 0 ≤ ir ∧ ir < ni
  · apply h3
    omega
  · exact ⟨gridVal_outside _ nj ni jr ir h1 hin, gridVal_outside _ nj ni jr ir h2 hin⟩

theorem resetGrids_spec (nj ni : Int) (s : List (List Int) × List (List Int))
    (hw : gridShape s.1 nj ni) (hh : gridShape s.2 nj ni) :
    ∃ s1, resetGrids nj ni s = some s1 ∧ gridShape s1.1 nj ni ∧ gridShape s1.2 nj ni ∧
      (∀ jr ir, gridVal s1.1 jr ir = 0 ∧ gridVal s1.2 jr ir = 0) := by
  obtain ⟨s1, hs1, h1, h2, h3⟩ := forRange_inv
    (fun j => forRange 0 ni.toNat (resetCell j)) nj.toNat
    (fun k t => gridShape t.1 nj ni ∧ gridShape t.2 nj ni ∧
      (∀ jr ir : Int, jr < k → gridVal t.1 jr ir = 0 ∧ gridVal t.2 jr ir = 0)) 0 s
    ⟨hw, hh, by
      intro jr ir h
      have hneg : jr < 0 := by simpa using h
      exact ⟨gridVal_neg _ _ _ (Or.inl hneg), gridVal_neg _ _ _ (Or.inl hneg)⟩⟩
    (by
      intro k t hk ⟨htw, hth, htz⟩
      rw [zero_add]
      obtain ⟨t1, ht1, ht1w, ht1h, ht1z⟩ :=
        resetRow_spec nj ni k t htw hth (by omega) (by omega) htz
      refine ⟨t1, ht1, ht1w, ht1h, ?_⟩
      intro jr ir h
      apply ht1z
      push_cast at h
      exact h)
  refine ⟨s1, hs1, h1, h2, ?_⟩
  intro jr ir
  by_cases hin : 0 ≤ jr ∧ jr < nj ∧ 0 ≤ ir ∧ ir < ni
  · apply h3
    omega
  · exact ⟨gridVal_outside _ nj ni jr ir h1 hin, gridVal_outside _ nj ni jr ir h2 hin⟩

theorem count_nowrap (c area N : Int) (hc0 : 0 ≤ c) (hcN : c ≤ N) (ha0 : 0 ≤ area)
    (haN : area ≤ N) (hN : N < 2 ^ 63) :
    (-2 ^ 63 ≤ c ∧ c < 2 ^ 63) ∧
      (-2 ^ 63 ≤ c + -1 * area ∧ c + -1 * area < 2 ^ 63) := by
  refine ⟨⟨?_, ?_⟩, ?_, ?_⟩ <;> omega

theorem fill_nowrap (c n : Int) (hc0 : -2 ^ 63 ≤ c) (hn : 0 ≤ n)
    (hcN : c + (n + 1) < 2 ^ 63) :
    (-2 ^ 63 ≤ c ∧ c < 2 ^ 63) ∧ (-2 ^ 63 ≤ c + 1 * 1 ∧ c + 1 * 1 < 2 ^ 63) ∧
      (-2 ^ 63 ≤ c + 1 * 1 ∧ c + 1 * 1 + n < 2 ^ 63) := by
  refine ⟨⟨?_, ?_⟩, ⟨?_, ?_⟩, ?_, ?_⟩ <;> omega

theorem combineStep_spec (cells : Int → Int → Prop) (N i0 j0 nj ni : Int) (s : combineState)
    (hfit : gridFits i0 j0 nj ni) (hinv : combineInv cells N i0 j0 nj ni s)
    (hc : 0 < s.count) :
    ∃ s1, combineStep i0 j0 nj ni s = some s1 ∧ combineInv cells N i0 j0 nj ni s1 ∧
      s1.count < s.count := by
  obtain ⟨ha, hw, hh, hb, hz, hcnt, hwf, hpw, hres, hcov, hsum⟩ := hinv
  have hsi : scanInv s.a nj ni i0 j0 ⟨s.w, s.h, 0, ⟨0, 0, 0, 0⟩⟩ := by
    refine ⟨hw, hh, ?_, ?_, le_refl _, fun h => absurd h (lt_irrefl 0)⟩
    · intro j i
      show 0 ≤ gridVal s.w j i ∧ ∀ i1, i - gridVal s.w j i < i1 → i1 ≤ i → gridVal s.a j i1 = 1
      rw [(hz j i).1]
      exact ⟨le_refl _, fun i1 h1 h2 => by omega⟩
    · intro j i
      show 0 ≤ gridVal s.h j i ∧ ∀ j1, j - gridVal s.h j i < j1 → j1 ≤ j →
        gridVal s.a j1 i = 1 ∧ 1 ≤ gridVal s.w j1 i
      rw [(hz j i).2]
      exact ⟨le_refl _, fun j1 h1 h2 => by omega⟩
  obtain ⟨sc, hsc, hsci, hscpos⟩ := scanGrid_spec s.a i0 j0 nj ni _ ha hb hfit hsi
  obtain ⟨hscw, hsch, _, _, _, hscF⟩ := hsci
  obtain ⟨jo, io, hone⟩ := (gridOnes_bits s.a hb).2.2 (by omega)
  obtain ⟨hFi, hFj, hFones⟩ := hscF (hscpos jo io hone)
  have hinAll : ∀ i j, sc.maxFace.covers i j →
      0 ≤ j - j0 ∧ j - j0 < nj ∧ 0 ≤ i - i0 ∧ i - i0 < ni ∧
        gridVal s.a (j - j0) (i - i0) = 1 := by
    intro i j hcv
    have h1 := hFones i j hcv
    have hin : 0 ≤ j - j0 ∧ j - j0 < nj ∧ 0 ≤ i - i0 ∧ i - i0 < ni := by
      by_contra hn
      rw [gridVal_outside s.a nj ni _ _ ha hn] at h1
      omega
    exact ⟨hin.1, hin.2.1, hin.2.2.1, hin.2.2.2, h1⟩
  have hcs : (-2 ^ 63 ≤ s.count ∧ s.count < 2 ^ 63) ∧
      (-2 ^ 63 ≤ s.count + -1 * sc.maxFace.area ∧
        s.count + -1 * sc.maxFace.area < 2 ^ 63) := by
    have hlo := hinAll sc.maxFace.I0 sc.maxFace.J0 ⟨le_refl _, hFi, le_refl _, hFj⟩
    have hhi := hinAll sc.maxFace.I1 sc.maxFace.J1 ⟨hFi, le_refl _, hFj, le_refl _⟩
    have hareaLe : sc.maxFace.area ≤ nj * ni := by
      unfold voxelFace.area
      have : (sc.maxFace.I1 - sc.maxFace.I0 + 1) * (sc.maxFace.J1 - sc.maxFace.J0 + 1)
          ≤ ni * nj := mul_le_mul (by omega) (by omega) (by omega) (by omega)
      linarith [mul_comm ni nj]
    have hareaPos : 0 ≤ sc.maxFace.area := by
      unfold voxelFace.area
      exact mul_nonneg (by omega) (by omega)
    rw [hcnt]
    exact count_nowrap _ _ _ (gridOnes_bits s.a hb).1 (gridOnes_le s.a nj ni ha hb) hareaPos
      hareaLe (gridFits_cells i0 j0 nj ni hfit)
  obtain ⟨cl, hcl, hcls, hclv, hclo, hclc⟩ := markFace_spec i0 j0 0 (-1) 1 sc.maxFace nj ni
    ⟨s.a, s.count⟩ ha hfit (Or.inr rfl) hcs.1 hcs.2 hFi hFj hinAll
  clear hcs
  obtain ⟨wh, hwh, hwhw, hwhh, hwhz⟩ := resetGrids_spec nj ni (sc.w, sc.h) hscw hsch
  have harea : 1 ≤ sc.maxFace.area := by
    have : 0 < (sc.maxFace.I1 - sc.maxFace.I0 + 1) * (sc.maxFace.J1 - sc.maxFace.J0 + 1) :=
      mul_pos (by omega) (by omega)
    unfold voxelFace.area
    omega
  have hclv1 : ∀ i j, gridVal cl.a (j - j0) (i - i0)
      = if sc.maxFace.covers i j then 0 else gridVal s.a (j - j0) (i - i0) := hclv
  have hclo1 : gridOnes cl.a = gridOnes s.a - sc.maxFace.area := by
    rw [hclo]
    show gridOnes s.a + (0 - 1) * sc.maxFace.area = _
    ring
  have hclc1 : cl.count = s.count - sc.maxFace.area := by
    rw [hclc]
    show s.count + -1 * sc.maxFace.area = _
    ring
  refine ⟨⟨cl.a, wh.1, wh.2, cl.count, s.result ++ [sc.maxFace]⟩, ?_,
    ⟨hcls, hwhw, hwhh, ?_, hwhz, ?_, ?_, ?_, ?_, ?_, ?_⟩, ?_⟩
  · simp only [combineStep, hsc, Option.some_bind, hcl, hwh, Option.map_some']
  · intro jr ir
    have e := hclv1 (ir + i0) (jr + j0)
    rw [add_sub_cancel_right, add_sub_cancel_right] at e
    show gridVal cl.a jr ir = 0 ∨ gridVal cl.a jr ir = 1
    rw [e]
    split
    · left; rfl
    · exact hb jr ir
  · show cl.count = gridOnes cl.a
    rw [hclc1, hclo1, hcnt]
  · intro r hr
    rcases List.mem_append.mp hr with h | h
    · exact hwf r h
    · rw [List.mem_singleton.mp h]
      exact ⟨hFi, hFj⟩
  · show (s.result ++ [sc.maxFace]).Pairwise _
    rw [List.pairwise_append]
    refine ⟨hpw, List.pairwise_singleton _ _, ?_⟩
    intro r hr t ht i j hboth
    rw [List.mem_singleton.mp ht] at hboth
    have h0 := hres r hr i j hboth.1
    have h1 := hFones i j hboth.2
    omega
  · intro r hr i j hcv
    show gridVal cl.a (j - j0) (i - i0) = 0
    rw [hclv1]
    split
    · rfl
    · rcases List.mem_append.mp hr with h | h
      · exact hres r h i j hcv
      · rw [List.mem_singleton.mp h] at hcv
        contradiction
  · intro i j
    show cells i j ↔ (gridVal cl.a (j - j0) (i - i0) = 1 ∨
      ∃ r ∈ s.result ++ [sc.maxFace], r.covers i j)
    rw [hcov i j, hclv1]
    by_cases hcv : sc.maxFace.covers i j
    · rw [if_pos hcv]
      constructor
      · intro _
        exact Or.inr ⟨sc.maxFace, List.mem_append.mpr (Or.inr (List.mem_singleton.mpr rfl)), hcv⟩
      · intro _
        exact Or.inl (hFones i j hcv)
    · rw [if_neg hcv]
      constructor
      · intro h
        rcases h with h | ⟨r, hr, hrc⟩
        · exact Or.inl h
        · exact Or.inr ⟨r, List.mem_append.mpr (Or.inl hr), hrc⟩
      · intro h
        rcases h with h | ⟨r, hr, hrc⟩
        · exact Or.inl h
        · rcases List.mem_append.mp hr with h1 | h1
          · exact Or.inr ⟨r, h1, hrc⟩
          · rw [List.mem_singleton.mp h1] at hrc
            contradiction
  · show ((s.result ++ [sc.maxFace]).map voxelFace.area).sum + cl.count = N
    rw [List.map_append, List.sum_append, hclc1, ← hsum]
    simp only [List.map_cons, List.map_nil, List.sum_cons, List.sum_nil]
    ring
  · show cl.count < s.count
    rw [hclc1]
    omega

theorem combineLoop_spec (cells : Int → Int → Prop) (N i0 j0 nj ni : Int)
    (hfit : gridFits i0 j0 nj ni) (fuel : Nat) :
    ∀ (s : combineState), combineInv cells N i0 j0 nj ni s → s.count ≤ fuel →
      ∃ s1, combineLoop i0 j0 nj ni fuel s = some s1.result ∧
        combineInv cells N i0 j0 nj ni s1 ∧ s1.count = 0 := by
  induction fuel with
  | zero =>
    intro s hinv hle
    have h0 := (gridOnes_bits s.a hinv.2.2.2.1).1
    have hc := hinv.2.2.2.2.2.1
    have hn : ¬ s.count > 0 := by
      simp at hle
      omega
    refine ⟨s, by simp only [combineLoop, if_neg hn], hinv, ?_⟩
    simp at hle
    omega
  | succ fuel ih =>
    intro s hinv hle
    by_cases hpos : s.count > 0
    · obtain ⟨s1, hs1, hs1i, hs1c⟩ := combineStep_spec cells N i0 j0 nj ni s hfit hinv hpos
      obtain ⟨s2, hs2, hs2i, hs2c⟩ := ih s1 hs1i (by push_cast at hle; omega)
      exact ⟨s2, by simp only [combineLoop, if_pos hpos, hs1, Option.some_bind, hs2], hs2i,
        hs2c⟩
    · have h0 := (gridOnes_bits s.a hinv.2.2.2.1).1
      have hc := hinv.2.2.2.2.2.1
      exact ⟨s, by simp only [combineLoop, if_neg hpos], hinv, by omega⟩

theorem foldl_bounds (fs : List voxelFace) : ∀ b : voxelBounds,
    (fs.foldl boundsStep b).i0 ≤ b.i0 ∧ (fs.foldl boundsStep b).j0 ≤ b.j0 ∧
    b.i1 ≤ (fs.foldl boundsStep b).i1 ∧ b.j1 ≤ (fs.foldl boundsStep b).j1 ∧
    ∀ f ∈ fs, (fs.foldl boundsStep b).i0 ≤ f.I0 ∧ (fs.foldl boundsStep b).j0 ≤ f.J0 ∧
      f.I1 ≤ (fs.foldl boundsStep b).i1 ∧ f.J1 ≤ (fs.foldl boundsStep b).j1 := by
  induction fs with
  | nil =>
    intro b
    exact ⟨le_refl _, le_refl _, le_refl _, le_refl _,
      fun f hf => absurd hf (List.not_mem_nil f)⟩
  | cons g fs ih =>
    intro b
    obtain ⟨h1, h2, h3, h4, h5⟩ := ih (boundsStep b g)
    rw [List.foldl_cons]
    have e1 : (boundsStep b g).i0 ≤ b.i0 ∧ (boundsStep b g).i0 ≤ g.I0 := by
      show (if g.I0 < b.i0 then g.I0 else b.i0) ≤ b.i0 ∧
        (if g.I0 < b.i0 then g.I0 else b.i0) ≤ g.I0
      split <;> omega
    have e2 : (boundsStep b g).j0 ≤ b.j0 ∧ (boundsStep b g).j0 ≤ g.J0 := by
      show (if g.J0 < b.j0 then g.J0 else b.j0) ≤ b.j0 ∧
        (if g.J0 < b.j0 then g.J0 else b.j0) ≤ g.J0
      split <;> omega
    have e3 : b.i1 ≤ (boundsStep b g).i1 ∧ g.I1 ≤ (boundsStep b g).i1 := by
      show b.i1 ≤ (if g.I1 > b.i1 then g.I1 else b.i1) ∧
        g.I1 ≤ (if g.I1 > b.i1 then g.I1 else b.i1)
      split <;> omega
    have e4 : b.j1 ≤ (boundsStep b g).j1 ∧ g.J1 ≤ (boundsStep b g).j1 := by
      show b.j1 ≤ (if g.J1 > b.j1 then g.J1 else b.j1) ∧
        g.J1 ≤ (if g.J1 > b.j1 then g.J1 else b.j1)
      split <;> omega
    refine ⟨by omega, by omega, by omega, by omega, ?_⟩
    intro f hf
    rcases List.mem_cons.mp hf with e | e
    · rw [e]
      refine ⟨by omega, by omega, by omega, by omega⟩
    · exact h5 f e

theorem foldl_bounds_range (lo hi : Int) (fs : List voxelFace) : ∀ b : voxelBounds,
    (lo ≤ b.i0 ∧ b.i1 ≤ hi ∧ lo ≤ b.j0 ∧ b.j1 ≤ hi) →
    (∀ f ∈ fs, lo ≤ f.I0 ∧ f.I1 ≤ hi ∧ lo ≤ f.J0 ∧ f.J1 ≤ hi) →
    lo ≤ (fs.foldl boundsStep b).i0 ∧ (fs.foldl boundsStep b).i1 ≤ hi ∧
      lo ≤ (fs.foldl boundsStep b).j0 ∧ (fs.foldl boundsStep b).j1 ≤ hi := by
  induction fs with
  | nil =>
    intro b hb _
    exact hb
  | cons g fs ih =>
    intro b hb hf
    rw [List.foldl_cons]
    have hg := hf g (List.mem_cons_self g fs)
    apply ih (boundsStep b g) _ (fun f hm => hf f (List.mem_cons_of_mem g hm))
    show lo ≤ (if g.I0 < b.i0 then g.I0 else b.i0) ∧
      (if g.I1 > b.i1 then g.I1 else b.i1) ≤ hi ∧
      lo ≤ (if g.J0 < b.j0 then g.J0 else b.j0) ∧
      (if g.J1 > b.j1 then g.J1 else b.j1) ≤ hi
    refine ⟨?_, ?_, ?_, ?_⟩ <;> split <;> omega

/-- Pairwise distinct cells of a grid with `nj` rows and `ni` columns are at
most `nj * ni` many. -/
theorem distinct_cells_length (fs : List voxelFace) (i0 j0 nj ni : Int)
    (hdist : fs.Pairwise (fun f g => f.I0 ≠ g.I0 ∨ f.J0 ≠ g.J0))
    (hin : ∀ f ∈ fs, i0 ≤ f.I0 ∧ f.I0 < i0 + ni ∧ j0 ≤ f.J0 ∧ f.J0 < j0 + nj)
    (hni : 0 ≤ ni) (hnj : 0 ≤ nj) : (fs.length : Int) ≤ nj * ni := by
  have hnd : (fs.map (fun f => (f.I0, f.J0))).Nodup := by
    rw [List.Nodup, List.pairwise_map]
    refine hdist.imp ?_
    intro f g h e
    rw [Prod.mk.injEq] at e
    omega
  have hcard := List.toFinset_card_of_nodup hnd
  have hsub : (fs.map (fun f => (f.I0, f.J0))).toFinset
      ⊆ Finset.Ico i0 (i0 + ni) ×ˢ Finset.Ico j0 (j0 + nj) := by
    intro c hc
    rw [List.mem_toFinset, List.mem_map] at hc
    obtain ⟨f, hf, e⟩ := hc
    obtain ⟨h1, h2, h3, h4⟩ := hin f hf
    rw [← e, Finset.mem_product, Finset.mem_Ico, Finset.mem_Ico]
    exact ⟨⟨h1, h2⟩, ⟨h3, h4⟩⟩
  have hle := Finset.card_le_card hsub
  rw [hcard, Finset.card_product, Int.card_Ico, Int.card_Ico, List.length_map] at hle
  have e1 : (((i0 + ni - i0).toNat : Nat) : Int) = ni := by omega
  have e2 : (((j0 + nj - j0).toNat : Nat) : Int) = nj := by omega
  have hle2 : (fs.length : Int) ≤ (((i0 + ni - i0).toNat * (j0 + nj - j0).toNat : Nat) : Int) := by
    exact_mod_cast hle
  rw [Nat.cast_mul, e1, e2] at hle2
  linarith [mul_comm ni nj]

theorem fillFaces_spec (i0 j0 nj ni : Int) (hfit : gridFits i0 j0 nj ni)
    (fs : List voxelFace) :
    ∀ (s : fillState), gridShape s.a nj ni →
      (-2 ^ 63 ≤ s.count ∧ s.count + fs.length < 2 ^ 63) →
      (∀ f ∈ fs, f.I0 = f.I1 ∧ f.J0 = f.J1) →
      fs.Pairwise (fun f g => f.I0 ≠ g.I0 ∨ f.J0 ≠ g.J0) →
      (∀ f ∈ fs, 0 ≤ f.J0 - j0 ∧ f.J0 - j0 < nj ∧ 0 ≤ f.I0 - i0 ∧ f.I0 - i0 < ni ∧
        gridVal s.a (f.J0 - j0) (f.I0 - i0) = 0) →
      ∃ s1, forEach fs (markFace i0 j0 1 1) s = some s1 ∧ gridShape s1.a nj ni ∧
        (∀ i j, (∃ f ∈ fs, f.I0 = i ∧ f.J0 = j) → gridVal s1.a (j - j0) (i - i0) = 1) ∧
        (∀ i j, ¬ (∃ f ∈ fs, f.I0 = i ∧ f.J0 = j) →
          gridVal s1.a (j - j0) (i - i0) = gridVal s.a (j - j0) (i - i0)) ∧
        gridOnes s1.a = gridOnes s.a + fs.length ∧ s1.count = s.count + fs.length := by
  induction fs with
  | nil =>
    intro s hs _ _ _ _
    refine ⟨s, rfl, hs, ?_, fun i j _ => rfl, by simp, by simp⟩
    intro i j h
    obtain ⟨f, hf, _⟩ := h
    exact absurd hf (List.not_mem_nil f)
  | cons g fs ih =>
    intro s hs hcount hunit hdist hin
    obtain ⟨hgu1, hgu2⟩ := hunit g (List.mem_cons_self g fs)
    have hgin := hin g (List.mem_cons_self g fs)
    have hcov : ∀ i j, g.covers i j ↔ (i = g.I0 ∧ j = g.J0) := by
      intro i j
      unfold voxelFace.covers
      constructor
      · intro h
        omega
      · intro h
        omega
    have hga : g.area = 1 := by
      unfold voxelFace.area
      rw [hgu1, hgu2]
      ring
    have hcs := fill_nowrap s.count fs.length hcount.1 (Int.ofNat_nonneg _) (by
      have h2 := hcount.2
      rw [List.length_cons] at h2
      push_cast at h2
      exact h2)
    clear hcount
    obtain ⟨s1, hs1, hs1s, hs1v, hs1o, hs1c⟩ := markFace_spec i0 j0 1 1 0 g nj ni s hs hfit
      (Or.inl rfl) hcs.1 (by rw [hga]; exact hcs.2.1)
      (by omega) (by omega) (by
        intro i j hc
        obtain ⟨e1, e2⟩ := (hcov i j).mp hc
        rw [e1, e2]
        exact hgin)
    rw [hga] at hs1o hs1c
    rw [List.pairwise_cons] at hdist
    obtain ⟨s2, hs2, hs2s, hs2v1, hs2v2, hs2o, hs2c⟩ := ih s1 hs1s
      (by rw [hs1c]; exact hcs.2.2)
      (fun f hf => hunit f (List.mem_cons_of_mem g hf)) hdist.2 (by
        intro f hf
        obtain ⟨h1, h2, h3, h4, h5⟩ := hin f (List.mem_cons_of_mem g hf)
        refine ⟨h1, h2, h3, h4, ?_⟩
        rw [hs1v]
        have hnc : ¬ g.covers f.I0 f.J0 := by
          rw [hcov]
          have := hdist.1 f hf
          omega
        rw [if_neg hnc]
        exact h5)
    clear hcs
    refine ⟨s2, by simp only [forEach, hs1, Option.some_bind, hs2], hs2s, ?_, ?_, ?_, ?_⟩
    · intro i j h
      by_cases hfs : ∃ f ∈ fs, f.I0 = i ∧ f.J0 = j
      · exact hs2v1 i j hfs
      · rw [hs2v2 i j hfs, hs1v]
        obtain ⟨f, hf, e1, e2⟩ := h
        rcases List.mem_cons.mp hf with e | e
        · rw [e] at e1 e2
          have : g.covers i j := (hcov i j).mpr ⟨e1.symm, e2.symm⟩
          rw [if_pos this]
        · exact absurd ⟨f, e, e1, e2⟩ hfs
    · intro i j h
      have hfs : ¬ ∃ f ∈ fs, f.I0 = i ∧ f.J0 = j := by
        intro ⟨f, hf, e⟩
        exact h ⟨f, List.mem_cons_of_mem g hf, e⟩
      have hnc : ¬ g.covers i j := by
        rw [hcov]
        intro e
        exact h ⟨g, List.mem_cons_self g fs, e.1.symm, e.2.symm⟩
      rw [hs2v2 i j hfs, hs1v, if_neg hnc]
    · rw [hs2o, hs1o, List.length_cons]
      push_cast
      ring
    · rw [hs2c, hs1c, List.length_cons]
      push_cast
      ring

theorem combineLoop_fuel (i0 j0 nj ni : Int) (fuel : Nat) :
    ∀ (s : combineState) (r : List voxelFace), combineLoop i0 j0 nj ni fuel s = some r →
      combineLoop i0 j0 nj ni (fuel + 1) s = some r := by
  induction fuel with
  | zero =>
    intro s r h
    by_cases hpos : s.count > 0
    · simp only [combineLoop, if_pos hpos] at h
      exact absurd h (by simp)
    · simp only [combineLoop, if_neg hpos] at h
      simp only [combineLoop, if_neg hpos, h]
  | succ fuel ih =>
    intro s r h
    by_cases hpos : s.count > 0
    · rw [combineLoop, if_pos hpos] at h
      cases hstep : combineStep i0 j0 nj ni s with
      | none =>
        rw [hstep] at h
        exact absurd h (by simp)
      | some s1 =>
        rw [hstep, Option.some_bind] at h
        rw [combineLoop, if_pos hpos, hstep, Option.some_bind]
        exact ih s1 r h
    · rw [combineLoop, if_neg hpos] at h
      rw [combineLoop, if_neg hpos, h]

theorem combineLoop_fuel_le (i0 j0 nj ni : Int) (s : combineState) (r : List voxelFace)
    (fuel : Nat) (h : combineLoop i0 j0 nj ni fuel s = some r) :
    ∀ more : Nat, combineLoop i0 j0 nj ni (fuel + more) s = some r := by
  intro more
  induction more with
  | zero => exact h
  | succ m ih => exact combineLoop_fuel i0 j0 nj ni (fuel + m) s r ih

theorem bounds_fit (b : voxelBounds)
    (hr : -2 ^ 63 ≤ b.i0 ∧ b.i1 ≤ 2 ^ 63 - 2 ∧ -2 ^ 63 ≤ b.j0 ∧ b.j1 ≤ 2 ^ 63 - 2)
    (hi : b.i0 ≤ b.i1) (hj : b.j0 ≤ b.j1)
    (hG : (b.i1 - b.i0 + 1) * (b.j1 - b.j0 + 1) < 2 ^ 63) :
    gridFits b.i0 b.j0 (b.j1 - b.j0 + 1) (b.i1 - b.i0 + 1) ∧
      add64 (sub64 b.i1 b.i0) 1 = b.i1 - b.i0 + 1 ∧
      add64 (sub64 b.j1 b.j0) 1 = b.j1 - b.j0 + 1 := by
  obtain ⟨h1, h2, h3, h4⟩ := hr
  have hni1 : 1 ≤ b.i1 - b.i0 + 1 := by linarith
  have hnj1 : 1 ≤ b.j1 - b.j0 + 1 := by linarith
  have hni : b.i1 - b.i0 + 1 < 2 ^ 63 := by
    have : (b.i1 - b.i0 + 1) * 1 ≤ (b.i1 - b.i0 + 1) * (b.j1 - b.j0 + 1) :=
      mul_le_mul_of_nonneg_left hnj1 (by linarith)
    linarith
  have hnj : b.j1 - b.j0 + 1 < 2 ^ 63 := by
    have : 1 * (b.j1 - b.j0 + 1) ≤ (b.i1 - b.i0 + 1) * (b.j1 - b.j0 + 1) :=
      mul_le_mul_of_nonneg_right hni1 (by linarith)
    linarith
  have eni : add64 (sub64 b.i1 b.i0) 1 = b.i1 - b.i0 + 1 := by
    unfold add64 sub64
    rw [wrap64_add_left]
    exact wrap64_eq _ (by linarith) hni
  have enj : add64 (sub64 b.j1 b.j0) 1 = b.j1 - b.j0 + 1 := by
    unfold add64 sub64
    rw [wrap64_add_left]
    exact wrap64_eq _ (by linarith) hnj
  refine ⟨⟨h1, by linarith, h3, by linarith, hni, hnj, ?_⟩, eni, enj⟩
  rw [mul_comm]
  exact hG

end Fauxgl
